import Mathlib

/-!
# Multithreading learning notes, part 2: a verification development

Shallow embedding of the C++ sources

* `deadlock/main.cpp` (namespace `Deadlock`),
* `Multiple_Reader_one_writer/main.cpp` (namespace `ReaderWriter`),
* `lock_gaurd/main.cpp` (namespace `LockGuard`),
* `Multiple_Threads_Race_conditions/main.cpp` (namespace `RaceConditions`),

over a small model of the `<mutex>` / `<shared_mutex>` primitives they call
(namespace `Sync`).  A thread is identified by a number; a routine is run by one
thread against the lock state the other threads have left behind, and a blocking
call that cannot proceed in that lock state leaves the run `blocked`.  The
routines `dine`, `funcA1` and `funcB1` are also run side by side, as a system of
threads that take one step at a time under any schedule (`Deadlock.Config`).
Blocks with lock objects are run by `Sync.block`, which tells the closing brace
from an exception.
-/

namespace Sync

/-- Thread identifier. -/
abbrev Tid := Nat

/-- Lock state of a `std::mutex` / `std::timed_mutex` / `std::shared_mutex`: the
threads that hold it exclusively and the threads that hold it in shared mode.
A plain `std::mutex` is only ever driven through the exclusive operations.
Nothing in the type keeps the two lists small or disjoint: that is what the
guards of the operations below have to achieve. -/
structure Mutex where
  exclusive : List Tid
  shared : List Tid
deriving DecidableEq, Repr

namespace Mutex

/-- A mutex as constructed: nobody holds it. -/
def unlocked : Mutex := { exclusive := [], shared := [] }

/-- No thread holds the mutex in any mode. -/
def free (m : Mutex) : Bool := m.exclusive.isEmpty && m.shared.isEmpty

/-- Thread `t` holds the mutex exclusively. -/
def heldBy (m : Mutex) (t : Tid) : Bool := m.exclusive.contains t

/-- Thread `t` holds the mutex in shared mode. -/
def sharedBy (m : Mutex) (t : Tid) : Bool := m.shared.contains t

/-- `m.try_lock()` called by `t`: takes the exclusive lock when nobody holds the
mutex and reports `true`; otherwise changes nothing and reports `false`. -/
def try_lock (m : Mutex) (t : Tid) : Bool × Mutex :=
  if m.free then (true, { m with exclusive := t :: m.exclusive }) else (false, m)

/-- `m.lock()` called by `t`: `none` while the call has to wait (somebody holds
the mutex in some mode), otherwise the state with `t` as exclusive holder. -/
def lock (m : Mutex) (t : Tid) : Option Mutex :=
  if m.free then some { m with exclusive := t :: m.exclusive } else none

/-- `m.unlock()` called by `t`: `t` stops being an exclusive holder.  A call by a
thread that does not hold the mutex is undefined in C++ (a usual implementation
releases the mutex all the same); here it leaves the lock state as it is. -/
def unlock (m : Mutex) (t : Tid) : Mutex :=
  { m with exclusive := m.exclusive.erase t }

/-- `m.lock_shared()` called by `t`: `none` while an exclusive lock is held,
otherwise `t` is added to the shared holders. -/
def lock_shared (m : Mutex) (t : Tid) : Option Mutex :=
  if m.exclusive.isEmpty then some { m with shared := t :: m.shared } else none

/-- `m.unlock_shared()` called by `t`: `t` gives up one shared hold. -/
def unlock_shared (m : Mutex) (t : Tid) : Mutex :=
  { m with shared := m.shared.erase t }

end Mutex

/-- Largest value of a 32-bit `int`. -/
def INT_MAX : Int := 2147483647

/-- The value of an `int` after `++v` or `v++`.  Below `INT_MAX` it is `v + 1`;
at `INT_MAX` the C++ behaviour is undefined and the model takes the wrapped
value. -/
def pre_increment (v : Int) : Int :=
  if v < INT_MAX then v + 1 else -2147483648

/-- How a block of statements is left: normally, or by an exception that
propagates out of it. -/
inductive Exit
  | normal
  | thrown (what : String)
deriving DecidableEq, Repr

/-- The member functions the programs call on a mutex, directly or through
`lock_guard`, `unique_lock`, `scoped_lock`, `shared_lock`, `std::lock` and
`std::try_lock`. -/
inductive Op
  | lock
  | try_lock
  | unlock
  | lock_shared
  | unlock_shared
deriving DecidableEq, Repr

/-- One call `op` by thread `t`.  A blocking call that has to wait does not
change the lock state (the caller is suspended until it can proceed). -/
def Mutex.apply (m : Mutex) (t : Tid) : Op → Mutex
  | Op.lock => (m.lock t).getD m
  | Op.try_lock => (m.try_lock t).2
  | Op.unlock => m.unlock t
  | Op.lock_shared => (m.lock_shared t).getD m
  | Op.unlock_shared => m.unlock_shared t

/-- State of a mutex, initially unlocked, after the calls `calls`, in order. -/
def Mutex.after (calls : List (Tid × Op)) : Mutex :=
  calls.foldl (fun m c => m.apply c.1 c.2) Mutex.unlocked

/-- The mutual exclusion invariant: at most one exclusive holder, and no shared
holder next to an exclusive one. -/
def Mutex.exclusion (m : Mutex) : Prop :=
  m.exclusive.length ≤ 1 ∧ (m.exclusive ≠ [] → m.shared = [])

/-! ## Blocks, lock objects and exceptions -/

/-- One item of a block: a statement, which ends normally or throws, or the
declaration of an object with its constructor and its destructor. -/
inductive Item (σ : Type)
  | stmt (f : σ → σ × Exit)
  | object (ctor : σ → σ) (dtor : σ → σ)

/-- A statement that does not throw. -/
def returns {σ : Type} (f : σ → σ) : Item σ := Item.stmt (fun s => (f s, Exit.normal))

/-- The destructors of the objects that are alive, the most recently constructed
first. -/
def destroy {σ : Type} : List (σ → σ) → σ → σ
  | [], s => s
  | d :: ds, s => destroy ds (d s)

/-- A block `{ ... }` run from state `s`; `live` are the destructors of the
objects constructed so far, the most recent first.  At the closing brace the
destructors run and the block is left normally.  When a statement throws, the
statements after it are skipped, the destructors of the objects constructed so
far run (stack unwinding), and the exception leaves the block.  A call that has
to wait (`blocked`) goes no further: nothing is skipped or destroyed. -/
def block {σ : Type} (blocked : σ → Bool) : List (Item σ) → List (σ → σ) → σ → σ × Exit
  | [], live, s => (destroy live s, Exit.normal)
  | Item.stmt f :: rest, live, s =>
    match (f s).2 with
    | Exit.thrown what => (destroy live (f s).1, Exit.thrown what)
    | Exit.normal =>
      if blocked (f s).1 then ((f s).1, Exit.normal) else block blocked rest live (f s).1
  | Item.object ctor dtor :: rest, live, s =>
    if blocked (ctor s) then (ctor s, Exit.normal)
    else block blocked rest (dtor :: live) (ctor s)

/-- The statements `body` in sequence, outside any object: the run ends at the
first statement that throws. -/
def statements {σ : Type} (blocked : σ → Bool) (body : List (σ → σ × Exit)) (s : σ) : σ × Exit :=
  block blocked (body.map Item.stmt) [] s

end Sync

namespace Deadlock

open Sync

/-! ## `deadlock/main.cpp`: global objects -/

/-- The `std::mutex` objects of `deadlock/main.cpp`; `fork_mutex i` is the array
element `fork_mutex[i]`. -/
inductive MutexRef
  | mut1
  | mut2
  | lmut1
  | lmut2
  | print_mutex
  | increment_mut
  | fork_mutex (i : Int)
deriving DecidableEq, Repr

/-- The global arrays that are indexed at run time. -/
inductive Arr
  | names
  | mouthfuls
  | fork_mutex
deriving DecidableEq, Repr

/-- `constexpr int nforks {5};` -/
def nforks : Int := 5

/-- `constexpr int nphilosophers {nforks};` -/
def nphilosophers : Int := nforks

/-- `std::vector<std::string> names {"A", "B", "C", "D", "E"};` -/
def names : List String := ["A", "B", "C", "D", "E"]

/-- `constexpr auto think_time = 2s;`, in milliseconds. -/
def think_time : Nat := 2000

/-- `constexpr auto eat_time = 1s;`, in milliseconds. -/
def eat_time : Nat := 1000

/-- What a thread does that another thread or the user can observe, in program
order. -/
inductive Event
  | cout (msg : String)
  | sleep_for (ms : Nat)
  | lock (m : MutexRef)
  | try_lock (m : MutexRef) (ok : Bool)
  | unlock (m : MutexRef)
  | index (a : Arr) (i : Int)
  | incr (i : Int)
deriving DecidableEq, Repr

/-- The state a routine of `deadlock/main.cpp` runs in: the lock state of every
mutex, the vector `mouthfuls`, the events of the run so far and, when a blocking
call could not proceed, the mutex the thread is waiting for. -/
@[ext]
structure State where
  locks : MutexRef → Mutex
  mouthfuls : List Int
  trace : List Event
  blocked : Option MutexRef

/-- Program start: every mutex unlocked,
`std::vector<int> mouthfuls(nphilosophers, 0)`. -/
def State.init : State :=
  { locks := fun _ => Mutex.unlocked
    mouthfuls := List.replicate nphilosophers.toNat 0
    trace := []
    blocked := none }

/-- Number of elements of a global array: `names` has the five elements of its
initialiser, `mouthfuls` is constructed with `nphilosophers` elements and never
resized, `fork_mutex` is declared with `nforks` elements. -/
def Arr.size : Arr → Int
  | Arr.names => Deadlock.names.length
  | Arr.mouthfuls => nphilosophers
  | Arr.fork_mutex => nforks

def State.emit (s : State) (e : Event) : State :=
  { s with trace := s.trace ++ [e] }

def State.setLock (s : State) (r : MutexRef) (m : Mutex) : State :=
  { s with locks := fun q => if q = r then m else s.locks q }

/-- Statements in sequence; nothing after a call that blocks is executed. -/
def run (body : List (State → State)) (s : State) : State :=
  body.foldl (fun st stmt => if st.blocked.isSome then st else stmt st) s

/-! ## Primitive statements -/

/-- `std::cout << msg << std::endl;` -/
def cout (msg : String) (s : State) : State := s.emit (Event.cout msg)

/-- `std::this_thread::sleep_for(ms)` -/
def sleep_for (ms : Nat) (s : State) : State := s.emit (Event.sleep_for ms)

/-- Evaluation of `a[i]`. -/
def index (a : Arr) (i : Int) (s : State) : State := s.emit (Event.index a i)

/-- `r.lock()` by thread `t` (also the constructor of `std::lock_guard`). -/
def lock (t : Tid) (r : MutexRef) (s : State) : State :=
  match (s.locks r).lock t with
  | some m => (s.setLock r m).emit (Event.lock r)
  | none => { s with blocked := some r }

/-- `r.try_lock()` by thread `t`. -/
def try_lock (t : Tid) (r : MutexRef) (s : State) : Bool × State :=
  let res := (s.locks r).try_lock t
  (res.1, (s.setLock r res.2).emit (Event.try_lock r res.1))

/-- `r.unlock()` by thread `t` (also the destructor of a lock object that owns
`r`). -/
def unlock (t : Tid) (r : MutexRef) (s : State) : State :=
  (s.setLock r ((s.locks r).unlock t)).emit (Event.unlock r)

/-! ## `std::lock` and `std::try_lock` on two lockables -/

/-- One round of `std::lock`: block on `first`, then try `second`; when the try
fails, `first` is released again.  The flag tells whether both are now held. -/
def std_lock_round (t : Tid) (first second : MutexRef) (s : State) : Bool × State :=
  let s1 := lock t first s
  if s1.blocked.isSome then (false, s1)
  else
    let r := try_lock t second s1
    if r.1 then (true, r.2) else (false, unlock t first r.2)

/-- The rounds of `std::lock(a, b)`: a round that fails on its second mutex is
followed by a round that starts with that mutex. -/
def std_lock_rounds (t : Tid) : Nat → MutexRef → MutexRef → State → State
  | 0, _, _, s => s
  | n + 1, first, second, s =>
    let r := std_lock_round t first second s
    if r.1 || r.2.blocked.isSome then r.2
    else std_lock_rounds t n second first r.2

/-- `std::lock(a, b)`: locks both or, while it cannot, holds neither.  In a lock
state that does not change during the call the second round always ends the
call (see `std_lock_settles`), so two rounds are all there is to run. -/
def std_lock (t : Tid) (a b : MutexRef) (s : State) : State :=
  std_lock_rounds t 2 a b s

/-- `std::try_lock(a, b)`, where `a` and `b` are `std::unique_lock` objects
created with `std::defer_lock` on the mutexes `a` and `b`: tries `a`, then `b`;
on the first failure releases what it took and returns the 0-based position of
the argument that failed; returns `-1` when both are locked. -/
def std_try_lock (t : Tid) (a b : MutexRef) (s : State) : Int × State :=
  let r1 := try_lock t a s
  if r1.1 then
    let r2 := try_lock t b r1.2
    if r2.1 then (-1, r2.2) else (1, unlock t a r2.2)
  else (0, r1.2)

/-! ## The two-mutex routines -/

/-- `void funcA()`: `std::scoped_lock scoped_lck(mut1, mut2);`.  The constructor
is `std::lock` on its arguments in the order given; the destructor, at the end
of the function, calls `unlock()` on its mutexes in the order of the arguments
(the notes at `deadlock/main.cpp:116` say "in the reverse order"; the library
unlocks `mut1` first). -/
def funcA (t : Tid) (s : State) : State :=
  run [ cout "Thread A trying to lock mutexes 1 and 2.....",
        std_lock t MutexRef.mut1 MutexRef.mut2,
        cout "Thread A has locked mutexes 1 and 2",
        sleep_for 50,
        cout "Thread A releasing mutexes 1 and 2....",
        unlock t MutexRef.mut1,
        unlock t MutexRef.mut2 ] s

/-- `void funcB()`: `std::scoped_lock scoped_lck(mut2, mut1);`; the destructor
unlocks `mut2`, then `mut1`. -/
def funcB (t : Tid) (s : State) : State :=
  run [ cout "Thread B trying to lock mutexes 2 and 1.....",
        std_lock t MutexRef.mut2 MutexRef.mut1,
        cout "Thread A has locked mutexes 1 and 2",
        sleep_for 50,
        cout "Thread A releasing mutexes 2 and 1....",
        unlock t MutexRef.mut2,
        unlock t MutexRef.mut1 ] s

/-- `funcA3` up to and including `auto idx = std::try_lock(uniq_lk1, uniq_lk2);`
with `uniq_lk1` on `mut1` and `uniq_lk2` on `mut2`, both deferred. -/
def funcA3_try (t : Tid) (s : State) : Int × State :=
  std_try_lock t MutexRef.mut1 MutexRef.mut2
    (cout "Thread A trying to lock mutexes 1 and 2......" s)

/-- `void funcA3()`.  At the end of the function `uniq_lk2` and then `uniq_lk1`
are destroyed; each unlocks its mutex only if it owns it, which is the case
exactly when `std::try_lock` returned `-1`. -/
def funcA3 (t : Tid) (s : State) : State :=
  let r := funcA3_try t s
  if r.1 ≠ -1 then
    cout ("try_lock failed on mutex with index " ++ toString r.1) r.2
  else
    run [ cout "Thread A has locked mutexes 1 and 2",
          sleep_for 50,
          unlock t MutexRef.mut2,
          unlock t MutexRef.mut1 ] r.2

/-- `funcB3` up to and including `auto idx = std::try_lock(uniq_lk1, uniq_lk2);`.
The lock objects are declared in the opposite order (`uniq_lk2` on `mut2` first),
the call passes them in the same order as `funcA3`. -/
def funcB3_try (t : Tid) (s : State) : Int × State :=
  std_try_lock t MutexRef.mut1 MutexRef.mut2
    (cout "Thread B trying to lock mutexes 2 and 1......" s)

/-- `void funcB3()`.  Here `uniq_lk1` is destroyed before `uniq_lk2`. -/
def funcB3 (t : Tid) (s : State) : State :=
  let r := funcB3_try t s
  if r.1 ≠ -1 then
    cout ("try_lock failed on mutex with index " ++ toString r.1) r.2
  else
    run [ cout "Thread B has locked mutexes 2 and 1",
          sleep_for 50,
          unlock t MutexRef.mut1,
          unlock t MutexRef.mut2 ] r.2

/-! ## The dining philosophers -/

/-- `void print(int n, const std::string &str, int lforkno, int rforkno)` -/
def print_forks (t : Tid) (n : Int) (str : String) (lforkno rforkno : Int)
    (s : State) : State :=
  run [ lock t MutexRef.print_mutex,
        index Arr.names n,
        cout ("Philosopher " ++ names.getD n.toNat "" ++ str ++ toString lforkno
              ++ " and " ++ toString rforkno),
        unlock t MutexRef.print_mutex ] s

/-- `void print(int n, const std::string &str)` -/
def print (t : Tid) (n : Int) (str : String) (s : State) : State :=
  run [ lock t MutexRef.print_mutex,
        index Arr.names n,
        cout ("Philosopher " ++ names.getD n.toNat "" ++ str),
        unlock t MutexRef.print_mutex ] s

/-- `mouthfuls[phil]++` -/
def incr (phil : Int) (s : State) : State :=
  { s with
    mouthfuls :=
      if 0 ≤ phil then
        s.mouthfuls.set phil.toNat (pre_increment (s.mouthfuls.getD phil.toNat 0))
      else s.mouthfuls
    trace := s.trace ++ [Event.incr phil] }

/-- `void increment_value(int phil)` -/
def increment_value (t : Tid) (phil : Int) (s : State) : State :=
  run [ lock t MutexRef.increment_mut,
        index Arr.mouthfuls phil,
        incr phil,
        unlock t MutexRef.increment_mut ] s

/-- `int lfork = nphilo;` and `int rfork = (nphilo+1) % N;` for a table of `N`
forks (`%` of C++ truncates towards zero). -/
def forks (N nphilo : Int) : Int × Int := (nphilo, Int.tmod (nphilo + 1) N)

/-- `lfork` in `dine`. -/
def lfork (nphilo : Int) : Int := (forks nforks nphilo).1

/-- `rfork` in `dine`. -/
def rfork (nphilo : Int) : Int := (forks nforks nphilo).2

/-- `void dine(int nphilo)`, run by thread `t`.  The two `std::unique_lock`
objects adopt the locks taken by `std::lock`; they are destroyed when the
function returns, `right_fork_lock` first. -/
def dine (t : Tid) (nphilo : Int) (s : State) : State :=
  run [ print_forks t nphilo "'s forks are " (lfork nphilo) (rfork nphilo),
        print t nphilo " is thinking....",
        sleep_for think_time,
        print_forks t nphilo " reaches for forks " (lfork nphilo) (rfork nphilo),
        index Arr.fork_mutex (lfork nphilo),
        index Arr.fork_mutex (rfork nphilo),
        std_lock t (MutexRef.fork_mutex (lfork nphilo)) (MutexRef.fork_mutex (rfork nphilo)),
        index Arr.fork_mutex (lfork nphilo),
        index Arr.fork_mutex (rfork nphilo),
        print_forks t nphilo " picks up fork " (lfork nphilo) (rfork nphilo),
        print t nphilo " is eating...",
        increment_value t nphilo,
        sleep_for eat_time,
        print_forks t nphilo " puts down forks " (lfork nphilo) (rfork nphilo),
        print t nphilo " is thinking....",
        sleep_for think_time,
        unlock t (MutexRef.fork_mutex (rfork nphilo)),
        unlock t (MutexRef.fork_mutex (lfork nphilo)) ] s

/-! ## Reading a run -/

/-- The mutexes a run acquired, in the order of acquisition. -/
def acquired : List Event → List MutexRef
  | [] => []
  | Event.lock m :: es => m :: acquired es
  | Event.try_lock m true :: es => m :: acquired es
  | _ :: es => acquired es

/-- The fork numbers among a list of mutexes. -/
def forkNumbers : List MutexRef → List Int
  | [] => []
  | MutexRef.fork_mutex i :: ms => i :: forkNumbers ms
  | _ :: ms => forkNumbers ms

/-- The array accesses of a run. -/
def accesses : List Event → List (Arr × Int)
  | [] => []
  | Event.index a i :: es => (a, i) :: accesses es
  | _ :: es => accesses es

/-- The fork a philosopher would pick up first under the fork hierarchy of the
notes ("the philosopher must pick up the lower-numbered fork first"). -/
def hierarchy_first (N nphilo : Int) : Int :=
  min (forks N nphilo).1 (forks N nphilo).2

/-- The events of a call of `print(n, str)` that finds `print_mutex` free. -/
def print_events (n : Int) (str : String) : List Event :=
  [ Event.lock MutexRef.print_mutex,
    Event.index Arr.names n,
    Event.cout ("Philosopher " ++ names.getD n.toNat "" ++ str),
    Event.unlock MutexRef.print_mutex ]

/-- The events of a call of `print(n, str, lforkno, rforkno)` that finds
`print_mutex` free. -/
def print_forks_events (n : Int) (str : String) (lforkno rforkno : Int) : List Event :=
  [ Event.lock MutexRef.print_mutex,
    Event.index Arr.names n,
    Event.cout ("Philosopher " ++ names.getD n.toNat "" ++ str ++ toString lforkno
      ++ " and " ++ toString rforkno),
    Event.unlock MutexRef.print_mutex ]

/-- The events of a call of `increment_value(phil)` that finds `increment_mut`
free. -/
def increment_events (phil : Int) : List Event :=
  [ Event.lock MutexRef.increment_mut,
    Event.index Arr.mouthfuls phil,
    Event.incr phil,
    Event.unlock MutexRef.increment_mut ]

/-- An uncontended start: the thread is not blocked and no mutex is held. -/
def Idle (s : State) : Prop := s.blocked = none ∧ ∀ m, (s.locks m).free = true

/-- The access `a[i]` stays inside the array. -/
def InBounds (p : Arr × Int) : Prop := 0 ≤ p.2 ∧ p.2 < p.1.size

/-- Every array access of the run so far is in bounds. -/
def Safe (s : State) : Prop := ∀ p ∈ accesses s.trace, InBounds p

/-- A lock state in which another thread (5) holds `mut2`. -/
def mut2_taken : State := State.init.setLock MutexRef.mut2 { exclusive := [5], shared := [] }

/-! ## The routines that adopt or defer their locks -/

/-- `void funcA1()`: `std::lock(mut1, mut2)`, then `uniq_lk1` adopts `mut1` and
`uniq_lk2` adopts `mut2`.  At the end of the function `uniq_lk2` is destroyed
first, then `uniq_lk1`. -/
def funcA1 (t : Tid) (s : State) : State :=
  run [ cout "Thread A trying to lock mutexes 1 and 2......",
        std_lock t MutexRef.mut1 MutexRef.mut2,
        cout "Thread A has locked mutexes 1 and 2",
        cout "Thread A has adopted the locks",
        sleep_for 50,
        cout "Thread A releasing mutexes 1 and 2",
        unlock t MutexRef.mut2,
        unlock t MutexRef.mut1 ] s

/-- `void funcB1()`: `std::lock(mut2, mut1)`, then `uniq_lk1` adopts `mut2` and
`uniq_lk2` adopts `mut1`.  `uniq_lk2` (on `mut1`) is destroyed first. -/
def funcB1 (t : Tid) (s : State) : State :=
  run [ cout "Thread B trying to lock mutexes 2 and 1......",
        std_lock t MutexRef.mut2 MutexRef.mut1,
        cout "Thread B has locked mutexes 1 and 2",
        cout "Thread B has adopted the locks",
        sleep_for 50,
        cout "Thread B releasing mutexes 2 and 1",
        unlock t MutexRef.mut1,
        unlock t MutexRef.mut2 ] s

/-- `void funcA2()`: `uniq_lck1` on `mut1` and `uniq_lck2` on `mut2`, both
deferred, locked by `std::lock(uniq_lck1, uniq_lck2)`.  `uniq_lck2` is destroyed
first. -/
def funcA2 (t : Tid) (s : State) : State :=
  run [ cout "Thread A trying to lock mutexes 1 and 2.....",
        std_lock t MutexRef.mut1 MutexRef.mut2,
        cout "Thread A has locked mutexes 1 and 2",
        sleep_for 50,
        cout "Thread A releasing mutexes 1 nad 2",
        unlock t MutexRef.mut2,
        unlock t MutexRef.mut1 ] s

/-- `void funcB2()`: `uniq_lck2` on `mut2` is declared first, `uniq_lck1` on
`mut1` second; `std::lock(uniq_lck2, uniq_lck1)`.  `uniq_lck1` is destroyed
first. -/
def funcB2 (t : Tid) (s : State) : State :=
  run [ cout "Thread B trying to lock mutexes 2 and 1.....",
        std_lock t MutexRef.mut2 MutexRef.mut1,
        cout "Thread B has locked mutexes 2 and 1",
        sleep_for 50,
        cout "Thread B releasing mutexes 2 nad 1",
        unlock t MutexRef.mut1,
        unlock t MutexRef.mut2 ] s

/-- The mutexes a run released, in the order of release. -/
def released : List Event → List MutexRef
  | [] => []
  | Event.unlock m :: es => m :: released es
  | _ :: es => released es

/-- For every `sleep_for` of a run, its duration and the mutexes the thread
holds at that moment (the most recently taken first); `held` are the mutexes
held when the events start. -/
def sleeps_holding : List Event → List MutexRef → List (Nat × List MutexRef)
  | [], _ => []
  | Event.sleep_for ms :: es, held => (ms, held) :: sleeps_holding es held
  | Event.lock m :: es, held => sleeps_holding es (m :: held)
  | Event.try_lock m true :: es, held => sleeps_holding es (m :: held)
  | Event.unlock m :: es, held => sleeps_holding es (held.erase m)
  | _ :: es, held => sleeps_holding es held

/-! ## The back-off routines `funcZ` and `funcY`, step by step -/

/-- Where a thread stands in `funcZ` or `funcY`. -/
inductive Pc
  | entry
  | loop
  | guarded
  | greeted
  | slept
  | tried
  | after_loop
  | returned
deriving DecidableEq, Repr

/-- The local state of a thread in `funcZ` or `funcY`: its program point and its
variable `locked`. -/
structure Thread where
  pc : Pc
  locked : Bool
deriving DecidableEq, Repr

/-- A thread that is about to execute the first statement; `bool locked {false}`. -/
def Thread.start : Thread := { pc := Pc.entry, locked := false }

/-- One step of the common shape of `funcZ` and `funcY`,

    [sleep_for(entry_sleep);]
    bool locked {false};
    while (!locked) {
        std::lock_guard<std::mutex> lck_guard(first);
        std::cout << greeting << std::endl;
        std::this_thread::sleep_for(2s);
        locked = second.try_lock();
    }
    if (locked) std::cout << done << std::endl;

by thread `t`.  `Pc.loop` is the loop test together with the constructor of
`lck_guard`, a blocking `first.lock()`; `Pc.tried` is the end of the loop body,
where `lck_guard` is destroyed.  `none`: the thread cannot move, because it
waits for `first` or because it has returned. -/
def backoff_step (t : Tid) (first second : MutexRef) (entry_sleep : Option Nat)
    (greeting done : String) (th : Thread) (s : State) : Option (Thread × State) :=
  match th.pc with
  | Pc.entry =>
    some ({ th with pc := Pc.loop },
      match entry_sleep with
      | some ms => sleep_for ms s
      | none => s)
  | Pc.loop =>
    if th.locked then some ({ th with pc := Pc.after_loop }, s)
    else
      match (s.locks first).lock t with
      | some m => some ({ th with pc := Pc.guarded }, (s.setLock first m).emit (Event.lock first))
      | none => none
  | Pc.guarded => some ({ th with pc := Pc.greeted }, cout greeting s)
  | Pc.greeted => some ({ th with pc := Pc.slept }, sleep_for 2000 s)
  | Pc.slept => some ({ pc := Pc.tried, locked := (try_lock t second s).1 }, (try_lock t second s).2)
  | Pc.tried => some ({ th with pc := Pc.loop }, unlock t first s)
  | Pc.after_loop =>
    some ({ th with pc := Pc.returned }, if th.locked then cout done s else s)
  | Pc.returned => none

/-- One step of `void funcZ()`: `lmut1` first, `lmut2` second, preceded by
`sleep_for(10ms)`. -/
def funcZ_step (t : Tid) (th : Thread) (s : State) : Option (Thread × State) :=
  backoff_step t MutexRef.lmut1 MutexRef.lmut2 (some 10) "After you, Claude!"
    "ThreadZ has locked both mutexes" th s

/-- One step of `void funcY()`: `lmut2` first, `lmut1` second. -/
def funcY_step (t : Tid) (th : Thread) (s : State) : Option (Thread × State) :=
  backoff_step t MutexRef.lmut2 MutexRef.lmut1 none "After you Cecil"
    "ThreadY has locked both mutexes" th s

/-- A thread running alone for at most `fuel` steps; it stops earlier when it
cannot move. -/
def solo (step : Thread → State → Option (Thread × State)) :
    Nat → Thread → State → Thread × State
  | 0, th, s => (th, s)
  | fuel + 1, th, s =>
    match step th s with
    | some r => solo step fuel r.1 r.2
    | none => (th, s)

/-- `void funcZ()` run alone by thread `t`, for at most `fuel` steps. -/
def funcZ (t : Tid) (fuel : Nat) (s : State) : Thread × State :=
  solo (funcZ_step t) fuel Thread.start s

/-- `void funcY()` run alone by thread `t`, for at most `fuel` steps. -/
def funcY (t : Tid) (fuel : Nat) (s : State) : Thread × State :=
  solo (funcY_step t) fuel Thread.start s

/-- A thread inside the retry loop, about to start an attempt. -/
def Thread.retrying : Thread := { pc := Pc.loop, locked := false }

/-- The events of one failed attempt. -/
def failed_attempt (first second : MutexRef) (greeting : String) : List Event :=
  [ Event.lock first,
    Event.cout greeting,
    Event.sleep_for 2000,
    Event.try_lock second false,
    Event.unlock first ]

/-- The two threads of `main`, `thrZ` running `funcZ` and `thrY` running `funcY`,
and the state they share. -/
structure Duo where
  z : Thread
  y : Thread
  shared : State

/-- `main` has created both threads; neither has run yet. -/
def Duo.start : Duo := { z := Thread.start, y := Thread.start, shared := State.init }

/-- The thread the scheduler picks. -/
inductive Who
  | Z
  | Y
deriving DecidableEq, Repr

/-- The thread picked by the scheduler takes one step; `none` when that thread
cannot move. -/
def Duo.step (tz ty : Tid) (c : Duo) : Who → Option Duo
  | Who.Z => (funcZ_step tz c.z c.shared).map fun r => { c with z := r.1, shared := r.2 }
  | Who.Y => (funcY_step ty c.y c.shared).map fun r => { c with y := r.1, shared := r.2 }

/-- A schedule, step by step; `none` when it picks a thread that cannot move. -/
def Duo.exec (tz ty : Tid) : List Who → Duo → Option Duo
  | [], c => some c
  | w :: ws, c =>
    match c.step tz ty w with
    | some c2 => Duo.exec tz ty ws c2
    | none => none

/-- One round in lockstep: the two threads take turns, one step each, through
one attempt. -/
def lockstep_round : List Who :=
  [Who.Z, Who.Y, Who.Z, Who.Y, Who.Z, Who.Y, Who.Z, Who.Y, Who.Z, Who.Y]

/-- The lockstep schedule with `k` rounds: both threads enter their loop, then
`k` rounds. -/
def lockstep : Nat → List Who
  | 0 => [Who.Z, Who.Y]
  | k + 1 => lockstep k ++ lockstep_round

/-- What one lockstep round adds to the trace. -/
def lockstep_events : List Event :=
  [ Event.lock MutexRef.lmut1,
    Event.lock MutexRef.lmut2,
    Event.cout "After you, Claude!",
    Event.cout "After you Cecil",
    Event.sleep_for 2000,
    Event.sleep_for 2000,
    Event.try_lock MutexRef.lmut2 false,
    Event.try_lock MutexRef.lmut1 false,
    Event.unlock MutexRef.lmut1,
    Event.unlock MutexRef.lmut2 ]

/-- The trace of the lockstep schedule with `k` rounds. -/
def lockstep_trace : Nat → List Event
  | 0 => [Event.sleep_for 10]
  | k + 1 => lockstep_trace k ++ lockstep_events

/-- The successful `try_lock` calls of a run. -/
def successful_tries : List Event → List MutexRef
  | [] => []
  | Event.try_lock m true :: es => m :: successful_tries es
  | _ :: es => successful_tries es

/-- A lock state in which another thread (5) holds `lmut2`. -/
def lmut2_taken : State :=
  State.init.setLock MutexRef.lmut2 { exclusive := [5], shared := [] }

/-- A lock state in which another thread (5) holds `lmut1`. -/
def lmut1_taken : State :=
  State.init.setLock MutexRef.lmut1 { exclusive := [5], shared := [] }

/-- The events of the attempt that succeeds, up to the return of the routine;
`done` is the line printed after the loop. -/
def successful_attempt (first second : MutexRef) (greeting done : String) : List Event :=
  [ Event.lock first,
    Event.cout greeting,
    Event.sleep_for 2000,
    Event.try_lock second true,
    Event.unlock first,
    Event.cout done ]

/-- The events of `sleep_for(entry_sleep)` at the start of the routine, when
there is one. -/
def entry_events : Option Nat → List Event
  | some ms => [Event.sleep_for ms]
  | none => []

/-- The five calls `dine(0)`, ..., `dine(4)`, one after the other, run by the
threads `t0`, ..., `t4`: the schedule of the philosopher driver in which no two
philosophers overlap. -/
def dine_in_turn (t0 t1 t2 t3 t4 : Tid) (s : State) : State :=
  run [dine t0 0, dine t1 1, dine t2 2, dine t3 3, dine t4 4] s

/-- The executions of `mouthfuls[phil]++` in a run: the indices, in order. -/
def increments : List Event → List Int
  | [] => []
  | Event.incr i :: es => i :: increments es
  | _ :: es => increments es

/-- The value of `mouthfuls[i]`. -/
def State.mouthful (s : State) (i : Int) : Int := s.mouthfuls.getD i.toNat 0

/-- For every time the line `msg` is printed in a run, the mutexes the thread
holds at that moment (the most recently taken first); `held` are the mutexes
held when the events start. -/
def holding_at (msg : String) : List Event → List MutexRef → List (List MutexRef)
  | [], _ => []
  | Event.cout m :: es, held =>
    if m = msg then held :: holding_at msg es held else holding_at msg es held
  | Event.lock m :: es, held => holding_at msg es (m :: held)
  | Event.try_lock m true :: es, held => holding_at msg es (m :: held)
  | Event.unlock m :: es, held => holding_at msg es (held.erase m)
  | _ :: es, held => holding_at msg es held

/-! ## Threads side by side -/

/-- One statement of a routine of `deadlock/main.cpp`, as the other threads can
tell it apart: output, a delay, an array access, `mouthfuls[phil]++`, a blocking
`m.lock()` (also the constructor of a `std::lock_guard`), `m.unlock()` (also a
destructor), and `std::lock(a, b)`. -/
inductive Instr
  | cout (msg : String)
  | sleep_for (ms : Nat)
  | index (a : Arr) (i : Int)
  | incr (phil : Int)
  | lock (m : MutexRef)
  | unlock (m : MutexRef)
  | std_lock (a b : MutexRef)
deriving DecidableEq, Repr

/-- The statement `ins` executed by thread `t` on its own, with the statements
of this file. -/
def interp (t : Tid) : Instr → State → State
  | Instr.cout msg => cout msg
  | Instr.sleep_for ms => sleep_for ms
  | Instr.index a i => index a i
  | Instr.incr phil => incr phil
  | Instr.lock m => lock t m
  | Instr.unlock m => unlock t m
  | Instr.std_lock a b => std_lock t a b

/-- The statements of `print(n, str, lforkno, rforkno)`. -/
def print_forks_prog (n : Int) (str : String) (lforkno rforkno : Int) : List Instr :=
  [ Instr.lock MutexRef.print_mutex,
    Instr.index Arr.names n,
    Instr.cout ("Philosopher " ++ names.getD n.toNat "" ++ str ++ toString lforkno
      ++ " and " ++ toString rforkno),
    Instr.unlock MutexRef.print_mutex ]

/-- The statements of `print(n, str)`. -/
def print_prog (n : Int) (str : String) : List Instr :=
  [ Instr.lock MutexRef.print_mutex,
    Instr.index Arr.names n,
    Instr.cout ("Philosopher " ++ names.getD n.toNat "" ++ str),
    Instr.unlock MutexRef.print_mutex ]

/-- The statements of `increment_value(phil)`. -/
def increment_value_prog (phil : Int) : List Instr :=
  [ Instr.lock MutexRef.increment_mut,
    Instr.index Arr.mouthfuls phil,
    Instr.incr phil,
    Instr.unlock MutexRef.increment_mut ]

/-- The statements of `dine(nphilo)` before `std::lock`. -/
def dine_before (nphilo : Int) : List Instr :=
  print_forks_prog nphilo "'s forks are " (lfork nphilo) (rfork nphilo) ++
  print_prog nphilo " is thinking...." ++
  [Instr.sleep_for think_time] ++
  print_forks_prog nphilo " reaches for forks " (lfork nphilo) (rfork nphilo) ++
  [ Instr.index Arr.fork_mutex (lfork nphilo),
    Instr.index Arr.fork_mutex (rfork nphilo) ]

/-- The statements of `dine(nphilo)` after `std::lock`, the destructors of
`right_fork_lock` and `left_fork_lock` included. -/
def dine_after (nphilo : Int) : List Instr :=
  [ Instr.index Arr.fork_mutex (lfork nphilo),
    Instr.index Arr.fork_mutex (rfork nphilo) ] ++
  print_forks_prog nphilo " picks up fork " (lfork nphilo) (rfork nphilo) ++
  print_prog nphilo " is eating..." ++
  increment_value_prog nphilo ++
  [Instr.sleep_for eat_time] ++
  print_forks_prog nphilo " puts down forks " (lfork nphilo) (rfork nphilo) ++
  print_prog nphilo " is thinking...." ++
  [ Instr.sleep_for think_time,
    Instr.unlock (MutexRef.fork_mutex (rfork nphilo)),
    Instr.unlock (MutexRef.fork_mutex (lfork nphilo)) ]

/-- The statements of `dine(nphilo)`, in program order. -/
def dine_prog (nphilo : Int) : List Instr :=
  dine_before nphilo ++
  [Instr.std_lock (MutexRef.fork_mutex (lfork nphilo)) (MutexRef.fork_mutex (rfork nphilo))] ++
  dine_after nphilo

/-- The statements of `funcA1`. -/
def funcA1_prog : List Instr :=
  [ Instr.cout "Thread A trying to lock mutexes 1 and 2......",
    Instr.std_lock MutexRef.mut1 MutexRef.mut2,
    Instr.cout "Thread A has locked mutexes 1 and 2",
    Instr.cout "Thread A has adopted the locks",
    Instr.sleep_for 50,
    Instr.cout "Thread A releasing mutexes 1 and 2",
    Instr.unlock MutexRef.mut2,
    Instr.unlock MutexRef.mut1 ]

/-- The statements of `funcB1`. -/
def funcB1_prog : List Instr :=
  [ Instr.cout "Thread B trying to lock mutexes 2 and 1......",
    Instr.std_lock MutexRef.mut2 MutexRef.mut1,
    Instr.cout "Thread B has locked mutexes 1 and 2",
    Instr.cout "Thread B has adopted the locks",
    Instr.sleep_for 50,
    Instr.cout "Thread B releasing mutexes 2 and 1",
    Instr.unlock MutexRef.mut1,
    Instr.unlock MutexRef.mut2 ]

/-- Where a thread stands inside a call of `std::lock(a, b)`: about to block on
the first mutex of a round, holding it and about to try the other one, or about
to give it back because the try has failed.  `swapped`: the round starts with
`b`. -/
inductive Round
  | start (swapped : Bool)
  | got (swapped : Bool)
  | back (swapped : Bool)
deriving DecidableEq, Repr

/-- The mutex a round of `std::lock(a, b)` blocks on. -/
def first_of (a b : MutexRef) (swapped : Bool) : MutexRef := if swapped then b else a

/-- The mutex a round of `std::lock(a, b)` tries. -/
def second_of (a b : MutexRef) (swapped : Bool) : MutexRef := if swapped then a else b

/-- A thread of a system: the index of its next statement, its place inside
`std::lock` when that is the next statement, and the events of its run so far. -/
structure Local where
  pc : Nat
  round : Round
  trace : List Event
deriving DecidableEq, Repr

/-- A thread that has not started. -/
def Local.start : Local := { pc := 0, round := Round.start false, trace := [] }

/-- A system of threads and the memory they share.  Thread `i` has thread
identifier `i`. -/
structure Config where
  threads : Nat → Local
  locks : MutexRef → Mutex
  mouthfuls : List Int

/-- Program start: no thread has run, every mutex is unlocked, the counters are
0. -/
def Config.start : Config :=
  { threads := fun _ => Local.start
    locks := State.init.locks
    mouthfuls := State.init.mouthfuls }

/-- The state as thread `i` sees it. -/
def Config.view (c : Config) (i : Nat) : State :=
  { locks := c.locks, mouthfuls := c.mouthfuls, trace := (c.threads i).trace, blocked := none }

/-- Thread `i` has executed a statement with result `s` and stands at `pc`,
`round`.  `none`: the statement is a blocking call that has to wait. -/
def Config.commit (c : Config) (i pc : Nat) (round : Round) (s : State) : Option Config :=
  if s.blocked.isSome then none
  else
    some
      { threads := fun j => if j = i then { pc := pc, round := round, trace := s.trace }
                            else c.threads j
        locks := s.locks
        mouthfuls := s.mouthfuls }

/-- One step of thread `i`, whose statements are `progs i`.  `std::lock(a, b)`
takes its rounds step by step: block on the first mutex, try the second, and
after a failed try release the first and start the next round with the other
mutex.  `none`: the thread has returned, or it has to wait. -/
def Config.step (progs : Nat → List Instr) (c : Config) (i : Nat) : Option Config :=
  match (progs i)[(c.threads i).pc]? with
  | none => none
  | some (Instr.std_lock a b) =>
    match (c.threads i).round with
    | Round.start sw =>
      c.commit i (c.threads i).pc (Round.got sw) (lock i (first_of a b sw) (c.view i))
    | Round.got sw =>
      if (try_lock i (second_of a b sw) (c.view i)).1 then
        c.commit i ((c.threads i).pc + 1) (Round.start false)
          (try_lock i (second_of a b sw) (c.view i)).2
      else
        c.commit i (c.threads i).pc (Round.back sw) (try_lock i (second_of a b sw) (c.view i)).2
    | Round.back sw =>
      c.commit i (c.threads i).pc (Round.start (!sw)) (unlock i (first_of a b sw) (c.view i))
  | some ins =>
    c.commit i ((c.threads i).pc + 1) (Round.start false) (interp i ins (c.view i))

/-- A schedule: the threads that take a step, in order.  `none`: the schedule
picks a thread that cannot move. -/
def Config.exec (progs : Nat → List Instr) : List Nat → Config → Option Config
  | [], c => some c
  | i :: is, c =>
    match c.step progs i with
    | some c2 => Config.exec progs is c2
    | none => none

/-- Configuration `c` is reached from program start by some schedule. -/
def Reachable (progs : Nat → List Instr) (c : Config) : Prop :=
  ∃ ws, Config.exec progs ws Config.start = some c

/-- Thread `i` has returned. -/
def Config.returned (progs : Nat → List Instr) (c : Config) (i : Nat) : Bool :=
  (progs i).length ≤ (c.threads i).pc

/-- The five philosopher threads of the driver: thread `i` runs `dine(i)`. -/
def ring (i : Nat) : List Instr := if i < 5 then dine_prog i else []

/-- The threads `thrA` (thread 0, `funcA1`) and `thrB` (thread 1, `funcB1`). -/
def adopters (i : Nat) : List Instr :=
  if i = 0 then funcA1_prog else if i = 1 then funcB1_prog else []

/-- The mutexes held after one more statement has been executed in full. -/
def hold_step (held : List MutexRef) : Instr → List MutexRef
  | Instr.lock m => m :: held
  | Instr.unlock m => held.erase m
  | Instr.std_lock a b => b :: a :: held
  | _ => held

/-- The mutexes a thread holds when it has executed the statements `is`. -/
def held_after (is : List Instr) : List MutexRef := is.foldl hold_step []

/-- The mutexes a thread holds according to the place where it stands in its
program: those of the statements it has executed, and the first mutex of the
current round of `std::lock`. -/
def holds (prog : List Instr) (th : Local) : List MutexRef :=
  match prog[th.pc]?, th.round with
  | some (Instr.std_lock a b), Round.got sw => first_of a b sw :: held_after (prog.take th.pc)
  | some (Instr.std_lock a b), Round.back sw => first_of a b sw :: held_after (prog.take th.pc)
  | _, _ => held_after (prog.take th.pc)

/-- The lock state agrees with the places where the threads stand: a mutex has
no shared holder and at most one exclusive holder, and that thread stands at a
place where it holds the mutex; outside `std::lock` no round is under way; no
thread is past the end of its program. -/
structure Inv (progs : Nat → List Instr) (c : Config) : Prop where
  shared : ∀ m, (c.locks m).shared = []
  holder : ∀ m t, t ∈ (c.locks m).exclusive →
    (c.locks m).exclusive = [t] ∧ m ∈ holds (progs t) (c.threads t)
  round : ∀ i, (∀ a b, (progs i)[(c.threads i).pc]? ≠ some (Instr.std_lock a b)) →
    (c.threads i).round = Round.start false
  pc_le : ∀ i, (c.threads i).pc ≤ (progs i).length

/-- The statements that neither touch a mutex nor wait. -/
def Instr.simple : Instr → Bool
  | Instr.cout _ => true
  | Instr.sleep_for _ => true
  | Instr.index _ _ => true
  | Instr.incr _ => true
  | _ => false

/-- The steps a thread can take, case by case. -/
inductive Step (progs : Nat → List Instr) (c : Config) (i : Nat) : Config → Prop
  | simple (ins : Instr) (h : (progs i)[(c.threads i).pc]? = some ins) (hs : ins.simple = true) :
    Step progs c i
      { threads := fun j =>
          if j = i then { pc := (c.threads i).pc + 1, round := Round.start false,
                          trace := (interp i ins (c.view i)).trace }
          else c.threads j
        locks := c.locks
        mouthfuls := (interp i ins (c.view i)).mouthfuls }
  | lock (m : MutexRef) (h : (progs i)[(c.threads i).pc]? = some (Instr.lock m))
      (hf : (c.locks m).free = true) :
    Step progs c i
      { threads := fun j =>
          if j = i then { pc := (c.threads i).pc + 1, round := Round.start false,
                          trace := (c.threads i).trace ++ [Event.lock m] }
          else c.threads j
        locks := fun q => if q = m then { exclusive := [i], shared := [] } else c.locks q
        mouthfuls := c.mouthfuls }
  | unlock (m : MutexRef) (h : (progs i)[(c.threads i).pc]? = some (Instr.unlock m)) :
    Step progs c i
      { threads := fun j =>
          if j = i then { pc := (c.threads i).pc + 1, round := Round.start false,
                          trace := (c.threads i).trace ++ [Event.unlock m] }
          else c.threads j
        locks := fun q => if q = m then (c.locks m).unlock i else c.locks q
        mouthfuls := c.mouthfuls }
  | first (a b : MutexRef) (sw : Bool)
      (h : (progs i)[(c.threads i).pc]? = some (Instr.std_lock a b))
      (hr : (c.threads i).round = Round.start sw)
      (hf : (c.locks (first_of a b sw)).free = true) :
    Step progs c i
      { threads := fun j =>
          if j = i then { pc := (c.threads i).pc, round := Round.got sw,
                          trace := (c.threads i).trace ++ [Event.lock (first_of a b sw)] }
          else c.threads j
        locks := fun q =>
          if q = first_of a b sw then { exclusive := [i], shared := [] } else c.locks q
        mouthfuls := c.mouthfuls }
  | second (a b : MutexRef) (sw : Bool)
      (h : (progs i)[(c.threads i).pc]? = some (Instr.std_lock a b))
      (hr : (c.threads i).round = Round.got sw)
      (hf : (c.locks (second_of a b sw)).free = true) :
    Step progs c i
      { threads := fun j =>
          if j = i then { pc := (c.threads i).pc + 1, round := Round.start false,
                          trace := (c.threads i).trace ++
                            [Event.try_lock (second_of a b sw) true] }
          else c.threads j
        locks := fun q =>
          if q = second_of a b sw then { exclusive := [i], shared := [] } else c.locks q
        mouthfuls := c.mouthfuls }
  | failed (a b : MutexRef) (sw : Bool)
      (h : (progs i)[(c.threads i).pc]? = some (Instr.std_lock a b))
      (hr : (c.threads i).round = Round.got sw)
      (hf : (c.locks (second_of a b sw)).free = false) :
    Step progs c i
      { threads := fun j =>
          if j = i then { pc := (c.threads i).pc, round := Round.back sw,
                          trace := (c.threads i).trace ++
                            [Event.try_lock (second_of a b sw) false] }
          else c.threads j
        locks := c.locks
        mouthfuls := c.mouthfuls }
  | back (a b : MutexRef) (sw : Bool)
      (h : (progs i)[(c.threads i).pc]? = some (Instr.std_lock a b))
      (hr : (c.threads i).round = Round.back sw) :
    Step progs c i
      { threads := fun j =>
          if j = i then { pc := (c.threads i).pc, round := Round.start (!sw),
                          trace := (c.threads i).trace ++ [Event.unlock (first_of a b sw)] }
          else c.threads j
        locks := fun q =>
          if q = first_of a b sw then (c.locks (first_of a b sw)).unlock i else c.locks q
        mouthfuls := c.mouthfuls }

/-- Statements that can always be executed at once: they neither wait nor take a
mutex. -/
def Instr.free_running : Instr → Bool
  | Instr.lock _ => false
  | Instr.std_lock _ _ => false
  | _ => true

/-- The statements the threads of the ring have still to execute. -/
def Config.remaining (c : Config) : Nat :=
  (42 - (c.threads 0).pc) + (42 - (c.threads 1).pc) + (42 - (c.threads 2).pc) +
  (42 - (c.threads 3).pc) + (42 - (c.threads 4).pc)

/-- How far a round of `std::lock` is from its start. -/
def Round.rank : Round → Nat
  | Round.start _ => 0
  | Round.got _ => 2
  | Round.back _ => 1

/-- The rounds under way in the ring. -/
def Config.unrest (c : Config) : Nat :=
  (c.threads 0).round.rank + (c.threads 1).round.rank + (c.threads 2).round.rank +
  (c.threads 3).round.rank + (c.threads 4).round.rank

/-- The counters agree with the places where the philosophers stand: the vector
has five entries, and `mouthfuls[i]` is 1 once thread `i` is past its
`mouthfuls[i]++` and 0 before. -/
def Counted (c : Config) : Prop :=
  c.mouthfuls.length = 5 ∧
  ∀ i, i < 5 → c.mouthfuls.getD i 0 = if 28 < (c.threads i).pc then 1 else 0

/-- The schedule in which each philosopher in turn runs up to `std::lock` and
takes his left fork. -/
def left_forks_first : List Nat :=
  List.replicate 16 0 ++ List.replicate 16 1 ++ List.replicate 16 2 ++ List.replicate 16 3 ++
    List.replicate 16 4

/-- The configuration after `left_forks_first`: every philosopher holds his left
fork and is about to try his right fork. -/
def all_left_forks : Config :=
  (Config.exec ring left_forks_first Config.start).getD Config.start

/-- The schedule in which the philosophers dine one after the other. -/
def one_by_one : List Nat :=
  List.replicate 43 0 ++ List.replicate 43 1 ++ List.replicate 43 2 ++ List.replicate 43 3 ++
    List.replicate 43 4

/-- The configuration after `one_by_one`: the end of that run. -/
def all_done : Config :=
  (Config.exec ring one_by_one Config.start).getD Config.start

/-- One round of the philosophers in lockstep, from `all_left_forks`: every one
fails on his second fork, every one gives back the fork he holds, every one takes
the other fork, and the same again the other way round. -/
def ring_lockstep : List Nat :=
  [0, 1, 2, 3, 4] ++ [0, 1, 2, 3, 4] ++ [0, 1, 2, 3, 4] ++ [0, 1, 2, 3, 4] ++ [0, 1, 2, 3, 4] ++
    [0, 1, 2, 3, 4]

/-- The configuration after `left_forks_first` and one `ring_lockstep`. -/
def after_ring_lockstep : Config :=
  (Config.exec ring (left_forks_first ++ ring_lockstep) Config.start).getD Config.start

/-! ## The order in which a grant is taken and given back -/

/-- What the events of a thread say about its latest grant of several mutexes:
the mutexes the thread holds, in the order in which it took them; the mutexes it
held right after its latest successful `try_lock` (the call that completes a
grant by `std::lock` or `std::try_lock`), in the order in which it took them; and
the mutexes it has unlocked since, in the order of the calls. -/
structure Grant where
  held : List MutexRef
  order : List MutexRef
  released : List MutexRef
deriving DecidableEq, Repr

/-- The effect of one event on the grant. -/
def Grant.step (g : Grant) : Event → Grant
  | Event.lock m => { g with held := g.held ++ [m] }
  | Event.try_lock m true =>
    { held := g.held ++ [m], order := g.held ++ [m], released := [] }
  | Event.unlock m => { g with held := g.held.erase m, released := g.released ++ [m] }
  | _ => g

/-- The latest grant of a run. -/
def grant (tr : List Event) : Grant :=
  tr.foldl Grant.step { held := [], order := [], released := [] }

/-- The mutexes held after one more statement other than `std::lock`, in the
order in which they were taken. -/
def taken_step (held : List MutexRef) : Instr → List MutexRef
  | Instr.lock m => held ++ [m]
  | Instr.unlock m => held.erase m
  | _ => held

/-- The mutexes held after the statements `is`, none of which is `std::lock`. -/
def taken (is : List Instr) : List MutexRef := is.foldl taken_step []

/-- The `unlock` calls among the statements `is`, in program order. -/
def unlocks : List Instr → List MutexRef
  | [] => []
  | Instr.unlock m :: is => m :: unlocks is
  | _ :: is => unlocks is

/-- The events of a thread agree with the place where it stands in a program
whose only `std::lock` is statement `k`, `std::lock(a, b)`: before the call and
inside it the thread holds what the statements and the current round say; after
it the grant was taken in one of the two orders and the mutexes unlocked since
are those of the `unlock` statements executed since. -/
def Traced (prog : List Instr) (k : Nat) (a b : MutexRef) (th : Local) : Prop :=
  (th.pc < k → (grant th.trace).held = taken (prog.take th.pc)) ∧
  (th.pc = k → (grant th.trace).held =
    match th.round with
    | Round.start _ => []
    | Round.got sw => [first_of a b sw]
    | Round.back sw => [first_of a b sw]) ∧
  (k < th.pc → (∃ sw, (grant th.trace).order = [first_of a b sw, second_of a b sw]) ∧
    (grant th.trace).released = unlocks ((prog.take th.pc).drop (k + 1)))

/-- The schedule of `thrA` and `thrB` in which `funcB1` takes `mut2`, `funcA1`
takes `mut1`, fails on `mut2` and backs off, `funcB1` runs to its end, and
`funcA1` starts its second round with `mut2`. -/
def backoff_schedule : List Nat :=
  [1, 1, 0, 0, 0, 0, 1, 1, 1, 1, 1, 1, 1, 0, 0, 0, 0, 0, 0, 0, 0]

/-- The configuration after `backoff_schedule`. -/
def after_backoff : Config :=
  (Config.exec adopters backoff_schedule Config.start).getD Config.start

/-- The schedule of `thrA` and `thrB` in which `funcA1` runs to its end before
`funcB1` starts. -/
def funcA1_alone : List Nat := List.replicate 9 0

/-- The configuration after `funcA1_alone`. -/
def after_funcA1 : Config :=
  (Config.exec adopters funcA1_alone Config.start).getD Config.start

/-- The schedule of the philosophers in which philosopher 1 takes fork 1,
philosopher 0 takes fork 0, fails on fork 1 and backs off, philosopher 1 eats
and returns, and philosopher 0 starts his second round with fork 1. -/
def ring_backoff_schedule : List Nat :=
  List.replicate 16 1 ++ List.replicate 18 0 ++ List.replicate 27 1 ++ List.replicate 28 0

/-- The configuration after `ring_backoff_schedule`. -/
def ring_after_backoff : Config :=
  (Config.exec ring ring_backoff_schedule Config.start).getD Config.start

/-! ## Blocks with a `std::scoped_lock` -/

/-- Whether a call of the thread has to wait. -/
def waiting (s : State) : Bool := s.blocked.isSome

/-- The block `{ std::scoped_lock scoped_lck(a, b); body }` by thread `t`: the
constructor is `std::lock(a, b)`, the destructor unlocks `a`, then `b`. -/
def scoped_lock_block (t : Tid) (a b : MutexRef) (body : List (State → State × Exit)) :
    List (Item State) :=
  Item.object (std_lock t a b) (fun s => unlock t b (unlock t a s)) :: body.map Item.stmt

/-- The items of `funcA`. -/
def funcA_block (t : Tid) : List (Item State) :=
  [ returns (cout "Thread A trying to lock mutexes 1 and 2....."),
    Item.object (std_lock t MutexRef.mut1 MutexRef.mut2)
      (fun s => unlock t MutexRef.mut2 (unlock t MutexRef.mut1 s)),
    returns (cout "Thread A has locked mutexes 1 and 2"),
    returns (sleep_for 50),
    returns (cout "Thread A releasing mutexes 1 and 2....") ]

/-- A critical section that fails: it prints a line, throws, and has one more
line that is never printed. -/
def failing_body : List (State → State × Exit) :=
  [ fun s => (cout "working" s, Exit.normal),
    fun s => (s, Exit.thrown "failure"),
    fun s => (cout "done" s, Exit.normal) ]

end Deadlock

namespace ReaderWriter

open Sync

/-! ## `Multiple_Reader_one_writer/main.cpp`: the shared variables and their locks -/

/-- `std::mutex mut;` and `std::shared_mutex shmut;` -/
inductive MutexRef
  | mut
  | shmut
deriving DecidableEq, Repr

/-- The shared variables `int x {0};` and `int y {0};` -/
inductive Var
  | x
  | y
deriving DecidableEq, Repr

/-- Observable steps of a routine.  `modify v g` is a write to the shared
variable `v`; `g` is the lock state, at that moment, of the mutex the routine
uses for `v`. -/
inductive Event
  | cout (v : Int)
  | sleep_for (ms : Nat)
  | lock (m : MutexRef)
  | unlock (m : MutexRef)
  | lock_shared (m : MutexRef)
  | unlock_shared (m : MutexRef)
  | modify (v : Var) (g : Mutex)
deriving DecidableEq, Repr

/-- The state a routine runs in: the lock state of the two mutexes, the shared
variables, the events of the run so far and, when a blocking call could not
proceed, the mutex the thread is waiting for. -/
@[ext]
structure State where
  locks : MutexRef → Mutex
  x : Int
  y : Int
  trace : List Event
  blocked : Option MutexRef

/-- Program start. -/
def State.init : State :=
  { locks := fun _ => Mutex.unlocked, x := 0, y := 0, trace := [], blocked := none }

def State.get (s : State) (r : MutexRef) : Mutex := s.locks r

def State.set (s : State) (r : MutexRef) (m : Mutex) : State :=
  { s with locks := fun q => if q = r then m else s.locks q }

def State.emit (s : State) (e : Event) : State :=
  { s with trace := s.trace ++ [e] }

/-- Statements in sequence; nothing after a call that blocks is executed. -/
def run (body : List (State → State)) (s : State) : State :=
  body.foldl (fun st stmt => if st.blocked.isSome then st else stmt st) s

/-- Constructor of `std::lock_guard` on `r`: `r.lock()`. -/
def lock (t : Tid) (r : MutexRef) (s : State) : State :=
  match (s.get r).lock t with
  | some m => (s.set r m).emit (Event.lock r)
  | none => { s with blocked := some r }

/-- Destructor of `std::lock_guard` on `r`: `r.unlock()`. -/
def unlock (t : Tid) (r : MutexRef) (s : State) : State :=
  (s.set r ((s.get r).unlock t)).emit (Event.unlock r)

/-- Constructor of `std::shared_lock` on `r`: `r.lock_shared()`. -/
def lock_shared (t : Tid) (r : MutexRef) (s : State) : State :=
  match (s.get r).lock_shared t with
  | some m => (s.set r m).emit (Event.lock_shared r)
  | none => { s with blocked := some r }

/-- Destructor of `std::shared_lock` on `r`: `r.unlock_shared()`. -/
def unlock_shared (t : Tid) (r : MutexRef) (s : State) : State :=
  (s.set r ((s.get r).unlock_shared t)).emit (Event.unlock_shared r)

/-- `std::this_thread::sleep_for(ms)` -/
def sleep_for (ms : Nat) (s : State) : State := s.emit (Event.sleep_for ms)

/-- `++x;` in `write` -/
def incr_x (s : State) : State :=
  { s with
    x := pre_increment s.x
    trace := s.trace ++ [Event.modify Var.x (s.locks MutexRef.mut)] }

/-- `++y;` in `write1` -/
def incr_y (s : State) : State :=
  { s with
    y := pre_increment s.y
    trace := s.trace ++ [Event.modify Var.y (s.locks MutexRef.shmut)] }

/-- `std::cout << x << std::endl;` -/
def cout_x (s : State) : State := s.emit (Event.cout s.x)

/-- `void write()` -/
def write (t : Tid) (s : State) : State :=
  run [ lock t MutexRef.mut,
        incr_x,
        unlock t MutexRef.mut ] s

/-- `void read()` -/
def read (t : Tid) (s : State) : State :=
  run [ lock t MutexRef.mut,
        cout_x,
        unlock t MutexRef.mut ] s

/-- `void write1()` -/
def write1 (t : Tid) (s : State) : State :=
  run [ lock t MutexRef.shmut,
        incr_y,
        unlock t MutexRef.shmut ] s

/-- `void read2()` -/
def read2 (t : Tid) (s : State) : State :=
  run [ lock_shared t MutexRef.shmut,
        sleep_for 100,
        unlock_shared t MutexRef.shmut ] s

/-- The writes to shared variables in a run. -/
def modifications : List Event → List (Var × Mutex)
  | [] => []
  | Event.modify v g :: es => (v, g) :: modifications es
  | _ :: es => modifications es

/-! ## The singleton -/

/-- What the singleton demo prints: the line of the constructor, and the address
of an instance (`std::cout << &single`). -/
inductive Output
  | initializing
  | address (obj : Nat)
deriving DecidableEq, Repr

/-- The function-local `static Singleton single;` of `get_singleton` and what
surrounds it: the instance the static holds once it is initialised (instances
are numbered in the order of their construction), the number of times the
constructor of `Singleton` has run, the mutex `single_mut`, and the output. -/
structure Statics where
  single : Option Nat
  constructed : Nat
  single_mut : Mutex
  out : List Output
deriving DecidableEq, Repr

/-- Program start: the static is not initialised. -/
def Statics.init : Statics :=
  { single := none, constructed := 0, single_mut := Mutex.unlocked, out := [] }

/-- The constructor `Singleton() {std::cout << "initializing Singleton" << std::endl;}`:
it makes a new instance and prints its line. -/
def Singleton (g : Statics) : Nat × Statics :=
  (g.constructed + 1,
    { g with constructed := g.constructed + 1, out := g.out ++ [Output.initializing] })

/-- `Singleton &get_singleton()`: the first call to reach `static Singleton
single;` runs the constructor and initialises the static, every call returns a
reference to the instance the static holds.  The language serialises concurrent
first calls, so a call is one step. -/
def get_singleton (g : Statics) : Nat × Statics :=
  match g.single with
  | some obj => (obj, g)
  | none => ((Singleton g).1, { (Singleton g).2 with single := some (Singleton g).1 })

/-- `k` calls of `get_singleton`, one after the other: the references they
return, in order, and the statics afterwards. -/
def get_singleton_calls : Nat → Statics → List Nat × Statics
  | 0, g => ([], g)
  | k + 1, g =>
    ((get_singleton g).1 :: (get_singleton_calls k (get_singleton g).2).1,
      (get_singleton_calls k (get_singleton g).2).2)

/-- `void task()` run by thread `t`: `get_singleton()`, then the address of the
instance is printed under a `lock_guard` on `single_mut`.  `none`: the thread has
to wait for `single_mut`. -/
def task (t : Tid) (g : Statics) : Option Statics :=
  match (get_singleton g).2.single_mut.lock t with
  | some m =>
    some { (get_singleton g).2 with
      single_mut := m.unlock t
      out := (get_singleton g).2.out ++ [Output.address (get_singleton g).1] }
  | none => none

/-- The tasks of the threads `ts`, one after the other. -/
def tasks : List Tid → Statics → Option Statics
  | [], g => some g
  | t :: ts, g =>
    match task t g with
    | some g2 => tasks ts g2
    | none => none

/-- `int main()`: ten threads, each runs `task`; here in the order of their
creation. -/
def main : Option Statics := tasks [1, 2, 3, 4, 5, 6, 7, 8, 9, 10] Statics.init

/-! ## `reverse_string` -/

/-- What can go wrong in a memory access of `reverse_string`: an access past the
end of the caller's array `str`, an access past the end of the block
`new_string`, and, for the second loop, more evaluations of the loop test than
the model provides for (which does not happen, see `reverse_string_has_fuel`). -/
inductive Fault
  | str_overrun
  | new_string_overrun
  | out_of_fuel
deriving DecidableEq, Repr

/-- How a computation on `char` arrays ends: with the bytes of an array, or in a
fault. -/
inductive Outcome
  | done (array : List Nat)
  | fault (f : Fault)
deriving DecidableEq, Repr

/-- `std::strlen(p)` on the bytes of the array from `p` on: the number of bytes
before the first 0.  `none`: there is no 0 in the array, the
scan runs past its end. -/
def strlen : List Nat → Option Nat
  | [] => none
  | c :: cs => if c = 0 then some 0 else (strlen cs).map (· + 1)

/-- A value computed in `size_t` (64 bits, unsigned): reduced modulo `2^64`. -/
def size_t (x : Int) : Nat := (x % 2 ^ 64).toNat

/-- Conversion of a `size_t` to `int` (32 bits, two's complement). -/
def to_int (x : Nat) : Int :=
  if x % 2 ^ 32 < 2 ^ 31 then ((x % 2 ^ 32 : Nat) : Int) else ((x % 2 ^ 32 : Nat) : Int) - 2 ^ 32

/-- `new char[size]`: a block of `size` bytes that the expression does not
initialise; `fresh i` is the value byte `i` of the block happens to have. -/
def new_char (fresh : Nat → Nat) (size : Nat) : List Nat := (List.range size).map fresh

/-- The first loop of `reverse_string`,

    for (int i {size_for_loop}; i >= 0; --i) {
        new_string[size_for_loop - i] = str[i];
    }

from the loop variable `i` on, given as `i + 1` (so `0` is `i == -1`, where the
loop is left). -/
def fill (size_for_loop : Int) (str : List Nat) : Nat → List Nat → Outcome
  | 0, new_string => Outcome.done new_string
  | i + 1, new_string =>
    match str[i]? with
    | none => Outcome.fault Fault.str_overrun
    | some c =>
      if 0 ≤ size_for_loop - i ∧ (size_for_loop - i).toNat < new_string.length then
        fill size_for_loop str i (new_string.set (size_for_loop - i).toNat c)
      else Outcome.fault Fault.new_string_overrun

/-- The second loop of `reverse_string`,

    for (size_t i {0}; i < std::strlen(new_string); ++i) {
        str[i] = new_string[i];
    }

from the loop variable `i` on, for at most `fuel` evaluations of the loop
test. -/
def copy_back (new_string : List Nat) : Nat → Nat → List Nat → Outcome
  | 0, _, _ => Outcome.fault Fault.out_of_fuel
  | fuel + 1, i, str =>
    match strlen new_string with
    | none => Outcome.fault Fault.new_string_overrun
    | some len =>
      if i < len then
        match new_string[i]? with
        | none => Outcome.fault Fault.new_string_overrun
        | some c =>
          if i < str.length then copy_back new_string fuel (i + 1) (str.set i c)
          else Outcome.fault Fault.str_overrun
      else Outcome.done str

/-- `reverse_string` up to the end of its first loop: the block `new_string` as
the second loop finds it.

    size_t size = std::strlen(str) + 1;
    char * new_string = new char[size];
    int size_for_loop = std::strlen(str) - 1;
    for (...) { new_string[size_for_loop - i] = str[i]; }

`str` are the bytes of the caller's array; `n1` and `n2` are the results of the
two calls of `std::strlen(str)`. -/
def scratch (fresh : Nat → Nat) (str : List Nat) : Outcome :=
  match strlen str, strlen str with
  | some n1, some n2 =>
    fill (to_int (size_t ((n2 : Int) - 1))) str (to_int (size_t ((n2 : Int) - 1)) + 1).toNat
      (new_char fresh (size_t ((n1 : Int) + 1)))
  | _, _ => Outcome.fault Fault.str_overrun

/-- `char * reverse_string(char *str)`: the first loop fills `new_string`, the
second copies it back into `str`, then `delete [] new_string; return str;`.  The
result is the caller's array when the function returns.  The test of the second
loop is evaluated at most `strlen(new_string) + 1` times, which is at most the
size of the block. -/
def reverse_string (fresh : Nat → Nat) (str : List Nat) : Outcome :=
  match scratch fresh str with
  | Outcome.fault f => Outcome.fault f
  | Outcome.done new_string => copy_back new_string (new_string.length + 1) 0 str

/-- Two calls of `reverse_string` on the same array; `fresh1` and `fresh2` are
what the two blocks hold when they are allocated. -/
def reverse_twice (fresh1 fresh2 : Nat → Nat) (str : List Nat) : Outcome :=
  match reverse_string fresh1 str with
  | Outcome.fault f => Outcome.fault f
  | Outcome.done once => reverse_string fresh2 once

/-- The character codes of a string. -/
def codes (s : String) : List Nat := s.toList.map Char.toNat

/-- `char str[] = "messi";` of the driver: five characters and the terminator. -/
def messi : List Nat := codes "messi" ++ [0]

/-- `char str[] = "level";`, a string that reads the same in both directions. -/
def level : List Nat := codes "level" ++ [0]

/-- A heap that hands out blocks in which every byte is 0. -/
def zeroed : Nat → Nat := fun _ => 0

/-- A heap that hands out blocks in which every byte is `0xCD`. -/
def filled : Nat → Nat := fun _ => 205

/-! ## Blocks with a `std::lock_guard` -/

/-- Whether a call of the thread has to wait. -/
def waiting (s : State) : Bool := s.blocked.isSome

/-- The block `{ std::lock_guard<std::shared_mutex> lck_guard(r); body }` by
thread `t`. -/
def lock_guard_block (t : Tid) (r : MutexRef) (body : List (State → State × Exit)) :
    List (Item State) :=
  Item.object (lock t r) (unlock t r) :: body.map Item.stmt

/-- The items of `write`. -/
def write_block (t : Tid) : List (Item State) :=
  [ Item.object (lock t MutexRef.mut) (unlock t MutexRef.mut), returns incr_x ]

end ReaderWriter

namespace LockGuard

open Sync

/-! ## `lock_gaurd/main.cpp` -/

/-- `std::mutex print_mutex;` and `std::timed_mutex the_mutex;` -/
inductive MutexRef
  | print_mutex
  | the_mutex
deriving DecidableEq, Repr

/-- Observable steps of a routine.  `try_lock_for m ms ok` and
`try_lock_until m ms ok` are timed attempts (`ms` the time allowed) and their
result. -/
inductive Event
  | cout (msg : String)
  | sleep_for (ms : Nat)
  | lock (m : MutexRef)
  | unlock (m : MutexRef)
  | try_lock_for (m : MutexRef) (ms : Nat) (ok : Bool)
  | try_lock_until (m : MutexRef) (ms : Nat) (ok : Bool)
deriving DecidableEq, Repr

/-- The state a routine runs in: the lock state of the two mutexes, the events of
the run so far and, when a blocking call could not proceed, the mutex the thread
is waiting for. -/
@[ext]
structure State where
  locks : MutexRef → Mutex
  trace : List Event
  blocked : Option MutexRef

/-- Program start. -/
def State.init : State :=
  { locks := fun _ => Mutex.unlocked, trace := [], blocked := none }

def State.emit (s : State) (e : Event) : State :=
  { s with trace := s.trace ++ [e] }

def State.setLock (s : State) (r : MutexRef) (m : Mutex) : State :=
  { s with locks := fun q => if q = r then m else s.locks q }

/-- Statements in sequence; nothing after a call that blocks is executed. -/
def run (body : List (State → State)) (s : State) : State :=
  body.foldl (fun st stmt => if st.blocked.isSome then st else stmt st) s

/-- `std::cout << msg << std::endl;` -/
def cout (msg : String) (s : State) : State := s.emit (Event.cout msg)

/-- `std::this_thread::sleep_for(ms)` -/
def sleep_for (ms : Nat) (s : State) : State := s.emit (Event.sleep_for ms)

/-- `r.lock()` by thread `t` (also the constructor of a lock object that locks). -/
def lock (t : Tid) (r : MutexRef) (s : State) : State :=
  match (s.locks r).lock t with
  | some m => (s.setLock r m).emit (Event.lock r)
  | none => { s with blocked := some r }

/-- `r.unlock()` by thread `t` (also the destructor of a lock object that owns
`r`). -/
def unlock (t : Tid) (r : MutexRef) (s : State) : State :=
  (s.setLock r ((s.locks r).unlock t)).emit (Event.unlock r)

/-- `r.try_lock_for(ms)` by thread `t`.  `now` is the lock state of `r` as the
other threads have it at the moment that decides the attempt: the attempt
succeeds exactly when `r` is free then. -/
def try_lock_for (t : Tid) (r : MutexRef) (ms : Nat) (now : Mutex) (s : State) : Bool × State :=
  ((now.try_lock t).1,
    (s.setLock r (now.try_lock t).2).emit (Event.try_lock_for r ms (now.try_lock t).1))

/-- `r.try_lock_until(deadline)` by thread `t`, the deadline being `ms` from
now. -/
def try_lock_until (t : Tid) (r : MutexRef) (ms : Nat) (now : Mutex) (s : State) :
    Bool × State :=
  ((now.try_lock t).1,
    (s.setLock r (now.try_lock t).2).emit (Event.try_lock_until r ms (now.try_lock t).1))

/-- The loop `while (!the_mutex.try_lock_for(1s)) { std::cout << msg << std::endl; }`
from its attempt number `i` on, for at most `fuel` attempts; `others i` is the
lock state of `the_mutex` that attempt `i` finds.  The flag tells whether an
attempt has succeeded, that is, whether the loop has been left. -/
def retry_for (t : Tid) (msg : String) (others : Nat → Mutex) :
    Nat → Nat → State → Bool × State
  | 0, _, s => (false, s)
  | fuel + 1, i, s =>
    if (try_lock_for t MutexRef.the_mutex 1000 (others i) s).1 then
      (true, (try_lock_for t MutexRef.the_mutex 1000 (others i) s).2)
    else
      retry_for t msg others fuel (i + 1)
        (cout msg (try_lock_for t MutexRef.the_mutex 1000 (others i) s).2)

/-- The loop of `Task2`:

    while (!the_mutex.try_lock_until(deadline)) {
        deadline = std::chrono::system_clock::now() + 900ms;
        std::cout << msg << std::endl;
    }

with `deadline` 900 ms from now before every attempt. -/
def retry_until (t : Tid) (msg : String) (others : Nat → Mutex) :
    Nat → Nat → State → Bool × State
  | 0, _, s => (false, s)
  | fuel + 1, i, s =>
    if (try_lock_until t MutexRef.the_mutex 900 (others i) s).1 then
      (true, (try_lock_until t MutexRef.the_mutex 900 (others i) s).2)
    else
      retry_until t msg others fuel (i + 1)
        (cout msg (try_lock_until t MutexRef.the_mutex 900 (others i) s).2)

/-- `void task2()` run by thread `t` for at most `fuel` timed attempts.  The flag
tells whether the routine has returned.  It does not unlock `the_mutex`. -/
def task2 (t : Tid) (others : Nat → Mutex) (fuel : Nat) (s : State) : Bool × State :=
  let r := retry_for t "Task2 could not lock the mutex" others fuel 0
    (run [ sleep_for 500,
           cout "Task2 trying to lock the mutex" ] s)
  if r.1 then (true, cout "Task2 has locked the mutex" r.2) else (false, r.2)

/-- `void Task2()` run by thread `t` for at most `fuel` timed attempts. -/
def Task2 (t : Tid) (others : Nat → Mutex) (fuel : Nat) (s : State) : Bool × State :=
  let r := retry_until t "Task2 could not lock the mutex" others fuel 0
    (run [ sleep_for 500,
           cout "Task2 trying to lock the mutex" ] s)
  if r.1 then
    (true, run [ cout "Task2 has locked the mutex",
                 unlock t MutexRef.the_mutex ] r.2)
  else (false, r.2)

/-- `void Task3()` run by thread `t` for at most `fuel` timed attempts:
`uniq_lck` is deferred, `uniq_lck.try_lock_for(1s)` is `the_mutex.try_lock_for(1s)`,
and the destructor of `uniq_lck`, which owns the mutex once the loop is left,
unlocks it. -/
def Task3 (t : Tid) (others : Nat → Mutex) (fuel : Nat) (s : State) : Bool × State :=
  let r := retry_for t "Task2 could not lock the mutex" others fuel 0
    (run [ sleep_for 500,
           cout "Task2 trying to lock the mutex" ] s)
  if r.1 then
    (true, run [ cout "Task2 has locked the mutex",
                 unlock t MutexRef.the_mutex ] r.2)
  else (false, r.2)

/-- The events of `n` failed attempts of `try_lock_for(1s)`, each followed by its
message. -/
def failed_for (msg : String) : Nat → List Event
  | 0 => []
  | n + 1 =>
    Event.try_lock_for MutexRef.the_mutex 1000 false :: Event.cout msg :: failed_for msg n

/-- The events of `n` failed attempts of `try_lock_until`, each followed by its
message. -/
def failed_until (msg : String) : Nat → List Event
  | 0 => []
  | n + 1 =>
    Event.try_lock_until MutexRef.the_mutex 900 false :: Event.cout msg :: failed_until msg n

/-- The other threads never release `the_mutex`: thread 5 holds it at every
attempt. -/
def never_released : Nat → Mutex := fun _ => { exclusive := [5], shared := [] }

/-- How many times the line `msg` is printed in a run. -/
def messages (msg : String) : List Event → Nat
  | [] => 0
  | Event.cout m :: es => if m = msg then messages msg es + 1 else messages msg es
  | _ :: es => messages msg es

/-- How many timed attempts of a run have failed. -/
def failed_attempts : List Event → Nat
  | [] => 0
  | Event.try_lock_for _ _ false :: es => failed_attempts es + 1
  | Event.try_lock_until _ _ false :: es => failed_attempts es + 1
  | _ :: es => failed_attempts es

/-- The mutexes a run released, in the order of release. -/
def released : List Event → List MutexRef
  | [] => []
  | Event.unlock m :: es => m :: released es
  | _ :: es => released es

/-- Attempt `k` is the first that finds the mutex free. -/
def first_free (others : Nat → Mutex) (i k : Nat) : Prop :=
  (∀ j, j < k → (others (i + j)).free = false) ∧ (others (i + k)).free = true

instance (others : Nat → Mutex) (i k : Nat) : Decidable (first_free others i k) := by
  unfold first_free
  infer_instance

/-- The other threads hold `the_mutex` (thread 5) during the first two attempts
and have released it by the third. -/
def released_after_two : Nat → Mutex :=
  fun i => if i < 2 then { exclusive := [5], shared := [] } else Mutex.unlocked

/-! ## `task`: a `std::unique_lock` that is unlocked by hand -/

/-- A `std::unique_lock` object: the mutex it is bound to and whether it owns
the lock on it. -/
structure UniqueLock where
  mutex : MutexRef
  owns : Bool
deriving DecidableEq, Repr

/-- `std::unique_lock<std::mutex> uniq_lck(r);` by thread `t`: the constructor
calls `r.lock()` and the object owns the lock. -/
def UniqueLock.construct (t : Tid) (r : MutexRef) (s : State) : UniqueLock × State :=
  ({ mutex := r, owns := true }, lock t r s)

/-- `uniq_lck.unlock()` by thread `t`: unlocks the mutex and gives up ownership;
called on an object that does not own its mutex it throws `std::system_error`. -/
def UniqueLock.unlock (t : Tid) (l : UniqueLock) (s : State) : (UniqueLock × State) × Exit :=
  if l.owns then (({ l with owns := false }, LockGuard.unlock t l.mutex s), Exit.normal)
  else ((l, s), Exit.thrown "operation not permitted")

/-- The destructor of a `std::unique_lock`: unlocks the mutex only if the object
owns it. -/
def UniqueLock.destroy (t : Tid) (l : UniqueLock) (s : State) : State :=
  if l.owns then LockGuard.unlock t l.mutex s else s

/-- `str[i]` for a `std::string`: the character at position `i`, and the
terminator (NUL) at `i == str.size()`.  Beyond that the access is out of bounds
and undefined; the model takes NUL there as well. -/
def char_at (str : String) (i : Nat) : Char := str.toList.getD i (Char.ofNat 0)

/-- What `std::cout << str[0] << str[1] << str[2]` prints: three characters,
whatever the length of the string. -/
def first_three (str : String) : String :=
  String.mk [char_at str 0, char_at str 1, char_at str 2]

/-- One iteration of the loop of `task`, by thread `t`:

    std::unique_lock<std::mutex> uniq_lck(print_mutex);
    std::cout << str[0] << str[1] << str[2] << std::endl;
    uniq_lck.unlock();
    std::this_thread::sleep_for(50ms);

followed by the destructor of `uniq_lck` at the end of the loop body. -/
def task_body (t : Tid) (str : String) (s : State) : State × Exit :=
  let c := UniqueLock.construct t MutexRef.print_mutex s
  if c.2.blocked.isSome then (c.2, Exit.normal)
  else
    let u := UniqueLock.unlock t c.1 (cout (first_three str) c.2)
    match u.2 with
    | Exit.thrown what => (UniqueLock.destroy t u.1.1 u.1.2, Exit.thrown what)
    | Exit.normal => (UniqueLock.destroy t u.1.1 (sleep_for 50 u.1.2), Exit.normal)

/-- The loop `for (int i{0}; i < 5; ++i)` of `task` with `n` iterations left
(`n` is `5 - i`).  It ends early when an iteration blocks or throws. -/
def task_loop (t : Tid) (str : String) : Nat → State → State × Exit
  | 0, s => (s, Exit.normal)
  | n + 1, s =>
    if (task_body t str s).1.blocked.isSome || (task_body t str s).2 != Exit.normal then
      task_body t str s
    else task_loop t str n (task_body t str s).1

/-- `void task(std::string str)` run by thread `t`. -/
def task (t : Tid) (str : String) (s : State) : State × Exit :=
  task_loop t str 5 s

/-- The events of one iteration of `task` that finds `print_mutex` free. -/
def iteration_events (str : String) : List Event :=
  [ Event.lock MutexRef.print_mutex,
    Event.cout (first_three str),
    Event.unlock MutexRef.print_mutex,
    Event.sleep_for 50 ]

/-- The events of `n` such iterations. -/
def iterations_events (str : String) : Nat → List Event
  | 0 => []
  | n + 1 => iteration_events str ++ iterations_events str n

/-- The lock and unlock events of a run, in order. -/
def lock_calls : List Event → List Event
  | [] => []
  | Event.lock m :: es => Event.lock m :: lock_calls es
  | Event.unlock m :: es => Event.unlock m :: lock_calls es
  | _ :: es => lock_calls es

/-- For every `sleep_for` of a run, its duration and the mutexes the thread
holds at that moment; `held` are the mutexes held when the events start. -/
def sleeps_holding : List Event → List MutexRef → List (Nat × List MutexRef)
  | [], _ => []
  | Event.sleep_for ms :: es, held => (ms, held) :: sleeps_holding es held
  | Event.lock m :: es, held => sleeps_holding es (m :: held)
  | Event.try_lock_for m _ true :: es, held => sleeps_holding es (m :: held)
  | Event.try_lock_until m _ true :: es, held => sleeps_holding es (m :: held)
  | Event.unlock m :: es, held => sleeps_holding es (held.erase m)
  | _ :: es, held => sleeps_holding es held

/-! ## Blocks with a lock object -/

/-- Whether a call of the thread has to wait. -/
def waiting (s : State) : Bool := s.blocked.isSome

/-- The block of the notes at the head of `lock_gaurd/main.cpp`:

    task_mutex.lock();
    // Critical section throws an exception
    task_mutex.unlock(); // Never gets called

by thread `t`, with the statements `body` as critical section. -/
def explicit_section (t : Tid) (r : MutexRef) (body : List (State → State × Exit)) :
    List (Item State) :=
  [returns (lock t r)] ++ body.map Item.stmt ++ [returns (unlock t r)]

/-- The block `{ std::lock_guard<std::mutex> lck_guard(r); body }` by thread
`t`. -/
def lock_guard_block (t : Tid) (r : MutexRef) (body : List (State → State × Exit)) :
    List (Item State) :=
  Item.object (lock t r) (unlock t r) :: body.map Item.stmt

/-- The items of `Task1`. -/
def Task1_block (t : Tid) : List (Item State) :=
  [ returns (cout "Task1 trying to lock the mutex"),
    Item.object (lock t MutexRef.the_mutex) (unlock t MutexRef.the_mutex),
    returns (cout "Task1 locks the mutex"),
    returns (sleep_for 5000),
    returns (cout "Task1 unlocking the mutex") ]

/-- `void Task1()` run by thread `t`: a line of output, the declaration of
`lck_guard`, and the three statements under it. -/
def Task1 (t : Tid) (s : State) : State × Exit :=
  block waiting (Task1_block t) [] s

/-- A critical section that fails: it prints a line, throws, and has one more
line that is never printed. -/
def failing_body : List (State → State × Exit) :=
  [ fun s => (cout "working" s, Exit.normal),
    fun s => (s, Exit.thrown "failure"),
    fun s => (cout "done" s, Exit.normal) ]

/-- The state of a block with a `std::unique_lock` object: the object and the
state of the program. -/
@[reducible] def Owned : Type := UniqueLock × State

/-- The block `{ std::unique_lock<std::mutex> uniq_lck(r); body }` by thread
`t`; the statements of `body` may call the member functions of `uniq_lck`. -/
def unique_lock_block (t : Tid) (r : MutexRef) (body : List (Owned → Owned × Exit)) :
    List (Item Owned) :=
  Item.object (fun p => UniqueLock.construct t r p.2)
    (fun p => (p.1, UniqueLock.destroy t p.1 p.2)) :: body.map Item.stmt

/-- A body that unlocks by hand and then fails: a line of output,
`uniq_lck.unlock()`, a second `uniq_lck.unlock()`, which throws, and a line that
is never printed. -/
def unlocking_body (t : Tid) : List (Owned → Owned × Exit) :=
  [ fun p => ((p.1, cout "working" p.2), Exit.normal),
    fun p => UniqueLock.unlock t p.1 p.2,
    fun p => UniqueLock.unlock t p.1 p.2,
    fun p => ((p.1, cout "done" p.2), Exit.normal) ]

end LockGuard

namespace RaceConditions

open Sync

/-! ## `Multiple_Threads_Race_conditions/main.cpp`: `enter` -/

/-- Observable steps of `enter`: calls on `protect` and output. -/
inductive Event
  | lock
  | unlock
  | cout (v : Int)
  | endl
deriving DecidableEq, Repr

/-- The lock state of `std::mutex protect;`, the events of the run so far, and
whether the thread is stuck in a `protect.lock()` that cannot proceed. -/
structure State where
  protect : Mutex
  trace : List Event
  blocked : Bool
deriving DecidableEq, Repr

/-- Program start. -/
def State.init : State := { protect := Mutex.unlocked, trace := [], blocked := false }

/-- The loop of `enter` over the elements that are left:
`protect.lock(); std::cout << vec1[i];`. -/
def enter_loop (t : Tid) : List Int → State → State
  | [], s => s
  | v :: vs, s =>
    match s.protect.lock t with
    | some m =>
      enter_loop t vs
        { s with protect := m, trace := s.trace ++ [Event.lock, Event.cout v] }
    | none => { s with blocked := true }

/-- `void enter(std::vector<int> &vec1)` run by thread `t`: the loop, then
`std::cout << std::endl; protect.unlock();`.  `unlock` returns nothing. -/
def enter (t : Tid) (vec1 : List Int) (s : State) : State :=
  if (enter_loop t vec1 s).blocked then enter_loop t vec1 s
  else
    { enter_loop t vec1 s with
      protect := (enter_loop t vec1 s).protect.unlock t
      trace := (enter_loop t vec1 s).trace ++ [Event.endl, Event.unlock] }

end RaceConditions

/-! # Theorems -/

namespace Sync

theorem free_eq (m : Mutex) (h : m.free = true) :
    m = { exclusive := [], shared := [] } := by
  obtain ⟨ex, sh⟩ := m
  simp [Mutex.free] at h
  simp [h.1, h.2]

theorem lock_of_free (m : Mutex) (t : Tid) (h : m.free = true) :
    m.lock t = some { exclusive := [t], shared := [] } := by
  have hm := free_eq m h
  subst hm
  rfl

theorem lock_of_taken (m : Mutex) (t : Tid) (h : m.free = false) : m.lock t = none := by
  simp [Mutex.lock, h]

theorem exclusion_unlocked : Mutex.unlocked.exclusion := by
  simp [Mutex.unlocked, Mutex.exclusion]

theorem exclusion_apply (m : Mutex) (t : Tid) (op : Op) (h : m.exclusion) :
    (m.apply t op).exclusion := by
  obtain ⟨m_ex, m_sh⟩ := m
  obtain ⟨h1, h2⟩ := h
  simp only [] at h1 h2
  cases op
  · -- lock
    by_cases hf : m_ex = [] ∧ m_sh = []
    · obtain ⟨rfl, rfl⟩ := hf
      simp [Mutex.apply, Mutex.lock, Mutex.free, Mutex.exclusion]
    · have : Mutex.free ⟨m_ex, m_sh⟩ = false := by
        simpa [Mutex.free] using hf
      simp [Mutex.apply, Mutex.lock, this, Mutex.exclusion]
      exact ⟨h1, h2⟩
  · -- try_lock
    by_cases hf : m_ex = [] ∧ m_sh = []
    · obtain ⟨rfl, rfl⟩ := hf
      simp [Mutex.apply, Mutex.try_lock, Mutex.free, Mutex.exclusion]
    · have : Mutex.free ⟨m_ex, m_sh⟩ = false := by
        simpa [Mutex.free] using hf
      simp [Mutex.apply, Mutex.try_lock, this, Mutex.exclusion]
      exact ⟨h1, h2⟩
  · -- unlock
    refine ⟨?_, ?_⟩
    · exact le_trans (List.length_erase_le t m_ex) h1
    · intro hne
      apply h2
      intro he
      apply hne
      simp [Mutex.apply, Mutex.unlock, he]
  · -- lock_shared
    by_cases he : m_ex = []
    · subst he
      simp [Mutex.apply, Mutex.lock_shared, Mutex.exclusion]
    · simp [Mutex.apply, Mutex.lock_shared, he, Mutex.exclusion]
      exact ⟨h1, h2 he⟩
  · -- unlock_shared
    refine ⟨h1, ?_⟩
    intro hne
    have := h2 hne
    simp [Mutex.apply, Mutex.unlock_shared, this]

theorem exclusion_foldl (calls : List (Tid × Op)) (m : Mutex) (h : m.exclusion) :
    (calls.foldl (fun m c => m.apply c.1 c.2) m).exclusion := by
  induction calls generalizing m with
  | nil => exact h
  | cons c cs ih => exact ih _ (exclusion_apply m c.1 c.2 h)

/-- C9. Mutual exclusion: after any sequence of lock, try_lock, unlock,
lock_shared and unlock_shared calls by any threads on an initially unlocked
mutex, at most one thread holds it exclusively, no exclusive holder coexists with
a shared holder, and when some thread holds it in shared mode the list of shared
holders is not empty. -/
theorem mutual_exclusion (calls : List (Tid × Op)) :
    (Mutex.after calls).exclusive.length ≤ 1 ∧
    (∀ a b, (Mutex.after calls).heldBy a = true → (Mutex.after calls).heldBy b = true → a = b) ∧
    (∀ a b, (Mutex.after calls).heldBy a = true → (Mutex.after calls).sharedBy b = false) ∧
    (∀ a, (Mutex.after calls).sharedBy a = true →
      (Mutex.after calls).shared ≠ [] ∧ (Mutex.after calls).exclusive = []) := by
  have h : (Mutex.after calls).exclusion := exclusion_foldl calls _ exclusion_unlocked
  generalize Mutex.after calls = m at h
  obtain ⟨ex, sh⟩ := m
  obtain ⟨h1, h2⟩ := h
  simp only [] at h1 h2
  simp only [Mutex.heldBy, Mutex.sharedBy, List.contains, List.elem_iff] at *
  refine ⟨h1, ?_, ?_, ?_⟩
  · intro a b ha hb
    match ex, h1, ha, hb with
    | [x], _, ha, hb =>
      simp at ha hb
      rw [ha, hb]
  · intro a b ha
    have hne : ex ≠ [] := List.ne_nil_of_mem ha
    rw [h2 hne]
    simp
  · intro a ha
    refine ⟨List.ne_nil_of_mem ha, ?_⟩
    by_contra hne
    rw [h2 hne] at ha
    simp at ha

end Sync

namespace Deadlock

open Sync

/-! ## `std::try_lock` in `funcA3` and `funcB3` -/

/-- What `std::try_lock(a, b)` returns and how it leaves the two mutexes, for
distinct `a` and `b`, by the lock state it finds. -/
theorem std_try_lock_cases (t : Tid) (a b : MutexRef) (hab : a ≠ b) (s : State) :
    ((s.locks a).free = false ∧ (std_try_lock t a b s).1 = 0 ∧
      (std_try_lock t a b s).2.locks = s.locks) ∨
    ((s.locks a).free = true ∧ (s.locks b).free = false ∧ (std_try_lock t a b s).1 = 1 ∧
      (std_try_lock t a b s).2.locks = s.locks) ∨
    ((s.locks a).free = true ∧ (s.locks b).free = true ∧ (std_try_lock t a b s).1 = -1 ∧
      (std_try_lock t a b s).2.locks a = { exclusive := [t], shared := [] } ∧
      (std_try_lock t a b s).2.locks b = { exclusive := [t], shared := [] }) := by
  have hba : b ≠ a := fun h => hab h.symm
  cases ha : (s.locks a).free with
  | false =>
    left
    refine ⟨rfl, ?_, ?_⟩
    · simp [std_try_lock, try_lock, Mutex.try_lock, ha]
    · funext q
      by_cases hq : q = a <;>
        simp [std_try_lock, try_lock, Mutex.try_lock, ha, State.setLock, State.emit, hq]
  | true =>
    right
    cases hb : (s.locks b).free with
    | false =>
      left
      refine ⟨rfl, rfl, ?_, ?_⟩
      · simp [std_try_lock, try_lock, Mutex.try_lock, ha, hb, State.setLock, State.emit, hba]
      · funext q
        by_cases hq : q = a
        · subst hq
          simp [std_try_lock, try_lock, unlock, Mutex.try_lock, Mutex.unlock, ha, hb,
            State.setLock, State.emit, hab, hba]
        · by_cases hq2 : q = b
          · subst hq2
            simp [std_try_lock, try_lock, unlock, Mutex.try_lock, Mutex.unlock, ha, hb,
              State.setLock, State.emit, hab, hba]
          · simp [std_try_lock, try_lock, unlock, Mutex.try_lock, Mutex.unlock, ha, hb,
              State.setLock, State.emit, hab, hba, hq, hq2]
    | true =>
      right
      have ha2 : s.locks a = { exclusive := [], shared := [] } := free_eq _ ha
      have hb2 : s.locks b = { exclusive := [], shared := [] } := free_eq _ hb
      refine ⟨rfl, rfl, ?_, ?_, ?_⟩
      · simp [std_try_lock, try_lock, Mutex.try_lock, ha, hb, State.setLock, State.emit, hba]
      · simp [std_try_lock, try_lock, Mutex.try_lock, ha, hb, State.setLock, State.emit, hab,
          hba, ha2, hb2, Mutex.free]
      · simp [std_try_lock, try_lock, Mutex.try_lock, ha, hb, State.setLock, State.emit, hab,
          hba, ha2, hb2, Mutex.free]

/-- The call in `funcA3`, by the lock state of `mut1` and `mut2` it finds. -/
theorem funcA3_try_cases (t : Tid) (s : State) :
    ((s.locks MutexRef.mut1).free = false ∧ (funcA3_try t s).1 = 0 ∧
      (funcA3_try t s).2.locks = s.locks) ∨
    ((s.locks MutexRef.mut1).free = true ∧ (s.locks MutexRef.mut2).free = false ∧
      (funcA3_try t s).1 = 1 ∧ (funcA3_try t s).2.locks = s.locks) ∨
    ((s.locks MutexRef.mut1).free = true ∧ (s.locks MutexRef.mut2).free = true ∧
      (funcA3_try t s).1 = -1 ∧
      (funcA3_try t s).2.locks MutexRef.mut1 = { exclusive := [t], shared := [] } ∧
      (funcA3_try t s).2.locks MutexRef.mut2 = { exclusive := [t], shared := [] }) :=
  std_try_lock_cases t MutexRef.mut1 MutexRef.mut2 (by decide)
    (cout "Thread A trying to lock mutexes 1 and 2......" s)

/-- The call in `funcB3` passes the lock objects in the same order as the call in
`funcA3`: the first argument is again the lock on `mut1`. -/
theorem funcB3_try_cases (t : Tid) (s : State) :
    ((s.locks MutexRef.mut1).free = false ∧ (funcB3_try t s).1 = 0 ∧
      (funcB3_try t s).2.locks = s.locks) ∨
    ((s.locks MutexRef.mut1).free = true ∧ (s.locks MutexRef.mut2).free = false ∧
      (funcB3_try t s).1 = 1 ∧ (funcB3_try t s).2.locks = s.locks) ∨
    ((s.locks MutexRef.mut1).free = true ∧ (s.locks MutexRef.mut2).free = true ∧
      (funcB3_try t s).1 = -1 ∧
      (funcB3_try t s).2.locks MutexRef.mut1 = { exclusive := [t], shared := [] } ∧
      (funcB3_try t s).2.locks MutexRef.mut2 = { exclusive := [t], shared := [] }) :=
  std_try_lock_cases t MutexRef.mut1 MutexRef.mut2 (by decide)
    (cout "Thread B trying to lock mutexes 2 and 1......" s)

/-- C1. All-or-nothing on failure: a thread that holds neither `mut1` nor `mut2`
calls the try-lock-all of `funcA3` or of `funcB3`; whatever the lock state, when
the call returns an index other than `-1` the lock state of every mutex is what
it was before the call and the thread holds neither `mut1` nor `mut2`. -/
theorem try_lock_all_or_nothing (t : Tid) (s : State)
    (h1 : (s.locks MutexRef.mut1).heldBy t = false)
    (h2 : (s.locks MutexRef.mut2).heldBy t = false) :
    ((funcA3_try t s).1 ≠ -1 →
      (funcA3_try t s).2.locks = s.locks ∧
      ((funcA3_try t s).2.locks MutexRef.mut1).heldBy t = false ∧
      ((funcA3_try t s).2.locks MutexRef.mut2).heldBy t = false) ∧
    ((funcB3_try t s).1 ≠ -1 →
      (funcB3_try t s).2.locks = s.locks ∧
      ((funcB3_try t s).2.locks MutexRef.mut1).heldBy t = false ∧
      ((funcB3_try t s).2.locks MutexRef.mut2).heldBy t = false) := by
  have key : (funcA3_try t s).1 ≠ -1 → (funcA3_try t s).2.locks = s.locks := by
    intro hne
    rcases funcA3_try_cases t s with h | h | h
    · exact h.2.2
    · exact h.2.2.2
    · exact absurd h.2.2.1 hne
  have keyB : (funcB3_try t s).1 ≠ -1 → (funcB3_try t s).2.locks = s.locks := by
    intro hne
    rcases funcB3_try_cases t s with h | h | h
    · exact h.2.2
    · exact h.2.2.2
    · exact absurd h.2.2.1 hne
  refine ⟨fun hne => ?_, fun hne => ?_⟩
  · rw [key hne]
    exact ⟨rfl, h1, h2⟩
  · rw [keyB hne]
    exact ⟨rfl, h1, h2⟩

/-- Witness for C1: thread 1 calls while thread 5 holds `mut2`; the call fails
with index 1. -/
theorem try_lock_all_or_nothing_witness :
    (funcA3_try 1 mut2_taken).1 = 1 ∧ (funcB3_try 1 mut2_taken).1 = 1 ∧
    (((funcA3_try 1 mut2_taken).1 ≠ -1 →
      (funcA3_try 1 mut2_taken).2.locks = mut2_taken.locks ∧
      ((funcA3_try 1 mut2_taken).2.locks MutexRef.mut1).heldBy 1 = false ∧
      ((funcA3_try 1 mut2_taken).2.locks MutexRef.mut2).heldBy 1 = false) ∧
    ((funcB3_try 1 mut2_taken).1 ≠ -1 →
      (funcB3_try 1 mut2_taken).2.locks = mut2_taken.locks ∧
      ((funcB3_try 1 mut2_taken).2.locks MutexRef.mut1).heldBy 1 = false ∧
      ((funcB3_try 1 mut2_taken).2.locks MutexRef.mut2).heldBy 1 = false)) :=
  ⟨by decide, by decide, try_lock_all_or_nothing 1 mut2_taken (by decide) (by decide)⟩

/-- C2. The try-lock-all call in `funcA3` returns `-1` exactly when `mut1` and
`mut2` were both free, and the caller then holds both; it returns 0 when `mut1`
was not free, and 1 when `mut1` was free and `mut2` was not. -/
theorem try_lock_index (t : Tid) (s : State) :
    ((funcA3_try t s).1 = -1 ↔
      (s.locks MutexRef.mut1).free = true ∧ (s.locks MutexRef.mut2).free = true) ∧
    ((funcA3_try t s).1 = -1 →
      ((funcA3_try t s).2.locks MutexRef.mut1).heldBy t = true ∧
      ((funcA3_try t s).2.locks MutexRef.mut2).heldBy t = true) ∧
    ((s.locks MutexRef.mut1).free = false → (funcA3_try t s).1 = 0) ∧
    ((s.locks MutexRef.mut1).free = true → (s.locks MutexRef.mut2).free = false →
      (funcA3_try t s).1 = 1) := by
  rcases funcA3_try_cases t s with h | h | h
  · obtain ⟨hf, hi, _⟩ := h
    refine ⟨?_, ?_, ?_, ?_⟩
    · rw [hi, hf]; simp
    · rw [hi]; intro h0; exact absurd h0 (by decide)
    · intro _; exact hi
    · rw [hf]; intro h0; exact absurd h0 (by decide)
  · obtain ⟨hf1, hf2, hi, _⟩ := h
    refine ⟨?_, ?_, ?_, ?_⟩
    · rw [hi, hf1, hf2]; simp
    · rw [hi]; intro h0; exact absurd h0 (by decide)
    · rw [hf1]; intro h0; exact absurd h0 (by decide)
    · intro _ _; exact hi
  · obtain ⟨hf1, hf2, hi, hl1, hl2⟩ := h
    refine ⟨?_, ?_, ?_, ?_⟩
    · rw [hi, hf1, hf2]; simp
    · intro _
      rw [hl1, hl2]
      simp [Mutex.heldBy]
    · rw [hf1]; intro h0; exact absurd h0 (by decide)
    · rw [hf2]; intro _ h0; exact absurd h0 (by decide)

/-! ## The ring of forks -/

/-- The right fork of philosopher `n` at a table of `N` forks. -/
theorem forks_snd (N n : Int) (h0 : 0 ≤ n) (h1 : n < N) :
    (forks N n).2 = if n = N - 1 then 0 else n + 1 := by
  simp only [forks]
  rw [Int.tmod_eq_emod (by omega) (by omega)]
  split
  · next h =>
    have hN : n + 1 = N := by omega
    rw [hN, Int.emod_self]
  · next h => exact Int.emod_eq_of_lt (by omega) (by omega)

/-- On the philosophers' indices the truncating `%` of C++ is the mathematical
remainder. -/
theorem forks_snd_emod (N n : Int) (h0 : 0 ≤ n) (h1 : n < N) :
    (forks N n).2 = (n + 1) % N := by
  simp only [forks]
  exact Int.tmod_eq_emod (by omega) (by omega)

/-- The left neighbour `(f + N - 1) mod N` of fork `f`. -/
theorem left_neighbour (N f : Int) (h0 : 0 ≤ f) (h1 : f < N) :
    (f + N - 1) % N = if f = 0 then N - 1 else f - 1 := by
  split
  · next h =>
    subst h
    have : (0 : Int) + N - 1 = N - 1 := by ring
    rw [this]
    exact Int.emod_eq_of_lt (by omega) (by omega)
  · next h =>
    have : f + N - 1 = (f - 1) + N := by ring
    rw [this, Int.add_emod_self]
    exact Int.emod_eq_of_lt (by omega) (by omega)

/-- C4. Ring topology: at a table of `N` forks, fork `f` is the right (second)
fork of exactly one philosopher, `(f + N - 1) mod N`, and the left (first) fork
of exactly one philosopher, `f`, who is the ring neighbour of the former. -/
theorem ring_topology (N f : Int) (hN : 0 < N) (h0 : 0 ≤ f) (h1 : f < N) :
    (0 ≤ (f + N - 1) % N ∧ (f + N - 1) % N < N) ∧
    (∀ n, 0 ≤ n → n < N → ((forks N n).2 = f ↔ n = (f + N - 1) % N)) ∧
    (∀ n, 0 ≤ n → n < N → ((forks N n).1 = f ↔ n = f)) ∧
    ((f + N - 1) % N + 1) % N = f := by
  have hl := left_neighbour N f h0 h1
  refine ⟨?_, ?_, ?_, ?_⟩
  · rw [hl]; split <;> omega
  · intro n hn0 hn1
    rw [forks_snd N n hn0 hn1, hl]
    split <;> split <;> omega
  · intro n _ _
    simp [forks]
  · rw [hl]
    split
    · next h =>
      have : N - 1 + 1 = N := by ring
      rw [this, Int.emod_self]
      omega
    · next h =>
      have : f - 1 + 1 = f := by ring
      rw [this]
      exact Int.emod_eq_of_lt h0 h1

/-- Witness for C4: fork 0 of the table of `nforks` forks. -/
theorem ring_topology_witness :
    (0 : Int) < nforks ∧
    ((0 ≤ (0 + nforks - 1) % nforks ∧ (0 + nforks - 1) % nforks < nforks) ∧
    (∀ n, 0 ≤ n → n < nforks → ((forks nforks n).2 = 0 ↔ n = (0 + nforks - 1) % nforks)) ∧
    (∀ n, 0 ≤ n → n < nforks → ((forks nforks n).1 = 0 ↔ n = 0)) ∧
    ((0 + nforks - 1) % nforks + 1) % nforks = 0) :=
  ⟨by decide, ring_topology nforks 0 (by decide) (by decide) (by decide)⟩

/-- The two forks of a philosopher at a table of at least two forks differ. -/
theorem forks_ne (N n : Int) (hN : 2 ≤ N) (h0 : 0 ≤ n) (h1 : n < N) :
    (forks N n).1 ≠ (forks N n).2 := by
  rw [forks_snd N n h0 h1]
  simp only [forks]
  split <;> omega

/-- C5. No duplicate in a request: at a table of `N ≥ 2` forks the left and the
right fork of a philosopher `n` in `[0, N)` differ, so the two mutexes named in
the acquisition are different objects. -/
theorem forks_distinct (N n : Int) (hN : 2 ≤ N) (h0 : 0 ≤ n) (h1 : n < N) :
    (forks N n).1 ≠ (forks N n).2 ∧
    MutexRef.fork_mutex (forks N n).1 ≠ MutexRef.fork_mutex (forks N n).2 := by
  have h : (forks N n).1 ≠ (forks N n).2 := forks_ne N n hN h0 h1
  refine ⟨h, ?_⟩
  intro he
  exact h (MutexRef.fork_mutex.inj he)

/-- Witness for C5: philosopher 4 in `dine`, whose forks are 4 and 0. -/
theorem forks_distinct_witness :
    (2 : Int) ≤ nforks ∧ lfork 4 = 4 ∧ rfork 4 = 0 ∧
    ((forks nforks 4).1 ≠ (forks nforks 4).2 ∧
    MutexRef.fork_mutex (forks nforks 4).1 ≠ MutexRef.fork_mutex (forks nforks 4).2) :=
  ⟨by decide, by decide, by decide,
    forks_distinct nforks 4 (by decide) (by decide) (by decide)⟩

/-- C6. Symmetry is broken at one point of the ring: at a table of `N ≥ 2` forks
the pair of philosopher `n` is in ascending order exactly when `n` is not the
last philosopher; the last one has forks `N - 1` and `0`; so taking the
lower-numbered fork first changes the first fork of philosopher `N - 1` only,
to fork 0. -/
theorem symmetry_broken_once (N n : Int) (hN : 2 ≤ N) (h0 : 0 ≤ n) (h1 : n < N) :
    ((forks N n).1 < (forks N n).2 ↔ n ≠ N - 1) ∧
    (n = N - 1 → (forks N n).1 = N - 1 ∧ (forks N n).2 = 0 ∧ hierarchy_first N n = 0) ∧
    (n ≠ N - 1 → hierarchy_first N n = (forks N n).1) ∧
    (hierarchy_first N n ≠ (forks N n).1 ↔ n = N - 1) := by
  have hs := forks_snd N n h0 h1
  have hf : (forks N n).1 = n := rfl
  simp only [hierarchy_first]
  by_cases h : n = N - 1
  · have hs2 : (forks N n).2 = 0 := by rw [hs, if_pos h]
    rw [hs2, hf]
    have hmin : min n 0 = 0 := min_eq_right h0
    refine ⟨?_, ?_, ?_, ?_⟩
    · constructor
      · intro hlt; omega
      · intro hne; exact absurd h hne
    · intro _
      exact ⟨h, rfl, hmin⟩
    · intro hne; exact absurd h hne
    · constructor
      · intro _; exact h
      · intro _
        rw [hmin]
        omega
  · have hs2 : (forks N n).2 = n + 1 := by rw [hs, if_neg h]
    rw [hs2, hf]
    have hmin : min n (n + 1) = n := min_eq_left (by omega)
    refine ⟨?_, ?_, ?_, ?_⟩
    · constructor
      · intro _; exact h
      · intro _; omega
    · intro h2; exact absurd h2 h
    · intro _; exact hmin
    · constructor
      · intro h2; exact absurd hmin h2
      · intro h2; exact absurd h2 h

/-- Witness for C6: philosopher E (index 4) at the table of `nforks` forks would
reach for fork 0 instead of fork 4. -/
theorem symmetry_broken_once_witness :
    (2 : Int) ≤ nforks ∧ lfork 4 = 4 ∧ hierarchy_first nforks 4 = 0 ∧
    (((forks nforks 4).1 < (forks nforks 4).2 ↔ (4 : Int) ≠ nforks - 1) ∧
    ((4 : Int) = nforks - 1 →
      (forks nforks 4).1 = nforks - 1 ∧ (forks nforks 4).2 = 0 ∧ hierarchy_first nforks 4 = 0) ∧
    ((4 : Int) ≠ nforks - 1 → hierarchy_first nforks 4 = (forks nforks 4).1) ∧
    (hierarchy_first nforks 4 ≠ (forks nforks 4).1 ↔ (4 : Int) = nforks - 1)) :=
  ⟨by decide, by decide, by decide,
    symmetry_broken_once nforks 4 (by decide) (by decide) (by decide)⟩

/-! ## Running a routine when nothing stands in its way -/

@[simp] theorem locks_emit (s : State) (e : Event) : (s.emit e).locks = s.locks := rfl
@[simp] theorem blocked_emit (s : State) (e : Event) : (s.emit e).blocked = s.blocked := rfl
@[simp] theorem mouthfuls_emit (s : State) (e : Event) : (s.emit e).mouthfuls = s.mouthfuls := rfl
@[simp] theorem trace_emit (s : State) (e : Event) : (s.emit e).trace = s.trace ++ [e] := rfl
@[simp] theorem blocked_setLock (s : State) (r : MutexRef) (m : Mutex) :
    (s.setLock r m).blocked = s.blocked := rfl
@[simp] theorem mouthfuls_setLock (s : State) (r : MutexRef) (m : Mutex) :
    (s.setLock r m).mouthfuls = s.mouthfuls := rfl
@[simp] theorem trace_setLock (s : State) (r : MutexRef) (m : Mutex) :
    (s.setLock r m).trace = s.trace := rfl
@[simp] theorem locks_setLock_same (s : State) (r : MutexRef) (m : Mutex) :
    (s.setLock r m).locks r = m := by
  simp [State.setLock]
theorem locks_setLock_other (s : State) (r q : MutexRef) (m : Mutex) (h : q ≠ r) :
    (s.setLock r m).locks q = s.locks q := by
  simp [State.setLock, h]

@[simp] theorem blocked_unlock (t : Tid) (r : MutexRef) (s : State) :
    (unlock t r s).blocked = s.blocked := rfl

theorem run_nil (s : State) : run [] s = s := rfl

theorem run_cons (f : State → State) (body : List (State → State)) (s : State) :
    run (f :: body) s = run body (if s.blocked.isSome then s else f s) := rfl

theorem run_step (f : State → State) (body : List (State → State)) (s : State)
    (h : s.blocked = none) : run (f :: body) s = run body (f s) := by
  rw [run_cons, h]; rfl

theorem run_blocked (body : List (State → State)) (s : State) (h : s.blocked.isSome = true) :
    run body s = s := by
  induction body with
  | nil => rfl
  | cons f fs ih => rw [run_cons, if_pos h, ih]

theorem lock_free (t : Tid) (r : MutexRef) (s : State) (h : (s.locks r).free = true) :
    lock t r s = (s.setLock r { exclusive := [t], shared := [] }).emit (Event.lock r) := by
  have hm := free_eq _ h
  simp [lock, Mutex.lock, hm, Mutex.free]

theorem try_lock_free (t : Tid) (r : MutexRef) (s : State) (h : (s.locks r).free = true) :
    try_lock t r s =
      (true, (s.setLock r { exclusive := [t], shared := [] }).emit (Event.try_lock r true)) := by
  have hm := free_eq _ h
  simp [try_lock, Mutex.try_lock, hm, Mutex.free]

/-- The output routine when `print_mutex` is free: four events, nothing else
changes. -/
theorem print_free (t : Tid) (n : Int) (str : String) (s : State)
    (hb : s.blocked = none) (hf : (s.locks MutexRef.print_mutex).free = true) :
    print t n str s = { s with trace := s.trace ++ print_events n str } := by
  have hm := free_eq _ hf
  unfold print
  rw [run_step _ _ _ hb, lock_free t _ s hf, run_step _ _ _ (by simp [hb]),
    run_step _ _ _ (by simp [index, hb]), run_step _ _ _ (by simp [index, cout, hb]), run_nil]
  ext1
  · funext q
    by_cases hq : q = MutexRef.print_mutex
    · subst hq
      simp [unlock, cout, index, Mutex.unlock, hm]
    · simp [unlock, cout, index, locks_setLock_other _ _ _ _ hq]
  · simp [unlock, cout, index]
  · simp [unlock, cout, index, print_events, print_forks_events]
  · simp [unlock, cout, index, hb]

/-- The output routine with fork numbers when `print_mutex` is free. -/
theorem print_forks_free (t : Tid) (n : Int) (str : String) (l r : Int) (s : State)
    (hb : s.blocked = none) (hf : (s.locks MutexRef.print_mutex).free = true) :
    print_forks t n str l r s =
      { s with trace := s.trace ++ print_forks_events n str l r } := by
  have hm := free_eq _ hf
  unfold print_forks
  rw [run_step _ _ _ hb, lock_free t _ s hf, run_step _ _ _ (by simp [hb]),
    run_step _ _ _ (by simp [index, hb]), run_step _ _ _ (by simp [index, cout, hb]), run_nil]
  ext1
  · funext q
    by_cases hq : q = MutexRef.print_mutex
    · subst hq
      simp [unlock, cout, index, Mutex.unlock, hm]
    · simp [unlock, cout, index, locks_setLock_other _ _ _ _ hq]
  · simp [unlock, cout, index]
  · simp [unlock, cout, index, print_events, print_forks_events]
  · simp [unlock, cout, index, hb]

/-- The counter routine when `increment_mut` is free. -/
theorem increment_value_free (t : Tid) (phil : Int) (s : State)
    (hb : s.blocked = none) (hf : (s.locks MutexRef.increment_mut).free = true) :
    increment_value t phil s =
      { s with
        mouthfuls :=
          if 0 ≤ phil then
            s.mouthfuls.set phil.toNat (pre_increment (s.mouthfuls.getD phil.toNat 0))
          else s.mouthfuls
        trace := s.trace ++ increment_events phil } := by
  have hm := free_eq _ hf
  unfold increment_value
  rw [run_step _ _ _ hb, lock_free t _ s hf, run_step _ _ _ (by simp [hb]),
    run_step _ _ _ (by simp [index, hb]), run_step _ _ _ (by simp [index, incr, hb]), run_nil]
  ext1
  · funext q
    by_cases hq : q = MutexRef.increment_mut
    · subst hq
      simp [unlock, incr, index, Mutex.unlock, hm]
    · simp [unlock, incr, index, locks_setLock_other _ _ _ _ hq]
  · simp [unlock, incr, index]
  · simp [unlock, incr, index, increment_events]
  · simp [unlock, incr, index, hb]

/-- `std::lock(a, b)` on two free mutexes: `a` is locked, the try on `b`
succeeds, and the call returns after a single round. -/
theorem std_lock_free (t : Tid) (a b : MutexRef) (hab : a ≠ b) (s : State)
    (hb : s.blocked = none) (ha : (s.locks a).free = true) (hfb : (s.locks b).free = true) :
    std_lock t a b s =
      (((s.setLock a { exclusive := [t], shared := [] }).emit (Event.lock a)).setLock b
        { exclusive := [t], shared := [] }).emit (Event.try_lock b true) := by
  have hba : b ≠ a := fun h => hab h.symm
  have h2 : (((s.setLock a { exclusive := [t], shared := [] }).emit (Event.lock a)).locks b).free
      = true := by
    simp [locks_setLock_other _ _ _ _ hba, hfb]
  simp only [std_lock, std_lock_rounds, std_lock_round]
  rw [lock_free t a s ha, try_lock_free t b _ h2]
  simp [hb]

theorem lock_taken (t : Tid) (r : MutexRef) (s : State) (h : (s.locks r).free = false) :
    lock t r s = { s with blocked := some r } := by
  simp [lock, Mutex.lock, h]

theorem try_lock_taken (t : Tid) (r : MutexRef) (s : State) (h : (s.locks r).free = false) :
    try_lock t r s = (false, (s.setLock r (s.locks r)).emit (Event.try_lock r false)) := by
  simp [try_lock, Mutex.try_lock, h]

/-- A round of `std::lock` whose first mutex is taken waits for it. -/
theorem std_lock_round_waits (t : Tid) (first second : MutexRef) (s : State)
    (h : (s.locks first).free = false) :
    std_lock_round t first second s = (false, { s with blocked := some first }) := by
  simp [std_lock_round, lock_taken t first s h]

/-- A round of `std::lock` that gets its first mutex but not the second gives the
first one back: the lock state is as before. -/
theorem std_lock_round_backs_off (t : Tid) (first second : MutexRef) (hne : first ≠ second)
    (s : State) (hb : s.blocked = none) (h1 : (s.locks first).free = true)
    (h2 : (s.locks second).free = false) :
    std_lock_round t first second s =
      (false, { s with trace := s.trace ++
        [Event.lock first, Event.try_lock second false, Event.unlock first] }) := by
  have hsf : second ≠ first := fun h => hne h.symm
  have h3 : (((s.setLock first { exclusive := [t], shared := [] }).emit
      (Event.lock first)).locks second).free = false := by
    simp [locks_setLock_other _ _ _ _ hsf, h2]
  simp only [std_lock_round]
  rw [lock_free t first s h1, try_lock_taken t second _ h3]
  simp only [blocked_emit, blocked_setLock, hb, Option.isSome_none, Bool.false_eq_true,
    if_false]
  congr 1
  ext1
  · funext q
    by_cases hq : q = first
    · subst hq
      simp [unlock, locks_setLock_other _ _ _ _ hne, Mutex.unlock, free_eq _ h1]
    · by_cases hq2 : q = second
      · subst hq2
        simp [unlock, locks_setLock_other _ _ _ _ hq]
      · simp [unlock, locks_setLock_other _ _ _ _ hq, locks_setLock_other _ _ _ _ hq2]
  · simp [unlock]
  · simp [unlock]
  · simp [unlock, hb]

/-- `std::lock(a, b)` is all-or-nothing: in a lock state that does not change
during the call it either returns holding both mutexes (when both were free) or
waits while holding neither, with the lock state it found.  Two rounds always
settle the call. -/
theorem std_lock_settles (t : Tid) (a b : MutexRef) (hab : a ≠ b) (s : State)
    (hb : s.blocked = none) :
    ((s.locks a).free = true ∧ (s.locks b).free = true ∧
      (std_lock t a b s).blocked = none ∧
      (std_lock t a b s).locks a = { exclusive := [t], shared := [] } ∧
      (std_lock t a b s).locks b = { exclusive := [t], shared := [] }) ∨
    (((s.locks a).free = false ∨ (s.locks b).free = false) ∧
      (std_lock t a b s).blocked.isSome = true ∧ (std_lock t a b s).locks = s.locks) := by
  cases ha : (s.locks a).free with
  | false =>
    right
    refine ⟨Or.inl rfl, ?_, ?_⟩ <;>
      simp [std_lock, std_lock_rounds, std_lock_round_waits t a b s ha]
  | true =>
    cases hfb : (s.locks b).free with
    | true =>
      left
      rw [std_lock_free t a b hab s hb ha hfb]
      refine ⟨rfl, rfl, ?_, ?_, ?_⟩
      · simp [hb]
      · simp [locks_setLock_other _ _ _ _ hab]
      · simp
    | false =>
      right
      have hw := std_lock_round_waits t b a
        { s with trace := s.trace ++ [Event.lock a, Event.try_lock b false, Event.unlock a] } hfb
      have hs : std_lock t a b s =
          { s with
            trace := s.trace ++ [Event.lock a, Event.try_lock b false, Event.unlock a]
            blocked := some b } := by
        simp only [std_lock, std_lock_rounds]
        rw [std_lock_round_backs_off t a b hab s hb ha hfb]
        simp only [hb, Option.isSome_none, Bool.or_self, Bool.false_eq_true, if_false]
        rw [hb] at hw
        rw [hw]
        simp
      rw [hs]
      exact ⟨Or.inr rfl, rfl, rfl⟩

/-- Releasing, in either order, two mutexes that thread `t` took from the free
state gives back the lock state from before. -/
theorem locks_restored (t : Tid) (a b : MutexRef) (f : MutexRef → Mutex)
    (ha : (f a).free = true) (hb : (f b).free = true) (g : MutexRef → Mutex)
    (hg : ∀ q, g q = if q = a ∨ q = b then (({ exclusive := [t], shared := [] } : Mutex).unlock t)
      else f q) : g = f := by
  funext q
  rw [hg q]
  split
  · next h =>
    rcases h with h | h
    · subst h; rw [free_eq _ ha]; simp [Mutex.unlock]
    · subst h; rw [free_eq _ hb]; simp [Mutex.unlock]
  · rfl

/-- `funcA` when `mut1` and `mut2` are free: `mut1` is taken first, then `mut2`;
both are free again at the end. -/
theorem funcA_free (t : Tid) (s : State) (hb : s.blocked = none)
    (h1 : (s.locks MutexRef.mut1).free = true) (h2 : (s.locks MutexRef.mut2).free = true) :
    funcA t s =
      { s with trace := s.trace ++
          [ Event.cout "Thread A trying to lock mutexes 1 and 2.....",
            Event.lock MutexRef.mut1,
            Event.try_lock MutexRef.mut2 true,
            Event.cout "Thread A has locked mutexes 1 and 2",
            Event.sleep_for 50,
            Event.cout "Thread A releasing mutexes 1 and 2....",
            Event.unlock MutexRef.mut1,
            Event.unlock MutexRef.mut2 ] } := by
  unfold funcA
  rw [run_step _ _ _ hb, run_step _ _ _ (by simp [cout, hb]),
    std_lock_free t MutexRef.mut1 MutexRef.mut2 (by decide) _ (by simp [cout, hb])
      (by simpa [cout] using h1) (by simpa [cout] using h2),
    run_step _ _ _ (by simp [cout, hb]), run_step _ _ _ (by simp [cout, hb]),
    run_step _ _ _ (by simp [cout, sleep_for, hb]),
    run_step _ _ _ (by simp [cout, sleep_for, hb]),
    run_step _ _ _ (by simp [cout, sleep_for, unlock, hb]), run_nil]
  ext1
  · apply locks_restored t MutexRef.mut1 MutexRef.mut2 s.locks h1 h2
    intro q
    by_cases hq1 : q = MutexRef.mut1
    · subst hq1
      simp [unlock, cout, sleep_for, locks_setLock_other]
    · by_cases hq2 : q = MutexRef.mut2
      · subst hq2
        simp [unlock, cout, sleep_for, locks_setLock_other]
      · simp [unlock, cout, sleep_for, locks_setLock_other _ _ _ _ hq1,
          locks_setLock_other _ _ _ _ hq2, hq1, hq2]
  · simp [unlock, cout, sleep_for]
  · simp [unlock, cout, sleep_for]
  · simp [unlock, cout, sleep_for, hb]

/-- `funcB` when `mut1` and `mut2` are free: `mut2` is taken first, then `mut1`. -/
theorem funcB_free (t : Tid) (s : State) (hb : s.blocked = none)
    (h1 : (s.locks MutexRef.mut1).free = true) (h2 : (s.locks MutexRef.mut2).free = true) :
    funcB t s =
      { s with trace := s.trace ++
          [ Event.cout "Thread B trying to lock mutexes 2 and 1.....",
            Event.lock MutexRef.mut2,
            Event.try_lock MutexRef.mut1 true,
            Event.cout "Thread A has locked mutexes 1 and 2",
            Event.sleep_for 50,
            Event.cout "Thread A releasing mutexes 2 and 1....",
            Event.unlock MutexRef.mut2,
            Event.unlock MutexRef.mut1 ] } := by
  unfold funcB
  rw [run_step _ _ _ hb, run_step _ _ _ (by simp [cout, hb]),
    std_lock_free t MutexRef.mut2 MutexRef.mut1 (by decide) _ (by simp [cout, hb])
      (by simpa [cout] using h2) (by simpa [cout] using h1),
    run_step _ _ _ (by simp [cout, hb]), run_step _ _ _ (by simp [cout, hb]),
    run_step _ _ _ (by simp [cout, sleep_for, hb]),
    run_step _ _ _ (by simp [cout, sleep_for, hb]),
    run_step _ _ _ (by simp [cout, sleep_for, unlock, hb]), run_nil]
  ext1
  · apply locks_restored t MutexRef.mut1 MutexRef.mut2 s.locks h1 h2
    intro q
    by_cases hq1 : q = MutexRef.mut1
    · subst hq1
      simp [unlock, cout, sleep_for, locks_setLock_other]
    · by_cases hq2 : q = MutexRef.mut2
      · subst hq2
        simp [unlock, cout, sleep_for, locks_setLock_other]
      · simp [unlock, cout, sleep_for, locks_setLock_other _ _ _ _ hq1,
          locks_setLock_other _ _ _ _ hq2, hq1, hq2]
  · simp [unlock, cout, sleep_for]
  · simp [unlock, cout, sleep_for]
  · simp [unlock, cout, sleep_for, hb]

/-- `dine` when the output mutex, the counter mutex and both forks are free: the
whole routine runs, the left fork is taken first and the right fork second, the
counter of the philosopher goes up, and every mutex is free again at the end. -/
theorem dine_free (t : Tid) (n : Int) (s : State) (hb : s.blocked = none)
    (hne : lfork n ≠ rfork n)
    (hpm : (s.locks MutexRef.print_mutex).free = true)
    (him : (s.locks MutexRef.increment_mut).free = true)
    (hl : (s.locks (MutexRef.fork_mutex (lfork n))).free = true)
    (hr : (s.locks (MutexRef.fork_mutex (rfork n))).free = true) :
    dine t n s =
      { s with
        mouthfuls :=
          if 0 ≤ n then s.mouthfuls.set n.toNat (pre_increment (s.mouthfuls.getD n.toNat 0))
          else s.mouthfuls
        trace := s.trace ++
          (print_forks_events n "'s forks are " (lfork n) (rfork n) ++
           print_events n " is thinking...." ++
           [Event.sleep_for think_time] ++
           print_forks_events n " reaches for forks " (lfork n) (rfork n) ++
           [ Event.index Arr.fork_mutex (lfork n),
             Event.index Arr.fork_mutex (rfork n),
             Event.lock (MutexRef.fork_mutex (lfork n)),
             Event.try_lock (MutexRef.fork_mutex (rfork n)) true,
             Event.index Arr.fork_mutex (lfork n),
             Event.index Arr.fork_mutex (rfork n) ] ++
           print_forks_events n " picks up fork " (lfork n) (rfork n) ++
           print_events n " is eating..." ++
           increment_events n ++
           [Event.sleep_for eat_time] ++
           print_forks_events n " puts down forks " (lfork n) (rfork n) ++
           print_events n " is thinking...." ++
           [ Event.sleep_for think_time,
             Event.unlock (MutexRef.fork_mutex (rfork n)),
             Event.unlock (MutexRef.fork_mutex (lfork n)) ]) } := by
  have hne2 : MutexRef.fork_mutex (lfork n) ≠ MutexRef.fork_mutex (rfork n) :=
    fun h => hne (MutexRef.fork_mutex.inj h)
  have hpl : MutexRef.print_mutex ≠ MutexRef.fork_mutex (lfork n) := by simp
  have hpr : MutexRef.print_mutex ≠ MutexRef.fork_mutex (rfork n) := by simp
  have hil : MutexRef.increment_mut ≠ MutexRef.fork_mutex (lfork n) := by simp
  have hir : MutexRef.increment_mut ≠ MutexRef.fork_mutex (rfork n) := by simp
  ext1
  · apply locks_restored t (MutexRef.fork_mutex (lfork n)) (MutexRef.fork_mutex (rfork n))
      s.locks hl hr
    intro q
    by_cases hq1 : q = MutexRef.fork_mutex (lfork n)
    · subst hq1
      simp [dine, run_cons, run_nil, hb, hpm, him, hl, hr, print_forks_free, print_free,
        increment_value_free, std_lock_free t _ _ hne2, sleep_for, index, unlock,
        locks_setLock_other _ _ _ _ hpl, locks_setLock_other _ _ _ _ hpr,
        locks_setLock_other _ _ _ _ hil, locks_setLock_other _ _ _ _ hir,
        locks_setLock_other _ _ _ _ hne2]
    · by_cases hq2 : q = MutexRef.fork_mutex (rfork n)
      · subst hq2
        simp [dine, run_cons, run_nil, hb, hpm, him, hl, hr, print_forks_free, print_free,
          increment_value_free, std_lock_free t _ _ hne2, sleep_for, index, unlock,
          locks_setLock_other _ _ _ _ hpl, locks_setLock_other _ _ _ _ hpr,
          locks_setLock_other _ _ _ _ hil, locks_setLock_other _ _ _ _ hir,
          locks_setLock_other _ _ _ _ hq1]
      · simp [dine, run_cons, run_nil, hb, hpm, him, hl, hr, print_forks_free, print_free,
          increment_value_free, std_lock_free t _ _ hne2, sleep_for, index, unlock,
          locks_setLock_other _ _ _ _ hpl, locks_setLock_other _ _ _ _ hpr,
          locks_setLock_other _ _ _ _ hil, locks_setLock_other _ _ _ _ hir,
          locks_setLock_other _ _ _ _ hq1, locks_setLock_other _ _ _ _ hq2, hq1, hq2]
  · simp [dine, run_cons, run_nil, hb, hpm, him, hl, hr, print_forks_free, print_free,
      increment_value_free, std_lock_free t _ _ hne2, sleep_for, index, unlock,
      locks_setLock_other _ _ _ _ hpl, locks_setLock_other _ _ _ _ hpr,
      locks_setLock_other _ _ _ _ hil, locks_setLock_other _ _ _ _ hir]
  · simp [dine, run_cons, run_nil, hb, hpm, him, hl, hr, print_forks_free, print_free,
      increment_value_free, std_lock_free t _ _ hne2, sleep_for, index, unlock,
      locks_setLock_other _ _ _ _ hpl, locks_setLock_other _ _ _ _ hpr,
      locks_setLock_other _ _ _ _ hil, locks_setLock_other _ _ _ _ hir]
  · simp [dine, run_cons, run_nil, hb, hpm, him, hl, hr, print_forks_free, print_free,
      increment_value_free, std_lock_free t _ _ hne2, sleep_for, index, unlock,
      locks_setLock_other _ _ _ _ hpl, locks_setLock_other _ _ _ _ hpr,
      locks_setLock_other _ _ _ _ hil, locks_setLock_other _ _ _ _ hir]

/-! ## Order of acquisition -/

theorem acquired_append (l1 l2 : List Event) :
    acquired (l1 ++ l2) = acquired l1 ++ acquired l2 := by
  induction l1 with
  | nil => rfl
  | cons e es ih =>
    cases e with
    | try_lock m ok => cases ok <;> simp [acquired, ih]
    | _ => simp [acquired, ih]

theorem forkNumbers_append (l1 l2 : List MutexRef) :
    forkNumbers (l1 ++ l2) = forkNumbers l1 ++ forkNumbers l2 := by
  induction l1 with
  | nil => rfl
  | cons m ms ih => cases m <;> simp [forkNumbers, ih]

theorem init_idle : Idle State.init := ⟨rfl, fun _ => rfl⟩

/-- C7, as the code has it. Nothing sorts the mutexes of a request: `std::lock`
and `std::scoped_lock` start with the first argument the caller supplied.  In an
uncontended run `funcA` acquires `mut1` then `mut2`, `funcB` acquires `mut2` then
`mut1`, and `dine(n)` acquires its left fork `n` before its right fork
`(n + 1) mod nforks`; `dine(4)` so acquires fork 4 before fork 0. -/
theorem acquisition_in_caller_order (t : Tid) (n : Int) (s : State) (hs : Idle s)
    (h0 : 0 ≤ n) (h1 : n < nphilosophers) :
    acquired (funcA t s).trace = acquired s.trace ++ [MutexRef.mut1, MutexRef.mut2] ∧
    acquired (funcB t s).trace = acquired s.trace ++ [MutexRef.mut2, MutexRef.mut1] ∧
    forkNumbers (acquired (dine t n s).trace) =
      forkNumbers (acquired s.trace) ++ [n, (n + 1) % nforks] := by
  obtain ⟨hb, hfree⟩ := hs
  have hd := forks_ne nforks n (by decide) h0 h1
  have hr : rfork n = (n + 1) % nforks := forks_snd_emod nforks n h0 h1
  have hl : lfork n = n := rfl
  refine ⟨?_, ?_, ?_⟩
  · rw [funcA_free t s hb (hfree _) (hfree _)]
    simp [acquired_append, acquired]
  · rw [funcB_free t s hb (hfree _) (hfree _)]
    simp [acquired_append, acquired]
  · rw [dine_free t n s hb hd (hfree _) (hfree _) (hfree _) (hfree _)]
    simp [acquired_append, forkNumbers_append, acquired, forkNumbers, print_events,
      print_forks_events, increment_events, hr, hl]

/-- Witness for C7 as amended: thread 1, philosopher 4, at program start. -/
theorem acquisition_in_caller_order_witness :
    (0 : Int) ≤ 4 ∧ (4 : Int) < nphilosophers ∧
    (acquired (funcA 1 State.init).trace =
      acquired State.init.trace ++ [MutexRef.mut1, MutexRef.mut2] ∧
    acquired (funcB 1 State.init).trace =
      acquired State.init.trace ++ [MutexRef.mut2, MutexRef.mut1] ∧
    forkNumbers (acquired (dine 1 4 State.init).trace) =
      forkNumbers (acquired State.init.trace) ++ [4, (4 + 1) % nforks]) :=
  ⟨by decide, by decide,
    acquisition_in_caller_order 1 4 State.init init_idle (by decide) (by decide)⟩

/-- C7 as stated fails at program start: `funcA` (thread 1) takes `mut1` first,
`funcB` (thread 2) takes `mut2` first, so the two orders differ, and `dine(4)`
(thread 3) takes fork 4 before fork 0, not fork 0 before fork 4. -/
theorem acquisition_not_sorted :
    acquired (funcA 1 State.init).trace = [MutexRef.mut1, MutexRef.mut2] ∧
    acquired (funcB 2 State.init).trace = [MutexRef.mut2, MutexRef.mut1] ∧
    acquired (funcA 1 State.init).trace ≠ acquired (funcB 2 State.init).trace ∧
    forkNumbers (acquired (dine 3 4 State.init).trace) = [4, 0] ∧
    forkNumbers (acquired (dine 3 4 State.init).trace) ≠ [0, 4] := by
  refine ⟨by decide, by decide, by decide, by decide, by decide⟩

/-! ## Array accesses of `dine` -/

theorem accesses_append (l1 l2 : List Event) :
    accesses (l1 ++ l2) = accesses l1 ++ accesses l2 := by
  induction l1 with
  | nil => rfl
  | cons e es ih => cases e <;> simp [accesses, ih]

/-- A step that appends events whose accesses are in bounds keeps a run safe. -/
theorem safe_of_trace (s s2 : State) (es : List Event) (ht : s2.trace = s.trace ++ es)
    (hes : ∀ p ∈ accesses es, InBounds p) (h : Safe s) : Safe s2 := by
  intro p hp
  rw [ht, accesses_append, List.mem_append] at hp
  rcases hp with hp | hp
  · exact h p hp
  · exact hes p hp

theorem safe_cout (msg : String) (s : State) (h : Safe s) : Safe (cout msg s) :=
  safe_of_trace s _ [Event.cout msg] rfl (by simp [accesses]) h

theorem safe_sleep_for (ms : Nat) (s : State) (h : Safe s) : Safe (sleep_for ms s) :=
  safe_of_trace s _ [Event.sleep_for ms] rfl (by simp [accesses]) h

theorem safe_incr (i : Int) (s : State) (h : Safe s) : Safe (incr i s) :=
  safe_of_trace s _ [Event.incr i] rfl (by simp [accesses]) h

theorem safe_unlock (t : Tid) (r : MutexRef) (s : State) (h : Safe s) : Safe (unlock t r s) :=
  safe_of_trace s _ [Event.unlock r] rfl (by simp [accesses]) h

theorem safe_index (a : Arr) (i : Int) (s : State) (hi : InBounds (a, i)) (h : Safe s) :
    Safe (index a i s) :=
  safe_of_trace s _ [Event.index a i] rfl (by simpa [accesses] using hi) h

theorem safe_lock (t : Tid) (r : MutexRef) (s : State) (h : Safe s) : Safe (lock t r s) := by
  unfold lock
  split
  · exact safe_of_trace s _ [Event.lock r] rfl (by simp [accesses]) h
  · exact safe_of_trace s _ [] (by simp) (by simp [accesses]) h

theorem safe_try_lock (t : Tid) (r : MutexRef) (s : State) (h : Safe s) :
    Safe (try_lock t r s).2 :=
  safe_of_trace s _ [Event.try_lock r ((s.locks r).try_lock t).1] rfl (by simp [accesses]) h

theorem safe_run (body : List (State → State)) (s : State)
    (hbody : ∀ f ∈ body, ∀ st, Safe st → Safe (f st)) (h : Safe s) : Safe (run body s) := by
  induction body generalizing s with
  | nil => exact h
  | cons f fs ih =>
    rw [run_cons]
    apply ih
    · intro g hg
      exact hbody g (List.mem_cons_of_mem f hg)
    · split
      · exact h
      · exact hbody f (List.mem_cons_self f fs) s h

theorem safe_std_lock_round (t : Tid) (a b : MutexRef) (s : State) (h : Safe s) :
    Safe (std_lock_round t a b s).2 := by
  unfold std_lock_round
  simp only []
  split
  · exact safe_lock t a s h
  · split
    · exact safe_try_lock t b _ (safe_lock t a s h)
    · exact safe_unlock t a _ (safe_try_lock t b _ (safe_lock t a s h))

theorem safe_std_lock_rounds (t : Tid) (k : Nat) (a b : MutexRef) (s : State) (h : Safe s) :
    Safe (std_lock_rounds t k a b s) := by
  induction k generalizing a b s with
  | zero => exact h
  | succ k ih =>
    unfold std_lock_rounds
    simp only []
    split
    · exact safe_std_lock_round t a b s h
    · exact ih b a _ (safe_std_lock_round t a b s h)

theorem safe_std_lock (t : Tid) (a b : MutexRef) (s : State) (h : Safe s) :
    Safe (std_lock t a b s) :=
  safe_std_lock_rounds t 2 a b s h

theorem safe_print (t : Tid) (n : Int) (str : String) (s : State)
    (hn : InBounds (Arr.names, n)) (h : Safe s) : Safe (print t n str s) := by
  apply safe_run _ _ _ h
  intro f hf st hst
  simp only [List.mem_cons, List.mem_singleton, List.not_mem_nil, or_false] at hf
  rcases hf with rfl | rfl | rfl | rfl
  · exact safe_lock _ _ _ hst
  · exact safe_index _ _ _ hn hst
  · exact safe_cout _ _ hst
  · exact safe_unlock _ _ _ hst

theorem safe_print_forks (t : Tid) (n : Int) (str : String) (l r : Int) (s : State)
    (hn : InBounds (Arr.names, n)) (h : Safe s) : Safe (print_forks t n str l r s) := by
  apply safe_run _ _ _ h
  intro f hf st hst
  simp only [List.mem_cons, List.mem_singleton, List.not_mem_nil, or_false] at hf
  rcases hf with rfl | rfl | rfl | rfl
  · exact safe_lock _ _ _ hst
  · exact safe_index _ _ _ hn hst
  · exact safe_cout _ _ hst
  · exact safe_unlock _ _ _ hst

theorem safe_increment_value (t : Tid) (phil : Int) (s : State)
    (hn : InBounds (Arr.mouthfuls, phil)) (h : Safe s) : Safe (increment_value t phil s) := by
  apply safe_run _ _ _ h
  intro f hf st hst
  simp only [List.mem_cons, List.mem_singleton, List.not_mem_nil, or_false] at hf
  rcases hf with rfl | rfl | rfl | rfl
  · exact safe_lock _ _ _ hst
  · exact safe_index _ _ _ hn hst
  · exact safe_incr _ _ hst
  · exact safe_unlock _ _ _ hst

/-- C3. For a philosopher index `n` with `0 ≤ n < nphilosophers`, `dine(n)`
computes the pair `lfork = n`, `rfork = (n + 1) mod nforks`, both inside
`[0, nforks)`; every access to `names`, `mouthfuls` and `fork_mutex` it makes, in
whatever lock state it runs, is in bounds; and run at program start it locks
exactly the forks `n` and `(n + 1) mod nforks`, in this order. -/
theorem dine_request_in_bounds (t : Tid) (n : Int) (s : State)
    (h0 : 0 ≤ n) (h1 : n < nphilosophers) (hs : Safe s) :
    lfork n = n ∧ rfork n = (n + 1) % nforks ∧
    (0 ≤ lfork n ∧ lfork n < nforks) ∧ (0 ≤ rfork n ∧ rfork n < nforks) ∧
    Safe (dine t n s) ∧
    forkNumbers (acquired (dine t n State.init).trace) = [n, (n + 1) % nforks] := by
  have hl : lfork n = n := rfl
  have hr : rfork n = (n + 1) % nforks := forks_snd_emod nforks n h0 h1
  have hN : nphilosophers = 5 := rfl
  have hF : nforks = 5 := rfl
  have hlb : 0 ≤ lfork n ∧ lfork n < nforks := by rw [hl, hF]; omega
  have hrb : 0 ≤ rfork n ∧ rfork n < nforks := by rw [hr, hF]; omega
  have bn : InBounds (Arr.names, n) := by
    simp only [InBounds, Arr.size, names, List.length_cons, List.length_nil]
    omega
  have bm : InBounds (Arr.mouthfuls, n) := by
    simp only [InBounds, Arr.size]
    omega
  have bl : InBounds (Arr.fork_mutex, lfork n) := hlb
  have br : InBounds (Arr.fork_mutex, rfork n) := hrb
  refine ⟨hl, hr, hlb, hrb, ?_, ?_⟩
  · apply safe_run _ _ _ hs
    intro f hf st hst
    simp only [List.mem_cons, List.mem_singleton, List.not_mem_nil, or_false] at hf
    rcases hf with rfl | rfl | rfl | rfl | rfl | rfl | rfl | rfl | rfl | rfl | rfl | rfl |
      rfl | rfl | rfl | rfl | rfl | rfl
    · exact safe_print_forks _ _ _ _ _ _ bn hst
    · exact safe_print _ _ _ _ bn hst
    · exact safe_sleep_for _ _ hst
    · exact safe_print_forks _ _ _ _ _ _ bn hst
    · exact safe_index _ _ _ bl hst
    · exact safe_index _ _ _ br hst
    · exact safe_std_lock _ _ _ _ hst
    · exact safe_index _ _ _ bl hst
    · exact safe_index _ _ _ br hst
    · exact safe_print_forks _ _ _ _ _ _ bn hst
    · exact safe_print _ _ _ _ bn hst
    · exact safe_increment_value _ _ _ bm hst
    · exact safe_sleep_for _ _ hst
    · exact safe_print_forks _ _ _ _ _ _ bn hst
    · exact safe_print _ _ _ _ bn hst
    · exact safe_sleep_for _ _ hst
    · exact safe_unlock _ _ _ hst
    · exact safe_unlock _ _ _ hst
  · have hd := forks_ne nforks n (by decide) h0 h1
    rw [dine_free t n State.init rfl hd rfl rfl rfl rfl]
    simp [acquired_append, forkNumbers_append, acquired, forkNumbers, print_events,
      print_forks_events, increment_events, hr, hl, State.init]

/-- Witness for C3: philosopher E (index 4), run by thread 1 at program start. -/
theorem dine_request_in_bounds_witness :
    (0 : Int) ≤ 4 ∧ (4 : Int) < nphilosophers ∧ Safe State.init ∧
    (lfork 4 = 4 ∧ rfork 4 = (4 + 1) % nforks ∧
    (0 ≤ lfork 4 ∧ lfork 4 < nforks) ∧ (0 ≤ rfork 4 ∧ rfork 4 < nforks) ∧
    Safe (dine 1 4 State.init) ∧
    forkNumbers (acquired (dine 1 4 State.init).trace) = [4, (4 + 1) % nforks]) :=
  ⟨by decide, by decide, fun _ hp => absurd hp (List.not_mem_nil _),
    dine_request_in_bounds 1 4 State.init (by decide) (by decide)
      (fun _ hp => absurd hp (List.not_mem_nil _))⟩

/-! ## Release order -/

theorem released_append (l1 l2 : List Event) :
    released (l1 ++ l2) = released l1 ++ released l2 := by
  induction l1 with
  | nil => rfl
  | cons e es ih => cases e <;> simp [released, ih]

/-- `funcA1` when `mut1` and `mut2` are free. -/
theorem funcA1_free (t : Tid) (s : State) (hb : s.blocked = none)
    (h1 : (s.locks MutexRef.mut1).free = true) (h2 : (s.locks MutexRef.mut2).free = true) :
    funcA1 t s =
      { s with trace := s.trace ++
          [ Event.cout "Thread A trying to lock mutexes 1 and 2......",
            Event.lock MutexRef.mut1,
            Event.try_lock MutexRef.mut2 true,
            Event.cout "Thread A has locked mutexes 1 and 2",
            Event.cout "Thread A has adopted the locks",
            Event.sleep_for 50,
            Event.cout "Thread A releasing mutexes 1 and 2",
            Event.unlock MutexRef.mut2,
            Event.unlock MutexRef.mut1 ] } := by
  unfold funcA1
  rw [run_step _ _ _ hb, run_step _ _ _ (by simp [cout, hb]),
    std_lock_free t MutexRef.mut1 MutexRef.mut2 (by decide) _ (by simp [cout, hb])
      (by simpa [cout] using h1) (by simpa [cout] using h2),
    run_step _ _ _ (by simp [cout, sleep_for, hb]),
    run_step _ _ _ (by simp [cout, sleep_for, hb]),
    run_step _ _ _ (by simp [cout, sleep_for, hb]),
    run_step _ _ _ (by simp [cout, sleep_for, hb]),
    run_step _ _ _ (by simp [cout, sleep_for, hb]),
    run_step _ _ _ (by simp [cout, sleep_for, unlock, hb]), run_nil]
  ext1
  · apply locks_restored t MutexRef.mut1 MutexRef.mut2 s.locks h1 h2
    intro q
    by_cases hq1 : q = MutexRef.mut1
    · subst hq1
      simp [unlock, cout, sleep_for, locks_setLock_other]
    · by_cases hq2 : q = MutexRef.mut2
      · subst hq2
        simp [unlock, cout, sleep_for, locks_setLock_other]
      · simp [unlock, cout, sleep_for, locks_setLock_other _ _ _ _ hq1,
          locks_setLock_other _ _ _ _ hq2, hq1, hq2]
  · simp [unlock, cout, sleep_for]
  · simp [unlock, cout, sleep_for]
  · simp [unlock, cout, sleep_for, hb]

/-- `funcB1` when `mut1` and `mut2` are free. -/
theorem funcB1_free (t : Tid) (s : State) (hb : s.blocked = none)
    (h1 : (s.locks MutexRef.mut1).free = true) (h2 : (s.locks MutexRef.mut2).free = true) :
    funcB1 t s =
      { s with trace := s.trace ++
          [ Event.cout "Thread B trying to lock mutexes 2 and 1......",
            Event.lock MutexRef.mut2,
            Event.try_lock MutexRef.mut1 true,
            Event.cout "Thread B has locked mutexes 1 and 2",
            Event.cout "Thread B has adopted the locks",
            Event.sleep_for 50,
            Event.cout "Thread B releasing mutexes 2 and 1",
            Event.unlock MutexRef.mut1,
            Event.unlock MutexRef.mut2 ] } := by
  unfold funcB1
  rw [run_step _ _ _ hb, run_step _ _ _ (by simp [cout, hb]),
    std_lock_free t MutexRef.mut2 MutexRef.mut1 (by decide) _ (by simp [cout, hb])
      (by simpa [cout] using h2) (by simpa [cout] using h1),
    run_step _ _ _ (by simp [cout, sleep_for, hb]),
    run_step _ _ _ (by simp [cout, sleep_for, hb]),
    run_step _ _ _ (by simp [cout, sleep_for, hb]),
    run_step _ _ _ (by simp [cout, sleep_for, hb]),
    run_step _ _ _ (by simp [cout, sleep_for, hb]),
    run_step _ _ _ (by simp [cout, sleep_for, unlock, hb]), run_nil]
  ext1
  · apply locks_restored t MutexRef.mut1 MutexRef.mut2 s.locks h1 h2
    intro q
    by_cases hq1 : q = MutexRef.mut1
    · subst hq1
      simp [unlock, cout, sleep_for, locks_setLock_other]
    · by_cases hq2 : q = MutexRef.mut2
      · subst hq2
        simp [unlock, cout, sleep_for, locks_setLock_other]
      · simp [unlock, cout, sleep_for, locks_setLock_other _ _ _ _ hq1,
          locks_setLock_other _ _ _ _ hq2, hq1, hq2]
  · simp [unlock, cout, sleep_for]
  · simp [unlock, cout, sleep_for]
  · simp [unlock, cout, sleep_for, hb]

/-- `funcA2` when `mut1` and `mut2` are free. -/
theorem funcA2_free (t : Tid) (s : State) (hb : s.blocked = none)
    (h1 : (s.locks MutexRef.mut1).free = true) (h2 : (s.locks MutexRef.mut2).free = true) :
    funcA2 t s =
      { s with trace := s.trace ++
          [ Event.cout "Thread A trying to lock mutexes 1 and 2.....",
            Event.lock MutexRef.mut1,
            Event.try_lock MutexRef.mut2 true,
            Event.cout "Thread A has locked mutexes 1 and 2",
            Event.sleep_for 50,
            Event.cout "Thread A releasing mutexes 1 nad 2",
            Event.unlock MutexRef.mut2,
            Event.unlock MutexRef.mut1 ] } := by
  unfold funcA2
  rw [run_step _ _ _ hb, run_step _ _ _ (by simp [cout, hb]),
    std_lock_free t MutexRef.mut1 MutexRef.mut2 (by decide) _ (by simp [cout, hb])
      (by simpa [cout] using h1) (by simpa [cout] using h2),
    run_step _ _ _ (by simp [cout, sleep_for, hb]),
    run_step _ _ _ (by simp [cout, sleep_for, hb]),
    run_step _ _ _ (by simp [cout, sleep_for, hb]),
    run_step _ _ _ (by simp [cout, sleep_for, hb]),
    run_step _ _ _ (by simp [cout, sleep_for, unlock, hb]), run_nil]
  ext1
  · apply locks_restored t MutexRef.mut1 MutexRef.mut2 s.locks h1 h2
    intro q
    by_cases hq1 : q = MutexRef.mut1
    · subst hq1
      simp [unlock, cout, sleep_for, locks_setLock_other]
    · by_cases hq2 : q = MutexRef.mut2
      · subst hq2
        simp [unlock, cout, sleep_for, locks_setLock_other]
      · simp [unlock, cout, sleep_for, locks_setLock_other _ _ _ _ hq1,
          locks_setLock_other _ _ _ _ hq2, hq1, hq2]
  · simp [unlock, cout, sleep_for]
  · simp [unlock, cout, sleep_for]
  · simp [unlock, cout, sleep_for, hb]

/-- `funcB2` when `mut1` and `mut2` are free. -/
theorem funcB2_free (t : Tid) (s : State) (hb : s.blocked = none)
    (h1 : (s.locks MutexRef.mut1).free = true) (h2 : (s.locks MutexRef.mut2).free = true) :
    funcB2 t s =
      { s with trace := s.trace ++
          [ Event.cout "Thread B trying to lock mutexes 2 and 1.....",
            Event.lock MutexRef.mut2,
            Event.try_lock MutexRef.mut1 true,
            Event.cout "Thread B has locked mutexes 2 and 1",
            Event.sleep_for 50,
            Event.cout "Thread B releasing mutexes 2 nad 1",
            Event.unlock MutexRef.mut1,
            Event.unlock MutexRef.mut2 ] } := by
  unfold funcB2
  rw [run_step _ _ _ hb, run_step _ _ _ (by simp [cout, hb]),
    std_lock_free t MutexRef.mut2 MutexRef.mut1 (by decide) _ (by simp [cout, hb])
      (by simpa [cout] using h2) (by simpa [cout] using h1),
    run_step _ _ _ (by simp [cout, sleep_for, hb]),
    run_step _ _ _ (by simp [cout, sleep_for, hb]),
    run_step _ _ _ (by simp [cout, sleep_for, hb]),
    run_step _ _ _ (by simp [cout, sleep_for, hb]),
    run_step _ _ _ (by simp [cout, sleep_for, unlock, hb]), run_nil]
  ext1
  · apply locks_restored t MutexRef.mut1 MutexRef.mut2 s.locks h1 h2
    intro q
    by_cases hq1 : q = MutexRef.mut1
    · subst hq1
      simp [unlock, cout, sleep_for, locks_setLock_other]
    · by_cases hq2 : q = MutexRef.mut2
      · subst hq2
        simp [unlock, cout, sleep_for, locks_setLock_other]
      · simp [unlock, cout, sleep_for, locks_setLock_other _ _ _ _ hq1,
          locks_setLock_other _ _ _ _ hq2, hq1, hq2]
  · simp [unlock, cout, sleep_for]
  · simp [unlock, cout, sleep_for]
  · simp [unlock, cout, sleep_for, hb]

/-- Uncontended runs: `funcA1` takes `mut1` then `mut2` and unlocks `mut2` before
`mut1`; `funcB1` takes `mut2` then `mut1` and unlocks `mut1` before `mut2`;
`dine(n)` takes its left fork then its right fork and unlocks the right fork
before the left fork. -/
theorem uncontended_release_order (t : Tid) (n : Int) (s : State) (hs : Idle s)
    (h0 : 0 ≤ n) (h1 : n < nphilosophers) :
    (acquired (funcA1 t s).trace = acquired s.trace ++ [MutexRef.mut1, MutexRef.mut2] ∧
      released (funcA1 t s).trace = released s.trace ++ [MutexRef.mut2, MutexRef.mut1]) ∧
    (acquired (funcB1 t s).trace = acquired s.trace ++ [MutexRef.mut2, MutexRef.mut1] ∧
      released (funcB1 t s).trace = released s.trace ++ [MutexRef.mut1, MutexRef.mut2]) ∧
    (forkNumbers (acquired (dine t n s).trace) =
        forkNumbers (acquired s.trace) ++ [lfork n, rfork n] ∧
      forkNumbers (released (dine t n s).trace) =
        forkNumbers (released s.trace) ++ [rfork n, lfork n]) := by
  obtain ⟨hb, hfree⟩ := hs
  have hd := forks_ne nforks n (by decide) h0 h1
  refine ⟨?_, ?_, ?_⟩
  · rw [funcA1_free t s hb (hfree _) (hfree _)]
    simp [acquired_append, released_append, acquired, released]
  · rw [funcB1_free t s hb (hfree _) (hfree _)]
    simp [acquired_append, released_append, acquired, released]
  · rw [dine_free t n s hb hd (hfree _) (hfree _) (hfree _) (hfree _)]
    simp [acquired_append, released_append, forkNumbers_append, acquired, released,
      forkNumbers, print_events, print_forks_events, increment_events]

/-! ## What `dine` holds while it sleeps, and what five calls add up to -/

/-- C14, as the code has it. `dine` does not release its forks right after the
eating delay: in an uncontended run the two fork mutexes are unlocked by the
destructors at the very end, after the "puts down forks" message, after the
"is thinking" message and after the final thinking delay, and both forks are
held during that delay. -/
theorem forks_held_while_thinking (t : Tid) (n : Int) (s : State) (hs : Idle s)
    (h0 : 0 ≤ n) (h1 : n < nphilosophers) :
    (∃ before, (dine t n s).trace =
      s.trace ++ (before ++
        (print_forks_events n " puts down forks " (lfork n) (rfork n) ++
         print_events n " is thinking...." ++
         [ Event.sleep_for think_time,
           Event.unlock (MutexRef.fork_mutex (rfork n)),
           Event.unlock (MutexRef.fork_mutex (lfork n)) ]))) ∧
    sleeps_holding ((dine t n s).trace.drop s.trace.length) [] =
      [ (think_time, []),
        (eat_time, [MutexRef.fork_mutex (rfork n), MutexRef.fork_mutex (lfork n)]),
        (think_time, [MutexRef.fork_mutex (rfork n), MutexRef.fork_mutex (lfork n)]) ] := by
  obtain ⟨hb, hfree⟩ := hs
  have hd := forks_ne nforks n (by decide) h0 h1
  rw [dine_free t n s hb hd (hfree _) (hfree _) (hfree _) (hfree _)]
  refine ⟨⟨print_forks_events n "'s forks are " (lfork n) (rfork n) ++
      print_events n " is thinking...." ++
      [Event.sleep_for think_time] ++
      print_forks_events n " reaches for forks " (lfork n) (rfork n) ++
      [ Event.index Arr.fork_mutex (lfork n),
        Event.index Arr.fork_mutex (rfork n),
        Event.lock (MutexRef.fork_mutex (lfork n)),
        Event.try_lock (MutexRef.fork_mutex (rfork n)) true,
        Event.index Arr.fork_mutex (lfork n),
        Event.index Arr.fork_mutex (rfork n) ] ++
      print_forks_events n " picks up fork " (lfork n) (rfork n) ++
      print_events n " is eating..." ++
      increment_events n ++
      [Event.sleep_for eat_time], by simp only [List.append_assoc]⟩, ?_⟩
  simp [sleeps_holding, print_events, print_forks_events, increment_events]

/-- Witness for C14: philosopher A (index 0, forks 0 and 1), thread 1, at program
start: forks 1 and 0 are held during the last `sleep_for(think_time)`. -/
theorem forks_held_while_thinking_witness :
    (0 : Int) ≤ 0 ∧ (0 : Int) < nphilosophers ∧
    sleeps_holding ((dine 1 0 State.init).trace.drop State.init.trace.length) [] =
      [ (think_time, []),
        (eat_time, [MutexRef.fork_mutex (rfork 0), MutexRef.fork_mutex (lfork 0)]),
        (think_time, [MutexRef.fork_mutex (rfork 0), MutexRef.fork_mutex (lfork 0)]) ] :=
  ⟨by decide, by decide,
    (forks_held_while_thinking 1 0 State.init init_idle (by decide) (by decide)).2⟩

/-- An uncontended call of `dine` leaves the state uncontended and adds one to
the counter of its philosopher. -/
theorem dine_idle (t : Tid) (n : Int) (s : State) (hs : Idle s)
    (h0 : 0 ≤ n) (h1 : n < nphilosophers) :
    Idle (dine t n s) ∧ (dine t n s).locks = s.locks ∧
    (dine t n s).mouthfuls =
      s.mouthfuls.set n.toNat (pre_increment (s.mouthfuls.getD n.toNat 0)) := by
  obtain ⟨hb, hfree⟩ := hs
  have hd := forks_ne nforks n (by decide) h0 h1
  rw [dine_free t n s hb hd (hfree _) (hfree _) (hfree _) (hfree _)]
  exact ⟨⟨hb, hfree⟩, rfl, by simp [h0]⟩

/-- The five calls in turn, from program start. -/
theorem dine_in_turn_init (t0 t1 t2 t3 t4 : Tid) :
    Idle (dine_in_turn t0 t1 t2 t3 t4 State.init) ∧
    (dine_in_turn t0 t1 t2 t3 t4 State.init).locks = State.init.locks ∧
    (dine_in_turn t0 t1 t2 t3 t4 State.init).mouthfuls = [1, 1, 1, 1, 1] := by
  obtain ⟨i0, l0, m0⟩ := dine_idle t0 0 State.init init_idle (by decide) (by decide)
  obtain ⟨i1, l1, m1⟩ := dine_idle t1 1 _ i0 (by decide) (by decide)
  obtain ⟨i2, l2, m2⟩ := dine_idle t2 2 _ i1 (by decide) (by decide)
  obtain ⟨i3, l3, m3⟩ := dine_idle t3 3 _ i2 (by decide) (by decide)
  obtain ⟨i4, l4, m4⟩ := dine_idle t4 4 _ i3 (by decide) (by decide)
  have hrun : dine_in_turn t0 t1 t2 t3 t4 State.init =
      dine t4 4 (dine t3 3 (dine t2 2 (dine t1 1 (dine t0 0 State.init)))) := by
    unfold dine_in_turn
    rw [run_step _ _ _ init_idle.1, run_step _ _ _ i0.1, run_step _ _ _ i1.1,
      run_step _ _ _ i2.1, run_step _ _ _ i3.1, run_nil]
  rw [hrun]
  refine ⟨i4, ?_, ?_⟩
  · rw [l4, l3, l2, l1, l0]
  · rw [m4, m3, m2, m1, m0]
    decide

/-- The five calls in turn.  `dine` has no loop: one call is one eating cycle.
When the five calls `dine(0)`, ..., `dine(4)` run one after the other from
program start, whatever threads run them, no call has to wait, every mutex is
free again at the end, and every counter `mouthfuls[i]` is 1. -/
theorem every_philosopher_eats_once (t0 t1 t2 t3 t4 : Tid) :
    (dine_in_turn t0 t1 t2 t3 t4 State.init).mouthfuls = [1, 1, 1, 1, 1] ∧
    (dine_in_turn t0 t1 t2 t3 t4 State.init).blocked = none ∧
    (∀ m, ((dine_in_turn t0 t1 t2 t3 t4 State.init).locks m).free = true) := by
  obtain ⟨hi, _, hm⟩ := dine_in_turn_init t0 t1 t2 t3 t4
  exact ⟨hm, hi.1, hi.2⟩

/-- C15 as stated fails: after the five calls (threads 1 to 5) the counters are
1, not 3. -/
theorem counters_are_not_three :
    (dine_in_turn 1 2 3 4 5 State.init).mouthfuls = [1, 1, 1, 1, 1] ∧
    (dine_in_turn 1 2 3 4 5 State.init).mouthfuls ≠ [3, 3, 3, 3, 3] ∧
    (dine_in_turn 1 2 3 4 5 State.init).blocked = none := by
  refine ⟨by decide, by decide, by decide⟩

/-! ## The back-off routines -/

/-- A failed attempt of the retry loop. -/
theorem backoff_attempt_fails (t : Tid) (first second : MutexRef) (hne : first ≠ second)
    (es : Option Nat) (g d : String) (s : State)
    (h1 : (s.locks first).free = true) (h2 : (s.locks second).free = false) :
    solo (backoff_step t first second es g d) 5 Thread.retrying s =
      (Thread.retrying, { s with trace := s.trace ++ failed_attempt first second g }) := by
  have hsf : second ≠ first := fun h => hne h.symm
  have h3 : (((s.setLock first { exclusive := [t], shared := [] }).emit (Event.lock first)).locks
      second).free = false := by
    simp [locks_setLock_other _ _ _ _ hsf, h2]
  simp only [solo, backoff_step, Thread.retrying, lock_of_free _ t h1, Bool.false_eq_true,
    if_false, cout, sleep_for, locks_emit]
  rw [try_lock_taken t second _ (by simpa using h3)]
  simp only [Prod.mk.injEq, true_and]
  ext1
  · funext q
    by_cases hq : q = first
    · subst hq
      simp [unlock, locks_setLock_other _ _ _ _ hne, Mutex.unlock, free_eq _ h1]
    · by_cases hq2 : q = second
      · subst hq2
        simp [unlock, locks_setLock_other _ _ _ _ hq]
      · simp [unlock, locks_setLock_other _ _ _ _ hq, locks_setLock_other _ _ _ _ hq2]
  · simp [unlock]
  · simp [unlock, failed_attempt]
  · simp [unlock]

theorem exec_append (tz ty : Tid) (ws1 ws2 : List Who) (c : Duo) :
    Duo.exec tz ty (ws1 ++ ws2) c =
      match Duo.exec tz ty ws1 c with
      | some c2 => Duo.exec tz ty ws2 c2
      | none => none := by
  induction ws1 generalizing c with
  | nil => rfl
  | cons w ws ih =>
    simp only [List.cons_append, Duo.exec]
    cases c.step tz ty w with
    | none => rfl
    | some c2 => exact ih c2

/-- One lockstep round from a configuration in which both threads are about to
start an attempt and both mutexes are free leads back to such a configuration. -/
theorem lockstep_round_returns (tz ty : Tid) (c : Duo)
    (hz : c.z = Thread.retrying) (hy : c.y = Thread.retrying)
    (h1 : (c.shared.locks MutexRef.lmut1).free = true)
    (h2 : (c.shared.locks MutexRef.lmut2).free = true) :
    Duo.exec tz ty lockstep_round c =
      some { c with shared := { c.shared with trace := c.shared.trace ++ lockstep_events } } := by
  obtain ⟨z, y, s⟩ := c
  simp only [] at hz hy h1 h2
  subst hz hy
  have e1 := free_eq _ h1
  have e2 := free_eq _ h2
  have n12 : MutexRef.lmut1 ≠ MutexRef.lmut2 := by decide
  have n21 : MutexRef.lmut2 ≠ MutexRef.lmut1 := by decide
  simp only [lockstep_round, Duo.exec, Duo.step, funcZ_step, funcY_step, backoff_step,
    Thread.retrying, Bool.false_eq_true, if_false, Option.map, lock_of_free _ tz h1,
    locks_emit, locks_setLock_other _ _ _ _ n21, lock_of_free _ ty h2, cout, sleep_for,
    try_lock, locks_setLock_same, locks_setLock_other _ _ _ _ n12, Mutex.try_lock, Mutex.free,
    List.isEmpty_cons, Bool.false_and, unlock]
  simp only [Option.some.injEq, Duo.mk.injEq, true_and]
  ext1
  · funext q
    by_cases hq : q = MutexRef.lmut1
    · subst hq
      simp [locks_setLock_other _ _ _ _ n12, Mutex.unlock, e1]
    · by_cases hq2 : q = MutexRef.lmut2
      · subst hq2
        simp [locks_setLock_other _ _ _ _ n21, Mutex.unlock, e2]
      · simp [locks_setLock_other _ _ _ _ hq, locks_setLock_other _ _ _ _ hq2]
  · simp
  · simp [lockstep_events]
  · simp

/-- The lockstep schedule with `k` rounds, from the start of `main`. -/
theorem lockstep_reaches (tz ty : Tid) (k : Nat) :
    Duo.exec tz ty (lockstep k) Duo.start =
      some { z := Thread.retrying, y := Thread.retrying,
             shared := { State.init with trace := lockstep_trace k } } := by
  induction k with
  | zero => rfl
  | succ k ih =>
    simp only [lockstep, exec_append, ih]
    exact lockstep_round_returns tz ty
      { z := Thread.retrying, y := Thread.retrying,
        shared := { State.init with trace := lockstep_trace k } } rfl rfl rfl rfl

theorem successful_tries_append (l1 l2 : List Event) :
    successful_tries (l1 ++ l2) = successful_tries l1 ++ successful_tries l2 := by
  induction l1 with
  | nil => rfl
  | cons e es ih =>
    cases e with
    | try_lock m ok => cases ok <;> simp [successful_tries, ih]
    | _ => simp [successful_tries, ih]

theorem lockstep_trace_no_success (k : Nat) : successful_tries (lockstep_trace k) = [] := by
  induction k with
  | zero => rfl
  | succ k ih =>
    simp only [lockstep_trace, successful_tries_append, ih]
    rfl

/-- C17. Livelock is reachable: for every number `k` of rounds the lockstep
schedule of `thrZ` (`funcZ`) and `thrY` (`funcY`) can be run from the start of
`main`; after it both threads are again at the top of their retry loop with
`locked == false`, both mutexes are free, each thread has locked and unlocked its
first mutex `k` times, and not one `try_lock` has succeeded.  The schedule with
`k + 1` rounds extends the one with `k` rounds, so the interleaving goes on for
ever and neither thread leaves its loop. -/
theorem livelock_in_lockstep (tz ty : Tid) (k : Nat) :
    (∃ c, Duo.exec tz ty (lockstep k) Duo.start = some c ∧
      c.z = Thread.retrying ∧ c.y = Thread.retrying ∧
      c.shared.locks = State.init.locks ∧
      c.shared.trace = lockstep_trace k ∧
      successful_tries c.shared.trace = [] ∧
      acquired c.shared.trace = released c.shared.trace) ∧
    lockstep (k + 1) = lockstep k ++ lockstep_round ∧
    lockstep_trace (k + 1) = lockstep_trace k ++ lockstep_events := by
  refine ⟨⟨_, lockstep_reaches tz ty k, rfl, rfl, rfl, rfl, lockstep_trace_no_success k, ?_⟩,
    rfl, rfl⟩
  show acquired (lockstep_trace k) = released (lockstep_trace k)
  induction k with
  | zero => rfl
  | succ k ih =>
    simp only [lockstep_trace, acquired_append, released_append, ih]
    rfl

/-- C16, as the code has it. In each attempt of `funcZ` (first `lmut1`, second
`lmut2`) and of `funcY` (first `lmut2`, second `lmut1`) the first mutex is
acquired by a blocking lock, the message is printed and the fixed delay of 2 s
is waited while the first mutex is held, the second mutex is then tried without
blocking, and the first mutex is released at the end of the attempt.  After a
failed try the thread is back at the top of the loop at once: no delay is waited
while it holds nothing. -/
theorem backoff_attempt_order (t : Tid) (sz sy : State)
    (hz1 : (sz.locks MutexRef.lmut1).free = true) (hz2 : (sz.locks MutexRef.lmut2).free = false)
    (hy2 : (sy.locks MutexRef.lmut2).free = true) (hy1 : (sy.locks MutexRef.lmut1).free = false) :
    solo (funcZ_step t) 5 Thread.retrying sz =
      (Thread.retrying,
        { sz with trace := sz.trace ++
            [ Event.lock MutexRef.lmut1, Event.cout "After you, Claude!", Event.sleep_for 2000,
              Event.try_lock MutexRef.lmut2 false, Event.unlock MutexRef.lmut1 ] }) ∧
    solo (funcY_step t) 5 Thread.retrying sy =
      (Thread.retrying,
        { sy with trace := sy.trace ++
            [ Event.lock MutexRef.lmut2, Event.cout "After you Cecil", Event.sleep_for 2000,
              Event.try_lock MutexRef.lmut1 false, Event.unlock MutexRef.lmut2 ] }) ∧
    sleeps_holding (failed_attempt MutexRef.lmut1 MutexRef.lmut2 "After you, Claude!") [] =
      [(2000, [MutexRef.lmut1])] ∧
    sleeps_holding (failed_attempt MutexRef.lmut2 MutexRef.lmut1 "After you Cecil") [] =
      [(2000, [MutexRef.lmut2])] := by
  refine ⟨?_, ?_, rfl, rfl⟩
  · exact backoff_attempt_fails t _ _ (by decide) _ _ _ sz hz1 hz2
  · exact backoff_attempt_fails t _ _ (by decide) _ _ _ sy hy2 hy1

/-- Witness for C16 as amended: thread 1, with `lmut2` resp. `lmut1` held by
thread 5. -/
theorem backoff_attempt_order_witness :
    (lmut2_taken.locks MutexRef.lmut1).free = true ∧
    (lmut2_taken.locks MutexRef.lmut2).free = false ∧
    (lmut1_taken.locks MutexRef.lmut2).free = true ∧
    (lmut1_taken.locks MutexRef.lmut1).free = false ∧
    (solo (funcZ_step 1) 5 Thread.retrying lmut2_taken).1 = Thread.retrying ∧
    (solo (funcY_step 1) 5 Thread.retrying lmut1_taken).1 = Thread.retrying :=
  ⟨by decide, by decide, by decide, by decide,
    congrArg Prod.fst
      (backoff_attempt_order 1 lmut2_taken lmut1_taken (by decide) (by decide) (by decide)
        (by decide)).1,
    congrArg Prod.fst
      (backoff_attempt_order 1 lmut2_taken lmut1_taken (by decide) (by decide) (by decide)
        (by decide)).2.1⟩

/-- C16 as stated fails: `funcZ` run by thread 1 while thread 5 holds `lmut2`.
After 11 steps it has made two attempts; each delay of 2 s was waited while
`lmut1` was held, and the second attempt follows the release of `lmut1` with no
delay in between. -/
theorem delay_is_waited_holding_first :
    (funcZ 1 11 lmut2_taken).2.trace =
      [ Event.sleep_for 10,
        Event.lock MutexRef.lmut1, Event.cout "After you, Claude!", Event.sleep_for 2000,
        Event.try_lock MutexRef.lmut2 false, Event.unlock MutexRef.lmut1,
        Event.lock MutexRef.lmut1, Event.cout "After you, Claude!", Event.sleep_for 2000,
        Event.try_lock MutexRef.lmut2 false, Event.unlock MutexRef.lmut1 ] ∧
    sleeps_holding (funcZ 1 11 lmut2_taken).2.trace [] =
      [(10, []), (2000, [MutexRef.lmut1]), (2000, [MutexRef.lmut1])] := by
  refine ⟨by decide, by decide⟩

/-- C11, where the code departs from it. `funcZ`, run by thread 1 at program
start, returns after 8 steps having acquired `lmut1` and `lmut2` and released
`lmut1` only: `lmut2` is still held by thread 1.  `funcY` likewise returns
holding `lmut1`. -/
theorem backoff_routines_keep_second_mutex :
    ((funcZ 1 8 State.init).1.pc = Pc.returned ∧
      acquired (funcZ 1 8 State.init).2.trace = [MutexRef.lmut1, MutexRef.lmut2] ∧
      released (funcZ 1 8 State.init).2.trace = [MutexRef.lmut1] ∧
      ((funcZ 1 8 State.init).2.locks MutexRef.lmut2).heldBy 1 = true ∧
      ((funcZ 1 8 State.init).2.locks MutexRef.lmut1).free = true) ∧
    ((funcY 1 8 State.init).1.pc = Pc.returned ∧
      acquired (funcY 1 8 State.init).2.trace = [MutexRef.lmut2, MutexRef.lmut1] ∧
      released (funcY 1 8 State.init).2.trace = [MutexRef.lmut2] ∧
      ((funcY 1 8 State.init).2.locks MutexRef.lmut1).heldBy 1 = true ∧
      ((funcY 1 8 State.init).2.locks MutexRef.lmut2).free = true) := by
  refine ⟨⟨by decide, by decide, by decide, by decide, by decide⟩,
    ⟨by decide, by decide, by decide, by decide, by decide⟩⟩

/-! ## Release symmetry of the routines that use lock objects -/

/-- `std::try_lock(a, b)` on two free mutexes takes both. -/
theorem std_try_lock_free (t : Tid) (a b : MutexRef) (hab : a ≠ b) (s : State)
    (ha : (s.locks a).free = true) (hfb : (s.locks b).free = true) :
    std_try_lock t a b s =
      (-1, (((s.setLock a { exclusive := [t], shared := [] }).emit (Event.try_lock a true)).setLock b
        { exclusive := [t], shared := [] }).emit (Event.try_lock b true)) := by
  have hba : b ≠ a := fun h => hab h.symm
  have h2 : (((s.setLock a { exclusive := [t], shared := [] }).emit
      (Event.try_lock a true)).locks b).free = true := by
    simp [locks_setLock_other _ _ _ _ hba, hfb]
  simp only [std_try_lock]
  rw [try_lock_free t a s ha, try_lock_free t b _ h2]
  simp

/-- `funcA3` when `mut1` and `mut2` are free. -/
theorem funcA3_free (t : Tid) (s : State) (hb : s.blocked = none)
    (h1 : (s.locks MutexRef.mut1).free = true) (h2 : (s.locks MutexRef.mut2).free = true) :
    funcA3 t s =
      { s with trace := s.trace ++
          [ Event.cout "Thread A trying to lock mutexes 1 and 2......",
            Event.try_lock MutexRef.mut1 true,
            Event.try_lock MutexRef.mut2 true,
            Event.cout "Thread A has locked mutexes 1 and 2",
            Event.sleep_for 50,
            Event.unlock MutexRef.mut2,
            Event.unlock MutexRef.mut1 ] } := by
  simp only [funcA3, funcA3_try]
  rw [std_try_lock_free t MutexRef.mut1 MutexRef.mut2 (by decide) _
    (by simpa [cout] using h1) (by simpa [cout] using h2)]
  simp only [ne_eq, not_true_eq_false, if_false]
  rw [run_step _ _ _ (by simp [cout, hb]), run_step _ _ _ (by simp [cout, hb]),
    run_step _ _ _ (by simp [cout, sleep_for, hb]),
    run_step _ _ _ (by simp [cout, sleep_for, unlock, hb]), run_nil]
  ext1
  · apply locks_restored t MutexRef.mut1 MutexRef.mut2 s.locks h1 h2
    intro q
    by_cases hq1 : q = MutexRef.mut1
    · subst hq1
      simp [unlock, cout, sleep_for, locks_setLock_other]
    · by_cases hq2 : q = MutexRef.mut2
      · subst hq2
        simp [unlock, cout, sleep_for, locks_setLock_other]
      · simp [unlock, cout, sleep_for, locks_setLock_other _ _ _ _ hq1,
          locks_setLock_other _ _ _ _ hq2, hq1, hq2]
  · simp [unlock, cout, sleep_for]
  · simp [unlock, cout, sleep_for]
  · simp [unlock, cout, sleep_for, hb]

/-- `funcB3` when `mut1` and `mut2` are free. -/
theorem funcB3_free (t : Tid) (s : State) (hb : s.blocked = none)
    (h1 : (s.locks MutexRef.mut1).free = true) (h2 : (s.locks MutexRef.mut2).free = true) :
    funcB3 t s =
      { s with trace := s.trace ++
          [ Event.cout "Thread B trying to lock mutexes 2 and 1......",
            Event.try_lock MutexRef.mut1 true,
            Event.try_lock MutexRef.mut2 true,
            Event.cout "Thread B has locked mutexes 2 and 1",
            Event.sleep_for 50,
            Event.unlock MutexRef.mut1,
            Event.unlock MutexRef.mut2 ] } := by
  simp only [funcB3, funcB3_try]
  rw [std_try_lock_free t MutexRef.mut1 MutexRef.mut2 (by decide) _
    (by simpa [cout] using h1) (by simpa [cout] using h2)]
  simp only [ne_eq, not_true_eq_false, if_false]
  rw [run_step _ _ _ (by simp [cout, hb]), run_step _ _ _ (by simp [cout, hb]),
    run_step _ _ _ (by simp [cout, sleep_for, hb]),
    run_step _ _ _ (by simp [cout, sleep_for, unlock, hb]), run_nil]
  ext1
  · apply locks_restored t MutexRef.mut1 MutexRef.mut2 s.locks h1 h2
    intro q
    by_cases hq1 : q = MutexRef.mut1
    · subst hq1
      simp [unlock, cout, sleep_for, locks_setLock_other]
    · by_cases hq2 : q = MutexRef.mut2
      · subst hq2
        simp [unlock, cout, sleep_for, locks_setLock_other]
      · simp [unlock, cout, sleep_for, locks_setLock_other _ _ _ _ hq1,
          locks_setLock_other _ _ _ _ hq2, hq1, hq2]
  · simp [unlock, cout, sleep_for]
  · simp [unlock, cout, sleep_for]
  · simp [unlock, cout, sleep_for, hb]

/-- The routines that hold their mutexes through lock objects release what they
take: in an uncontended run of `dine`, `funcA`, `funcB`, `funcA1`, `funcB1`,
`funcA2`, `funcB2`, `funcA3` or `funcB3` every mutex is free again at the end and
the releases are the acquisitions, each once. -/
theorem scoped_routines_release_all (t : Tid) (n : Int) (s : State) (hs : Idle s)
    (h0 : 0 ≤ n) (h1 : n < nphilosophers) :
    ∀ r ∈ [dine t n s, funcA t s, funcB t s, funcA1 t s, funcB1 t s, funcA2 t s, funcB2 t s,
        funcA3 t s, funcB3 t s],
      r.blocked = none ∧ r.locks = s.locks ∧
      ∃ a b, acquired r.trace = acquired s.trace ++ a ∧
        released r.trace = released s.trace ++ b ∧ a.Perm b := by
  obtain ⟨hb, hfree⟩ := hs
  have hd := forks_ne nforks n (by decide) h0 h1
  intro r hr
  simp only [List.mem_cons, List.mem_singleton, List.not_mem_nil, or_false] at hr
  rcases hr with rfl | rfl | rfl | rfl | rfl | rfl | rfl | rfl | rfl
  · rw [dine_free t n s hb hd (hfree _) (hfree _) (hfree _) (hfree _)]
    refine ⟨hb, rfl, _, _, by simp only [acquired_append]; rfl,
      by simp only [released_append]; rfl, ?_⟩
    simp only [acquired_append, released_append, acquired, released, print_events,
      print_forks_events, increment_events, List.append_assoc, List.cons_append,
      List.nil_append, List.append_nil]
    rw [List.perm_iff_count]
    intro m
    simp only [List.count_cons, List.count_nil]
    omega
  · rw [funcA_free t s hb (hfree _) (hfree _)]
    refine ⟨hb, rfl, [MutexRef.mut1, MutexRef.mut2], [MutexRef.mut1, MutexRef.mut2],
      by simp [acquired_append, acquired], by simp [released_append, released],
      List.Perm.refl _⟩
  · rw [funcB_free t s hb (hfree _) (hfree _)]
    refine ⟨hb, rfl, [MutexRef.mut2, MutexRef.mut1], [MutexRef.mut2, MutexRef.mut1],
      by simp [acquired_append, acquired], by simp [released_append, released],
      List.Perm.refl _⟩
  · rw [funcA1_free t s hb (hfree _) (hfree _)]
    refine ⟨hb, rfl, [MutexRef.mut1, MutexRef.mut2], [MutexRef.mut2, MutexRef.mut1],
      by simp [acquired_append, acquired], by simp [released_append, released],
      List.Perm.swap _ _ _⟩
  · rw [funcB1_free t s hb (hfree _) (hfree _)]
    refine ⟨hb, rfl, [MutexRef.mut2, MutexRef.mut1], [MutexRef.mut1, MutexRef.mut2],
      by simp [acquired_append, acquired], by simp [released_append, released],
      List.Perm.swap _ _ _⟩
  · rw [funcA2_free t s hb (hfree _) (hfree _)]
    refine ⟨hb, rfl, [MutexRef.mut1, MutexRef.mut2], [MutexRef.mut2, MutexRef.mut1],
      by simp [acquired_append, acquired], by simp [released_append, released],
      List.Perm.swap _ _ _⟩
  · rw [funcB2_free t s hb (hfree _) (hfree _)]
    refine ⟨hb, rfl, [MutexRef.mut2, MutexRef.mut1], [MutexRef.mut1, MutexRef.mut2],
      by simp [acquired_append, acquired], by simp [released_append, released],
      List.Perm.swap _ _ _⟩
  · rw [funcA3_free t s hb (hfree _) (hfree _)]
    refine ⟨hb, rfl, [MutexRef.mut1, MutexRef.mut2], [MutexRef.mut2, MutexRef.mut1],
      by simp [acquired_append, acquired], by simp [released_append, released],
      List.Perm.swap _ _ _⟩
  · rw [funcB3_free t s hb (hfree _) (hfree _)]
    refine ⟨hb, rfl, [MutexRef.mut1, MutexRef.mut2], [MutexRef.mut1, MutexRef.mut2],
      by simp [acquired_append, acquired], by simp [released_append, released],
      List.Perm.refl _⟩

end Deadlock

namespace ReaderWriter

open Sync

/-! ## Readers and writers of `x` and `y` -/

theorem modifications_append (l1 l2 : List Event) :
    modifications (l1 ++ l2) = modifications l1 ++ modifications l2 := by
  induction l1 with
  | nil => rfl
  | cons e es ih => cases e <;> simp [modifications, ih]

/-- `read2` writes to no shared variable, whatever the lock state. -/
theorem read2_frame (t : Tid) (s : State) :
    (read2 t s).x = s.x ∧ (read2 t s).y = s.y ∧
    modifications (read2 t s).trace = modifications s.trace := by
  cases hb : s.blocked with
  | some r => simp [read2, run, hb]
  | none =>
    cases he : (s.locks MutexRef.shmut).exclusive.isEmpty with
    | false =>
      simp [read2, run, hb, lock_shared, Mutex.lock_shared, he, State.get]
    | true =>
      simp [read2, run, hb, lock_shared, Mutex.lock_shared, he, State.get, State.set,
        State.emit, sleep_for, unlock_shared, modifications_append, modifications]

/-- `read` writes to no shared variable, whatever the lock state. -/
theorem read_frame (t : Tid) (s : State) :
    (read t s).x = s.x ∧ (read t s).y = s.y ∧
    modifications (read t s).trace = modifications s.trace := by
  cases hb : s.blocked with
  | some r => simp [read, run, hb]
  | none =>
    cases hf : (s.locks MutexRef.mut).free with
    | false =>
      simp [read, run, hb, lock, Mutex.lock, hf, State.get]
    | true =>
      simp [read, run, hb, lock, Mutex.lock, hf, State.get, State.set,
        State.emit, cout_x, unlock, modifications_append, modifications]

/-- `read2` when no thread holds `shmut` exclusively: it holds `shmut` in shared
mode from its first to its last step. -/
theorem read2_shared (t : Tid) (s : State) (hb : s.blocked = none)
    (he : (s.locks MutexRef.shmut).exclusive = []) :
    (read2 t s).trace = s.trace ++
      [ Event.lock_shared MutexRef.shmut, Event.sleep_for 100,
        Event.unlock_shared MutexRef.shmut ] ∧
    (read2 t s).blocked = none := by
  simp [read2, run, hb, lock_shared, Mutex.lock_shared, he, State.get, State.set,
    State.emit, sleep_for, unlock_shared]

/-- `write1` when `shmut` is free. -/
theorem write1_free (t : Tid) (s : State) (hb : s.blocked = none)
    (hf : (s.locks MutexRef.shmut).free = true) :
    write1 t s =
      { s with
        y := pre_increment s.y
        trace := s.trace ++
          [ Event.lock MutexRef.shmut,
            Event.modify Var.y { exclusive := [t], shared := [] },
            Event.unlock MutexRef.shmut ] } := by
  have hm := free_eq _ hf
  ext1
  · funext q
    by_cases hq : q = MutexRef.shmut
    · subst hq
      simp [write1, run, hb, lock, Mutex.lock, State.get, State.set, State.emit, hm,
        Mutex.free, incr_y, unlock, Mutex.unlock]
    · simp [write1, run, hb, lock, Mutex.lock, State.get, State.set, State.emit, hm,
        Mutex.free, incr_y, unlock, Mutex.unlock, hq]
  all_goals
    simp [write1, run, hb, lock, Mutex.lock, State.get, State.set, State.emit, hm,
      Mutex.free, incr_y, unlock, Mutex.unlock]

/-- `write` when `mut` is free. -/
theorem write_free (t : Tid) (s : State) (hb : s.blocked = none)
    (hf : (s.locks MutexRef.mut).free = true) :
    write t s =
      { s with
        x := pre_increment s.x
        trace := s.trace ++
          [ Event.lock MutexRef.mut,
            Event.modify Var.x { exclusive := [t], shared := [] },
            Event.unlock MutexRef.mut ] } := by
  have hm := free_eq _ hf
  ext1
  · funext q
    by_cases hq : q = MutexRef.mut
    · subst hq
      simp [write, run, hb, lock, Mutex.lock, State.get, State.set, State.emit, hm,
        Mutex.free, incr_x, unlock, Mutex.unlock]
    · simp [write, run, hb, lock, Mutex.lock, State.get, State.set, State.emit, hm,
        Mutex.free, incr_x, unlock, Mutex.unlock, hq]
  all_goals
    simp [write, run, hb, lock, Mutex.lock, State.get, State.set, State.emit, hm,
      Mutex.free, incr_x, unlock, Mutex.unlock]

/-- A writer that finds its mutex taken waits and has written nothing. -/
theorem write1_waits (t : Tid) (s : State) (hb : s.blocked = none)
    (hf : (s.locks MutexRef.shmut).free = false) :
    write1 t s = { s with blocked := some MutexRef.shmut } := by
  simp [write1, run, hb, lock, Mutex.lock, State.get, hf]

theorem write_waits (t : Tid) (s : State) (hb : s.blocked = none)
    (hf : (s.locks MutexRef.mut).free = false) :
    write t s = { s with blocked := some MutexRef.mut } := by
  simp [write, run, hb, lock, Mutex.lock, State.get, hf]

theorem pre_increment_eq (v : Int) (h : v < INT_MAX) : pre_increment v = v + 1 := by
  simp [pre_increment, h]

/-- C10. Shared data is never written under a shared lock.  `read2`, which takes
`shmut` in shared mode, leaves `y` (and `x`) unchanged and performs no write;
`read` leaves `x` (and `y`) unchanged and performs no write.  `write1` and
`write` perform exactly one write each, to `y` resp. `x`, at a moment when the
calling thread is the only holder of `shmut` resp. `mut` and holds it
exclusively, and the variable grows by exactly 1 (the `int` not being at its
maximum); a writer that cannot take its mutex writes nothing. -/
theorem shared_data_written_exclusively (t : Tid) (s : State) (hb : s.blocked = none)
    (hx : s.x < INT_MAX) (hy : s.y < INT_MAX) :
    ((read2 t s).y = s.y ∧ (read2 t s).x = s.x ∧
      modifications (read2 t s).trace = modifications s.trace) ∧
    ((read t s).x = s.x ∧ (read t s).y = s.y ∧
      modifications (read t s).trace = modifications s.trace) ∧
    ((s.locks MutexRef.shmut).exclusive = [] →
      (read2 t s).trace = s.trace ++
        [ Event.lock_shared MutexRef.shmut, Event.sleep_for 100,
          Event.unlock_shared MutexRef.shmut ]) ∧
    ((s.locks MutexRef.shmut).free = true →
      (write1 t s).y = s.y + 1 ∧ (write1 t s).x = s.x ∧
      modifications (write1 t s).trace =
        modifications s.trace ++ [(Var.y, { exclusive := [t], shared := [] })] ∧
      (write1 t s).trace = s.trace ++
        [ Event.lock MutexRef.shmut,
          Event.modify Var.y { exclusive := [t], shared := [] },
          Event.unlock MutexRef.shmut ]) ∧
    ((s.locks MutexRef.mut).free = true →
      (write t s).x = s.x + 1 ∧ (write t s).y = s.y ∧
      modifications (write t s).trace =
        modifications s.trace ++ [(Var.x, { exclusive := [t], shared := [] })] ∧
      (write t s).trace = s.trace ++
        [ Event.lock MutexRef.mut,
          Event.modify Var.x { exclusive := [t], shared := [] },
          Event.unlock MutexRef.mut ]) ∧
    ((s.locks MutexRef.shmut).free = false →
      (write1 t s).y = s.y ∧ modifications (write1 t s).trace = modifications s.trace) ∧
    ((s.locks MutexRef.mut).free = false →
      (write t s).x = s.x ∧ modifications (write t s).trace = modifications s.trace) := by
  obtain ⟨r1, r2, r3⟩ := read2_frame t s
  refine ⟨⟨r2, r1, r3⟩, read_frame t s, ?_, ?_, ?_, ?_, ?_⟩
  · intro he
    exact (read2_shared t s hb he).1
  · intro hf
    rw [write1_free t s hb hf]
    refine ⟨pre_increment_eq _ hy, rfl, ?_, rfl⟩
    simp [modifications_append, modifications]
  · intro hf
    rw [write_free t s hb hf]
    refine ⟨pre_increment_eq _ hx, rfl, ?_, rfl⟩
    simp [modifications_append, modifications]
  · intro hf
    rw [write1_waits t s hb hf]
    exact ⟨rfl, rfl⟩
  · intro hf
    rw [write_waits t s hb hf]
    exact ⟨rfl, rfl⟩

/-- Witness for C10: thread 1 at program start (`x = 0`, `y = 0`, both mutexes
free). -/
theorem shared_data_written_exclusively_witness :
    (write1 1 State.init).y = 1 ∧ (write 1 State.init).x = 1 ∧
    (read2 1 (write1 1 State.init)).y = 1 ∧
    State.init.blocked = none ∧ State.init.x < INT_MAX ∧ State.init.y < INT_MAX ∧
    (write1 1 State.init).y = State.init.y + 1 :=
  ⟨by decide, by decide, by decide, rfl, by decide, by decide,
    ((shared_data_written_exclusively 1 State.init rfl (by decide) (by decide)).2.2.2.1 rfl).1⟩

end ReaderWriter

namespace ReaderWriter

open Sync

/-! ## One-time initialisation of the singleton -/

/-- Once the static is initialised, a call changes nothing and returns the
instance it holds. -/
theorem get_singleton_initialised (g : Statics) (obj : Nat) (h : g.single = some obj) :
    get_singleton g = (obj, g) := by
  simp [get_singleton, h]

theorem get_singleton_calls_initialised (k : Nat) (g : Statics) (obj : Nat)
    (h : g.single = some obj) :
    get_singleton_calls k g = (List.replicate k obj, g) := by
  induction k with
  | zero => rfl
  | succ k ih =>
    simp only [get_singleton_calls, get_singleton_initialised g obj h, ih, List.replicate_succ]

/-- The calls of `get_singleton` at program start: the first one constructs
instance 1, all return it. -/
theorem get_singleton_calls_init (k : Nat) :
    get_singleton_calls (k + 1) Statics.init =
      (List.replicate (k + 1) 1,
        { single := some 1, constructed := 1, single_mut := Mutex.unlocked,
          out := [Output.initializing] }) := by
  have h1 : get_singleton Statics.init =
      (1, { single := some 1, constructed := 1, single_mut := Mutex.unlocked,
            out := [Output.initializing] }) := rfl
  have h2 := get_singleton_calls_initialised k
    { single := some 1, constructed := 1, single_mut := Mutex.unlocked,
      out := [Output.initializing] } 1 rfl
  simp only [get_singleton_calls, h1, h2, List.replicate_succ]

/-- C20. One-time initialisation: for every number `k ≥ 1` of calls of
`get_singleton` from program start, the constructor of `Singleton` has run
exactly once (its line is printed once), it ran during the first call, and every
call returned a reference to the same instance; so do the ten tasks of `main`,
which all print the same address. -/
theorem one_time_initialisation (k : Nat) (hk : 1 ≤ k) :
    (get_singleton_calls k Statics.init).2.constructed = 1 ∧
    (get_singleton_calls k Statics.init).2.out = [Output.initializing] ∧
    (get_singleton Statics.init).2.constructed = 1 ∧
    (get_singleton_calls k Statics.init).1 = List.replicate k (get_singleton Statics.init).1 ∧
    (∀ a ∈ (get_singleton_calls k Statics.init).1,
      ∀ b ∈ (get_singleton_calls k Statics.init).1, a = b) ∧
    (main.map fun g => (g.constructed, g.out)) =
      some (1, Output.initializing :: List.replicate 10 (Output.address 1)) := by
  obtain ⟨j, rfl⟩ : ∃ j, k = j + 1 := ⟨k - 1, by omega⟩
  rw [get_singleton_calls_init j]
  refine ⟨rfl, rfl, rfl, rfl, ?_, by decide⟩
  intro a ha b hb
  rw [List.eq_of_mem_replicate ha, List.eq_of_mem_replicate hb]

/-- Witness for C20: the ten calls of the driver. -/
theorem one_time_initialisation_witness :
    1 ≤ 10 ∧ (get_singleton_calls 10 Statics.init).2.constructed = 1 ∧
    (get_singleton_calls 10 Statics.init).1 = [1, 1, 1, 1, 1, 1, 1, 1, 1, 1] :=
  ⟨by decide, (one_time_initialisation 10 (by decide)).1, by decide⟩

end ReaderWriter

namespace RaceConditions

open Sync

/-! ## `enter` and the release of a mutex that is not held -/

/-- C19, as the code has it. Nothing signals the release of a mutex the caller
does not hold: `enter` called with an empty vector performs no `protect.lock()`,
prints the end of line, calls `protect.unlock()` and returns; these two events
are all it does. -/
theorem enter_empty_reports_nothing (t : Tid) (s : State) (hb : s.blocked = false) :
    (enter t [] s).trace = s.trace ++ [Event.endl, Event.unlock] ∧
    (enter t [] s).blocked = false := by
  simp [enter, enter_loop, hb]

/-- Witness for C19 as amended: thread 1 at program start. -/
theorem enter_empty_reports_nothing_witness :
    State.init.blocked = false ∧
    (enter 1 [] State.init).trace = State.init.trace ++ [Event.endl, Event.unlock] ∧
    (enter 1 [] State.init).blocked = false :=
  ⟨rfl, enter_empty_reports_nothing 1 State.init rfl⟩

/-- C19 as stated fails: `enter` with an empty vector, run by thread 1 at program
start, holds no lock on `protect`, yet its run consists of the end of line and
the call of `unlock`, and it returns normally: no error is reported. -/
theorem unlock_without_lock_is_silent :
    (State.init.protect.heldBy 1 = false) ∧
    (enter 1 [] State.init).trace = [Event.endl, Event.unlock] ∧
    (enter 1 [] State.init).blocked = false := by
  refine ⟨by decide, by decide, by decide⟩

end RaceConditions

namespace LockGuard

open Sync

/-! ## The timed retry loops -/

@[simp] theorem lg_locks_emit (s : State) (e : Event) : (s.emit e).locks = s.locks := rfl
@[simp] theorem lg_blocked_emit (s : State) (e : Event) : (s.emit e).blocked = s.blocked := rfl
@[simp] theorem lg_trace_emit (s : State) (e : Event) : (s.emit e).trace = s.trace ++ [e] := rfl
@[simp] theorem lg_blocked_setLock (s : State) (r : MutexRef) (m : Mutex) :
    (s.setLock r m).blocked = s.blocked := rfl
@[simp] theorem lg_trace_setLock (s : State) (r : MutexRef) (m : Mutex) :
    (s.setLock r m).trace = s.trace := rfl
@[simp] theorem lg_locks_setLock_same (s : State) (r : MutexRef) (m : Mutex) :
    (s.setLock r m).locks r = m := by
  simp [State.setLock]
theorem lg_locks_setLock_other (s : State) (r q : MutexRef) (m : Mutex) (h : q ≠ r) :
    (s.setLock r m).locks q = s.locks q := by
  simp [State.setLock, h]

theorem try_lock_fails (m : Mutex) (t : Tid) (h : m.free = false) :
    (m.try_lock t).1 = false := by
  simp [Mutex.try_lock, h]

theorem try_lock_succeeds (m : Mutex) (t : Tid) (h : (m.try_lock t).1 = true) :
    m.free = true := by
  cases hf : m.free with
  | true => rfl
  | false => rw [try_lock_fails m t hf] at h; exact absurd h (by decide)

/-- While the attempts fail the loop of `task2` and `Task3` goes on: after `fuel`
attempts it has not been left, and it has printed one message per attempt. -/
theorem retry_for_never (t : Tid) (msg : String) (others : Nat → Mutex)
    (hnever : ∀ i, (others i).free = false) (fuel i : Nat) (s : State) :
    (retry_for t msg others fuel i s).1 = false ∧
    (retry_for t msg others fuel i s).2.trace = s.trace ++ failed_for msg fuel ∧
    (retry_for t msg others fuel i s).2.blocked = s.blocked := by
  induction fuel generalizing i s with
  | zero => simp [retry_for, failed_for]
  | succ n ih =>
    have hf := try_lock_fails (others i) t (hnever i)
    simp only [retry_for, try_lock_for, hf, Bool.false_eq_true, if_false]
    obtain ⟨h1, h2, h3⟩ := ih (i + 1)
      (cout msg ((s.setLock MutexRef.the_mutex ((others i).try_lock t).2).emit
        (Event.try_lock_for MutexRef.the_mutex 1000 false)))
    refine ⟨h1, ?_, ?_⟩
    · rw [h2]
      simp [cout, failed_for]
    · rw [h3]
      simp [cout]

/-- The same for the loop of `Task2`. -/
theorem retry_until_never (t : Tid) (msg : String) (others : Nat → Mutex)
    (hnever : ∀ i, (others i).free = false) (fuel i : Nat) (s : State) :
    (retry_until t msg others fuel i s).1 = false ∧
    (retry_until t msg others fuel i s).2.trace = s.trace ++ failed_until msg fuel ∧
    (retry_until t msg others fuel i s).2.blocked = s.blocked := by
  induction fuel generalizing i s with
  | zero => simp [retry_until, failed_until]
  | succ n ih =>
    have hf := try_lock_fails (others i) t (hnever i)
    simp only [retry_until, try_lock_until, hf, Bool.false_eq_true, if_false]
    obtain ⟨h1, h2, h3⟩ := ih (i + 1)
      (cout msg ((s.setLock MutexRef.the_mutex ((others i).try_lock t).2).emit
        (Event.try_lock_until MutexRef.the_mutex 900 false)))
    refine ⟨h1, ?_, ?_⟩
    · rw [h2]
      simp [cout, failed_until]
    · rw [h3]
      simp [cout]

/-- The loop of `task2` and `Task3` is left only through an attempt that found
the mutex free. -/
theorem retry_for_left (t : Tid) (msg : String) (others : Nat → Mutex) (fuel i : Nat)
    (s : State) (h : (retry_for t msg others fuel i s).1 = true) :
    ∃ j, i ≤ j ∧ j < i + fuel ∧ (others j).free = true := by
  induction fuel generalizing i s with
  | zero => simp [retry_for] at h
  | succ n ih =>
    simp only [retry_for] at h
    split at h
    · next hok =>
      exact ⟨i, le_refl i, by omega, try_lock_succeeds (others i) t hok⟩
    · obtain ⟨j, h1, h2, h3⟩ := ih (i + 1) _ h
      exact ⟨j, by omega, by omega, h3⟩

theorem retry_until_left (t : Tid) (msg : String) (others : Nat → Mutex) (fuel i : Nat)
    (s : State) (h : (retry_until t msg others fuel i s).1 = true) :
    ∃ j, i ≤ j ∧ j < i + fuel ∧ (others j).free = true := by
  induction fuel generalizing i s with
  | zero => simp [retry_until] at h
  | succ n ih =>
    simp only [retry_until] at h
    split at h
    · next hok =>
      exact ⟨i, le_refl i, by omega, try_lock_succeeds (others i) t hok⟩
    · obtain ⟨j, h1, h2, h3⟩ := ih (i + 1) _ h
      exact ⟨j, by omega, by omega, h3⟩

/-- The three routines when the mutex is never free: for no number of attempts
has any of them returned. -/
theorem retry_routines_never (t : Tid) (others : Nat → Mutex)
    (hnever : ∀ i, (others i).free = false) (fuel : Nat) (s : State) (hb : s.blocked = none) :
    ((task2 t others fuel s).1 = false ∧
      (task2 t others fuel s).2.trace =
        s.trace ++ [Event.sleep_for 500, Event.cout "Task2 trying to lock the mutex"] ++
          failed_for "Task2 could not lock the mutex" fuel) ∧
    ((Task2 t others fuel s).1 = false ∧
      (Task2 t others fuel s).2.trace =
        s.trace ++ [Event.sleep_for 500, Event.cout "Task2 trying to lock the mutex"] ++
          failed_until "Task2 could not lock the mutex" fuel) ∧
    ((Task3 t others fuel s).1 = false ∧
      (Task3 t others fuel s).2.trace =
        s.trace ++ [Event.sleep_for 500, Event.cout "Task2 trying to lock the mutex"] ++
          failed_for "Task2 could not lock the mutex" fuel) := by
  have hrun : (run [sleep_for 500, cout "Task2 trying to lock the mutex"] s).trace =
      s.trace ++ [Event.sleep_for 500, Event.cout "Task2 trying to lock the mutex"] := by
    simp [run, hb, sleep_for, cout]
  obtain ⟨f1, f2, _⟩ := retry_for_never t "Task2 could not lock the mutex" others hnever fuel 0
    (run [sleep_for 500, cout "Task2 trying to lock the mutex"] s)
  obtain ⟨u1, u2, _⟩ := retry_until_never t "Task2 could not lock the mutex" others hnever fuel 0
    (run [sleep_for 500, cout "Task2 trying to lock the mutex"] s)
  refine ⟨?_, ?_, ?_⟩
  · simp only [task2, f1, Bool.false_eq_true, if_false, f2, hrun]
    exact ⟨trivial, trivial⟩
  · simp only [Task2, u1, Bool.false_eq_true, if_false, u2, hrun]
    exact ⟨trivial, trivial⟩
  · simp only [Task3, f1, Bool.false_eq_true, if_false, f2, hrun]
    exact ⟨trivial, trivial⟩

/-- C18, as the code has it. The retry loops of `task2`, `Task2` and `Task3` have
no maximum number of attempts and report no Starved or timeout condition.  A
routine returns only after an attempt that found the mutex free; when the mutex
is never free, then after every number `fuel` of attempts the routine has not
returned, and all it has done is print one "could not lock" message after each
of the `fuel` failed attempts. -/
theorem retry_is_unbounded (t : Tid) (others : Nat → Mutex) (fuel : Nat) (s : State)
    (hb : s.blocked = none) :
    ((task2 t others fuel s).1 = true → ∃ j, j < fuel ∧ (others j).free = true) ∧
    ((Task2 t others fuel s).1 = true → ∃ j, j < fuel ∧ (others j).free = true) ∧
    ((Task3 t others fuel s).1 = true → ∃ j, j < fuel ∧ (others j).free = true) ∧
    ((∀ i, (others i).free = false) →
      ((task2 t others fuel s).1 = false ∧
        (task2 t others fuel s).2.trace =
          s.trace ++ [Event.sleep_for 500, Event.cout "Task2 trying to lock the mutex"] ++
            failed_for "Task2 could not lock the mutex" fuel) ∧
      ((Task2 t others fuel s).1 = false ∧
        (Task2 t others fuel s).2.trace =
          s.trace ++ [Event.sleep_for 500, Event.cout "Task2 trying to lock the mutex"] ++
            failed_until "Task2 could not lock the mutex" fuel) ∧
      ((Task3 t others fuel s).1 = false ∧
        (Task3 t others fuel s).2.trace =
          s.trace ++ [Event.sleep_for 500, Event.cout "Task2 trying to lock the mutex"] ++
            failed_for "Task2 could not lock the mutex" fuel)) := by
  refine ⟨?_, ?_, ?_, fun hnever => retry_routines_never t others hnever fuel s hb⟩
  · intro h
    simp only [task2] at h
    split at h
    · next hok =>
      obtain ⟨j, _, h2, h3⟩ := retry_for_left t _ others fuel 0 _ hok
      exact ⟨j, by omega, h3⟩
    · exact absurd h Bool.false_ne_true
  · intro h
    simp only [Task2] at h
    split at h
    · next hok =>
      obtain ⟨j, _, h2, h3⟩ := retry_until_left t _ others fuel 0 _ hok
      exact ⟨j, by omega, h3⟩
    · exact absurd h Bool.false_ne_true
  · intro h
    simp only [Task3] at h
    split at h
    · next hok =>
      obtain ⟨j, _, h2, h3⟩ := retry_for_left t _ others fuel 0 _ hok
      exact ⟨j, by omega, h3⟩
    · exact absurd h Bool.false_ne_true

/-- Witness for C18 as amended: thread 1 at program start, three attempts, the
mutex held by thread 5 throughout. -/
theorem retry_is_unbounded_witness :
    State.init.blocked = none ∧ (∀ i, (never_released i).free = false) ∧
    (task2 1 never_released 3 State.init).1 = false ∧
    (task2 1 never_released 3 State.init).2.trace =
      State.init.trace ++ [Event.sleep_for 500, Event.cout "Task2 trying to lock the mutex"] ++
        failed_for "Task2 could not lock the mutex" 3 :=
  ⟨rfl, fun _ => rfl,
    ((retry_is_unbounded 1 never_released 3 State.init rfl).2.2.2 (fun _ => rfl)).1⟩

/-- C18 as stated fails: when thread 5 never releases `the_mutex`, there is no
number of attempts after which `task2`, `Task2` or `Task3`, run by thread 1 from
program start, has left its loop. -/
theorem no_maximum_number_of_attempts :
    (¬ ∃ n, (task2 1 never_released n State.init).1 = true) ∧
    (¬ ∃ n, (Task2 1 never_released n State.init).1 = true) ∧
    (¬ ∃ n, (Task3 1 never_released n State.init).1 = true) := by
  refine ⟨?_, ?_, ?_⟩
  · rintro ⟨n, hn⟩
    have h := (retry_routines_never 1 never_released (fun _ => rfl) n State.init rfl).1.1
    rw [h] at hn
    exact absurd hn (by decide)
  · rintro ⟨n, hn⟩
    have h := (retry_routines_never 1 never_released (fun _ => rfl) n State.init rfl).2.1.1
    rw [h] at hn
    exact absurd hn (by decide)
  · rintro ⟨n, hn⟩
    have h := (retry_routines_never 1 never_released (fun _ => rfl) n State.init rfl).2.2.1
    rw [h] at hn
    exact absurd hn (by decide)

/-! ## Lock objects and exceptions -/

theorem lg_lock_free (t : Tid) (r : MutexRef) (s : State) (h : (s.locks r).free = true) :
    lock t r s = (s.setLock r { exclusive := [t], shared := [] }).emit (Event.lock r) := by
  simp [lock, lock_of_free _ t h]

/-- Taking a free mutex and giving it back leaves the lock state as it was. -/
theorem locks_after_release (t : Tid) (r : MutexRef) (s u : State)
    (hf : (s.locks r).free = true)
    (hu : u.locks = (lock t r s).locks) :
    (unlock t r u).locks = s.locks := by
  funext q
  rw [lg_lock_free t r s hf] at hu
  by_cases hq : q = r
  · subst hq
    simp [unlock, hu, Mutex.unlock, free_eq _ hf]
  · simp [unlock, hu, lg_locks_setLock_other _ _ _ _ hq]

end LockGuard

namespace Deadlock

open Sync

/-! ## The eating counter -/

theorem increments_append (l1 l2 : List Event) :
    increments (l1 ++ l2) = increments l1 ++ increments l2 := by
  induction l1 with
  | nil => rfl
  | cons e es ih => cases e <;> simp [increments, ih]

/-- C21. The eating counter: a call `increment_value(p)` that does not have to
wait for `increment_mut` adds exactly 1 to `mouthfuls[p]` and leaves every other
entry, and the size of the vector, as they were; a call `dine(n)` that does not
have to wait for its mutexes executes `mouthfuls[n]++` exactly once, so after it
`mouthfuls[n]` is one more than before and `mouthfuls[m]` is unchanged for every
`m ≠ n`.  The index is in bounds and the counter is below `INT_MAX`. -/
theorem counter_frame (t : Tid) (p : Int) (s : State)
    (h0 : 0 ≤ p) (h1 : p.toNat < s.mouthfuls.length) (hv : s.mouthful p < INT_MAX)
    (hb : s.blocked = none)
    (hpm : (s.locks MutexRef.print_mutex).free = true)
    (him : (s.locks MutexRef.increment_mut).free = true)
    (hne : lfork p ≠ rfork p)
    (hl : (s.locks (MutexRef.fork_mutex (lfork p))).free = true)
    (hr : (s.locks (MutexRef.fork_mutex (rfork p))).free = true) :
    ((increment_value t p s).mouthful p = s.mouthful p + 1 ∧
      (∀ m : Int, 0 ≤ m → m ≠ p → (increment_value t p s).mouthful m = s.mouthful m) ∧
      (increment_value t p s).mouthfuls.length = s.mouthfuls.length ∧
      increments ((increment_value t p s).trace.drop s.trace.length) = [p]) ∧
    ((dine t p s).blocked = none ∧
      increments ((dine t p s).trace.drop s.trace.length) = [p] ∧
      (dine t p s).mouthful p = s.mouthful p + 1 ∧
      (∀ m : Int, 0 ≤ m → m ≠ p → (dine t p s).mouthful m = s.mouthful m) ∧
      (dine t p s).mouthfuls.length = s.mouthfuls.length) := by
  have hinc : pre_increment (s.mouthfuls.getD p.toNat 0) = s.mouthfuls.getD p.toNat 0 + 1 := by
    exact ReaderWriter.pre_increment_eq _ hv
  have hother : ∀ m : Int, 0 ≤ m → m ≠ p →
      (s.mouthfuls.set p.toNat (s.mouthfuls.getD p.toNat 0 + 1)).getD m.toNat 0 =
        s.mouthfuls.getD m.toNat 0 := by
    intro m hm hmp
    have hne2 : p.toNat ≠ m.toNat := by
      intro h
      apply hmp
      have := congrArg (fun k : Nat => (k : Int)) h
      simp only [Int.toNat_of_nonneg h0, Int.toNat_of_nonneg hm] at this
      exact this.symm
    simp [List.getD_eq_getElem?_getD, List.getElem?_set_ne hne2]
  have hsame : (s.mouthfuls.set p.toNat (s.mouthfuls.getD p.toNat 0 + 1)).getD p.toNat 0 =
      s.mouthfuls.getD p.toNat 0 + 1 := by
    simp [List.getD_eq_getElem?_getD, List.getElem?_set_self, h1]
  refine ⟨?_, ?_⟩
  · rw [increment_value_free t p s hb him]
    simp only [State.mouthful, h0, if_true, hinc, List.drop_left, List.length_set]
    exact ⟨hsame, hother, trivial, rfl⟩
  · rw [dine_free t p s hb hne hpm him hl hr]
    simp only [State.mouthful, h0, if_true, hinc, List.drop_left, List.length_set]
    refine ⟨hb, ?_, hsame, hother, trivial⟩
    simp [increments_append, increments, print_events, print_forks_events, increment_events]

/-- Witness for C21: philosopher C (index 2), thread 1, at program start. -/
theorem counter_frame_witness :
    (2 : Int).toNat < State.init.mouthfuls.length ∧ State.init.mouthful 2 < INT_MAX ∧
    lfork 2 ≠ rfork 2 ∧
    (increment_value 1 2 State.init).mouthfuls = [0, 0, 1, 0, 0] ∧
    (increment_value 1 2 State.init).mouthful 2 = State.init.mouthful 2 + 1 ∧
    (dine 1 2 State.init).mouthful 2 = State.init.mouthful 2 + 1 ∧
    increments ((dine 1 2 State.init).trace.drop State.init.trace.length) = [2] :=
  ⟨by decide, by decide, by decide, by decide,
    (counter_frame 1 2 State.init (by decide) (by decide) (by decide) rfl rfl rfl (by decide)
      rfl rfl).1.1,
    (counter_frame 1 2 State.init (by decide) (by decide) (by decide) rfl rfl rfl (by decide)
      rfl rfl).2.2.2.1,
    (counter_frame 1 2 State.init (by decide) (by decide) (by decide) rfl rfl rfl (by decide)
      rfl rfl).2.2.1⟩

end Deadlock

namespace LockGuard

open Sync

/-! ## The loop of `task` -/

/-- One iteration of `task` when `print_mutex` is free: four events, and the
lock state is as before. -/
theorem task_body_free (t : Tid) (str : String) (s : State) (hb : s.blocked = none)
    (hf : (s.locks MutexRef.print_mutex).free = true) :
    task_body t str s =
      ({ s with trace := s.trace ++ iteration_events str }, Exit.normal) := by
  have hl : (lock t MutexRef.print_mutex s).blocked = none := by
    simp [lg_lock_free t _ s hf, hb]
  simp only [task_body, UniqueLock.construct, hl, Option.isSome_none, Bool.false_eq_true,
    if_false, UniqueLock.unlock, if_true, UniqueLock.destroy]
  simp only [Prod.mk.injEq, and_true]
  ext1
  · exact locks_after_release t MutexRef.print_mutex s _ hf rfl
  · simp [lg_lock_free t _ s hf, sleep_for, unlock, cout, iteration_events]
  · simp [sleep_for, unlock, cout, hl, hb]

theorem task_loop_free (t : Tid) (str : String) (n : Nat) (s : State) (hb : s.blocked = none)
    (hf : (s.locks MutexRef.print_mutex).free = true) :
    task_loop t str n s =
      ({ s with trace := s.trace ++ iterations_events str n }, Exit.normal) := by
  induction n generalizing s with
  | zero => simp [task_loop, iterations_events]
  | succ n ih =>
    simp only [task_loop, task_body_free t str s hb hf, hb, Option.isSome_none, bne_self_eq_false,
      Bool.or_self, Bool.false_eq_true, if_false]
    rw [ih { locks := s.locks, trace := s.trace ++ iteration_events str, blocked := none } rfl hf]
    simp [iterations_events]

/-- C22. `task`, run by a thread that finds `print_mutex` free, returns normally
after 5 iterations, each of which locks `print_mutex` once (the constructor of
`uniq_lck`) and unlocks it once (the explicit `uniq_lck.unlock()`), the unlock
coming before the 50 ms sleep; the destructor of `uniq_lck`, which no longer
owns the mutex, does not unlock again.  So the call performs 5 lock and 5 unlock
events, strictly alternating, holds nothing during any of its 5 sleeps, and
leaves `print_mutex` free. -/
theorem task_lock_unlock_alternate (t : Tid) (str : String) (s : State)
    (hb : s.blocked = none) (hf : (s.locks MutexRef.print_mutex).free = true) :
    (task t str s).2 = Exit.normal ∧
    (task t str s).1.blocked = none ∧
    (task t str s).1.trace = s.trace ++ iterations_events str 5 ∧
    lock_calls ((task t str s).1.trace.drop s.trace.length) =
      [ Event.lock MutexRef.print_mutex, Event.unlock MutexRef.print_mutex,
        Event.lock MutexRef.print_mutex, Event.unlock MutexRef.print_mutex,
        Event.lock MutexRef.print_mutex, Event.unlock MutexRef.print_mutex,
        Event.lock MutexRef.print_mutex, Event.unlock MutexRef.print_mutex,
        Event.lock MutexRef.print_mutex, Event.unlock MutexRef.print_mutex ] ∧
    sleeps_holding ((task t str s).1.trace.drop s.trace.length) [] =
      [(50, []), (50, []), (50, []), (50, []), (50, [])] ∧
    (task t str s).1.locks = s.locks ∧
    ((task t str s).1.locks MutexRef.print_mutex).free = true ∧
    (∀ u v : State,
      (UniqueLock.unlock t (UniqueLock.construct t MutexRef.print_mutex s).1 u).1.1.owns = false ∧
      UniqueLock.destroy t
        (UniqueLock.unlock t (UniqueLock.construct t MutexRef.print_mutex s).1 u).1.1 v = v) := by
  simp only [task, task_loop_free t str 5 s hb hf, List.drop_left]
  refine ⟨trivial, hb, trivial, ?_, ?_, trivial, hf, ?_⟩
  · simp [iterations_events, iteration_events, lock_calls]
  · simp [iterations_events, iteration_events, sleeps_holding]
  · intro u v
    simp [UniqueLock.unlock, UniqueLock.construct, UniqueLock.destroy]

/-- Witness for C22: thread 1 prints "abc" from program start. -/
theorem task_lock_unlock_alternate_witness :
    State.init.blocked = none ∧ (State.init.locks MutexRef.print_mutex).free = true ∧
    (task 1 "abc" State.init).1.trace = State.init.trace ++ iterations_events "abc" 5 ∧
    ((task 1 "abc" State.init).1.locks MutexRef.print_mutex).free = true :=
  ⟨rfl, rfl, (task_lock_unlock_alternate 1 "abc" State.init rfl rfl).2.2.1,
    (task_lock_unlock_alternate 1 "abc" State.init rfl rfl).2.2.2.2.2.2.1⟩

end LockGuard

namespace RaceConditions

open Sync

/-! ## Locks and unlocks of `enter` -/

/-- C24, as the code has it. `enter` calls `protect.lock()` at the start of every
loop iteration and `protect.unlock()` once, after the loop.  Run by a thread
that finds `protect` free: with one element it performs one lock and one unlock
and leaves `protect` free; with no element it performs no lock and one unlock;
with two or more elements the second `protect.lock()` is attempted while the
same thread holds `protect`, the run does not get past that call, and so it has
performed one lock, printed the first element, and performed no unlock. -/
theorem enter_second_lock_while_held (t : Tid) (s : State) (hb : s.blocked = false)
    (hf : s.protect.free = true) :
    ((enter t [] s).trace = s.trace ++ [Event.endl, Event.unlock] ∧
      (enter t [] s).blocked = false) ∧
    (∀ v : Int,
      (enter t [v] s).trace = s.trace ++ [Event.lock, Event.cout v, Event.endl, Event.unlock] ∧
      (enter t [v] s).blocked = false ∧
      (enter t [v] s).protect.free = true) ∧
    (∀ (v w : Int) (vs : List Int),
      (enter t (v :: w :: vs) s).blocked = true ∧
      (enter t (v :: w :: vs) s).trace = s.trace ++ [Event.lock, Event.cout v] ∧
      (enter t (v :: w :: vs) s).protect.heldBy t = true ∧
      (enter t (v :: w :: vs) s).trace.count Event.lock = s.trace.count Event.lock + 1 ∧
      (enter t (v :: w :: vs) s).trace.count Event.unlock = s.trace.count Event.unlock) := by
  have hm := free_eq _ hf
  refine ⟨?_, ?_, ?_⟩
  · simp [enter, enter_loop, hb]
  · intro v
    simp [enter, enter_loop, lock_of_free _ t hf, hb, Mutex.unlock, Mutex.free]
  · intro v w vs
    have h2 : ({ exclusive := [t], shared := [] } : Mutex).lock t = none := rfl
    simp [enter, enter_loop, lock_of_free _ t hf, h2, Mutex.heldBy, List.count_append]

/-- Witness for C24 as amended: thread 1 at program start. -/
theorem enter_second_lock_while_held_witness :
    State.init.blocked = false ∧ State.init.protect.free = true ∧
    (enter 1 [7] State.init).trace = [Event.lock, Event.cout 7, Event.endl, Event.unlock] ∧
    (enter 1 [7, 8] State.init).blocked = true :=
  ⟨rfl, rfl, ((enter_second_lock_while_held 1 State.init rfl rfl).2.1 7).1,
    ((enter_second_lock_while_held 1 State.init rfl rfl).2.2 7 8 []).1⟩

/-- C24 as stated fails: `enter`, run by thread 1 at program start on the vector
`{1,2,3,4,5,6}` of the driver, performs one lock, not six, and no unlock: it is
stuck in the second `protect.lock()`, holding `protect`. -/
theorem enter_does_not_lock_six_times :
    (enter 1 [1, 2, 3, 4, 5, 6] State.init).trace = [Event.lock, Event.cout 1] ∧
    (enter 1 [1, 2, 3, 4, 5, 6] State.init).trace.count Event.lock = 1 ∧
    (enter 1 [1, 2, 3, 4, 5, 6] State.init).trace.count Event.unlock = 0 ∧
    (enter 1 [1, 2, 3, 4, 5, 6] State.init).blocked = true ∧
    (enter 1 [1, 2, 3, 4, 5, 6] State.init).protect.heldBy 1 = true := by
  refine ⟨by decide, by decide, by decide, by decide, by decide⟩

end RaceConditions

namespace Deadlock

open Sync

/-! ## What the back-off routines hold when they return -/

/-- Running for `a + b` steps is running for `a` steps and then for `b` more. -/
theorem solo_add (step : Thread → State → Option (Thread × State)) (a b : Nat) (th : Thread)
    (s : State) :
    solo step (a + b) th s = solo step b (solo step a th s).1 (solo step a th s).2 := by
  induction a generalizing th s with
  | zero => simp [solo]
  | succ a ih =>
    rw [Nat.succ_add]
    simp only [solo]
    cases hst : step th s with
    | none =>
      cases b with
      | zero => rfl
      | succ b => simp [solo, hst]
    | some r => exact ih r.1 r.2

/-- A thread that has returned stays where it is. -/
theorem solo_returned (t : Tid) (first second : MutexRef) (es : Option Nat) (g d : String)
    (k : Nat) (th : Thread) (s : State) (h : th.pc = Pc.returned) :
    solo (backoff_step t first second es g d) k th s = (th, s) := by
  cases k with
  | zero => rfl
  | succ k => simp [solo, backoff_step, h]

/-- The routine when both mutexes are free: the first attempt succeeds and the
routine returns after 8 steps, the second mutex held by the caller. -/
theorem backoff_succeeds (t : Tid) (first second : MutexRef) (hne : first ≠ second)
    (es : Option Nat) (g d : String) (s : State)
    (h1 : (s.locks first).free = true) (h2 : (s.locks second).free = true) :
    solo (backoff_step t first second es g d) 8 Thread.start s =
      ({ pc := Pc.returned, locked := true },
        { s with
          locks := fun q => if q = second then { exclusive := [t], shared := [] } else s.locks q
          trace := s.trace ++ (entry_events es ++ successful_attempt first second g d) }) := by
  have hsf : second ≠ first := fun h => hne h.symm
  have e1 := free_eq _ h1
  have e2 := free_eq _ h2
  cases es with
  | none =>
    simp only [solo, backoff_step, Thread.start, lock_of_free _ t h1, Bool.false_eq_true,
      if_false, if_true, cout, sleep_for, locks_emit, try_lock, locks_setLock_other _ _ _ _ hsf,
      Mutex.try_lock, h2, unlock]
    simp only [Prod.mk.injEq, true_and]
    ext1
    · funext q
      by_cases hq : q = second
      · subst hq
        simp [locks_setLock_other _ _ _ _ hsf, e2]
      · by_cases hq1 : q = first
        · subst hq1
          simp [locks_setLock_other _ _ _ _ hne, Mutex.unlock, hq, e1]
        · simp [locks_setLock_other _ _ _ _ hq, locks_setLock_other _ _ _ _ hq1, hq]
    · simp
    · simp [entry_events, successful_attempt]
    · simp
  | some ms =>
    simp only [solo, backoff_step, Thread.start, lock_of_free _ t h1, Bool.false_eq_true,
      if_false, if_true, cout, sleep_for, locks_emit, try_lock, locks_setLock_other _ _ _ _ hsf,
      Mutex.try_lock, h2, unlock]
    simp only [Prod.mk.injEq, true_and]
    ext1
    · funext q
      by_cases hq : q = second
      · subst hq
        simp [locks_setLock_other _ _ _ _ hsf, e2]
      · by_cases hq1 : q = first
        · subst hq1
          simp [locks_setLock_other _ _ _ _ hne, Mutex.unlock, hq, e1]
        · simp [locks_setLock_other _ _ _ _ hq, locks_setLock_other _ _ _ _ hq1, hq]
    · simp
    · simp [entry_events, successful_attempt]
    · simp

/-- Given more than 8 steps the routine does nothing more. -/
theorem backoff_stays_returned (t : Tid) (first second : MutexRef) (hne : first ≠ second)
    (es : Option Nat) (g d : String) (s : State)
    (h1 : (s.locks first).free = true) (h2 : (s.locks second).free = true) (k : Nat) :
    solo (backoff_step t first second es g d) (8 + k) Thread.start s =
      solo (backoff_step t first second es g d) 8 Thread.start s := by
  rw [solo_add, backoff_succeeds t first second hne es g d s h1 h2]
  exact solo_returned t first second es g d k _ _ rfl

/-- C25. When `funcZ` finds `lmut1` and `lmut2` free, its first attempt succeeds
and it returns (after 8 steps; more steps change nothing).  The `lock_guard` on
`lmut1` is released at the end of the loop body, before the line "ThreadZ has
locked both mutexes" is printed: at that point the thread holds `lmut2` only.
`lmut2` is never unlocked: the only mutex the run releases is `lmut1`, and when
`funcZ` has returned `lmut2` is held by the caller and every other mutex is as
before.  `funcY` is the mirror image: it returns holding `lmut1` only. -/
theorem backoff_returns_holding_second (t : Tid) (s : State)
    (h1 : (s.locks MutexRef.lmut1).free = true) (h2 : (s.locks MutexRef.lmut2).free = true) :
    ((∀ k, (funcZ t (8 + k) s).1 = { pc := Pc.returned, locked := true }) ∧
      (∀ k, (funcZ t (8 + k) s).2.trace = s.trace ++
          [ Event.sleep_for 10, Event.lock MutexRef.lmut1, Event.cout "After you, Claude!",
            Event.sleep_for 2000, Event.try_lock MutexRef.lmut2 true,
            Event.unlock MutexRef.lmut1, Event.cout "ThreadZ has locked both mutexes" ]) ∧
      holding_at "ThreadZ has locked both mutexes"
          ((funcZ t 8 s).2.trace.drop s.trace.length) [] = [[MutexRef.lmut2]] ∧
      released ((funcZ t 8 s).2.trace.drop s.trace.length) = [MutexRef.lmut1] ∧
      (∀ k, ((funcZ t (8 + k) s).2.locks MutexRef.lmut2).exclusive = [t]) ∧
      (∀ k q, q ≠ MutexRef.lmut2 → (funcZ t (8 + k) s).2.locks q = s.locks q)) ∧
    ((∀ k, (funcY t (8 + k) s).1 = { pc := Pc.returned, locked := true }) ∧
      (∀ k, (funcY t (8 + k) s).2.trace = s.trace ++
          [ Event.lock MutexRef.lmut2, Event.cout "After you Cecil",
            Event.sleep_for 2000, Event.try_lock MutexRef.lmut1 true,
            Event.unlock MutexRef.lmut2, Event.cout "ThreadY has locked both mutexes" ]) ∧
      holding_at "ThreadY has locked both mutexes"
          ((funcY t 8 s).2.trace.drop s.trace.length) [] = [[MutexRef.lmut1]] ∧
      released ((funcY t 8 s).2.trace.drop s.trace.length) = [MutexRef.lmut2] ∧
      (∀ k, ((funcY t (8 + k) s).2.locks MutexRef.lmut1).exclusive = [t]) ∧
      (∀ k q, q ≠ MutexRef.lmut1 → (funcY t (8 + k) s).2.locks q = s.locks q)) := by
  have hz := backoff_succeeds t MutexRef.lmut1 MutexRef.lmut2 (by decide) (some 10)
    "After you, Claude!" "ThreadZ has locked both mutexes" s h1 h2
  have hy := backoff_succeeds t MutexRef.lmut2 MutexRef.lmut1 (by decide) none
    "After you Cecil" "ThreadY has locked both mutexes" s h2 h1
  have hzk := backoff_stays_returned t MutexRef.lmut1 MutexRef.lmut2 (by decide) (some 10)
    "After you, Claude!" "ThreadZ has locked both mutexes" s h1 h2
  have hyk := backoff_stays_returned t MutexRef.lmut2 MutexRef.lmut1 (by decide) none
    "After you Cecil" "ThreadY has locked both mutexes" s h2 h1
  have ez : ∀ k, funcZ t (8 + k) s =
      ({ pc := Pc.returned, locked := true },
        { s with
          locks := fun q =>
            if q = MutexRef.lmut2 then { exclusive := [t], shared := [] } else s.locks q
          trace := s.trace ++ (entry_events (some 10) ++
            successful_attempt MutexRef.lmut1 MutexRef.lmut2 "After you, Claude!"
              "ThreadZ has locked both mutexes") }) := by
    intro k
    rw [← hz, ← hzk k]
    rfl
  have ey : ∀ k, funcY t (8 + k) s =
      ({ pc := Pc.returned, locked := true },
        { s with
          locks := fun q =>
            if q = MutexRef.lmut1 then { exclusive := [t], shared := [] } else s.locks q
          trace := s.trace ++ (entry_events none ++
            successful_attempt MutexRef.lmut2 MutexRef.lmut1 "After you Cecil"
              "ThreadY has locked both mutexes") }) := by
    intro k
    rw [← hy, ← hyk k]
    rfl
  have ez0 := ez 0
  have ey0 := ey 0
  simp only [Nat.add_zero] at ez0 ey0
  refine ⟨⟨?_, ?_, ?_, ?_, ?_, ?_⟩, ⟨?_, ?_, ?_, ?_, ?_, ?_⟩⟩
  · intro k
    rw [ez k]
  · intro k
    rw [ez k]
    rfl
  · rw [ez0]
    simp only [List.drop_left]
    decide
  · rw [ez0]
    simp only [List.drop_left]
    decide
  · intro k
    rw [ez k]
    simp
  · intro k q hq
    rw [ez k]
    simp [hq]
  · intro k
    rw [ey k]
  · intro k
    rw [ey k]
    rfl
  · rw [ey0]
    simp only [List.drop_left]
    decide
  · rw [ey0]
    simp only [List.drop_left]
    decide
  · intro k
    rw [ey k]
    simp
  · intro k q hq
    rw [ey k]
    simp [hq]

/-- Witness for C25: thread 1 at program start. -/
theorem backoff_returns_holding_second_witness :
    (State.init.locks MutexRef.lmut1).free = true ∧
    (State.init.locks MutexRef.lmut2).free = true ∧
    (funcZ 1 (8 + 0) State.init).1 = { pc := Pc.returned, locked := true } ∧
    ((funcZ 1 (8 + 0) State.init).2.locks MutexRef.lmut2).exclusive = [1] ∧
    ((funcY 1 (8 + 0) State.init).2.locks MutexRef.lmut1).exclusive = [1] :=
  ⟨rfl, rfl, (backoff_returns_holding_second 1 State.init rfl rfl).1.1 0,
    (backoff_returns_holding_second 1 State.init rfl rfl).1.2.2.2.2.1 0,
    (backoff_returns_holding_second 1 State.init rfl rfl).2.2.2.2.2.1 0⟩

end Deadlock

namespace LockGuard

open Sync

/-! ## What the timed retry routines leave locked -/

theorem messages_append (msg : String) (l1 l2 : List Event) :
    messages msg (l1 ++ l2) = messages msg l1 + messages msg l2 := by
  induction l1 with
  | nil => simp [messages]
  | cons e es ih =>
    cases e with
    | cout m =>
      by_cases hm : m = msg
      · simp [messages, hm, ih]; omega
      · simp [messages, hm, ih]
    | _ => simp [messages, ih]

theorem failed_attempts_append (l1 l2 : List Event) :
    failed_attempts (l1 ++ l2) = failed_attempts l1 + failed_attempts l2 := by
  induction l1 with
  | nil => simp [failed_attempts]
  | cons e es ih =>
    cases e with
    | try_lock_for m ms ok =>
      cases ok with
      | false => simp [failed_attempts, ih]; omega
      | true => simp [failed_attempts, ih]
    | try_lock_until m ms ok =>
      cases ok with
      | false => simp [failed_attempts, ih]; omega
      | true => simp [failed_attempts, ih]
    | _ => simp [failed_attempts, ih]

theorem messages_failed_for (msg : String) (n : Nat) :
    messages msg (failed_for msg n) = n ∧ failed_attempts (failed_for msg n) = n := by
  induction n with
  | zero => exact ⟨rfl, rfl⟩
  | succ n ih => simp [failed_for, messages, failed_attempts, ih.1, ih.2]

theorem messages_failed_until (msg : String) (n : Nat) :
    messages msg (failed_until msg n) = n ∧ failed_attempts (failed_until msg n) = n := by
  induction n with
  | zero => exact ⟨rfl, rfl⟩
  | succ n ih => simp [failed_until, messages, failed_attempts, ih.1, ih.2]

/-- The loop of `task2` and `Task3` when attempt `i + k` is the first that finds
the mutex free and there is fuel for it: `k` failed attempts, each followed by
its message, then the attempt that succeeds; the caller holds the mutex. -/
theorem retry_for_succeeds (t : Tid) (msg : String) (others : Nat → Mutex) (k : Nat) :
    ∀ (fuel i : Nat) (s : State), k < fuel → first_free others i k →
    retry_for t msg others fuel i s =
      (true,
        { s with
          locks := fun q =>
            if q = MutexRef.the_mutex then { exclusive := [t], shared := [] } else s.locks q
          trace := s.trace ++ (failed_for msg k ++
            [Event.try_lock_for MutexRef.the_mutex 1000 true]) }) := by
  induction k with
  | zero =>
    intro fuel i s hk hff
    obtain ⟨f, rfl⟩ : ∃ f, fuel = f + 1 := ⟨fuel - 1, by omega⟩
    have hfree : (others i).free = true := by simpa using hff.2
    have hm := free_eq _ hfree
    simp only [retry_for, try_lock_for, Mutex.try_lock, hfree, if_true]
    simp only [Prod.mk.injEq, true_and]
    ext1
    · funext q
      by_cases hq : q = MutexRef.the_mutex
      · subst hq
        simp [hm]
      · simp [lg_locks_setLock_other _ _ _ _ hq, hq]
    · simp [failed_for]
    · simp
  | succ k ih =>
    intro fuel i s hk hff
    obtain ⟨f, rfl⟩ : ∃ f, fuel = f + 1 := ⟨fuel - 1, by omega⟩
    have hfail : (others i).free = false := by simpa using hff.1 0 (by omega)
    have hff2 : first_free others (i + 1) k := by
      refine ⟨fun j hj => ?_, ?_⟩
      · have := hff.1 (j + 1) (by omega)
        rwa [show i + (j + 1) = i + 1 + j by omega] at this
      · have := hff.2
        rwa [show i + (k + 1) = i + 1 + k by omega] at this
    simp only [retry_for, try_lock_for, Mutex.try_lock, hfail, Bool.false_eq_true, if_false]
    rw [ih f (i + 1) _ (by omega) hff2]
    simp only [Prod.mk.injEq, true_and]
    ext1
    · funext q
      by_cases hq : q = MutexRef.the_mutex
      · subst hq
        simp
      · simp [cout, lg_locks_setLock_other _ _ _ _ hq, hq]
    · simp [cout, failed_for]
    · simp [cout]

/-- The same for the loop of `Task2`. -/
theorem retry_until_succeeds (t : Tid) (msg : String) (others : Nat → Mutex) (k : Nat) :
    ∀ (fuel i : Nat) (s : State), k < fuel → first_free others i k →
    retry_until t msg others fuel i s =
      (true,
        { s with
          locks := fun q =>
            if q = MutexRef.the_mutex then { exclusive := [t], shared := [] } else s.locks q
          trace := s.trace ++ (failed_until msg k ++
            [Event.try_lock_until MutexRef.the_mutex 900 true]) }) := by
  induction k with
  | zero =>
    intro fuel i s hk hff
    obtain ⟨f, rfl⟩ : ∃ f, fuel = f + 1 := ⟨fuel - 1, by omega⟩
    have hfree : (others i).free = true := by simpa using hff.2
    have hm := free_eq _ hfree
    simp only [retry_until, try_lock_until, Mutex.try_lock, hfree, if_true]
    simp only [Prod.mk.injEq, true_and]
    ext1
    · funext q
      by_cases hq : q = MutexRef.the_mutex
      · subst hq
        simp [hm]
      · simp [lg_locks_setLock_other _ _ _ _ hq, hq]
    · simp [failed_until]
    · simp
  | succ k ih =>
    intro fuel i s hk hff
    obtain ⟨f, rfl⟩ : ∃ f, fuel = f + 1 := ⟨fuel - 1, by omega⟩
    have hfail : (others i).free = false := by simpa using hff.1 0 (by omega)
    have hff2 : first_free others (i + 1) k := by
      refine ⟨fun j hj => ?_, ?_⟩
      · have := hff.1 (j + 1) (by omega)
        rwa [show i + (j + 1) = i + 1 + j by omega] at this
      · have := hff.2
        rwa [show i + (k + 1) = i + 1 + k by omega] at this
    simp only [retry_until, try_lock_until, Mutex.try_lock, hfail, Bool.false_eq_true, if_false]
    rw [ih f (i + 1) _ (by omega) hff2]
    simp only [Prod.mk.injEq, true_and]
    ext1
    · funext q
      by_cases hq : q = MutexRef.the_mutex
      · subst hq
        simp
      · simp [cout, lg_locks_setLock_other _ _ _ _ hq, hq]
    · simp [cout, failed_until]
    · simp [cout]

/-- A loop that has been left was left by the first attempt that found the mutex
free. -/
theorem retry_for_first (t : Tid) (msg : String) (others : Nat → Mutex) (fuel i : Nat)
    (s : State) (h : (retry_for t msg others fuel i s).1 = true) :
    ∃ k, k < fuel ∧ first_free others i k := by
  induction fuel generalizing i s with
  | zero => simp [retry_for] at h
  | succ n ih =>
    simp only [retry_for] at h
    split at h
    · next hok =>
      exact ⟨0, by omega, fun j hj => absurd hj (by omega),
        try_lock_succeeds (others i) t hok⟩
    · next hno =>
      obtain ⟨k, hk, hf1, hf2⟩ := ih (i + 1) _ h
      refine ⟨k + 1, by omega, fun j hj => ?_, ?_⟩
      · cases j with
        | zero =>
          cases hfr : (others i).free with
          | false => simpa using hfr
          | true =>
            exfalso
            apply hno
            simp [try_lock_for, Mutex.try_lock, hfr]
        | succ j =>
          have := hf1 j (by omega)
          rwa [show i + 1 + j = i + (j + 1) by omega] at this
      · rwa [show i + 1 + k = i + (k + 1) by omega] at hf2

theorem retry_until_first (t : Tid) (msg : String) (others : Nat → Mutex) (fuel i : Nat)
    (s : State) (h : (retry_until t msg others fuel i s).1 = true) :
    ∃ k, k < fuel ∧ first_free others i k := by
  induction fuel generalizing i s with
  | zero => simp [retry_until] at h
  | succ n ih =>
    simp only [retry_until] at h
    split at h
    · next hok =>
      exact ⟨0, by omega, fun j hj => absurd hj (by omega),
        try_lock_succeeds (others i) t hok⟩
    · next hno =>
      obtain ⟨k, hk, hf1, hf2⟩ := ih (i + 1) _ h
      refine ⟨k + 1, by omega, fun j hj => ?_, ?_⟩
      · cases j with
        | zero =>
          cases hfr : (others i).free with
          | false => simpa using hfr
          | true =>
            exfalso
            apply hno
            simp [try_lock_until, Mutex.try_lock, hfr]
        | succ j =>
          have := hf1 j (by omega)
          rwa [show i + 1 + j = i + (j + 1) by omega] at this
      · rwa [show i + 1 + k = i + (k + 1) by omega] at hf2

/-- What the loop of `task2` and `Task3` adds to the trace, however it goes: as
many messages as failed attempts, and no unlock. -/
theorem retry_for_counts (t : Tid) (msg : String) (others : Nat → Mutex) (fuel i : Nat)
    (s : State) :
    (retry_for t msg others fuel i s).2.blocked = s.blocked ∧
    ∃ ext, (retry_for t msg others fuel i s).2.trace = s.trace ++ ext ∧
      messages msg ext = failed_attempts ext ∧ released ext = [] := by
  induction fuel generalizing i s with
  | zero => exact ⟨rfl, [], by simp [retry_for], rfl, rfl⟩
  | succ n ih =>
    simp only [retry_for]
    split
    · next hok =>
      refine ⟨rfl, [Event.try_lock_for MutexRef.the_mutex 1000 true], ?_, rfl, rfl⟩
      simp [try_lock_for, try_lock_succeeds _ t hok, Mutex.try_lock]
    · next hno =>
      have hf : ((others i).try_lock t).1 = false := by
        simpa [try_lock_for] using hno
      obtain ⟨h0, ext, h1, h2, h3⟩ := ih (i + 1)
        (cout msg (try_lock_for t MutexRef.the_mutex 1000 (others i) s).2)
      refine ⟨by rw [h0]; rfl, ?_⟩
      refine ⟨[Event.try_lock_for MutexRef.the_mutex 1000 false, Event.cout msg] ++ ext, ?_, ?_, ?_⟩
      · rw [h1]
        simp [cout, try_lock_for, hf]
      · rw [messages_append, failed_attempts_append, h2]
        simp [messages, failed_attempts]
      · simpa [released] using h3

/-- The same for the loop of `Task2`. -/
theorem retry_until_counts (t : Tid) (msg : String) (others : Nat → Mutex) (fuel i : Nat)
    (s : State) :
    (retry_until t msg others fuel i s).2.blocked = s.blocked ∧
    ∃ ext, (retry_until t msg others fuel i s).2.trace = s.trace ++ ext ∧
      messages msg ext = failed_attempts ext ∧ released ext = [] := by
  induction fuel generalizing i s with
  | zero => exact ⟨rfl, [], by simp [retry_until], rfl, rfl⟩
  | succ n ih =>
    simp only [retry_until]
    split
    · next hok =>
      refine ⟨rfl, [Event.try_lock_until MutexRef.the_mutex 900 true], ?_, rfl, rfl⟩
      simp [try_lock_until, try_lock_succeeds _ t hok, Mutex.try_lock]
    · next hno =>
      have hf : ((others i).try_lock t).1 = false := by
        simpa [try_lock_until] using hno
      obtain ⟨h0, ext, h1, h2, h3⟩ := ih (i + 1)
        (cout msg (try_lock_until t MutexRef.the_mutex 900 (others i) s).2)
      refine ⟨by rw [h0]; rfl, ?_⟩
      refine ⟨[Event.try_lock_until MutexRef.the_mutex 900 false, Event.cout msg] ++ ext,
        ?_, ?_, ?_⟩
      · rw [h1]
        simp [cout, try_lock_until, hf]
      · rw [messages_append, failed_attempts_append, h2]
        simp [messages, failed_attempts]
      · simpa [released] using h3

theorem released_failed (msg : String) (n : Nat) :
    released (failed_for msg n) = [] ∧ released (failed_until msg n) = [] := by
  induction n with
  | zero => exact ⟨rfl, rfl⟩
  | succ n ih => simp [failed_for, failed_until, released, ih.1, ih.2]

theorem lg_released_append (l1 l2 : List Event) :
    released (l1 ++ l2) = released l1 ++ released l2 := by
  induction l1 with
  | nil => rfl
  | cons e es ih => cases e <;> simp [released, ih]

theorem run_prefix (s : State) (hb : s.blocked = none) :
    run [sleep_for 500, cout "Task2 trying to lock the mutex"] s =
      { s with trace := s.trace ++
          [Event.sleep_for 500, Event.cout "Task2 trying to lock the mutex"] } := by
  simp [run, hb, sleep_for, cout, State.emit]

/-- C26. What the timed-retry routines leave locked, for a thread `t` that is
given `fuel` attempts against the lock states `others`.

When attempt `k` is the first that finds `the_mutex` free and `k < fuel`, all
three routines return after `k` failed attempts: `task2` performs no unlock and
returns with `the_mutex` held by `t`; `Task2` (explicit `unlock`) and `Task3`
(destructor of `uniq_lck`) unlock it once and return with `the_mutex` free.
Conversely a routine that has returned has left its loop through an attempt that
returned `true`, the first that found the mutex free.  And in every run, returned
or not, the number of "could not lock" messages equals the number of failed
attempts. -/
theorem timed_retry_leaves (t : Tid) (others : Nat → Mutex) (fuel : Nat) (s : State)
    (hb : s.blocked = none) :
    (∀ k, k < fuel → first_free others 0 k →
      (task2 t others fuel s =
        (true,
          { s with
            locks := fun q =>
              if q = MutexRef.the_mutex then { exclusive := [t], shared := [] } else s.locks q
            trace := s.trace ++
              ([Event.sleep_for 500, Event.cout "Task2 trying to lock the mutex"] ++
               failed_for "Task2 could not lock the mutex" k ++
               [ Event.try_lock_for MutexRef.the_mutex 1000 true,
                 Event.cout "Task2 has locked the mutex" ]) }) ∧
        ((task2 t others fuel s).2.locks MutexRef.the_mutex).heldBy t = true ∧
        released ((task2 t others fuel s).2.trace.drop s.trace.length) = []) ∧
      (Task2 t others fuel s =
        (true,
          { s with
            locks := fun q =>
              if q = MutexRef.the_mutex then { exclusive := [], shared := [] } else s.locks q
            trace := s.trace ++
              ([Event.sleep_for 500, Event.cout "Task2 trying to lock the mutex"] ++
               failed_until "Task2 could not lock the mutex" k ++
               [ Event.try_lock_until MutexRef.the_mutex 900 true,
                 Event.cout "Task2 has locked the mutex",
                 Event.unlock MutexRef.the_mutex ]) }) ∧
        ((Task2 t others fuel s).2.locks MutexRef.the_mutex).free = true) ∧
      (Task3 t others fuel s =
        (true,
          { s with
            locks := fun q =>
              if q = MutexRef.the_mutex then { exclusive := [], shared := [] } else s.locks q
            trace := s.trace ++
              ([Event.sleep_for 500, Event.cout "Task2 trying to lock the mutex"] ++
               failed_for "Task2 could not lock the mutex" k ++
               [ Event.try_lock_for MutexRef.the_mutex 1000 true,
                 Event.cout "Task2 has locked the mutex",
                 Event.unlock MutexRef.the_mutex ]) }) ∧
        ((Task3 t others fuel s).2.locks MutexRef.the_mutex).free = true)) ∧
    (((task2 t others fuel s).1 = true → ∃ k, k < fuel ∧ first_free others 0 k) ∧
      ((Task2 t others fuel s).1 = true → ∃ k, k < fuel ∧ first_free others 0 k) ∧
      ((Task3 t others fuel s).1 = true → ∃ k, k < fuel ∧ first_free others 0 k)) ∧
    (messages "Task2 could not lock the mutex"
        ((task2 t others fuel s).2.trace.drop s.trace.length) =
        failed_attempts ((task2 t others fuel s).2.trace.drop s.trace.length) ∧
      messages "Task2 could not lock the mutex"
        ((Task2 t others fuel s).2.trace.drop s.trace.length) =
        failed_attempts ((Task2 t others fuel s).2.trace.drop s.trace.length) ∧
      messages "Task2 could not lock the mutex"
        ((Task3 t others fuel s).2.trace.drop s.trace.length) =
        failed_attempts ((Task3 t others fuel s).2.trace.drop s.trace.length)) := by
  have hp := run_prefix s hb
  refine ⟨?_, ⟨?_, ?_, ?_⟩, ?_, ?_, ?_⟩
  · intro k hk hff
    have hfor := retry_for_succeeds t "Task2 could not lock the mutex" others k fuel 0
      (run [sleep_for 500, cout "Task2 trying to lock the mutex"] s) hk hff
    have huntil := retry_until_succeeds t "Task2 could not lock the mutex" others k fuel 0
      (run [sleep_for 500, cout "Task2 trying to lock the mutex"] s) hk hff
    rw [hp] at hfor huntil
    have e1 : task2 t others fuel s =
        (true,
          { s with
            locks := fun q =>
              if q = MutexRef.the_mutex then { exclusive := [t], shared := [] } else s.locks q
            trace := s.trace ++
              ([Event.sleep_for 500, Event.cout "Task2 trying to lock the mutex"] ++
               failed_for "Task2 could not lock the mutex" k ++
               [ Event.try_lock_for MutexRef.the_mutex 1000 true,
                 Event.cout "Task2 has locked the mutex" ]) }) := by
      simp only [task2, hfor, if_true, hp]
      simp only [Prod.mk.injEq, true_and]
      ext1
      · rfl
      · simp [cout]
      · rfl
    have e2 : Task2 t others fuel s =
        (true,
          { s with
            locks := fun q =>
              if q = MutexRef.the_mutex then { exclusive := [], shared := [] } else s.locks q
            trace := s.trace ++
              ([Event.sleep_for 500, Event.cout "Task2 trying to lock the mutex"] ++
               failed_until "Task2 could not lock the mutex" k ++
               [ Event.try_lock_until MutexRef.the_mutex 900 true,
                 Event.cout "Task2 has locked the mutex",
                 Event.unlock MutexRef.the_mutex ]) }) := by
      simp only [Task2, huntil, if_true, hp]
      simp only [Prod.mk.injEq, true_and]
      ext1
      · funext q
        by_cases hq : q = MutexRef.the_mutex
        · subst hq
          simp [run, hb, unlock, cout, Mutex.unlock]
        · simp [run, hb, unlock, cout, lg_locks_setLock_other _ _ _ _ hq, hq]
      · simp [run, hb, unlock, cout]
      · simp [run, hb, unlock, cout]
    have e3 : Task3 t others fuel s =
        (true,
          { s with
            locks := fun q =>
              if q = MutexRef.the_mutex then { exclusive := [], shared := [] } else s.locks q
            trace := s.trace ++
              ([Event.sleep_for 500, Event.cout "Task2 trying to lock the mutex"] ++
               failed_for "Task2 could not lock the mutex" k ++
               [ Event.try_lock_for MutexRef.the_mutex 1000 true,
                 Event.cout "Task2 has locked the mutex",
                 Event.unlock MutexRef.the_mutex ]) }) := by
      simp only [Task3, hfor, if_true, hp]
      simp only [Prod.mk.injEq, true_and]
      ext1
      · funext q
        by_cases hq : q = MutexRef.the_mutex
        · subst hq
          simp [run, hb, unlock, cout, Mutex.unlock]
        · simp [run, hb, unlock, cout, lg_locks_setLock_other _ _ _ _ hq, hq]
      · simp [run, hb, unlock, cout]
      · simp [run, hb, unlock, cout]
    refine ⟨⟨?_, ?_, ?_⟩, ⟨e2, ?_⟩, ⟨e3, ?_⟩⟩
    · rw [e1]
    · rw [e1]
      simp [Mutex.heldBy]
    · rw [e1]
      simp only [List.drop_left, lg_released_append, (released_failed _ k).1]
      rfl
    · rw [e2]; simp [Mutex.free]
    · rw [e3]; simp [Mutex.free]
  · intro h
    simp only [task2] at h
    split at h
    · next hok => exact retry_for_first t _ others fuel 0 _ hok
    · exact absurd h Bool.false_ne_true
  · intro h
    simp only [Task2] at h
    split at h
    · next hok => exact retry_until_first t _ others fuel 0 _ hok
    · exact absurd h Bool.false_ne_true
  · intro h
    simp only [Task3] at h
    split at h
    · next hok => exact retry_for_first t _ others fuel 0 _ hok
    · exact absurd h Bool.false_ne_true
  · obtain ⟨h0, ext, h1, h2, _⟩ := retry_for_counts t "Task2 could not lock the mutex" others
      fuel 0 (run [sleep_for 500, cout "Task2 trying to lock the mutex"] s)
    have h3 : (retry_for t "Task2 could not lock the mutex" others fuel 0
        (run [sleep_for 500, cout "Task2 trying to lock the mutex"] s)).2.trace =
        s.trace ++ ([Event.sleep_for 500, Event.cout "Task2 trying to lock the mutex"] ++ ext) := by
      rw [h1, hp, List.append_assoc]
    have h4 : (retry_for t "Task2 could not lock the mutex" others fuel 0
        (run [sleep_for 500, cout "Task2 trying to lock the mutex"] s)).2.blocked = none := by
      rw [h0, hp]
      exact hb
    simp only [task2]
    generalize retry_for t "Task2 could not lock the mutex" others fuel 0
      (run [sleep_for 500, cout "Task2 trying to lock the mutex"] s) = r at h3 h4
    split
    · simp only [run, List.foldl, h4, Option.isSome_none, Bool.false_eq_true, if_false, cout,
        unlock, lg_blocked_emit, lg_trace_emit, lg_trace_setLock, h3, List.append_assoc,
        List.drop_left, messages_append, failed_attempts_append, h2]
      simp [messages, failed_attempts]
    · simp only [h3, List.append_assoc, List.drop_left, messages_append,
        failed_attempts_append, h2]
      simp [messages, failed_attempts]
  · obtain ⟨h0, ext, h1, h2, _⟩ := retry_until_counts t "Task2 could not lock the mutex" others
      fuel 0 (run [sleep_for 500, cout "Task2 trying to lock the mutex"] s)
    have h3 : (retry_until t "Task2 could not lock the mutex" others fuel 0
        (run [sleep_for 500, cout "Task2 trying to lock the mutex"] s)).2.trace =
        s.trace ++ ([Event.sleep_for 500, Event.cout "Task2 trying to lock the mutex"] ++ ext) := by
      rw [h1, hp, List.append_assoc]
    have h4 : (retry_until t "Task2 could not lock the mutex" others fuel 0
        (run [sleep_for 500, cout "Task2 trying to lock the mutex"] s)).2.blocked = none := by
      rw [h0, hp]
      exact hb
    simp only [Task2]
    generalize retry_until t "Task2 could not lock the mutex" others fuel 0
      (run [sleep_for 500, cout "Task2 trying to lock the mutex"] s) = r at h3 h4
    split
    · simp only [run, List.foldl, h4, Option.isSome_none, Bool.false_eq_true, if_false, cout,
        unlock, lg_blocked_emit, lg_trace_emit, lg_trace_setLock, h3, List.append_assoc,
        List.drop_left, messages_append, failed_attempts_append, h2]
      simp [messages, failed_attempts]
    · simp only [h3, List.append_assoc, List.drop_left, messages_append,
        failed_attempts_append, h2]
      simp [messages, failed_attempts]
  · obtain ⟨h0, ext, h1, h2, _⟩ := retry_for_counts t "Task2 could not lock the mutex" others
      fuel 0 (run [sleep_for 500, cout "Task2 trying to lock the mutex"] s)
    have h3 : (retry_for t "Task2 could not lock the mutex" others fuel 0
        (run [sleep_for 500, cout "Task2 trying to lock the mutex"] s)).2.trace =
        s.trace ++ ([Event.sleep_for 500, Event.cout "Task2 trying to lock the mutex"] ++ ext) := by
      rw [h1, hp, List.append_assoc]
    have h4 : (retry_for t "Task2 could not lock the mutex" others fuel 0
        (run [sleep_for 500, cout "Task2 trying to lock the mutex"] s)).2.blocked = none := by
      rw [h0, hp]
      exact hb
    simp only [Task3]
    generalize retry_for t "Task2 could not lock the mutex" others fuel 0
      (run [sleep_for 500, cout "Task2 trying to lock the mutex"] s) = r at h3 h4
    split
    · simp only [run, List.foldl, h4, Option.isSome_none, Bool.false_eq_true, if_false, cout,
        unlock, lg_blocked_emit, lg_trace_emit, lg_trace_setLock, h3, List.append_assoc,
        List.drop_left, messages_append, failed_attempts_append, h2]
      simp [messages, failed_attempts]
    · simp only [h3, List.append_assoc, List.drop_left, messages_append,
        failed_attempts_append, h2]
      simp [messages, failed_attempts]

/-- Witness for C26: thread 1 from program start, while thread 5 holds
`the_mutex` during the first two attempts: two messages, then `task2` returns
holding the mutex and `Task2` and `Task3` return with the mutex free. -/
theorem timed_retry_leaves_witness :
    State.init.blocked = none ∧ first_free released_after_two 0 2 ∧
    ((task2 1 released_after_two 5 State.init).2.locks MutexRef.the_mutex).heldBy 1 = true ∧
    ((Task2 1 released_after_two 5 State.init).2.locks MutexRef.the_mutex).free = true ∧
    ((Task3 1 released_after_two 5 State.init).2.locks MutexRef.the_mutex).free = true ∧
    messages "Task2 could not lock the mutex"
      ((task2 1 released_after_two 5 State.init).2.trace.drop State.init.trace.length) =
      failed_attempts
        ((task2 1 released_after_two 5 State.init).2.trace.drop State.init.trace.length) :=
  have hff : first_free released_after_two 0 2 := by decide
  ⟨rfl, hff,
    ((timed_retry_leaves 1 released_after_two 5 State.init rfl).1 2 (by decide) hff).1.2.1,
    ((timed_retry_leaves 1 released_after_two 5 State.init rfl).1 2 (by decide) hff).2.1.2,
    ((timed_retry_leaves 1 released_after_two 5 State.init rfl).1 2 (by decide) hff).2.2.2,
    (timed_retry_leaves 1 released_after_two 5 State.init rfl).2.2.1⟩

end LockGuard

namespace ReaderWriter

/-! ## `reverse_string` and its scratch buffer -/

theorem strlen_terminated (s rest : List Nat) (hs : ∀ c ∈ s, c ≠ 0) :
    strlen (s ++ 0 :: rest) = some s.length := by
  induction s with
  | nil => simp [strlen]
  | cons c cs ih =>
    have hc : c ≠ 0 := hs c (by simp)
    have ih2 := ih (fun x hx => hs x (by simp [hx]))
    simp [strlen, hc, ih2]

theorem strlen_unterminated (s : List Nat) (z : Nat) (hs : ∀ c ∈ s, c ≠ 0) (hz : z ≠ 0) :
    strlen (s ++ [z]) = none := by
  induction s with
  | nil => simp [strlen, hz]
  | cons c cs ih =>
    have hc : c ≠ 0 := hs c (by simp)
    have ih2 := ih (fun x hx => hs x (by simp [hx]))
    simp [strlen, hc, ih2]

theorem size_for_loop_eq (n : Nat) (hn : n < 2 ^ 31) :
    to_int (size_t ((n : Int) - 1)) = (n : Int) - 1 := by
  unfold to_int size_t
  norm_num at hn ⊢
  omega

theorem size_eq (n : Nat) (hn : n < 2 ^ 31) : size_t ((n : Int) + 1) = n + 1 := by
  unfold size_t
  norm_num at hn ⊢
  omega


theorem fill_reverses (s rest : List Nat) (z : Nat) :
    ∀ (k : Nat) (t : List Nat), k ≤ s.length → t.length = k →
    fill ((s.length : Int) - 1) (s ++ rest) k ((s.drop k).reverse ++ t ++ [z]) =
      Outcome.done (s.reverse ++ [z]) := by
  intro k
  induction k with
  | zero =>
    intro t _ ht
    have : t = [] := List.length_eq_zero.mp ht
    subst this
    simp [fill]
  | succ k ih =>
    intro t hk ht
    obtain ⟨a, t2, rfl⟩ : ∃ a t2, t = a :: t2 := by
      cases t with
      | nil => simp at ht
      | cons a t2 => exact ⟨a, t2, rfl⟩
    have hlen : t2.length = k := by simpa using ht
    have hk2 : k < s.length := by omega
    have hget : (s ++ rest)[k]? = some s[k] := by
      rw [List.getElem?_append_left hk2, List.getElem?_eq_getElem hk2]
    have hidx : ((s.length : Int) - 1 - (k : Int)).toNat = (s.drop (k + 1)).reverse.length := by
      simp only [List.length_reverse, List.length_drop]
      omega
    have hdrop : s.drop k = s[k] :: s.drop (k + 1) := List.drop_eq_getElem_cons hk2
    simp only [fill, hget]
    rw [if_pos]
    · rw [hidx, List.append_assoc, List.set_append_right _ _ (le_refl _)]
      simp only [Nat.sub_self, List.cons_append, List.set_cons_zero]
      have e : (s.drop k).reverse = (s.drop (k + 1)).reverse ++ [s[k]] := by
        rw [hdrop, List.reverse_cons]
      have := ih t2 (by omega) hlen
      rw [e] at this
      simpa only [List.append_assoc, List.singleton_append, List.cons_append] using this
    · constructor
      · omega
      · rw [hidx]
        simp

theorem copy_back_copies (r tail : List Nat) (hr : ∀ c ∈ r, c ≠ 0) :
    ∀ (d i fuel : Nat) (u : List Nat), i + d = r.length → d < fuel → u.length = d →
    copy_back (r ++ [0]) fuel i (r.take i ++ u ++ tail) = Outcome.done (r ++ tail) := by
  have hlen := strlen_terminated r [] hr
  intro d
  induction d with
  | zero =>
    intro i fuel u hi hf hu
    obtain ⟨f, rfl⟩ : ∃ f, fuel = f + 1 := ⟨fuel - 1, by omega⟩
    have : u = [] := List.length_eq_zero.mp hu
    subst this
    have hi2 : i = r.length := by omega
    subst hi2
    simp only [copy_back, hlen, lt_irrefl, if_false, List.take_length, List.append_nil]
  | succ d ih =>
    intro i fuel u hi hf hu
    obtain ⟨f, rfl⟩ : ∃ f, fuel = f + 1 := ⟨fuel - 1, by omega⟩
    obtain ⟨a, u2, rfl⟩ : ∃ a u2, u = a :: u2 := by
      cases u with
      | nil => simp at hu
      | cons a u2 => exact ⟨a, u2, rfl⟩
    have hi2 : i < r.length := by omega
    have hget : (r ++ [0])[i]? = some r[i] := by
      rw [List.getElem?_append_left hi2, List.getElem?_eq_getElem hi2]
    have htake : (r.take i).length = i := by simp; omega
    have hset : (r.take i ++ a :: u2 ++ tail).set i r[i] = r.take (i + 1) ++ u2 ++ tail := by
      rw [List.append_assoc, List.set_append_right _ _ (by omega), htake]
      simp only [Nat.sub_self, List.cons_append, List.set_cons_zero, List.take_succ,
        List.getElem?_eq_getElem hi2, Option.toList, List.append_assoc, List.singleton_append,
        List.nil_append]
    simp only [copy_back, hlen, hi2, if_true, hget]
    rw [if_pos (by simp; omega), hset]
    exact ih (i + 1) f u2 (by omega) (by omega) (by simpa using hu)


theorem new_char_succ (fresh : Nat → Nat) (n : Nat) :
    new_char fresh (n + 1) = (List.range n).map fresh ++ [fresh n] := by
  simp [new_char, List.range_succ]

/-- The scratch buffer when the copy-back loop starts. -/
theorem scratch_eq (fresh : Nat → Nat) (s rest : List Nat) (hs : ∀ c ∈ s, c ≠ 0)
    (hn : s.length < 2 ^ 31) :
    scratch fresh (s ++ 0 :: rest) = Outcome.done (s.reverse ++ [fresh s.length]) := by
  simp only [scratch, strlen_terminated s rest hs, size_for_loop_eq _ hn, size_eq _ hn,
    new_char_succ]
  have h := fill_reverses s (0 :: rest) (fresh s.length) s.length ((List.range s.length).map fresh)
    (le_refl _) (by simp)
  simp only [List.drop_length, List.reverse_nil, List.nil_append] at h
  have e : ((s.length : Int) - 1 + 1).toNat = s.length := by omega
  rw [e]
  exact h

theorem reverse_string_eq (fresh : Nat → Nat) (s rest : List Nat) (hs : ∀ c ∈ s, c ≠ 0)
    (hn : s.length < 2 ^ 31) :
    reverse_string fresh (s ++ 0 :: rest) =
      if fresh s.length = 0 then Outcome.done (s.reverse ++ 0 :: rest)
      else Outcome.fault Fault.new_string_overrun := by
  have hr : ∀ c ∈ s.reverse, c ≠ 0 := fun c hc => hs c (List.mem_reverse.mp hc)
  simp only [reverse_string, scratch_eq fresh s rest hs hn]
  by_cases hz : fresh s.length = 0
  · rw [if_pos hz, hz]
    have h := copy_back_copies s.reverse (0 :: rest) hr s.length 0 (s.reverse.length + 1 + 1) s
      (by simp) (by simp only [List.length_reverse]; omega) rfl
    simpa using h
  · rw [if_neg hz]
    simp [copy_back, strlen_unterminated _ _ hr hz]

theorem strlen_lt (mem : List Nat) (len : Nat) (h : strlen mem = some len) :
    len < mem.length := by
  induction mem generalizing len with
  | nil => simp [strlen] at h
  | cons c cs ih =>
    simp only [strlen] at h
    split at h
    · simp only [Option.some.injEq] at h
      subst h
      simp
    · cases hcs : strlen cs with
      | none => simp [hcs] at h
      | some k =>
        simp only [hcs, Option.map_some', Option.some.injEq] at h
        subst h
        have := ih k hcs
        simp only [List.length_cons]
        omega

theorem fill_has_no_fuel (size_for_loop : Int) (str : List Nat) (k : Nat) (b : List Nat) :
    fill size_for_loop str k b ≠ Outcome.fault Fault.out_of_fuel := by
  induction k generalizing b with
  | zero => simp [fill]
  | succ k ih =>
    simp only [fill]
    split
    · simp
    · split
      · exact ih _
      · simp

theorem copy_back_has_fuel (new_string : List Nat) :
    ∀ (fuel i : Nat) (str : List Nat), 0 < fuel →
      (∀ len, strlen new_string = some len → i ≤ len ∧ len - i < fuel) →
      copy_back new_string fuel i str ≠ Outcome.fault Fault.out_of_fuel := by
  intro fuel
  induction fuel with
  | zero => intro i str h; omega
  | succ f ih =>
    intro i str _ hlen
    simp only [copy_back]
    split
    · simp
    · next len hl =>
      obtain ⟨h1, h2⟩ := hlen len hl
      split
      · next hi =>
        split
        · simp
        · split
          · apply ih (i + 1) _ (by omega)
            intro len2 hl2
            rw [hl] at hl2
            simp only [Option.some.injEq] at hl2
            subst hl2
            omega
          · simp
      · simp

/-- The fuel of the second loop is enough on every input: whatever the array and
the fresh block hold, `reverse_string` ends with a result or with an access out
of bounds. -/
theorem reverse_string_has_fuel (fresh : Nat → Nat) (str : List Nat) :
    reverse_string fresh str ≠ Outcome.fault Fault.out_of_fuel := by
  simp only [reverse_string]
  split
  · next f hf =>
    intro h
    simp only [Outcome.fault.injEq] at h
    subst h
    have := hf
    simp only [scratch] at this
    split at this
    · exact fill_has_no_fuel _ _ _ _ this
    · simp at this
  · next new_string _ =>
    apply copy_back_has_fuel new_string _ 0 str (by omega)
    intro len hl
    have := strlen_lt new_string len hl
    omega

/-- C27, where the code departs from it. The code never writes the terminator
into `new_string`.  For a string `s` of length `n` (no NUL inside, `n < 2^31`),
whatever follows its terminator in the array, the first loop leaves
`new_string` holding the `n` characters of `s` in reverse order at positions
`0..n-1` and, at position `n`, the byte `fresh n` that the block had when it was
allocated.  So `strlen(new_string)` is `n` only if that byte happens to be 0;
if it is not, `new_string` contains no 0 at all and the scan runs past the end
of the block. -/
theorem scratch_is_not_terminated (fresh : Nat → Nat) (s rest : List Nat)
    (hs : ∀ c ∈ s, c ≠ 0) (hn : s.length < 2 ^ 31) :
    scratch fresh (s ++ 0 :: rest) = Outcome.done (s.reverse ++ [fresh s.length]) ∧
    (s.reverse ++ [fresh s.length])[s.length]? = some (fresh s.length) ∧
    (fresh s.length = 0 → strlen (s.reverse ++ [fresh s.length]) = some s.length) ∧
    (fresh s.length ≠ 0 → strlen (s.reverse ++ [fresh s.length]) = none) := by
  have hr : ∀ c ∈ s.reverse, c ≠ 0 := fun c hc => hs c (List.mem_reverse.mp hc)
  refine ⟨scratch_eq fresh s rest hs hn, ?_, ?_, ?_⟩
  · simp
  · intro hz
    rw [hz]
    simpa using strlen_terminated s.reverse [] hr
  · intro hz
    exact strlen_unterminated s.reverse _ hr hz

/-- Witness for C27: "messi" on a heap that hands out blocks filled with `0xCD`:
the scratch buffer is "issem" followed by `0xCD`, and it has no terminator; for
the empty string it is the single byte `0xCD`. -/
theorem scratch_is_not_terminated_witness :
    (∀ c ∈ codes "messi", c ≠ 0) ∧ (codes "messi").length < 2 ^ 31 ∧
    scratch filled messi = Outcome.done (codes "issem" ++ [205]) ∧
    strlen (codes "issem" ++ [205]) = none ∧
    scratch filled [0] = Outcome.done [205] :=
  ⟨by decide, by decide, (scratch_is_not_terminated filled (codes "messi") [] (by decide)
      (by decide)).1,
    (scratch_is_not_terminated filled (codes "messi") [] (by decide) (by decide)).2.2.2
      (by decide),
    (scratch_is_not_terminated filled [] [] (by decide) (by decide)).1⟩

/-- C23, where the code departs from it. For a string `s` of length `n` (no NUL
inside, `n < 2^31`) `reverse_string` returns with the array holding `s` reversed,
the terminator still at position `n` and the bytes behind it untouched, only if
byte `n` of the fresh block `new_string` happens to be 0.  If that byte is not 0
the bound `strlen(new_string)` of the second loop is taken from a scan that runs
past the end of the block, and nothing is copied back. -/
theorem reverse_string_needs_zeroed_block (fresh : Nat → Nat) (s rest : List Nat)
    (hs : ∀ c ∈ s, c ≠ 0) (hn : s.length < 2 ^ 31) :
    (fresh s.length = 0 →
      reverse_string fresh (s ++ 0 :: rest) = Outcome.done (s.reverse ++ 0 :: rest)) ∧
    (fresh s.length ≠ 0 →
      reverse_string fresh (s ++ 0 :: rest) = Outcome.fault Fault.new_string_overrun) := by
  constructor
  · intro hz
    rw [reverse_string_eq fresh s rest hs hn, if_pos hz]
  · intro hz
    rw [reverse_string_eq fresh s rest hs hn, if_neg hz]

/-- Witness for C23: "messi" becomes "issem" on a heap that hands out zeroed
blocks, and the call overruns its scratch buffer on a heap that hands out blocks
filled with `0xCD`. -/
theorem reverse_string_needs_zeroed_block_witness :
    (∀ c ∈ codes "messi", c ≠ 0) ∧ (codes "messi").length < 2 ^ 31 ∧
    reverse_string zeroed messi = Outcome.done (codes "issem" ++ [0]) ∧
    reverse_string filled messi = Outcome.fault Fault.new_string_overrun :=
  ⟨by decide, by decide,
    (reverse_string_needs_zeroed_block zeroed (codes "messi") [] (by decide) (by decide)).1 rfl,
    (reverse_string_needs_zeroed_block filled (codes "messi") [] (by decide) (by decide)).2
      (by decide)⟩

/-- C28, where the code departs from it. Two calls of `reverse_string` on the
same array restore the string `s` (length `n`, no NUL inside, `n < 2^31`) only if
byte `n` of both fresh blocks happens to be 0; if it is not 0 in the first or in
the second block, that call overruns its scratch buffer.  Likewise a string that
reads the same in both directions is left as it is by one call only if byte `n`
of the fresh block happens to be 0. -/
theorem reverse_twice_needs_zeroed_blocks (fresh1 fresh2 : Nat → Nat) (s rest : List Nat)
    (hs : ∀ c ∈ s, c ≠ 0) (hn : s.length < 2 ^ 31) :
    (fresh1 s.length = 0 → fresh2 s.length = 0 →
      reverse_twice fresh1 fresh2 (s ++ 0 :: rest) = Outcome.done (s ++ 0 :: rest)) ∧
    (fresh1 s.length ≠ 0 →
      reverse_twice fresh1 fresh2 (s ++ 0 :: rest) = Outcome.fault Fault.new_string_overrun) ∧
    (fresh1 s.length = 0 → fresh2 s.length ≠ 0 →
      reverse_twice fresh1 fresh2 (s ++ 0 :: rest) = Outcome.fault Fault.new_string_overrun) ∧
    (s.reverse = s → fresh1 s.length = 0 →
      reverse_string fresh1 (s ++ 0 :: rest) = Outcome.done (s ++ 0 :: rest)) ∧
    (s.reverse = s → fresh1 s.length ≠ 0 →
      reverse_string fresh1 (s ++ 0 :: rest) = Outcome.fault Fault.new_string_overrun) := by
  have hr : ∀ c ∈ s.reverse, c ≠ 0 := fun c hc => hs c (List.mem_reverse.mp hc)
  have hn2 : s.reverse.length < 2 ^ 31 := by simpa using hn
  have h1 := reverse_string_eq fresh1 s rest hs hn
  have h2 := reverse_string_eq fresh2 s.reverse rest hr hn2
  simp only [List.length_reverse, List.reverse_reverse] at h2
  refine ⟨?_, ?_, ?_, ?_, ?_⟩
  · intro hz1 hz2
    simp only [reverse_twice, h1, if_pos hz1, h2, if_pos hz2]
  · intro hz1
    simp only [reverse_twice, h1, if_neg hz1]
  · intro hz1 hz2
    simp only [reverse_twice, h1, if_pos hz1, h2, if_neg hz2]
  · intro hp hz1
    rw [h1, if_pos hz1, hp]
  · intro _ hz1
    rw [h1, if_neg hz1]

/-- Witness for C28: "messi" reversed twice, and "level" reversed once, on a heap
that hands out zeroed blocks and on one that hands out blocks filled with
`0xCD`. -/
theorem reverse_twice_needs_zeroed_blocks_witness :
    (∀ c ∈ codes "messi", c ≠ 0) ∧ (codes "messi").length < 2 ^ 31 ∧
    reverse_twice zeroed zeroed messi = Outcome.done messi ∧
    reverse_twice zeroed filled messi = Outcome.fault Fault.new_string_overrun ∧
    reverse_string filled level = Outcome.fault Fault.new_string_overrun :=
  ⟨by decide, by decide,
    (reverse_twice_needs_zeroed_blocks zeroed zeroed (codes "messi") [] (by decide)
      (by decide)).1 rfl rfl,
    (reverse_twice_needs_zeroed_blocks zeroed filled (codes "messi") [] (by decide)
      (by decide)).2.2.1 rfl (by decide),
    (reverse_twice_needs_zeroed_blocks filled filled (codes "level") [] (by decide)
      (by decide)).2.2.2.2 (by decide) (by decide)⟩

end ReaderWriter

/-! ## Threads side by side: the ring of philosophers, `funcA1` and `funcB1` -/

namespace Deadlock

open Sync

theorem held_after_snoc (is : List Instr) (ins : Instr) :
    held_after (is ++ [ins]) = hold_step (held_after is) ins := by
  simp [held_after, List.foldl_append]

theorem take_succ_of_getElem? (prog : List Instr) (pc : Nat) (ins : Instr)
    (h : prog[pc]? = some ins) : prog.take (pc + 1) = prog.take pc ++ [ins] := by
  rw [List.take_succ, h]
  rfl

theorem held_after_take_succ (prog : List Instr) (pc : Nat) (ins : Instr)
    (h : prog[pc]? = some ins) :
    held_after (prog.take (pc + 1)) = hold_step (held_after (prog.take pc)) ins := by
  rw [take_succ_of_getElem? prog pc ins h, held_after_snoc]

/-- A thread that is not in a round holds what its executed statements say. -/
theorem holds_start (prog : List Instr) (pc : Nat) (sw : Bool) (tr : List Event) :
    holds prog { pc := pc, round := Round.start sw, trace := tr } =
      held_after (prog.take pc) := by
  simp only [holds]
  split <;> simp_all

theorem holds_of_not_std_lock (prog : List Instr) (th : Local)
    (h : ∀ a b, prog[th.pc]? ≠ some (Instr.std_lock a b)) :
    holds prog th = held_after (prog.take th.pc) := by
  simp only [holds]
  split
  · next a b sw heq _ => exact absurd heq (h a b)
  · next a b sw heq _ => exact absurd heq (h a b)
  · rfl

theorem holds_got (prog : List Instr) (pc : Nat) (a b : MutexRef) (sw : Bool) (tr : List Event)
    (h : prog[pc]? = some (Instr.std_lock a b)) :
    holds prog { pc := pc, round := Round.got sw, trace := tr } =
      first_of a b sw :: held_after (prog.take pc) := by
  simp only [holds, h]

theorem holds_back (prog : List Instr) (pc : Nat) (a b : MutexRef) (sw : Bool) (tr : List Event)
    (h : prog[pc]? = some (Instr.std_lock a b)) :
    holds prog { pc := pc, round := Round.back sw, trace := tr } =
      first_of a b sw :: held_after (prog.take pc) := by
  simp only [holds, h]

@[simp] theorem view_blocked (c : Config) (i : Nat) : (c.view i).blocked = none := rfl

@[simp] theorem view_locks (c : Config) (i : Nat) : (c.view i).locks = c.locks := rfl

@[simp] theorem view_mouthfuls (c : Config) (i : Nat) : (c.view i).mouthfuls = c.mouthfuls := rfl

@[simp] theorem view_trace (c : Config) (i : Nat) : (c.view i).trace = (c.threads i).trace := rfl

theorem interp_simple (t : Tid) (ins : Instr) (h : ins.simple = true) (s : State) :
    (interp t ins s).locks = s.locks ∧ (interp t ins s).blocked = s.blocked := by
  cases ins <;> simp [Instr.simple] at h <;> exact ⟨rfl, rfl⟩

theorem commit_some (c : Config) (i pc : Nat) (r : Round) (s : State) (h : s.blocked = none) :
    c.commit i pc r s =
      some { threads := fun j => if j = i then { pc := pc, round := r, trace := s.trace }
                                 else c.threads j
             locks := s.locks
             mouthfuls := s.mouthfuls } := by
  simp [Config.commit, h]

theorem commit_none (c : Config) (i pc : Nat) (r : Round) (s : State) (m : MutexRef)
    (h : s.blocked = some m) : c.commit i pc r s = none := by
  simp [Config.commit, h]

theorem view_lock_free (c : Config) (i : Nat) (m : MutexRef) (hf : (c.locks m).free = true) :
    lock i m (c.view i) =
      { locks := fun q => if q = m then { exclusive := [i], shared := [] } else c.locks q
        mouthfuls := c.mouthfuls
        trace := (c.threads i).trace ++ [Event.lock m]
        blocked := none } := by
  simp [lock, lock_of_free _ i hf, State.setLock, State.emit, Config.view]

theorem view_lock_taken (c : Config) (i : Nat) (m : MutexRef) (hf : (c.locks m).free = false) :
    (lock i m (c.view i)).blocked = some m := by
  simp [lock, lock_of_taken _ i hf, Config.view]

theorem view_unlock (c : Config) (i : Nat) (m : MutexRef) :
    unlock i m (c.view i) =
      { locks := fun q => if q = m then (c.locks m).unlock i else c.locks q
        mouthfuls := c.mouthfuls
        trace := (c.threads i).trace ++ [Event.unlock m]
        blocked := none } := by
  simp [unlock, State.setLock, State.emit, Config.view]

theorem view_try_lock_free (c : Config) (i : Nat) (m : MutexRef)
    (hf : (c.locks m).free = true) :
    try_lock i m (c.view i) =
      (true,
        { locks := fun q => if q = m then { exclusive := [i], shared := [] } else c.locks q
          mouthfuls := c.mouthfuls
          trace := (c.threads i).trace ++ [Event.try_lock m true]
          blocked := none }) := by
  have hm := free_eq _ hf
  simp [try_lock, Mutex.try_lock, hm, Mutex.free, State.setLock, State.emit, Config.view]

theorem view_try_lock_taken (c : Config) (i : Nat) (m : MutexRef)
    (hf : (c.locks m).free = false) :
    try_lock i m (c.view i) =
      (false,
        { locks := c.locks
          mouthfuls := c.mouthfuls
          trace := (c.threads i).trace ++ [Event.try_lock m false]
          blocked := none }) := by
  simp only [try_lock, Mutex.try_lock, view_locks, hf, Bool.false_eq_true, if_false,
    State.setLock, State.emit, Config.view, Prod.mk.injEq, true_and]
  congr 1
  funext q
  by_cases hq : q = m
  · subst hq; simp
  · simp [hq]

/-- Every step of the machine is one of the cases of `Step`. -/
theorem step_cases (progs : Nat → List Instr) (c c2 : Config) (i : Nat)
    (h : c.step progs i = some c2) : Step progs c i c2 := by
  unfold Config.step at h
  split at h
  · simp at h
  · next a b hin =>
    split at h
    · next sw hr =>
      cases hf : (c.locks (first_of a b sw)).free with
      | true =>
        rw [view_lock_free c i _ hf, commit_some _ _ _ _ _ rfl] at h
        simp only [Option.some.injEq] at h
        subst h
        exact Step.first a b sw hin hr hf
      | false =>
        rw [commit_none _ _ _ _ _ _ (view_lock_taken c i _ hf)] at h
        simp at h
    · next sw hr =>
      cases hf : (c.locks (second_of a b sw)).free with
      | true =>
        rw [view_try_lock_free c i _ hf] at h
        simp only [if_true] at h
        rw [commit_some _ _ _ _ _ rfl] at h
        simp only [Option.some.injEq] at h
        subst h
        exact Step.second a b sw hin hr hf
      | false =>
        rw [view_try_lock_taken c i _ hf] at h
        simp only [Bool.false_eq_true, if_false] at h
        rw [commit_some _ _ _ _ _ rfl] at h
        simp only [Option.some.injEq] at h
        subst h
        exact Step.failed a b sw hin hr hf
    · next sw hr =>
      rw [view_unlock, commit_some _ _ _ _ _ rfl] at h
      simp only [Option.some.injEq] at h
      subst h
      exact Step.back a b sw hin hr
  · next ins hns hin =>
    cases ins with
    | std_lock a b => exact absurd rfl (hns a b)
    | lock m =>
      simp only [interp] at h
      cases hf : (c.locks m).free with
      | true =>
        rw [view_lock_free c i _ hf, commit_some _ _ _ _ _ rfl] at h
        simp only [Option.some.injEq] at h
        subst h
        exact Step.lock m hin hf
      | false =>
        rw [commit_none _ _ _ _ _ _ (view_lock_taken c i _ hf)] at h
        simp at h
    | unlock m =>
      simp only [interp] at h
      rw [view_unlock, commit_some _ _ _ _ _ rfl] at h
      simp only [Option.some.injEq] at h
      subst h
      exact Step.unlock m hin
    | cout msg =>
      rw [commit_some _ _ _ _ _ rfl] at h
      simp only [Option.some.injEq] at h
      subst h
      exact Step.simple _ hin rfl
    | sleep_for ms =>
      rw [commit_some _ _ _ _ _ rfl] at h
      simp only [Option.some.injEq] at h
      subst h
      exact Step.simple _ hin rfl
    | index a k =>
      rw [commit_some _ _ _ _ _ rfl] at h
      simp only [Option.some.injEq] at h
      subst h
      exact Step.simple _ hin rfl
    | incr phil =>
      rw [commit_some _ _ _ _ _ rfl] at h
      simp only [Option.some.injEq] at h
      subst h
      exact Step.simple _ hin rfl

/-- Every case of `Step` is a step of the machine. -/
theorem step_of_cases (progs : Nat → List Instr) (c c2 : Config) (i : Nat)
    (h : Step progs c i c2) : c.step progs i = some c2 := by
  cases h with
  | simple ins hin hs =>
    cases ins <;> simp [Instr.simple] at hs <;>
      simp [Config.step, hin, Config.commit, interp, cout, sleep_for, index, incr, State.emit]
  | lock m hin hf =>
    simp only [Config.step, hin, interp]
    rw [view_lock_free c i m hf, commit_some _ _ _ _ _ rfl]
  | unlock m hin =>
    simp only [Config.step, hin, interp]
    rw [view_unlock, commit_some _ _ _ _ _ rfl]
  | first a b sw hin hr hf =>
    simp only [Config.step, hin, hr]
    rw [view_lock_free c i _ hf, commit_some _ _ _ _ _ rfl]
  | second a b sw hin hr hf =>
    simp only [Config.step, hin, hr]
    rw [view_try_lock_free c i _ hf]
    simp only [if_true]
    rw [commit_some _ _ _ _ _ rfl]
  | failed a b sw hin hr hf =>
    simp only [Config.step, hin, hr]
    rw [view_try_lock_taken c i _ hf]
    simp only [Bool.false_eq_true, if_false]
    rw [commit_some _ _ _ _ _ rfl]
  | back a b sw hin hr =>
    simp only [Config.step, hin, hr]
    rw [view_unlock, commit_some _ _ _ _ _ rfl]

theorem first_or_second (a b : MutexRef) (sw : Bool) :
    (first_of a b sw = a ∧ second_of a b sw = b) ∨ (first_of a b sw = b ∧ second_of a b sw = a) := by
  cases sw <;> simp [first_of, second_of]

/-- The agreement of lock state and places is kept by every step. -/
theorem inv_step (progs : Nat → List Instr) (c c2 : Config) (i : Nat) (hinv : Inv progs c)
    (h : c.step progs i = some c2) : Inv progs c2 := by
  have hst := step_cases progs c c2 i h
  cases hst with
  | simple ins hin hs =>
    have hns : ∀ a b, (progs i)[(c.threads i).pc]? ≠ some (Instr.std_lock a b) := by
      intro a b hab
      rw [hin] at hab
      cases hab
      simp [Instr.simple] at hs
    have hpc : (c.threads i).pc < (progs i).length := by
      by_contra hge
      rw [List.getElem?_eq_none (by omega)] at hin
      cases hin
    refine ⟨hinv.shared, ?_, ?_, ?_⟩
    · intro m t ht
      obtain ⟨h1, h2⟩ := hinv.holder m t ht
      refine ⟨h1, ?_⟩
      by_cases hti : t = i
      · subst hti
        simp only [if_true]
        rw [holds_start, held_after_take_succ _ _ _ hin]
        rw [holds_of_not_std_lock _ _ hns] at h2
        cases ins <;> simp [Instr.simple] at hs <;> simpa [hold_step] using h2
      · simpa [hti] using h2
    · intro j hj
      by_cases hji : j = i
      · subst hji; simp
      · simp only [hji, if_false] at hj ⊢
        exact hinv.round j hj
    · intro j
      by_cases hji : j = i
      · subst hji; simp; omega
      · simp only [hji, if_false]
        exact hinv.pc_le j
  | lock m0 hin hf =>
    have hns : ∀ a b, (progs i)[(c.threads i).pc]? ≠ some (Instr.std_lock a b) := by
      intro a b hab
      rw [hin] at hab
      cases hab
    have hpc : (c.threads i).pc < (progs i).length := by
      by_contra hge
      rw [List.getElem?_eq_none (by omega)] at hin
      cases hin
    refine ⟨?_, ?_, ?_, ?_⟩
    · intro m
      by_cases hm : m = m0
      · subst hm; simp
      · simp only [hm, if_false]; exact hinv.shared m
    · intro m t ht
      by_cases hm : m = m0
      · subst hm
        simp only [if_true, List.mem_singleton] at ht ⊢
        subst ht
        simp only [if_true, true_and]
        rw [holds_start, held_after_take_succ _ _ _ hin]
        simp [hold_step]
      · simp only [hm, if_false] at ht ⊢
        obtain ⟨h1, h2⟩ := hinv.holder m t ht
        refine ⟨h1, ?_⟩
        by_cases hti : t = i
        · subst hti
          simp only [if_true]
          rw [holds_start, held_after_take_succ _ _ _ hin]
          rw [holds_of_not_std_lock _ _ hns] at h2
          simp [hold_step, h2]
        · simpa [hti] using h2
    · intro j hj
      by_cases hji : j = i
      · subst hji; simp
      · simp only [hji, if_false] at hj ⊢
        exact hinv.round j hj
    · intro j
      by_cases hji : j = i
      · subst hji; simp; omega
      · simp only [hji, if_false]
        exact hinv.pc_le j
  | unlock m0 hin =>
    have hns : ∀ a b, (progs i)[(c.threads i).pc]? ≠ some (Instr.std_lock a b) := by
      intro a b hab
      rw [hin] at hab
      cases hab
    have hpc : (c.threads i).pc < (progs i).length := by
      by_contra hge
      rw [List.getElem?_eq_none (by omega)] at hin
      cases hin
    refine ⟨?_, ?_, ?_, ?_⟩
    · intro m
      by_cases hm : m = m0
      · subst hm; simp [Mutex.unlock, hinv.shared m]
      · simp only [hm, if_false]; exact hinv.shared m
    · intro m t ht
      by_cases hm : m = m0
      · subst hm
        simp only [if_true, Mutex.unlock] at ht ⊢
        have ht0 : t ∈ (c.locks m).exclusive := List.mem_of_mem_erase ht
        obtain ⟨h1, h2⟩ := hinv.holder m t ht0
        rw [h1] at ht ⊢
        have hti : t ≠ i := by
          intro hti
          subst hti
          simp at ht
        have he : [t].erase i = [t] := by
          simp [List.erase_cons, hti]
        rw [he]
        refine ⟨rfl, ?_⟩
        simpa [hti] using h2
      · simp only [hm, if_false] at ht ⊢
        obtain ⟨h1, h2⟩ := hinv.holder m t ht
        refine ⟨h1, ?_⟩
        by_cases hti : t = i
        · subst hti
          simp only [if_true]
          rw [holds_start, held_after_take_succ _ _ _ hin]
          rw [holds_of_not_std_lock _ _ hns] at h2
          simp only [hold_step]
          exact (List.mem_erase_of_ne hm).mpr h2
        · simpa [hti] using h2
    · intro j hj
      by_cases hji : j = i
      · subst hji; simp
      · simp only [hji, if_false] at hj ⊢
        exact hinv.round j hj
    · intro j
      by_cases hji : j = i
      · subst hji; simp; omega
      · simp only [hji, if_false]
        exact hinv.pc_le j
  | first a b sw hin hr hf =>
    refine ⟨?_, ?_, ?_, ?_⟩
    · intro m
      by_cases hm : m = first_of a b sw
      · subst hm; simp
      · simp only [hm, if_false]; exact hinv.shared m
    · intro m t ht
      by_cases hm : m = first_of a b sw
      · subst hm
        simp only [if_true, List.mem_singleton] at ht ⊢
        subst ht
        simp only [if_true, true_and]
        rw [holds_got _ _ a b sw _ hin]
        simp
      · simp only [hm, if_false] at ht ⊢
        obtain ⟨h1, h2⟩ := hinv.holder m t ht
        refine ⟨h1, ?_⟩
        by_cases hti : t = i
        · subst hti
          simp only [if_true]
          rw [holds_got _ _ a b sw _ hin]
          have : holds (progs t) (c.threads t) = held_after ((progs t).take (c.threads t).pc) := by
            simp only [holds, hin, hr]
          rw [this] at h2
          simp [h2]
        · simpa [hti] using h2
    · intro j hj
      by_cases hji : j = i
      · subst hji
        simp only [if_true] at hj
        exact absurd hin (hj a b)
      · simp only [hji, if_false] at hj ⊢
        exact hinv.round j hj
    · intro j
      by_cases hji : j = i
      · subst hji; simp; exact hinv.pc_le j
      · simp only [hji, if_false]
        exact hinv.pc_le j
  | second a b sw hin hr hf =>
    have hpc : (c.threads i).pc < (progs i).length := by
      by_contra hge
      rw [List.getElem?_eq_none (by omega)] at hin
      cases hin
    refine ⟨?_, ?_, ?_, ?_⟩
    · intro m
      by_cases hm : m = second_of a b sw
      · subst hm; simp
      · simp only [hm, if_false]; exact hinv.shared m
    · intro m t ht
      by_cases hm : m = second_of a b sw
      · subst hm
        simp only [if_true, List.mem_singleton] at ht ⊢
        subst ht
        simp only [if_true, true_and]
        rw [holds_start, held_after_take_succ _ _ _ hin]
        rcases first_or_second a b sw with ⟨_, h2⟩ | ⟨_, h2⟩ <;> simp [hold_step, h2]
      · simp only [hm, if_false] at ht ⊢
        obtain ⟨h1, h2⟩ := hinv.holder m t ht
        refine ⟨h1, ?_⟩
        by_cases hti : t = i
        · subst hti
          simp only [if_true]
          rw [holds_start, held_after_take_succ _ _ _ hin]
          have : holds (progs t) (c.threads t) =
              first_of a b sw :: held_after ((progs t).take (c.threads t).pc) := by
            simp only [holds, hin, hr]
          rw [this] at h2
          rcases first_or_second a b sw with ⟨h3, _⟩ | ⟨h3, _⟩
          · rw [h3] at h2
            simp only [hold_step, List.mem_cons] at h2 ⊢
            tauto
          · rw [h3] at h2
            simp only [hold_step, List.mem_cons] at h2 ⊢
            tauto
        · simpa [hti] using h2
    · intro j hj
      by_cases hji : j = i
      · subst hji; simp
      · simp only [hji, if_false] at hj ⊢
        exact hinv.round j hj
    · intro j
      by_cases hji : j = i
      · subst hji; simp; omega
      · simp only [hji, if_false]
        exact hinv.pc_le j
  | failed a b sw hin hr hf =>
    refine ⟨hinv.shared, ?_, ?_, ?_⟩
    · intro m t ht
      obtain ⟨h1, h2⟩ := hinv.holder m t ht
      refine ⟨h1, ?_⟩
      by_cases hti : t = i
      · subst hti
        simp only [if_true]
        rw [holds_back _ _ a b sw _ hin]
        have : holds (progs t) (c.threads t) =
            first_of a b sw :: held_after ((progs t).take (c.threads t).pc) := by
          simp only [holds, hin, hr]
        rw [this] at h2
        exact h2
      · simpa [hti] using h2
    · intro j hj
      by_cases hji : j = i
      · subst hji
        simp only [if_true] at hj
        exact absurd hin (hj a b)
      · simp only [hji, if_false] at hj ⊢
        exact hinv.round j hj
    · intro j
      by_cases hji : j = i
      · subst hji; simp; exact hinv.pc_le j
      · simp only [hji, if_false]
        exact hinv.pc_le j
  | back a b sw hin hr =>
    refine ⟨?_, ?_, ?_, ?_⟩
    · intro m
      by_cases hm : m = first_of a b sw
      · subst hm; simp [Mutex.unlock, hinv.shared]
      · simp only [hm, if_false]; exact hinv.shared m
    · intro m t ht
      by_cases hm : m = first_of a b sw
      · subst hm
        simp only [if_true, Mutex.unlock] at ht ⊢
        have ht0 : t ∈ (c.locks (first_of a b sw)).exclusive := List.mem_of_mem_erase ht
        obtain ⟨h1, h2⟩ := hinv.holder _ t ht0
        rw [h1] at ht ⊢
        have hti : t ≠ i := by
          intro hti
          subst hti
          simp at ht
        have he : [t].erase i = [t] := by
          simp [List.erase_cons, hti]
        rw [he]
        refine ⟨rfl, ?_⟩
        simpa [hti] using h2
      · simp only [hm, if_false] at ht ⊢
        obtain ⟨h1, h2⟩ := hinv.holder m t ht
        refine ⟨h1, ?_⟩
        by_cases hti : t = i
        · subst hti
          simp only [if_true]
          rw [holds_start]
          have : holds (progs t) (c.threads t) =
              first_of a b sw :: held_after ((progs t).take (c.threads t).pc) := by
            simp only [holds, hin, hr]
          rw [this] at h2
          simp only [List.mem_cons] at h2
          rcases h2 with h2 | h2
          · exact absurd h2 hm
          · exact h2
        · simpa [hti] using h2
    · intro j hj
      by_cases hji : j = i
      · subst hji
        simp only [if_true] at hj
        exact absurd hin (hj a b)
      · simp only [hji, if_false] at hj ⊢
        exact hinv.round j hj
    · intro j
      by_cases hji : j = i
      · subst hji; simp; exact hinv.pc_le j
      · simp only [hji, if_false]
        exact hinv.pc_le j

theorem inv_start (progs : Nat → List Instr) : Inv progs Config.start := by
  refine ⟨fun _ => rfl, ?_, fun _ _ => rfl, fun _ => Nat.zero_le _⟩
  intro m t ht
  simp [Config.start, State.init, Mutex.unlocked] at ht

theorem inv_exec (progs : Nat → List Instr) (ws : List Nat) (c c2 : Config)
    (hinv : Inv progs c) (h : Config.exec progs ws c = some c2) : Inv progs c2 := by
  induction ws generalizing c with
  | nil =>
    simp only [Config.exec, Option.some.injEq] at h
    subst h
    exact hinv
  | cons i is ih =>
    simp only [Config.exec] at h
    cases hs : c.step progs i with
    | none => simp [hs] at h
    | some c1 =>
      rw [hs] at h
      exact ih c1 (inv_step progs c c1 i hinv hs) h

theorem inv_reachable (progs : Nat → List Instr) (c : Config) (h : Reachable progs c) :
    Inv progs c := by
  obtain ⟨ws, hws⟩ := h
  exact inv_exec progs ws _ c (inv_start progs) hws

theorem machine_exec_append (progs : Nat → List Instr) (ws1 ws2 : List Nat) (c : Config) :
    Config.exec progs (ws1 ++ ws2) c =
      match Config.exec progs ws1 c with
      | some c2 => Config.exec progs ws2 c2
      | none => none := by
  induction ws1 generalizing c with
  | nil => rfl
  | cons w ws ih =>
    simp only [List.cons_append, Config.exec]
    cases c.step progs w with
    | none => rfl
    | some c2 => exact ih c2

theorem reachable_exec (progs : Nat → List Instr) (ws : List Nat) (c c2 : Config)
    (hr : Reachable progs c) (h : Config.exec progs ws c = some c2) : Reachable progs c2 := by
  obtain ⟨ws0, h0⟩ := hr
  exact ⟨ws0 ++ ws, by rw [machine_exec_append, h0]; exact h⟩

theorem dine_prog_eq (n : Int) :
    dine_prog n =
      [ Instr.lock MutexRef.print_mutex,
        Instr.index Arr.names n,
        Instr.cout ("Philosopher " ++ names.getD n.toNat "" ++ "'s forks are " ++
          toString (lfork n) ++ " and " ++ toString (rfork n)),
        Instr.unlock MutexRef.print_mutex,
        Instr.lock MutexRef.print_mutex,
        Instr.index Arr.names n,
        Instr.cout ("Philosopher " ++ names.getD n.toNat "" ++ " is thinking...."),
        Instr.unlock MutexRef.print_mutex,
        Instr.sleep_for think_time,
        Instr.lock MutexRef.print_mutex,
        Instr.index Arr.names n,
        Instr.cout ("Philosopher " ++ names.getD n.toNat "" ++ " reaches for forks " ++
          toString (lfork n) ++ " and " ++ toString (rfork n)),
        Instr.unlock MutexRef.print_mutex,
        Instr.index Arr.fork_mutex (lfork n),
        Instr.index Arr.fork_mutex (rfork n),
        Instr.std_lock (MutexRef.fork_mutex (lfork n)) (MutexRef.fork_mutex (rfork n)),
        Instr.index Arr.fork_mutex (lfork n),
        Instr.index Arr.fork_mutex (rfork n),
        Instr.lock MutexRef.print_mutex,
        Instr.index Arr.names n,
        Instr.cout ("Philosopher " ++ names.getD n.toNat "" ++ " picks up fork " ++
          toString (lfork n) ++ " and " ++ toString (rfork n)),
        Instr.unlock MutexRef.print_mutex,
        Instr.lock MutexRef.print_mutex,
        Instr.index Arr.names n,
        Instr.cout ("Philosopher " ++ names.getD n.toNat "" ++ " is eating..."),
        Instr.unlock MutexRef.print_mutex,
        Instr.lock MutexRef.increment_mut,
        Instr.index Arr.mouthfuls n,
        Instr.incr n,
        Instr.unlock MutexRef.increment_mut,
        Instr.sleep_for eat_time,
        Instr.lock MutexRef.print_mutex,
        Instr.index Arr.names n,
        Instr.cout ("Philosopher " ++ names.getD n.toNat "" ++ " puts down forks " ++
          toString (lfork n) ++ " and " ++ toString (rfork n)),
        Instr.unlock MutexRef.print_mutex,
        Instr.lock MutexRef.print_mutex,
        Instr.index Arr.names n,
        Instr.cout ("Philosopher " ++ names.getD n.toNat "" ++ " is thinking...."),
        Instr.unlock MutexRef.print_mutex,
        Instr.sleep_for think_time,
        Instr.unlock (MutexRef.fork_mutex (rfork n)),
        Instr.unlock (MutexRef.fork_mutex (lfork n)) ] := rfl

theorem dine_prog_length (n : Int) : (dine_prog n).length = 42 := rfl

theorem dine_prog_std_lock (n : Int) (pc : Nat) (a b : MutexRef)
    (h : (dine_prog n)[pc]? = some (Instr.std_lock a b)) :
    pc = 15 ∧ a = MutexRef.fork_mutex (lfork n) ∧ b = MutexRef.fork_mutex (rfork n) := by
  rw [dine_prog_eq] at h
  rcases Nat.lt_or_ge pc 42 with hlt | hge
  · interval_cases pc <;> simp at h
    exact ⟨rfl, h.1.symm, h.2.symm⟩
  · rw [List.getElem?_eq_none (by simpa using hge)] at h
    cases h

theorem dine_prog_lock (n : Int) (pc : Nat) (m : MutexRef)
    (h : (dine_prog n)[pc]? = some (Instr.lock m)) :
    m = MutexRef.print_mutex ∨ m = MutexRef.increment_mut := by
  rw [dine_prog_eq] at h
  rcases Nat.lt_or_ge pc 42 with hlt | hge
  · interval_cases pc <;> simp at h <;> simp [← h]
  · rw [List.getElem?_eq_none (by simpa using hge)] at h
    cases h

theorem dine_prog_incr (n : Int) (pc : Nat) (phil : Int)
    (h : (dine_prog n)[pc]? = some (Instr.incr phil)) : pc = 28 ∧ phil = n := by
  rw [dine_prog_eq] at h
  rcases Nat.lt_or_ge pc 42 with hlt | hge
  · interval_cases pc <;> simp at h
    exact ⟨rfl, h.symm⟩
  · rw [List.getElem?_eq_none (by simpa using hge)] at h
    cases h

theorem dine_prog_at_incr (n : Int) : (dine_prog n)[28]? = some (Instr.incr n) := rfl

theorem dine_prog_at_std_lock (n : Int) :
    (dine_prog n)[15]? =
      some (Instr.std_lock (MutexRef.fork_mutex (lfork n)) (MutexRef.fork_mutex (rfork n))) := rfl

theorem dine_held_before_std_lock (n : Int) : held_after ((dine_prog n).take 15) = [] := by
  rw [dine_prog_eq]
  simp [held_after, hold_step]

theorem dine_held_at_end (n : Int) : held_after (dine_prog n) = [] := by
  rw [dine_prog_eq]
  simp [held_after, hold_step]

/-- Inside `dine` the output mutex and the counter mutex are held only over
statements that run at once. -/
theorem dine_sections_short (n : Int) (pc : Nat) (m : MutexRef)
    (hm : m ∈ held_after ((dine_prog n).take pc))
    (hpm : m = MutexRef.print_mutex ∨ m = MutexRef.increment_mut) :
    ∃ ins, (dine_prog n)[pc]? = some ins ∧ ins.free_running = true := by
  rw [dine_prog_eq] at hm ⊢
  rcases Nat.lt_or_ge pc 42 with hlt | hge
  · interval_cases pc <;> simp [held_after, hold_step, Instr.free_running] at hm ⊢ <;>
      rcases hpm with rfl | rfl <;> simp at hm
  · rw [List.take_of_length_le (by simpa using hge)] at hm
    simp [held_after, hold_step] at hm

theorem ring_some (i pc : Nat) (ins : Instr) (h : (ring i)[pc]? = some ins) :
    i < 5 ∧ ring i = dine_prog i ∧ (dine_prog i)[pc]? = some ins := by
  unfold ring at h ⊢
  split at h
  · next hi => exact ⟨hi, by simp [hi], h⟩
  · simp at h

theorem ring_held_at_end (i : Nat) : held_after (ring i) = [] := by
  unfold ring
  split
  · exact dine_held_at_end _
  · rfl

theorem ring_length (i : Nat) (h : i < 5) : (ring i).length = 42 := by
  simp [ring, h, dine_prog_length]

theorem ring_forks_ne (i : Nat) (h : i < 5) : lfork (i : Int) ≠ rfork (i : Int) :=
  forks_ne nforks i (by decide) (by omega) (by simp [nforks]; omega)

theorem remaining_step (c c2 : Config) (i : Nat) (hi : i < 5) (th : Local)
    (h : c2.threads = fun j => if j = i then th else c.threads j)
    (hpc : th.pc = (c.threads i).pc + 1) (hlt : (c.threads i).pc < 42) :
    c2.remaining < c.remaining := by
  simp only [Config.remaining, h]
  interval_cases i <;> simp <;> omega

theorem remaining_same (c c2 : Config) (i : Nat) (th : Local)
    (h : c2.threads = fun j => if j = i then th else c.threads j)
    (hpc : th.pc = (c.threads i).pc) :
    c2.remaining = c.remaining := by
  simp only [Config.remaining, h]
  by_cases h0 : 0 = i <;> by_cases h1 : 1 = i <;> by_cases h2 : 2 = i <;>
    by_cases h3 : 3 = i <;> by_cases h4 : 4 = i <;>
    simp [h0, h1, h2, h3, h4, hpc]

theorem unrest_step (c c2 : Config) (i : Nat) (hi : i < 5) (th : Local)
    (h : c2.threads = fun j => if j = i then th else c.threads j)
    (hr : th.round.rank < (c.threads i).round.rank) :
    c2.unrest < c.unrest := by
  simp only [Config.unrest, h]
  interval_cases i <;> simp <;> omega

/-- A mutex that is not free has a holder, and the holder stands at a place where
it holds the mutex. -/
theorem holder_of_taken (progs : Nat → List Instr) (c : Config) (hinv : Inv progs c)
    (m : MutexRef) (h : (c.locks m).free = false) :
    ∃ t, (c.locks m).exclusive = [t] ∧ m ∈ holds (progs t) (c.threads t) := by
  have hs := hinv.shared m
  cases hex : (c.locks m).exclusive with
  | nil => simp [Mutex.free, hex, hs] at h
  | cons t ts =>
    have ht : t ∈ (c.locks m).exclusive := by simp [hex]
    obtain ⟨h1, h2⟩ := hinv.holder m t ht
    exact ⟨t, by rw [← hex, h1], h2⟩

/-- In the ring, a thread that has returned or stands at the start of a round
holds nothing. -/
theorem ring_holds_nothing (c : Config) (t : Nat)
    (h : c.returned ring t = true ∨
      ∃ a b sw, (ring t)[(c.threads t).pc]? = some (Instr.std_lock a b) ∧
        (c.threads t).round = Round.start sw) :
    holds (ring t) (c.threads t) = [] := by
  rcases h with h | ⟨a, b, sw, hin, hr⟩
  · have hle : (ring t).length ≤ (c.threads t).pc := by simpa [Config.returned] using h
    have hnone : (ring t)[(c.threads t).pc]? = none := List.getElem?_eq_none hle
    simp only [holds, hnone]
    rw [List.take_of_length_le hle]
    exact ring_held_at_end t
  · obtain ⟨h5, _, hd⟩ := ring_some _ _ _ hin
    obtain ⟨hpc, _, _⟩ := dine_prog_std_lock _ _ _ _ hd
    simp only [holds, hin, hr]
    rw [hpc]
    simp only [ring, h5, if_true]
    exact dine_held_before_std_lock _

theorem step_first (progs : Nat → List Instr) (c : Config) (i : Nat) (a b : MutexRef)
    (sw : Bool) (hin : (progs i)[(c.threads i).pc]? = some (Instr.std_lock a b))
    (hr : (c.threads i).round = Round.start sw)
    (hf : (c.locks (first_of a b sw)).free = true) :
    ∃ c1, c.step progs i = some c1 ∧
      c1.threads = (fun j =>
        if j = i then { pc := (c.threads i).pc, round := Round.got sw,
                        trace := (c.threads i).trace ++ [Event.lock (first_of a b sw)] }
        else c.threads j) ∧
      c1.locks = fun q =>
        if q = first_of a b sw then { exclusive := [i], shared := [] } else c.locks q :=
  ⟨_, step_of_cases progs c _ i (Step.first a b sw hin hr hf), rfl, rfl⟩

theorem step_second (progs : Nat → List Instr) (c : Config) (i : Nat) (a b : MutexRef)
    (sw : Bool) (hin : (progs i)[(c.threads i).pc]? = some (Instr.std_lock a b))
    (hr : (c.threads i).round = Round.got sw)
    (hf : (c.locks (second_of a b sw)).free = true) :
    ∃ c1, c.step progs i = some c1 ∧
      ∃ th, c1.threads = (fun j => if j = i then th else c.threads j) ∧
        th.pc = (c.threads i).pc + 1 :=
  ⟨_, step_of_cases progs c _ i (Step.second a b sw hin hr hf), _, rfl, rfl⟩

theorem step_failed (progs : Nat → List Instr) (c : Config) (i : Nat) (a b : MutexRef)
    (sw : Bool) (hin : (progs i)[(c.threads i).pc]? = some (Instr.std_lock a b))
    (hr : (c.threads i).round = Round.got sw)
    (hf : (c.locks (second_of a b sw)).free = false) :
    ∃ c1, c.step progs i = some c1 ∧
      ∃ th, c1.threads = (fun j => if j = i then th else c.threads j) ∧
        th.pc = (c.threads i).pc ∧ th.round = Round.back sw :=
  ⟨_, step_of_cases progs c _ i (Step.failed a b sw hin hr hf), _, rfl, rfl, rfl⟩

theorem step_back (progs : Nat → List Instr) (c : Config) (i : Nat) (a b : MutexRef)
    (sw : Bool) (hin : (progs i)[(c.threads i).pc]? = some (Instr.std_lock a b))
    (hr : (c.threads i).round = Round.back sw) :
    ∃ c1, c.step progs i = some c1 ∧
      ∃ th, c1.threads = (fun j => if j = i then th else c.threads j) ∧
        th.pc = (c.threads i).pc ∧ th.round = Round.start (!sw) :=
  ⟨_, step_of_cases progs c _ i (Step.back a b sw hin hr), _, rfl, rfl, rfl⟩

theorem step_lock (progs : Nat → List Instr) (c : Config) (i : Nat) (m : MutexRef)
    (hin : (progs i)[(c.threads i).pc]? = some (Instr.lock m))
    (hf : (c.locks m).free = true) :
    ∃ c1, c.step progs i = some c1 ∧
      ∃ th, c1.threads = (fun j => if j = i then th else c.threads j) ∧
        th.pc = (c.threads i).pc + 1 :=
  ⟨_, step_of_cases progs c _ i (Step.lock m hin hf), _, rfl, rfl⟩

theorem step_free_running (progs : Nat → List Instr) (c : Config) (i : Nat) (ins : Instr)
    (hin : (progs i)[(c.threads i).pc]? = some ins) (hfr : ins.free_running = true) :
    ∃ c1, c.step progs i = some c1 ∧
      ∃ th, c1.threads = (fun j => if j = i then th else c.threads j) ∧
        th.pc = (c.threads i).pc + 1 := by
  cases ins with
  | lock m => simp [Instr.free_running] at hfr
  | std_lock a b => simp [Instr.free_running] at hfr
  | unlock m => exact ⟨_, step_of_cases progs c _ i (Step.unlock m hin), _, rfl, rfl⟩
  | cout msg => exact ⟨_, step_of_cases progs c _ i (Step.simple _ hin rfl), _, rfl, rfl⟩
  | sleep_for ms => exact ⟨_, step_of_cases progs c _ i (Step.simple _ hin rfl), _, rfl, rfl⟩
  | index a k => exact ⟨_, step_of_cases progs c _ i (Step.simple _ hin rfl), _, rfl, rfl⟩
  | incr phil => exact ⟨_, step_of_cases progs c _ i (Step.simple _ hin rfl), _, rfl, rfl⟩

theorem exec_one (progs : Nat → List Instr) (c c1 : Config) (i : Nat)
    (h : c.step progs i = some c1) : Config.exec progs [i] c = some c1 := by
  simp [Config.exec, h]

theorem exec_cons (progs : Nat → List Instr) (c c1 c2 : Config) (i : Nat) (ws : List Nat)
    (h : c.step progs i = some c1) (h2 : Config.exec progs ws c1 = some c2) :
    Config.exec progs (i :: ws) c = some c2 := by
  simp [Config.exec, h, h2]

/-- When every round of the ring is at its start, every fork is free, and a
philosopher who has not returned takes both forks in two steps. -/
theorem ring_all_start_progress (c : Config) (hinv : Inv ring c)
    (hq : ∀ i, c.returned ring i = true ∨
      ∃ a b, (ring i)[(c.threads i).pc]? = some (Instr.std_lock a b))
    (hn : ∃ i, c.returned ring i = false)
    (hs : ∀ i, ∃ sw, (c.threads i).round = Round.start sw) :
    ∃ ws c2, Config.exec ring ws c = some c2 ∧ c2.remaining < c.remaining := by
  have hnothing : ∀ t, holds (ring t) (c.threads t) = [] := by
    intro t
    apply ring_holds_nothing
    rcases hq t with h | ⟨a, b, h⟩
    · exact Or.inl h
    · obtain ⟨sw, hsw⟩ := hs t
      exact Or.inr ⟨a, b, sw, h, hsw⟩
  have hfree : ∀ m, (c.locks m).free = true := by
    intro m
    cases hf : (c.locks m).free with
    | true => rfl
    | false =>
      obtain ⟨t, _, ht⟩ := holder_of_taken ring c hinv m hf
      rw [hnothing t] at ht
      cases ht
  obtain ⟨i, hi⟩ := hn
  rcases hq i with h | ⟨a, b, hin⟩
  · rw [h] at hi; cases hi
  obtain ⟨sw, hsw⟩ := hs i
  obtain ⟨h5, _, hd⟩ := ring_some _ _ _ hin
  obtain ⟨hpc, ha, hb⟩ := dine_prog_std_lock _ _ _ _ hd
  have hab : first_of a b sw ≠ second_of a b sw := by
    have hne := ring_forks_ne i h5
    subst ha hb
    cases sw <;> simp [first_of, second_of] <;> intro h <;> exact hne (by simp [h])
  obtain ⟨c1, h1, ht1, hl1⟩ := step_first ring c i a b sw hin hsw (hfree _)
  have hin1 : (ring i)[(c1.threads i).pc]? = some (Instr.std_lock a b) := by
    rw [ht1]; simpa using hin
  have hr1 : (c1.threads i).round = Round.got sw := by rw [ht1]; simp
  have hf1 : (c1.locks (second_of a b sw)).free = true := by
    rw [hl1]; simp [hab.symm, hfree]
  obtain ⟨c2, h2, th2, ht2, hpc2⟩ := step_second ring c1 i a b sw hin1 hr1 hf1
  refine ⟨[i, i], c2, exec_cons ring c c1 c2 i [i] h1 (exec_one ring c1 c2 i h2), ?_⟩
  apply remaining_step c c2 i h5 th2
  · rw [ht2, ht1]
    funext j
    by_cases hj : j = i
    · subst hj; simp
    · simp [hj]
  · rw [hpc2, ht1]; simp
  · omega

theorem returned_same (progs : Nat → List Instr) (c c1 : Config) (i : Nat) (th : Local)
    (ht : c1.threads = fun j => if j = i then th else c.threads j)
    (hpc : th.pc = (c.threads i).pc) (j : Nat) :
    c1.returned progs j = c.returned progs j ∧
      (progs j)[(c1.threads j).pc]? = (progs j)[(c.threads j).pc]? := by
  rw [Config.returned, Config.returned, ht]
  by_cases hj : j = i
  · subst hj; simp [hpc]
  · simp [hj]

/-- When the philosophers who have not returned are all inside `std::lock`, some
schedule takes one of them through it. -/
theorem ring_rounds_progress (k : Nat) : ∀ c : Config, Inv ring c →
    (∀ i, c.returned ring i = true ∨
      ∃ a b, (ring i)[(c.threads i).pc]? = some (Instr.std_lock a b)) →
    (∃ i, c.returned ring i = false) → c.unrest ≤ k →
    ∃ ws c2, Config.exec ring ws c = some c2 ∧ c2.remaining < c.remaining := by
  induction k with
  | zero =>
    intro c hinv hq hn hk
    apply ring_all_start_progress c hinv hq hn
    intro i
    by_cases hi : ∃ a b, (ring i)[(c.threads i).pc]? = some (Instr.std_lock a b)
    · obtain ⟨a, b, hin⟩ := hi
      obtain ⟨h5, _, _⟩ := ring_some _ _ _ hin
      have hz : (c.threads i).round.rank = 0 := by
        simp only [Config.unrest] at hk
        interval_cases i <;> omega
      cases hr : (c.threads i).round with
      | start sw => exact ⟨sw, rfl⟩
      | got sw => rw [hr] at hz; simp [Round.rank] at hz
      | back sw => rw [hr] at hz; simp [Round.rank] at hz
    · exact ⟨false, hinv.round i (fun a b h => hi ⟨a, b, h⟩)⟩
  | succ k ih =>
    intro c hinv hq hn hk
    by_cases hs : ∀ i, ∃ sw, (c.threads i).round = Round.start sw
    · exact ring_all_start_progress c hinv hq hn hs
    · obtain ⟨i, hi⟩ := not_forall.mp hs
      have hstd : ∃ a b, (ring i)[(c.threads i).pc]? = some (Instr.std_lock a b) := by
        by_contra hno
        exact hi ⟨false, hinv.round i (fun a b h => hno ⟨a, b, h⟩)⟩
      obtain ⟨a, b, hin⟩ := hstd
      obtain ⟨h5, _, hd⟩ := ring_some _ _ _ hin
      obtain ⟨hpc, _, _⟩ := dine_prog_std_lock _ _ _ _ hd
      cases hr : (c.threads i).round with
      | start sw => exact absurd ⟨sw, hr⟩ hi
      | got sw =>
        cases hf : (c.locks (second_of a b sw)).free with
        | true =>
          obtain ⟨c1, h1, th, ht, hp⟩ := step_second ring c i a b sw hin hr hf
          exact ⟨[i], c1, exec_one ring c c1 i h1,
            remaining_step c c1 i h5 th ht hp (by omega)⟩
        | false =>
          obtain ⟨c1, h1, th, ht, hp, hrd⟩ := step_failed ring c i a b sw hin hr hf
          have hinv1 := inv_step ring c c1 i hinv h1
          have hsame := returned_same ring c c1 i th ht hp
          have hq1 : ∀ j, c1.returned ring j = true ∨
              ∃ a b, (ring j)[(c1.threads j).pc]? = some (Instr.std_lock a b) := by
            intro j
            rw [(hsame j).1, (hsame j).2]
            exact hq j
          have hn1 : ∃ j, c1.returned ring j = false := by
            obtain ⟨j, hj⟩ := hn
            exact ⟨j, by rw [(hsame j).1]; exact hj⟩
          have hu : c1.unrest < c.unrest :=
            unrest_step c c1 i h5 th ht (by rw [hrd, hr]; simp [Round.rank])
          obtain ⟨ws, c2, h2, hlt⟩ := ih c1 hinv1 hq1 hn1 (by omega)
          exact ⟨i :: ws, c2, exec_cons ring c c1 c2 i ws h1 h2,
            by rw [← remaining_same c c1 i th ht hp]; exact hlt⟩
      | back sw =>
        obtain ⟨c1, h1, th, ht, hp, hrd⟩ := step_back ring c i a b sw hin hr
        have hinv1 := inv_step ring c c1 i hinv h1
        have hsame := returned_same ring c c1 i th ht hp
        have hq1 : ∀ j, c1.returned ring j = true ∨
            ∃ a b, (ring j)[(c1.threads j).pc]? = some (Instr.std_lock a b) := by
          intro j
          rw [(hsame j).1, (hsame j).2]
          exact hq j
        have hn1 : ∃ j, c1.returned ring j = false := by
          obtain ⟨j, hj⟩ := hn
          exact ⟨j, by rw [(hsame j).1]; exact hj⟩
        have hu : c1.unrest < c.unrest :=
          unrest_step c c1 i h5 th ht (by rw [hrd, hr]; simp [Round.rank])
        obtain ⟨ws, c2, h2, hlt⟩ := ih c1 hinv1 hq1 hn1 (by omega)
        exact ⟨i :: ws, c2, exec_cons ring c c1 c2 i ws h1 h2,
          by rw [← remaining_same c c1 i th ht hp]; exact hlt⟩

/-- From a configuration of the ring in which somebody has not returned, some
schedule executes one more statement to its end. -/
theorem ring_progress (c : Config) (hinv : Inv ring c)
    (hn : ∃ i, c.returned ring i = false) :
    ∃ ws c2, Config.exec ring ws c = some c2 ∧ c2.remaining < c.remaining := by
  by_cases h1 : ∃ i ins, (ring i)[(c.threads i).pc]? = some ins ∧ ins.free_running = true
  · obtain ⟨i, ins, hin, hfr⟩ := h1
    obtain ⟨h5, _, hd⟩ := ring_some _ _ _ hin
    have hlt : (c.threads i).pc < 42 := by
      by_contra hge
      rw [List.getElem?_eq_none (by rw [dine_prog_length]; omega)] at hd
      cases hd
    obtain ⟨c1, hs, th, ht, hp⟩ := step_free_running ring c i ins hin hfr
    exact ⟨[i], c1, exec_one ring c c1 i hs, remaining_step c c1 i h5 th ht hp hlt⟩
  by_cases h2 : ∃ i m, (ring i)[(c.threads i).pc]? = some (Instr.lock m)
  · obtain ⟨i, m, hin⟩ := h2
    obtain ⟨h5, _, hd⟩ := ring_some _ _ _ hin
    have hlt : (c.threads i).pc < 42 := by
      by_contra hge
      rw [List.getElem?_eq_none (by rw [dine_prog_length]; omega)] at hd
      cases hd
    have hm := dine_prog_lock _ _ _ hd
    have hf : (c.locks m).free = true := by
      cases hf : (c.locks m).free with
      | true => rfl
      | false =>
        exfalso
        obtain ⟨t, _, ht⟩ := holder_of_taken ring c hinv m hf
        have hheld : m ∈ held_after ((ring t).take (c.threads t).pc) := by
          simp only [holds] at ht
          split at ht
          · next a b sw heq _ =>
            obtain ⟨_, _, hdt⟩ := ring_some _ _ _ heq
            obtain ⟨_, ha, hb⟩ := dine_prog_std_lock _ _ _ _ hdt
            simp only [List.mem_cons] at ht
            rcases ht with ht | ht
            · subst ha hb
              cases sw <;> simp [first_of] at ht <;> rcases hm with hm | hm <;>
                rw [hm] at ht <;> cases ht
            · exact ht
          · next a b sw heq _ =>
            obtain ⟨_, _, hdt⟩ := ring_some _ _ _ heq
            obtain ⟨_, ha, hb⟩ := dine_prog_std_lock _ _ _ _ hdt
            simp only [List.mem_cons] at ht
            rcases ht with ht | ht
            · subst ha hb
              cases sw <;> simp [first_of] at ht <;> rcases hm with hm | hm <;>
                rw [hm] at ht <;> cases ht
            · exact ht
          · exact ht
        have ht5 : t < 5 := by
          by_contra hge
          simp [ring, hge, held_after] at hheld
        have hrt : ring t = dine_prog t := by simp [ring, ht5]
        rw [hrt] at hheld
        obtain ⟨ins, hins, hfr⟩ := dine_sections_short _ _ _ hheld hm
        exact h1 ⟨t, ins, by rw [hrt]; exact hins, hfr⟩
    obtain ⟨c1, hs, th, ht, hp⟩ := step_lock ring c i m hin hf
    exact ⟨[i], c1, exec_one ring c c1 i hs, remaining_step c c1 i h5 th ht hp hlt⟩
  · apply ring_rounds_progress c.unrest c hinv ?_ hn (le_refl _)
    intro i
    cases hret : c.returned ring i with
    | true => exact Or.inl rfl
    | false =>
      right
      have hlt : (c.threads i).pc < (ring i).length := by
        simpa [Config.returned] using hret
      have hget : (ring i)[(c.threads i).pc]? = some ((ring i)[(c.threads i).pc]) :=
        List.getElem?_eq_getElem hlt
      cases hins : (ring i)[(c.threads i).pc] with
      | std_lock a b => exact ⟨a, b, by rw [hget, hins]⟩
      | lock m => exact absurd ⟨i, m, by rw [hget, hins]⟩ h2
      | unlock m => exact absurd ⟨i, Instr.unlock m, by rw [hget, hins], rfl⟩ h1
      | cout msg => exact absurd ⟨i, Instr.cout msg, by rw [hget, hins], rfl⟩ h1
      | sleep_for ms => exact absurd ⟨i, Instr.sleep_for ms, by rw [hget, hins], rfl⟩ h1
      | index a k => exact absurd ⟨i, Instr.index a k, by rw [hget, hins], rfl⟩ h1
      | incr phil => exact absurd ⟨i, Instr.incr phil, by rw [hget, hins], rfl⟩ h1

/-- From every configuration of the ring that agrees with its lock state, some
schedule leads to a configuration in which all five philosophers have
returned. -/
theorem ring_completes (n : Nat) : ∀ c : Config, Inv ring c → c.remaining ≤ n →
    ∃ ws c2, Config.exec ring ws c = some c2 ∧ ∀ i, c2.returned ring i = true := by
  induction n with
  | zero =>
    intro c hinv hle
    by_cases hn : ∃ i, c.returned ring i = false
    · obtain ⟨ws, c2, _, hlt⟩ := ring_progress c hinv hn
      omega
    · refine ⟨[], c, rfl, fun i => ?_⟩
      cases h : c.returned ring i with
      | true => rfl
      | false => exact absurd ⟨i, h⟩ hn
  | succ n ih =>
    intro c hinv hle
    by_cases hn : ∃ i, c.returned ring i = false
    · obtain ⟨ws, c1, h1, hlt⟩ := ring_progress c hinv hn
      obtain ⟨ws2, c2, h2, hall⟩ := ih c1 (inv_exec ring ws c c1 hinv h1) (by omega)
      exact ⟨ws ++ ws2, c2, by rw [machine_exec_append, h1]; exact h2, hall⟩
    · refine ⟨[], c, rfl, fun i => ?_⟩
      cases h : c.returned ring i with
      | true => rfl
      | false => exact absurd ⟨i, h⟩ hn

theorem counted_start : Counted Config.start := by
  refine ⟨rfl, fun i hi => ?_⟩
  interval_cases i <;> rfl

theorem counted_threads (c c2 : Config) (i : Nat) (th : Local) (hc : Counted c)
    (ht : c2.threads = fun j => if j = i then th else c.threads j)
    (hm : c2.mouthfuls = c.mouthfuls)
    (hpc : 28 < th.pc ↔ 28 < (c.threads i).pc) : Counted c2 := by
  refine ⟨by rw [hm]; exact hc.1, fun j hj => ?_⟩
  rw [hm, ht, hc.2 j hj]
  by_cases hji : j = i
  · subst hji
    simp only [if_true]
    by_cases h : 28 < (c.threads j).pc
    · simp [h, hpc.mpr h]
    · have h3 : ¬ 28 < th.pc := fun h2 => h (hpc.mp h2)
      simp [h, h3]
  · simp [hji]

theorem counted_step (c c2 : Config) (i : Nat) (hc : Counted c)
    (h : c.step ring i = some c2) : Counted c2 := by
  have hst := step_cases ring c c2 i h
  have hne : ∀ ins, (ring i)[(c.threads i).pc]? = some ins → (∀ p, ins ≠ Instr.incr p) →
      (28 < (c.threads i).pc + 1 ↔ 28 < (c.threads i).pc) := by
    intro ins hin hnot
    obtain ⟨_, _, hd⟩ := ring_some _ _ _ hin
    have : (c.threads i).pc ≠ 28 := by
      intro h28
      rw [h28, dine_prog_at_incr] at hd
      simp only [Option.some.injEq] at hd
      exact hnot _ hd.symm
    omega
  cases hst with
  | simple ins hin hs =>
    cases ins with
    | incr phil =>
      obtain ⟨h5, _, hd⟩ := ring_some _ _ _ hin
      obtain ⟨hpc, hphil⟩ := dine_prog_incr _ _ _ hd
      subst hphil
      have hold := hc.2 i h5
      rw [hpc] at hold
      simp only [lt_irrefl, if_false] at hold
      refine ⟨?_, fun j hj => ?_⟩
      · simp [interp, incr, hc.1]
      · by_cases hji : j = i
        · subst hji
          simp only [interp, incr, view_mouthfuls, Int.natCast_nonneg, if_true, Int.toNat_ofNat,
            hpc]
          rw [List.getD_eq_getElem?_getD, List.getElem?_set_self (by rw [hc.1]; exact hj)]
          rw [List.getD_eq_getElem?_getD] at hold
          simp [hold, pre_increment, INT_MAX]
        · simp only [interp, incr, view_mouthfuls, Int.natCast_nonneg, if_true, Int.toNat_ofNat,
            hji, if_false]
          rw [List.getD_eq_getElem?_getD, List.getElem?_set_ne (fun h => hji h.symm),
            ← List.getD_eq_getElem?_getD]
          exact hc.2 j hj
    | cout msg =>
      exact counted_threads c _ i _ hc rfl rfl (hne _ hin (fun p => by simp))
    | sleep_for ms =>
      exact counted_threads c _ i _ hc rfl rfl (hne _ hin (fun p => by simp))
    | index a k =>
      exact counted_threads c _ i _ hc rfl rfl (hne _ hin (fun p => by simp))
    | lock m => simp [Instr.simple] at hs
    | unlock m => simp [Instr.simple] at hs
    | std_lock a b => simp [Instr.simple] at hs
  | lock m hin hf => exact counted_threads c _ i _ hc rfl rfl (hne _ hin (fun p => by simp))
  | unlock m hin => exact counted_threads c _ i _ hc rfl rfl (hne _ hin (fun p => by simp))
  | first a b sw hin hr hf => exact counted_threads c _ i _ hc rfl rfl Iff.rfl
  | second a b sw hin hr hf =>
    exact counted_threads c _ i _ hc rfl rfl (hne _ hin (fun p => by simp))
  | failed a b sw hin hr hf => exact counted_threads c _ i _ hc rfl rfl Iff.rfl
  | back a b sw hin hr => exact counted_threads c _ i _ hc rfl rfl Iff.rfl

theorem counted_exec (ws : List Nat) (c c2 : Config) (hc : Counted c)
    (h : Config.exec ring ws c = some c2) : Counted c2 := by
  induction ws generalizing c with
  | nil =>
    simp only [Config.exec, Option.some.injEq] at h
    subst h
    exact hc
  | cons i is ih =>
    simp only [Config.exec] at h
    cases hs : c.step ring i with
    | none => simp [hs] at h
    | some c1 =>
      rw [hs] at h
      exact ih c1 (counted_step c c1 i hc hs) h

/-- When the five philosophers have returned, every counter is 1. -/
theorem counted_returned (c : Config) (hc : Counted c)
    (hall : ∀ i, c.returned ring i = true) : c.mouthfuls = [1, 1, 1, 1, 1] := by
  have hv : ∀ i, i < 5 → c.mouthfuls.getD i 0 = 1 := by
    intro i hi
    have hr := hall i
    simp only [Config.returned, ring_length i hi, decide_eq_true_eq] at hr
    rw [hc.2 i hi, if_pos (by omega)]
  obtain ⟨hlen, _⟩ := hc
  match hm : c.mouthfuls, hlen with
  | [a0, a1, a2, a3, a4], _ =>
    rw [hm] at hv
    have h0 := hv 0 (by omega)
    have h1 := hv 1 (by omega)
    have h2 := hv 2 (by omega)
    have h3 := hv 3 (by omega)
    have h4 := hv 4 (by omega)
    simp at h0 h1 h2 h3 h4
    rw [h0, h1, h2, h3, h4]

theorem counted_reachable (c : Config) (h : Reachable ring c) : Counted c := by
  obtain ⟨ws, hws⟩ := h
  exact counted_exec ws _ c counted_start hws

/-- In a reachable configuration of the ring somebody can take a step, unless
all five philosophers have returned. -/
theorem ring_somebody_moves (c : Config) (h : Reachable ring c)
    (hn : ∃ i, c.returned ring i = false) : ∃ i, (c.step ring i).isSome = true := by
  obtain ⟨ws, c2, hex, hlt⟩ := ring_progress c (inv_reachable ring c h) hn
  cases ws with
  | nil =>
    simp only [Config.exec, Option.some.injEq] at hex
    subst hex
    omega
  | cons i is =>
    refine ⟨i, ?_⟩
    simp only [Config.exec] at hex
    cases hs : c.step ring i with
    | none => simp [hs] at hex
    | some c1 => rfl

/-- From a reachable configuration of the ring the end of the run is reachable:
all five philosophers have returned and every counter is 1. -/
theorem ring_end_reachable (c : Config) (h : Reachable ring c) :
    ∃ ws c2, Config.exec ring ws c = some c2 ∧ (∀ i, c2.returned ring i = true) ∧
      c2.mouthfuls = [1, 1, 1, 1, 1] := by
  obtain ⟨ws, c2, hex, hall⟩ := ring_completes c.remaining c (inv_reachable ring c h) (le_refl _)
  exact ⟨ws, c2, hex, hall,
    counted_returned c2 (counted_reachable c2 (reachable_exec ring ws c c2 h hex)) hall⟩

theorem exec_getD (progs : Nat → List Instr) (ws : List Nat) (d : Config)
    (h : (Config.exec progs ws Config.start).isSome = true) :
    Reachable progs ((Config.exec progs ws Config.start).getD d) := by
  refine ⟨ws, ?_⟩
  cases he : Config.exec progs ws Config.start with
  | none => rw [he] at h; cases h
  | some c => rfl

set_option maxRecDepth 100000 in
theorem after_funcA1_reachable : Reachable adopters after_funcA1 :=
  exec_getD adopters funcA1_alone Config.start (by decide)

theorem grant_snoc (tr : List Event) (e : Event) : grant (tr ++ [e]) = (grant tr).step e := by
  simp [grant, List.foldl_append]

theorem taken_take_succ (prog : List Instr) (pc : Nat) (ins : Instr)
    (h : prog[pc]? = some ins) :
    taken (prog.take (pc + 1)) = taken_step (taken (prog.take pc)) ins := by
  rw [take_succ_of_getElem? prog pc ins h]
  simp [taken, List.foldl_append]

theorem unlocks_append (l1 l2 : List Instr) : unlocks (l1 ++ l2) = unlocks l1 ++ unlocks l2 := by
  induction l1 with
  | nil => rfl
  | cons x xs ih => cases x <;> simp [unlocks, ih]

theorem unlocks_take_succ (prog : List Instr) (pc k : Nat) (ins : Instr)
    (h : prog[pc]? = some ins) (hk : k < pc) :
    unlocks ((prog.take (pc + 1)).drop (k + 1)) =
      unlocks ((prog.take pc).drop (k + 1)) ++ unlocks [ins] := by
  have hlt : pc < prog.length := by
    by_contra hn
    rw [List.getElem?_eq_none (by omega)] at h
    cases h
  rw [take_succ_of_getElem? prog pc ins h, List.drop_append_of_le_length, unlocks_append]
  simp only [List.length_take]
  omega

/-- A statement that neither touches a mutex nor waits adds one event, which is
not a call on a mutex. -/
theorem interp_simple_trace (t : Tid) (ins : Instr) (h : ins.simple = true) (s : State) :
    ∃ e, (interp t ins s).trace = s.trace ++ [e] ∧ ∀ g : Grant, g.step e = g := by
  cases ins with
  | cout msg => exact ⟨Event.cout msg, rfl, fun _ => rfl⟩
  | sleep_for ms => exact ⟨Event.sleep_for ms, rfl, fun _ => rfl⟩
  | index a i => exact ⟨Event.index a i, rfl, fun _ => rfl⟩
  | incr phil => exact ⟨Event.incr phil, by simp [interp, incr, State.emit], fun _ => rfl⟩
  | lock m => simp [Instr.simple] at h
  | unlock m => simp [Instr.simple] at h
  | std_lock a b => simp [Instr.simple] at h

/-- A step of thread `j` leaves the other threads where they are. -/
theorem step_other (progs : Nat → List Instr) (c c2 : Config) (i j : Nat)
    (hs : Step progs c j c2) (hij : i ≠ j) : c2.threads i = c.threads i := by
  cases hs <;> simp [hij]

/-- One step of a system keeps the events of every thread in agreement with the
place where it stands. -/
theorem traced_step (progs : Nat → List Instr) (c c2 : Config) (i j k : Nat) (a b : MutexRef)
    (hk : (progs i)[k]? = some (Instr.std_lock a b))
    (huniq : ∀ n a2 b2, (progs i)[n]? = some (Instr.std_lock a2 b2) → n = k)
    (hempty : taken ((progs i).take k) = [])
    (hs : Step progs c j c2) (ht : Traced (progs i) k a b (c.threads i)) :
    Traced (progs i) k a b (c2.threads i) := by
  by_cases hij : i = j
  swap
  · rw [step_other progs c c2 i j hs hij]
    exact ht
  subst hij
  obtain ⟨h1, h2, h3⟩ := ht
  cases hs with
  | simple ins h hsim =>
    obtain ⟨e, he, hg⟩ := interp_simple_trace i ins hsim (c.view i)
    have hne : (c.threads i).pc ≠ k := by
      intro hpc
      rw [hpc, hk] at h
      cases h
      simp [Instr.simple] at hsim
    have hts : ∀ held, taken_step held ins = held := by
      intro held
      cases ins <;> simp [Instr.simple] at hsim <;> rfl
    have hun : unlocks [ins] = [] := by
      cases ins <;> simp [Instr.simple] at hsim <;> rfl
    simp only [Traced, if_true, he, view_trace, grant_snoc, hg]
    refine ⟨?_, ?_, ?_⟩
    · intro hlt
      rw [taken_take_succ _ _ _ h, hts]
      exact h1 (by omega)
    · intro heq
      rw [h1 (by omega)]
      have := taken_take_succ _ _ _ h
      rw [heq, hempty, hts] at this
      exact this.symm
    · intro hlt
      have hlt2 : k < (c.threads i).pc := by omega
      refine ⟨(h3 hlt2).1, ?_⟩
      rw [unlocks_take_succ _ _ _ _ h hlt2, hun, List.append_nil]
      exact (h3 hlt2).2
  | lock m h hf =>
    have hne : (c.threads i).pc ≠ k := by
      intro hpc
      rw [hpc, hk] at h
      cases h
    simp only [Traced, if_true, grant_snoc, Grant.step]
    refine ⟨?_, ?_, ?_⟩
    · intro hlt
      rw [taken_take_succ _ _ _ h, h1 (by omega)]
      rfl
    · intro heq
      rw [h1 (by omega)]
      have := taken_take_succ _ _ _ h
      rw [heq, hempty] at this
      exact this.symm
    · intro hlt
      have hlt2 : k < (c.threads i).pc := by omega
      refine ⟨(h3 hlt2).1, ?_⟩
      rw [unlocks_take_succ _ _ _ _ h hlt2]
      simpa [unlocks] using (h3 hlt2).2
  | unlock m h =>
    have hne : (c.threads i).pc ≠ k := by
      intro hpc
      rw [hpc, hk] at h
      cases h
    simp only [Traced, if_true, grant_snoc, Grant.step]
    refine ⟨?_, ?_, ?_⟩
    · intro hlt
      rw [taken_take_succ _ _ _ h, h1 (by omega)]
      rfl
    · intro heq
      rw [h1 (by omega)]
      have := taken_take_succ _ _ _ h
      rw [heq, hempty] at this
      exact this.symm
    · intro hlt
      have hlt2 : k < (c.threads i).pc := by omega
      refine ⟨(h3 hlt2).1, ?_⟩
      rw [unlocks_take_succ _ _ _ _ h hlt2, (h3 hlt2).2]
      rfl
  | first a2 b2 sw h hr hf =>
    have hpc := huniq _ _ _ h
    rw [hpc, hk] at h
    cases h
    simp only [Traced, if_true, grant_snoc, Grant.step, hpc]
    refine ⟨fun hlt => absurd hlt (by omega), ?_, fun hlt => absurd hlt (by omega)⟩
    intro _
    have := h2 hpc
    rw [hr] at this
    simp [this]
  | second a2 b2 sw h hr hf =>
    have hpc := huniq _ _ _ h
    rw [hpc, hk] at h
    cases h
    simp only [Traced, if_true, grant_snoc, Grant.step, hpc]
    refine ⟨fun hlt => absurd hlt (by omega), fun heq => absurd heq (by omega), ?_⟩
    intro _
    have := h2 hpc
    rw [hr] at this
    simp only [this]
    refine ⟨⟨sw, rfl⟩, ?_⟩
    rw [List.drop_eq_nil_of_le (by simp only [List.length_take]; omega)]
    rfl
  | failed a2 b2 sw h hr hf =>
    have hpc := huniq _ _ _ h
    rw [hpc, hk] at h
    cases h
    simp only [Traced, if_true, grant_snoc, Grant.step, hpc]
    refine ⟨fun hlt => absurd hlt (by omega), ?_, fun hlt => absurd hlt (by omega)⟩
    intro _
    have := h2 hpc
    rw [hr] at this
    simp [this]
  | back a2 b2 sw h hr =>
    have hpc := huniq _ _ _ h
    rw [hpc, hk] at h
    cases h
    simp only [Traced, if_true, grant_snoc, Grant.step, hpc]
    refine ⟨fun hlt => absurd hlt (by omega), ?_, fun hlt => absurd hlt (by omega)⟩
    intro _
    have := h2 hpc
    rw [hr] at this
    simp [this]

theorem traced_start (prog : List Instr) (k : Nat) (a b : MutexRef) :
    Traced prog k a b Local.start := by
  refine ⟨fun _ => rfl, fun _ => rfl, fun h => ?_⟩
  simp [Local.start] at h

theorem traced_exec (progs : Nat → List Instr) (i k : Nat) (a b : MutexRef)
    (hk : (progs i)[k]? = some (Instr.std_lock a b))
    (huniq : ∀ n a2 b2, (progs i)[n]? = some (Instr.std_lock a2 b2) → n = k)
    (hempty : taken ((progs i).take k) = []) (ws : List Nat) :
    ∀ c c2 : Config, Traced (progs i) k a b (c.threads i) →
      Config.exec progs ws c = some c2 → Traced (progs i) k a b (c2.threads i) := by
  induction ws with
  | nil =>
    intro c c2 ht h
    simp only [Config.exec, Option.some.injEq] at h
    subst h
    exact ht
  | cons w ws ih =>
    intro c c2 ht h
    simp only [Config.exec] at h
    cases hs : c.step progs w with
    | none => simp [hs] at h
    | some c1 =>
      rw [hs] at h
      exact ih c1 c2
        (traced_step progs c c1 i w k a b hk huniq hempty (step_cases progs c c1 w hs) ht) h

/-- In every reachable configuration the events of a thread agree with the place
where it stands. -/
theorem traced_reachable (progs : Nat → List Instr) (i k : Nat) (a b : MutexRef)
    (hk : (progs i)[k]? = some (Instr.std_lock a b))
    (huniq : ∀ n a2 b2, (progs i)[n]? = some (Instr.std_lock a2 b2) → n = k)
    (hempty : taken ((progs i).take k) = []) (c : Config) (h : Reachable progs c) :
    Traced (progs i) k a b (c.threads i) := by
  obtain ⟨ws, hws⟩ := h
  exact traced_exec progs i k a b hk huniq hempty ws _ c (traced_start _ _ _ _) hws

theorem funcA1_prog_std_lock (n : Nat) (a b : MutexRef)
    (h : funcA1_prog[n]? = some (Instr.std_lock a b)) : n = 1 := by
  rcases Nat.lt_or_ge n 8 with hlt | hge
  · interval_cases n <;> simp [funcA1_prog] at h
    rfl
  · rw [List.getElem?_eq_none (by simpa [funcA1_prog] using hge)] at h
    cases h

theorem funcB1_prog_std_lock (n : Nat) (a b : MutexRef)
    (h : funcB1_prog[n]? = some (Instr.std_lock a b)) : n = 1 := by
  rcases Nat.lt_or_ge n 8 with hlt | hge
  · interval_cases n <;> simp [funcB1_prog] at h
    rfl
  · rw [List.getElem?_eq_none (by simpa [funcB1_prog] using hge)] at h
    cases h

theorem order_cases (a b : MutexRef) (g : Grant)
    (h : ∃ sw, g.order = [first_of a b sw, second_of a b sw]) :
    g.order = [a, b] ∨ g.order = [b, a] := by
  obtain ⟨sw, hsw⟩ := h
  cases sw
  · left; simpa [first_of, second_of] using hsw
  · right; simpa [first_of, second_of] using hsw

/-- A thread that has returned stands at the end of its program. -/
theorem returned_pc (progs : Nat → List Instr) (c : Config) (i : Nat) (hinv : Inv progs c)
    (h : c.returned progs i = true) : (c.threads i).pc = (progs i).length := by
  have h1 := hinv.pc_le i
  have h2 : (progs i).length ≤ (c.threads i).pc := by simpa [Config.returned] using h
  omega

/-- `funcA1` in any run with `funcB1`: once it has returned, `std::lock` has
given it the two mutexes in one of the two orders, and it has unlocked `mut2`,
then `mut1`. -/
theorem funcA1_unlock_order (c : Config) (h : Reachable adopters c)
    (hr : c.returned adopters 0 = true) :
    (grant (c.threads 0).trace).released = [MutexRef.mut2, MutexRef.mut1] ∧
    ((grant (c.threads 0).trace).order = [MutexRef.mut1, MutexRef.mut2] ∨
      (grant (c.threads 0).trace).order = [MutexRef.mut2, MutexRef.mut1]) := by
  have ht := traced_reachable adopters 0 1 MutexRef.mut1 MutexRef.mut2 rfl
    (fun n a2 b2 hn => funcA1_prog_std_lock n a2 b2 hn) rfl c h
  have hpc := returned_pc adopters c 0 (inv_reachable adopters c h) hr
  have hlen : (adopters 0).length = 8 := rfl
  obtain ⟨ho, hrel⟩ := ht.2.2 (by omega)
  refine ⟨?_, order_cases _ _ _ ho⟩
  rw [hrel, hpc]
  rfl

/-- `funcB1` in any run with `funcA1`: once it has returned, `std::lock` has
given it the two mutexes in one of the two orders, and it has unlocked `mut1`,
then `mut2`. -/
theorem funcB1_unlock_order (c : Config) (h : Reachable adopters c)
    (hr : c.returned adopters 1 = true) :
    (grant (c.threads 1).trace).released = [MutexRef.mut1, MutexRef.mut2] ∧
    ((grant (c.threads 1).trace).order = [MutexRef.mut2, MutexRef.mut1] ∨
      (grant (c.threads 1).trace).order = [MutexRef.mut1, MutexRef.mut2]) := by
  have ht := traced_reachable adopters 1 1 MutexRef.mut2 MutexRef.mut1 rfl
    (fun n a2 b2 hn => funcB1_prog_std_lock n a2 b2 hn) rfl c h
  have hpc := returned_pc adopters c 1 (inv_reachable adopters c h) hr
  have hlen : (adopters 1).length = 8 := rfl
  obtain ⟨ho, hrel⟩ := ht.2.2 (by omega)
  refine ⟨?_, order_cases _ _ _ ho⟩
  rw [hrel, hpc]
  rfl

theorem dine_taken_before_std_lock (n : Int) : taken ((dine_prog n).take 15) = [] := by
  rw [dine_prog_eq]
  simp [taken, taken_step]

theorem dine_unlocks_after_std_lock (n : Int) :
    forkNumbers (unlocks (((dine_prog n).take 42).drop 16)) = [rfork n, lfork n] := by
  rw [dine_prog_eq]
  rfl

/-- `dine(i)` in any run of the five philosophers: once it has returned,
`std::lock` has given it the two forks in one of the two orders, and it has
unlocked the right fork, then the left fork. -/
theorem dine_unlock_order (c : Config) (h : Reachable ring c) (i : Nat) (hi : i < 5)
    (hr : c.returned ring i = true) :
    forkNumbers (grant (c.threads i).trace).released = [rfork i, lfork i] ∧
    ((grant (c.threads i).trace).order =
        [MutexRef.fork_mutex (lfork i), MutexRef.fork_mutex (rfork i)] ∨
      (grant (c.threads i).trace).order =
        [MutexRef.fork_mutex (rfork i), MutexRef.fork_mutex (lfork i)]) := by
  have hring : ring i = dine_prog i := by simp [ring, hi]
  have ht := traced_reachable ring i 15 (MutexRef.fork_mutex (lfork i))
    (MutexRef.fork_mutex (rfork i)) (by rw [hring]; rfl)
    (fun n a2 b2 hn => by rw [hring] at hn; exact (dine_prog_std_lock i n a2 b2 hn).1)
    (by rw [hring]; exact dine_taken_before_std_lock i) c h
  have hpc := returned_pc ring c i (inv_reachable ring c h) hr
  rw [ring_length i hi] at hpc
  obtain ⟨ho, hrel⟩ := ht.2.2 (by omega)
  refine ⟨?_, order_cases _ _ _ ho⟩
  rw [hrel, hpc, hring]
  exact dine_unlocks_after_std_lock i

set_option maxRecDepth 100000 in
/-- C12 as stated fails.  `funcA`, whose `scoped_lock` unlocks in the order
of its arguments, and `funcB3`, whose lock objects are declared in the opposite
order, take `mut1`, then `mut2`, and unlock `mut1`, then `mut2`, in an
uncontended run.  In the run `backoff_schedule` of `thrA` and `thrB`, `std::lock`
in `funcA1` backs off once and takes `mut2`, then `mut1`; `funcA1` unlocks
`mut2`, then `mut1`.  In the run `ring_backoff_schedule` philosopher 0 takes
fork 1 (his right fork), then fork 0, and unlocks fork 1, then fork 0.  In each
of them the grant is released in the order of its acquisition, not in the
reverse order. -/
theorem grant_released_in_acquisition_order :
    ((grant (funcA 1 State.init).trace).order = [MutexRef.mut1, MutexRef.mut2] ∧
      (grant (funcA 1 State.init).trace).released = [MutexRef.mut1, MutexRef.mut2]) ∧
    ((grant (funcB3 1 State.init).trace).order = [MutexRef.mut1, MutexRef.mut2] ∧
      (grant (funcB3 1 State.init).trace).released = [MutexRef.mut1, MutexRef.mut2]) ∧
    ((Config.exec adopters backoff_schedule Config.start).isSome = true ∧
      after_backoff.returned adopters 0 = true ∧
      (grant (after_backoff.threads 0).trace).order = [MutexRef.mut2, MutexRef.mut1] ∧
      (grant (after_backoff.threads 0).trace).released = [MutexRef.mut2, MutexRef.mut1]) ∧
    ((Config.exec ring ring_backoff_schedule Config.start).isSome = true ∧
      ring_after_backoff.returned ring 0 = true ∧
      (grant (ring_after_backoff.threads 0).trace).order =
        [MutexRef.fork_mutex (rfork 0), MutexRef.fork_mutex (lfork 0)] ∧
      forkNumbers (grant (ring_after_backoff.threads 0).trace).released =
        [rfork 0, lfork 0]) := by
  refine ⟨⟨by decide, by decide⟩, ⟨by decide, by decide⟩,
    ⟨by decide, by decide, by decide, by decide⟩,
    ⟨by decide, by decide, by decide, by decide⟩⟩

theorem run_append (l1 l2 : List (State → State)) (s : State) :
    run (l1 ++ l2) s = run l2 (run l1 s) := by
  simp [run, List.foldl_append]

/-- A routine called as a statement runs like its statements written out in
place. -/
theorem run_inline (l : List (State → State)) (s : State) :
    run [run l] s = run l s := by
  rw [run_cons]
  by_cases h : s.blocked.isSome = true
  · rw [if_pos h, run_blocked l s h]
    rfl
  · rw [if_neg h]
    rfl

/-- The statements of `dine_prog`, `funcA1_prog` and `funcB1_prog` are those of
`dine`, `funcA1` and `funcB1`, with the routines `print` and `increment_value`
written out in place. -/
theorem progs_are_routines (t : Tid) (n : Int) (s : State) :
    dine t n s = run ((dine_prog n).map (interp t)) s ∧
    funcA1 t s = run (funcA1_prog.map (interp t)) s ∧
    funcB1 t s = run (funcB1_prog.map (interp t)) s := by
  refine ⟨?_, rfl, rfl⟩
  have e1 : ∀ (str : String) (l r : Int) (u : State),
      run [print_forks t n str l r] u =
        run ((print_forks_prog n str l r).map (interp t)) u :=
    fun str l r u => run_inline _ u
  have e2 : ∀ (str : String) (u : State),
      run [print t n str] u = run ((print_prog n str).map (interp t)) u :=
    fun str u => run_inline _ u
  have e3 : ∀ (u : State),
      run [increment_value t n] u = run ((increment_value_prog n).map (interp t)) u :=
    fun u => run_inline _ u
  have e4 : ∀ (f g : State → State) (rest : List (State → State)) (u : State),
      run (f :: g :: rest) u = run (g :: rest) (run [f] u) :=
    fun f g rest u => run_append [f] (g :: rest) u
  unfold dine dine_prog dine_before dine_after
  simp only [List.map_append, List.map_cons, List.map_nil, interp, run_append, e4, e1, e2, e3]

/-- C12, as the code has it.  The mutexes of a grant by `std::lock` are unlocked
in the order fixed by the declarations of the adopting `unique_lock` objects,
whatever the order in which `std::lock` took them.  In every run of `funcA1`
beside `funcB1`, under any schedule, `funcA1` has unlocked `mut2`, then `mut1`,
when it returns, and `funcB1` has unlocked `mut1`, then `mut2`; in every run of
the five philosophers `dine(i)` has unlocked its right fork, then its left fork.
The grant itself was taken in the order of the arguments of `std::lock` or, after
a back-off, the other way round: only in the first case is the order of release
the reverse of the order of acquisition.  An uncontended run is of the first
kind: `funcA1` takes `mut1`, `mut2` and unlocks `mut2`, `mut1`; `funcB1` takes
`mut2`, `mut1` and unlocks `mut1`, `mut2`; `dine(n)` takes its left fork, then
its right fork, and unlocks the right fork, then the left fork. -/
theorem unlock_order_is_fixed :
    (∀ c, Reachable adopters c →
      (c.returned adopters 0 = true →
        (grant (c.threads 0).trace).released = [MutexRef.mut2, MutexRef.mut1] ∧
        ((grant (c.threads 0).trace).order = [MutexRef.mut1, MutexRef.mut2] ∨
          (grant (c.threads 0).trace).order = [MutexRef.mut2, MutexRef.mut1])) ∧
      (c.returned adopters 1 = true →
        (grant (c.threads 1).trace).released = [MutexRef.mut1, MutexRef.mut2] ∧
        ((grant (c.threads 1).trace).order = [MutexRef.mut2, MutexRef.mut1] ∨
          (grant (c.threads 1).trace).order = [MutexRef.mut1, MutexRef.mut2]))) ∧
    (∀ c, Reachable ring c → ∀ i : Nat, i < 5 → c.returned ring i = true →
      forkNumbers (grant (c.threads i).trace).released = [rfork i, lfork i] ∧
      ((grant (c.threads i).trace).order =
          [MutexRef.fork_mutex (lfork i), MutexRef.fork_mutex (rfork i)] ∨
        (grant (c.threads i).trace).order =
          [MutexRef.fork_mutex (rfork i), MutexRef.fork_mutex (lfork i)])) ∧
    (∀ (t : Tid) (n : Int) (s : State), Idle s → 0 ≤ n → n < nphilosophers →
      (acquired (funcA1 t s).trace = acquired s.trace ++ [MutexRef.mut1, MutexRef.mut2] ∧
        released (funcA1 t s).trace = released s.trace ++ [MutexRef.mut2, MutexRef.mut1]) ∧
      (acquired (funcB1 t s).trace = acquired s.trace ++ [MutexRef.mut2, MutexRef.mut1] ∧
        released (funcB1 t s).trace = released s.trace ++ [MutexRef.mut1, MutexRef.mut2]) ∧
      (forkNumbers (acquired (dine t n s).trace) =
          forkNumbers (acquired s.trace) ++ [lfork n, rfork n] ∧
        forkNumbers (released (dine t n s).trace) =
          forkNumbers (released s.trace) ++ [rfork n, lfork n])) :=
  ⟨fun c h => ⟨funcA1_unlock_order c h, funcB1_unlock_order c h⟩,
    fun c h i hi hr => dine_unlock_order c h i hi hr,
    fun t n s hs h0 h1 => uncontended_release_order t n s hs h0 h1⟩

set_option maxRecDepth 100000 in
/-- Witness for C12.  `funcA1` runs to its end before `funcB1` starts: it has
taken `mut1`, then `mut2`, and has unlocked `mut2`, then `mut1`.  The
philosophers dine one after the other: philosopher 4 has unlocked fork 0, then
fork 4.  Thread 1 runs the three routines on their own from program start. -/
theorem unlock_order_is_fixed_witness :
    (Reachable adopters after_funcA1 ∧ after_funcA1.returned adopters 0 = true ∧
      (grant (after_funcA1.threads 0).trace).order = [MutexRef.mut1, MutexRef.mut2] ∧
      (grant (after_funcA1.threads 0).trace).released = [MutexRef.mut2, MutexRef.mut1]) ∧
    (Reachable ring all_done ∧ all_done.returned ring 4 = true ∧
      forkNumbers (grant (all_done.threads 4).trace).released = [0, 4]) ∧
    (released (funcA1 1 State.init).trace = [MutexRef.mut2, MutexRef.mut1] ∧
      released (funcB1 1 State.init).trace = [MutexRef.mut1, MutexRef.mut2] ∧
      forkNumbers (released (dine 1 4 State.init).trace) = [0, 4]) :=
  ⟨⟨after_funcA1_reachable, by decide, by decide,
      ((unlock_order_is_fixed.1 after_funcA1 after_funcA1_reachable).1 (by decide)).1⟩,
    ⟨exec_getD ring one_by_one Config.start (by decide), by decide,
      (unlock_order_is_fixed.2.1 all_done (exec_getD ring one_by_one Config.start (by decide))
        4 (by decide) (by decide)).1⟩,
    ⟨(unlock_order_is_fixed.2.2 1 4 State.init init_idle (by decide) (by decide)).1.2,
      (unlock_order_is_fixed.2.2 1 4 State.init init_idle (by decide) (by decide)).2.1.2,
      (unlock_order_is_fixed.2.2 1 4 State.init init_idle (by decide) (by decide)).2.2.2⟩⟩

/-- Beyond the five philosophers there is no thread: nothing to run, nothing to
return from. -/
theorem ring_returned_beyond (c : Config) (i : Nat) (h : 5 ≤ i) :
    c.returned ring i = true := by
  simp [Config.returned, ring, show ¬ i < 5 by omega]

theorem ring_all_returned (c : Config) (h : ∀ i, i < 5 → c.returned ring i = true) :
    ∀ i, c.returned ring i = true := by
  intro i
  by_cases hi : i < 5
  · exact h i hi
  · exact ring_returned_beyond c i (by omega)

/-- In a reachable configuration of the ring no counter is above 1. -/
theorem ring_counter_le_one (c : Config) (h : Reachable ring c) (i : Nat) (hi : i < 5) :
    c.mouthfuls.getD i 0 = 0 ∨ c.mouthfuls.getD i 0 = 1 := by
  have hc := (counted_reachable c h).2 i hi
  by_cases hp : 28 < (c.threads i).pc
  · right; rw [hc, if_pos hp]
  · left; rw [hc, if_neg hp]

set_option maxRecDepth 100000 in
/-- A round in lockstep leads nowhere: after it every philosopher stands where he
stood, holding his left fork, and nobody has eaten.  `std::lock` rules out the
deadlock, not every schedule in which the philosophers keep backing off. -/
theorem ring_lockstep_leads_back :
    (Config.exec ring (left_forks_first ++ ring_lockstep) Config.start).isSome = true ∧
    (∀ i, i < 5 →
      (after_ring_lockstep.threads i).pc = (all_left_forks.threads i).pc ∧
      (after_ring_lockstep.threads i).round = (all_left_forks.threads i).round ∧
      after_ring_lockstep.locks (MutexRef.fork_mutex i) =
        all_left_forks.locks (MutexRef.fork_mutex i)) ∧
    after_ring_lockstep.mouthfuls = [0, 0, 0, 0, 0] ∧
    (∀ i, i < 5 → (after_ring_lockstep.threads i).trace.length =
      (all_left_forks.threads i).trace.length + 6) := by
  refine ⟨by decide, by decide, by decide, by decide⟩

/-- C15, as the code has it.  `dine` has no loop, so one call is one eating
cycle and the counters end at 1, not at 3.  The five threads `dine(0)`, ...,
`dine(4)` run side by side on the ring, under any schedule.  In every
configuration `c` that such a run reaches: no counter is above 1; when the five
threads have returned, every counter `mouthfuls[i]` is 1; a configuration in
which no thread can take a step is the end of the run, so there is no deadlock;
and for every philosopher the run can be continued until he has eaten and
returned, so nobody is starved. -/
theorem ring_counters_end_at_one (c : Config) (h : Reachable ring c) :
    (∀ i, i < 5 → c.mouthfuls.getD i 0 = 0 ∨ c.mouthfuls.getD i 0 = 1) ∧
    ((∀ i, i < 5 → c.returned ring i = true) → c.mouthfuls = [1, 1, 1, 1, 1]) ∧
    ((∀ i, c.step ring i = none) → ∀ i, i < 5 → c.returned ring i = true) ∧
    (∀ i, i < 5 → ∃ ws c2, Config.exec ring ws c = some c2 ∧
      c2.returned ring i = true ∧ c2.mouthfuls.getD i 0 = 1) := by
  refine ⟨ring_counter_le_one c h, ?_, ?_, ?_⟩
  · intro hall
    exact counted_returned c (counted_reachable c h) (ring_all_returned c hall)
  · intro hnone i _
    by_contra hr
    obtain ⟨j, hj⟩ := ring_somebody_moves c h ⟨i, by simpa using hr⟩
    rw [hnone j] at hj
    cases hj
  · intro i hi
    obtain ⟨ws, c2, hex, hall, hm⟩ := ring_end_reachable c h
    refine ⟨ws, c2, hex, hall i, ?_⟩
    rw [hm]
    have h5 : i = 0 ∨ i = 1 ∨ i = 2 ∨ i = 3 ∨ i = 4 := by omega
    rcases h5 with rfl | rfl | rfl | rfl | rfl <;> rfl

set_option maxRecDepth 100000 in
/-- Witness for C15: the run in which the philosophers dine one after the other
has come to its end, and every counter is 1. -/
theorem ring_counters_end_at_one_witness :
    Reachable ring all_done ∧ (∀ i, i < 5 → all_done.returned ring i = true) ∧
    all_done.mouthfuls = [1, 1, 1, 1, 1] :=
  ⟨exec_getD ring one_by_one Config.start (by decide), by decide,
    (ring_counters_end_at_one all_done
      (exec_getD ring one_by_one Config.start (by decide))).2.1 (by decide)⟩

end Deadlock

/-! ## Blocks, lock objects and exceptions -/

namespace Sync

/-- Statements that do not wait, run with the destructors `live` pending: the
result is that of the statements alone, followed by the destructors. -/
theorem block_stmts {σ : Type} (blocked : σ → Bool) (body : List (σ → σ × Exit))
    (hq : ∀ f ∈ body, ∀ u, blocked (f u).1 = blocked u) (live : List (σ → σ)) :
    ∀ u, blocked u = false →
      block blocked (body.map Item.stmt) live u =
        (destroy live (block blocked (body.map Item.stmt) [] u).1,
          (block blocked (body.map Item.stmt) [] u).2) ∧
      blocked (block blocked (body.map Item.stmt) [] u).1 = false := by
  induction body with
  | nil => intro u hu; exact ⟨rfl, hu⟩
  | cons f fs ih =>
    intro u hu
    have hf : blocked (f u).1 = false := by rw [hq f (List.mem_cons_self _ _), hu]
    have ih2 := ih (fun g hg => hq g (List.mem_cons_of_mem _ hg)) (f u).1 hf
    simp only [List.map_cons, block, hf, Bool.false_eq_true, if_false]
    cases he : (f u).2 with
    | normal => exact ih2
    | thrown w => exact ⟨rfl, hf⟩

/-- What the statements of a block keep, the block keeps. -/
theorem block_stmts_keep {σ : Type} (blocked : σ → Bool) (Q : σ → Prop)
    (body : List (σ → σ × Exit)) (hq : ∀ f ∈ body, ∀ u, Q u → Q (f u).1) :
    ∀ u, Q u → Q (block blocked (body.map Item.stmt) [] u).1 := by
  induction body with
  | nil => intro u hu; exact hu
  | cons f fs ih =>
    intro u hu
    have hf : Q (f u).1 := hq f (List.mem_cons_self _ _) u hu
    have ih2 := ih (fun g hg => hq g (List.mem_cons_of_mem _ hg)) (f u).1 hf
    simp only [List.map_cons, block]
    cases he : (f u).2 with
    | normal =>
      by_cases hb : blocked (f u).1 = true
      · simpa [hb] using hf
      · simpa [hb] using ih2
    | thrown w => exact hf

/-- A block that starts with the declaration of an object whose constructor does
not wait: the destructor runs on the state the statements leave, however they
end. -/
theorem block_object {σ : Type} (blocked : σ → Bool) (ctor dtor : σ → σ)
    (body : List (σ → σ × Exit)) (hq : ∀ f ∈ body, ∀ u, blocked (f u).1 = blocked u)
    (s : σ) (hc : blocked (ctor s) = false) :
    block blocked (Item.object ctor dtor :: body.map Item.stmt) [] s =
      (dtor (block blocked (body.map Item.stmt) [] (ctor s)).1,
        (block blocked (body.map Item.stmt) [] (ctor s)).2) := by
  simp only [block, hc, Bool.false_eq_true, if_false]
  exact (block_stmts blocked body hq [dtor] (ctor s) hc).1

/-- A statement that throws ends the block: what follows it is not executed. -/
theorem block_stmts_thrown {σ : Type} (blocked : σ → Bool) (pre post : List (σ → σ × Exit))
    (f : σ → σ × Exit) (what : String)
    (hq : ∀ g ∈ pre, ∀ u, blocked (g u).1 = blocked u ∧ (g u).2 = Exit.normal)
    (hf : ∀ u, f u = (u, Exit.thrown what)) :
    ∀ u, blocked u = false →
      block blocked ((pre ++ f :: post).map Item.stmt) [] u =
        ((block blocked (pre.map Item.stmt) [] u).1, Exit.thrown what) := by
  induction pre with
  | nil =>
    intro u _
    simp [block, hf u, destroy]
  | cons g gs ih =>
    intro u hu
    have hg := hq g (List.mem_cons_self _ _) u
    have hgb : blocked (g u).1 = false := by rw [hg.1, hu]
    have ih2 := ih (fun k hk => hq k (List.mem_cons_of_mem _ hk)) (g u).1 hgb
    simp only [List.cons_append, List.map_cons, block, hg.2, hgb, Bool.false_eq_true, if_false]
    exact ih2

end Sync

namespace LockGuard
open Sync

theorem lg_statements_keep (body : List (State → State × Exit))
    (hq : ∀ f ∈ body, ∀ u, (f u).1.locks = u.locks ∧ (f u).1.blocked = u.blocked)
    (u : State) :
    (statements waiting body u).1.locks = u.locks ∧
    (statements waiting body u).1.blocked = u.blocked := by
  have h := block_stmts_keep waiting (fun v => v.locks = u.locks ∧ v.blocked = u.blocked) body
    (fun f hf v hv => ⟨((hq f hf v).1).trans hv.1, ((hq f hf v).2).trans hv.2⟩) u ⟨rfl, rfl⟩
  exact h

theorem lg_lock_holds (t : Tid) (r : MutexRef) (s : State) (hf : (s.locks r).free = true) :
    (lock t r s).locks r = { exclusive := [t], shared := [] } := by
  rw [lg_lock_free t r s hf]
  simp [State.emit, State.setLock]

/-- A `lock_guard` block on a free mutex, with statements that neither touch
the mutexes nor wait. -/
theorem lock_guard_block_releases (t : Tid) (r : MutexRef) (body : List (State → State × Exit))
    (s : State) (hb : s.blocked = none) (hf : (s.locks r).free = true)
    (hq : ∀ f ∈ body, ∀ u, (f u).1.locks = u.locks ∧ (f u).1.blocked = u.blocked) :
    block waiting (lock_guard_block t r body) [] s =
      (unlock t r (statements waiting body (lock t r s)).1,
        (statements waiting body (lock t r s)).2) ∧
    (lock t r s).trace = s.trace ++ [Event.lock r] ∧
    (∀ k, (statements waiting (body.take k) (lock t r s)).1.locks r =
      { exclusive := [t], shared := [] }) ∧
    (unlock t r (statements waiting body (lock t r s)).1).trace =
      (statements waiting body (lock t r s)).1.trace ++ [Event.unlock r] ∧
    (unlock t r (statements waiting body (lock t r s)).1).locks = s.locks := by
  have hl : (lock t r s).blocked = none := by simp [lg_lock_free t r s hf, hb]
  refine ⟨?_, ?_, ?_, ?_, ?_⟩
  · exact block_object waiting (lock t r) (unlock t r) body
      (fun f hf2 u => by simp [waiting, (hq f hf2 u).2]) s (by simp [waiting, hl])
  · simp [lg_lock_free t r s hf]
  · intro k
    rw [(lg_statements_keep (body.take k)
      (fun f hf2 u => hq f (List.mem_of_mem_take hf2) u) (lock t r s)).1]
    exact lg_lock_holds t r s hf
  · simp [unlock]
  · exact locks_after_release t r s _ hf (lg_statements_keep body hq _).1

theorem destroy_trace (t : Tid) (r : MutexRef) (l : UniqueLock) (u : State)
    (hm : l.mutex = r) :
    (UniqueLock.destroy t l u).trace = u.trace ++ (if l.owns then [Event.unlock r] else []) := by
  cases ho : l.owns with
  | true => simp [UniqueLock.destroy, ho, unlock, hm, State.emit]
  | false => simp [UniqueLock.destroy, ho]

theorem destroy_locks (t : Tid) (r : MutexRef) (l : UniqueLock) (u s : State)
    (hf : (s.locks r).free = true) (hm : l.mutex = r)
    (hlk : u.locks = if l.owns then (lock t r s).locks else s.locks) :
    (UniqueLock.destroy t l u).locks = s.locks := by
  cases ho : l.owns with
  | true =>
    rw [ho] at hlk
    simp only [UniqueLock.destroy, ho, if_true, hm]
    exact locks_after_release t r s _ hf (by simpa using hlk)
  | false =>
    rw [ho] at hlk
    simp only [UniqueLock.destroy, ho, Bool.false_eq_true, if_false]
    simpa using hlk

/-- `uniq_lck.unlock()` keeps the lock state in step with the object. -/
theorem unlock_by_hand_keeps (t : Tid) (r : MutexRef) (s : State)
    (hf : (s.locks r).free = true) (u : Owned) :
    (UniqueLock.unlock t u.1 u.2).1.2.blocked = u.2.blocked ∧
    (u.1.mutex = r ∧ u.2.locks = (if u.1.owns then (lock t r s).locks else s.locks) →
      (UniqueLock.unlock t u.1 u.2).1.1.mutex = r ∧
      (UniqueLock.unlock t u.1 u.2).1.2.locks =
        if (UniqueLock.unlock t u.1 u.2).1.1.owns then (lock t r s).locks else s.locks) := by
  cases ho : u.1.owns with
  | true =>
    refine ⟨by simp [UniqueLock.unlock, ho, unlock, State.emit, State.setLock], ?_⟩
    rintro ⟨hm, hl⟩
    simp only [UniqueLock.unlock, ho, if_true, Bool.false_eq_true, if_false, hm]
    exact ⟨trivial, locks_after_release t r s _ hf (by simpa using hl)⟩
  | false =>
    refine ⟨by simp [UniqueLock.unlock, ho], ?_⟩
    rintro ⟨hm, hl⟩
    simp only [UniqueLock.unlock, ho, Bool.false_eq_true, if_false]
    exact ⟨hm, by simpa using hl⟩

/-- A `unique_lock` block on a free mutex, with statements that do not wait and
keep the lock state in step with the object: the mutex is locked while the
object owns it and free once the object has given it up. -/
theorem unique_lock_block_releases (t : Tid) (r : MutexRef)
    (body : List (Owned → Owned × Exit)) (l0 : UniqueLock)
    (s : State) (hb : s.blocked = none) (hf : (s.locks r).free = true)
    (hq : ∀ f ∈ body, ∀ u : Owned,
      (f u).1.2.blocked = u.2.blocked ∧
      (u.1.mutex = r ∧ u.2.locks = (if u.1.owns then (lock t r s).locks else s.locks) →
        (f u).1.1.mutex = r ∧
        (f u).1.2.locks = if (f u).1.1.owns then (lock t r s).locks else s.locks)) :
    block (fun p => waiting p.2) (unique_lock_block t r body) [] (l0, s) =
      (((statements (fun p => waiting p.2) body (UniqueLock.construct t r s)).1.1,
        UniqueLock.destroy t
          (statements (fun p => waiting p.2) body (UniqueLock.construct t r s)).1.1
          (statements (fun p => waiting p.2) body (UniqueLock.construct t r s)).1.2),
        (statements (fun p => waiting p.2) body (UniqueLock.construct t r s)).2) ∧
    (UniqueLock.construct t r s).2.trace = s.trace ++ [Event.lock r] ∧
    ((UniqueLock.construct t r s).2.locks r) = { exclusive := [t], shared := [] } ∧
    (UniqueLock.destroy t
        (statements (fun p => waiting p.2) body (UniqueLock.construct t r s)).1.1
        (statements (fun p => waiting p.2) body (UniqueLock.construct t r s)).1.2).trace =
      (statements (fun p => waiting p.2) body (UniqueLock.construct t r s)).1.2.trace ++
        (if (statements (fun p => waiting p.2) body (UniqueLock.construct t r s)).1.1.owns
          then [Event.unlock r] else []) ∧
    (UniqueLock.destroy t
        (statements (fun p => waiting p.2) body (UniqueLock.construct t r s)).1.1
        (statements (fun p => waiting p.2) body (UniqueLock.construct t r s)).1.2).locks =
      s.locks := by
  have hl : (lock t r s).blocked = none := by simp [lg_lock_free t r s hf, hb]
  have hkeep := block_stmts_keep (fun p : Owned => waiting p.2)
    (fun v : Owned => v.1.mutex = r ∧
      v.2.locks = if v.1.owns then (lock t r s).locks else s.locks) body
    (fun f hf2 v hv => (hq f hf2 v).2 hv)
    (UniqueLock.construct t r s) ⟨rfl, by simp [UniqueLock.construct]⟩
  refine ⟨?_, ?_, ?_, ?_, ?_⟩
  · exact block_object (fun p : Owned => waiting p.2) (fun p => UniqueLock.construct t r p.2)
      (fun p => (p.1, UniqueLock.destroy t p.1 p.2)) body
      (fun f hf2 u => by simp [waiting, (hq f hf2 u).1]) (l0, s)
      (by simp [waiting, UniqueLock.construct, hl])
  · simp [UniqueLock.construct, lg_lock_free t r s hf]
  · exact lg_lock_holds t r s hf
  · exact destroy_trace t r _ _ hkeep.1
  · exact destroy_locks t r _ _ s hf hkeep.1 hkeep.2

/-- The statements of `unlocking_body` keep the lock state in step with the
object. -/
theorem unlocking_body_keeps (t : Tid) (r : MutexRef) (s : State)
    (hf : (s.locks r).free = true) :
    ∀ f ∈ unlocking_body t, ∀ u : Owned,
      (f u).1.2.blocked = u.2.blocked ∧
      (u.1.mutex = r ∧ u.2.locks = (if u.1.owns then (lock t r s).locks else s.locks) →
        (f u).1.1.mutex = r ∧
        (f u).1.2.locks = if (f u).1.1.owns then (lock t r s).locks else s.locks) := by
  intro f hf2 u
  simp only [unlocking_body, List.mem_cons, List.mem_singleton, List.not_mem_nil,
    or_false] at hf2
  rcases hf2 with rfl | rfl | rfl | rfl
  · exact ⟨rfl, fun h => h⟩
  · exact unlock_by_hand_keeps t r s hf u
  · exact unlock_by_hand_keeps t r s hf u
  · exact ⟨rfl, fun h => h⟩

/-- `Task1` when `the_mutex` is free: the mutex is locked after the first line
of output and unlocked after the last one, the function returns normally, and
the lock state is the one from before. -/
theorem Task1_free (t : Tid) (s : State) (hb : s.blocked = none)
    (hf : (s.locks MutexRef.the_mutex).free = true) :
    (Task1 t s).2 = Exit.normal ∧
    (Task1 t s).1.trace = s.trace ++
      [ Event.cout "Task1 trying to lock the mutex",
        Event.lock MutexRef.the_mutex,
        Event.cout "Task1 locks the mutex",
        Event.sleep_for 5000,
        Event.cout "Task1 unlocking the mutex",
        Event.unlock MutexRef.the_mutex ] ∧
    (Task1 t s).1.locks = s.locks := by
  have hc : (cout "Task1 trying to lock the mutex" s).blocked = none := by
    simp [cout, State.emit, hb]
  have hfc : ((cout "Task1 trying to lock the mutex" s).locks MutexRef.the_mutex).free = true := by
    simpa [cout, State.emit] using hf
  have hlk := lg_lock_free t MutexRef.the_mutex _ hfc
  have hl : (lock t MutexRef.the_mutex (cout "Task1 trying to lock the mutex" s)).blocked = none := by
    rw [hlk]
    simp [State.emit, State.setLock, hc]
  have hrun : Task1 t s =
      (unlock t MutexRef.the_mutex
        (cout "Task1 unlocking the mutex" (sleep_for 5000 (cout "Task1 locks the mutex"
          (lock t MutexRef.the_mutex (cout "Task1 trying to lock the mutex" s))))),
        Exit.normal) := by
    simp only [Task1, Task1_block, returns, block, waiting, hc, Option.isSome_none,
      Bool.false_eq_true, if_false, destroy]
    generalize lock t MutexRef.the_mutex (cout "Task1 trying to lock the mutex" s) = u at hl ⊢
    simp [hl, cout, sleep_for, State.emit]
  rw [hrun]
  refine ⟨rfl, ?_, ?_⟩
  · rw [hlk]
    simp [unlock, cout, sleep_for, State.emit, State.setLock]
  · have h := locks_after_release t MutexRef.the_mutex (cout "Task1 trying to lock the mutex" s)
      (cout "Task1 unlocking the mutex" (sleep_for 5000 (cout "Task1 locks the mutex"
        (lock t MutexRef.the_mutex (cout "Task1 trying to lock the mutex" s))))) hfc rfl
    simpa [cout, State.emit] using h

/-- The block of the notes that calls `lock()` and `unlock()` itself: when the
critical section throws, `unlock()` is not executed and the mutex is left
locked. -/
theorem explicit_unlock_is_skipped (t : Tid) (r : MutexRef) (pre post : List (State → State × Exit))
    (what : String) (s : State) (hb : s.blocked = none) (hf : (s.locks r).free = true)
    (hq : ∀ f ∈ pre, ∀ u, ((f u).1.locks = u.locks ∧ (f u).1.blocked = u.blocked) ∧
      (f u).2 = Exit.normal) :
    (block waiting (explicit_section t r (pre ++ (fun u => (u, Exit.thrown what)) :: post)) [] s).2
      = Exit.thrown what ∧
    (block waiting (explicit_section t r (pre ++ (fun u => (u, Exit.thrown what)) :: post))
      [] s).1.locks r = { exclusive := [t], shared := [] } := by
  have hl : (lock t r s).blocked = none := by simp [lg_lock_free t r s hf, hb]
  have hw : waiting (lock t r s) = false := by simp [waiting, hl]
  have e1 : explicit_section t r (pre ++ (fun u => (u, Exit.thrown what)) :: post) =
      returns (lock t r) ::
        ((pre ++ (fun u => (u, Exit.thrown what)) :: (post ++ [fun u => (unlock t r u, Exit.normal)])).map
          Item.stmt) := by
    simp [explicit_section, returns]
  rw [e1]
  simp only [returns, block, hw, Bool.false_eq_true, if_false]
  rw [block_stmts_thrown waiting pre _ (fun u => (u, Exit.thrown what)) what
    (fun g hg u => ⟨by simp [waiting, ((hq g hg u).1).2], (hq g hg u).2⟩) (fun _ => rfl) _ hw]
  refine ⟨rfl, ?_⟩
  have hk := (lg_statements_keep pre (fun f hf2 u => (hq f hf2 u).1) (lock t r s)).1
  simp only [statements] at hk
  simp only [hk]
  exact lg_lock_holds t r s hf

end LockGuard

namespace ReaderWriter
open Sync

theorem rw_statements_keep (body : List (State → State × Exit))
    (hq : ∀ f ∈ body, ∀ u, (f u).1.locks = u.locks ∧ (f u).1.blocked = u.blocked)
    (u : State) :
    (statements waiting body u).1.locks = u.locks ∧
    (statements waiting body u).1.blocked = u.blocked := by
  have h := block_stmts_keep waiting (fun v => v.locks = u.locks ∧ v.blocked = u.blocked) body
    (fun f hf v hv => ⟨((hq f hf v).1).trans hv.1, ((hq f hf v).2).trans hv.2⟩) u ⟨rfl, rfl⟩
  exact h

theorem rw_lock_free (t : Tid) (r : MutexRef) (s : State) (hf : (s.locks r).free = true) :
    lock t r s = (s.set r { exclusive := [t], shared := [] }).emit (Event.lock r) := by
  simp [lock, State.get, lock_of_free _ t hf]

/-- Taking a free mutex and giving it back leaves the lock state as it was. -/
theorem rw_locks_after_release (t : Tid) (r : MutexRef) (s u : State)
    (hf : (s.locks r).free = true) (hu : u.locks = (lock t r s).locks) :
    (unlock t r u).locks = s.locks := by
  rw [rw_lock_free t r s hf] at hu
  funext q
  by_cases hq : q = r
  · subst hq
    simp [unlock, State.set, State.emit, State.get, hu, Mutex.unlock, free_eq _ hf]
  · simp [unlock, State.set, State.emit, State.get, hu, hq]

/-- A `lock_guard` block on a free `shared_mutex`, with statements that neither
touch the mutexes nor wait. -/
theorem rw_lock_guard_block_releases (t : Tid) (r : MutexRef)
    (body : List (State → State × Exit))
    (s : State) (hb : s.blocked = none) (hf : (s.locks r).free = true)
    (hq : ∀ f ∈ body, ∀ u, (f u).1.locks = u.locks ∧ (f u).1.blocked = u.blocked) :
    block waiting (lock_guard_block t r body) [] s =
      (unlock t r (statements waiting body (lock t r s)).1,
        (statements waiting body (lock t r s)).2) ∧
    (lock t r s).trace = s.trace ++ [Event.lock r] ∧
    (∀ k, (statements waiting (body.take k) (lock t r s)).1.locks r =
      { exclusive := [t], shared := [] }) ∧
    (unlock t r (statements waiting body (lock t r s)).1).trace =
      (statements waiting body (lock t r s)).1.trace ++ [Event.unlock r] ∧
    (unlock t r (statements waiting body (lock t r s)).1).locks = s.locks := by
  have hlk := rw_lock_free t r s hf
  have hl : (lock t r s).blocked = none := by simp [hlk, State.set, State.emit, hb]
  refine ⟨?_, ?_, ?_, ?_, ?_⟩
  · exact block_object waiting (lock t r) (unlock t r) body
      (fun f hf2 u => by simp [waiting, (hq f hf2 u).2]) s (by simp [waiting, hl])
  · simp [hlk, State.set, State.emit]
  · intro k
    rw [(rw_statements_keep (body.take k)
      (fun f hf2 u => hq f (List.mem_of_mem_take hf2) u) (lock t r s)).1]
    simp [hlk, State.set, State.emit]
  · simp [unlock, State.set, State.emit]
  · exact rw_locks_after_release t r s _ hf (rw_statements_keep body hq (lock t r s)).1

/-- `write` is the block of its items. -/
theorem write_is_block (t : Tid) (s : State) (hb : s.blocked = none) :
    write t s = (block waiting (write_block t) [] s).1 := by
  cases hf : (s.locks MutexRef.mut).free with
  | true =>
    have hlk := rw_lock_free t MutexRef.mut s hf
    simp [write, run, hb, write_block, block, returns, waiting, destroy, hlk, State.set,
      State.emit, incr_x]
  | false =>
    have hlk : lock t MutexRef.mut s = { s with blocked := some MutexRef.mut } := by
      simp [lock, State.get, lock_of_taken _ t hf]
    simp [write, run, hb, write_block, block, waiting, hlk]

end ReaderWriter

namespace Deadlock
open Sync

theorem dl_statements_keep (body : List (State → State × Exit))
    (hq : ∀ f ∈ body, ∀ u, (f u).1.locks = u.locks ∧ (f u).1.blocked = u.blocked)
    (u : State) :
    (statements waiting body u).1.locks = u.locks ∧
    (statements waiting body u).1.blocked = u.blocked := by
  have h := block_stmts_keep waiting (fun v => v.locks = u.locks ∧ v.blocked = u.blocked) body
    (fun f hf v hv => ⟨((hq f hf v).1).trans hv.1, ((hq f hf v).2).trans hv.2⟩) u ⟨rfl, rfl⟩
  exact h

/-- Taking two free mutexes with `std::lock` and unlocking the first, then the
second, leaves the lock state as it was. -/
theorem both_released (t : Tid) (a b : MutexRef) (hab : a ≠ b) (s u : State)
    (hb : s.blocked = none) (ha : (s.locks a).free = true) (hfb : (s.locks b).free = true)
    (hu : u.locks = (std_lock t a b s).locks) :
    (unlock t b (unlock t a u)).locks = s.locks := by
  rw [std_lock_free t a b hab s hb ha hfb] at hu
  apply locks_restored t a b s.locks ha hfb
  intro q
  by_cases hq1 : q = a
  · subst hq1
    simp [unlock, hu, locks_setLock_other _ _ _ _ hab]
  · by_cases hq2 : q = b
    · subst hq2
      simp [unlock, hu, locks_setLock_other _ _ _ _ hq1]
    · simp [unlock, hu, locks_setLock_other _ _ _ _ hq1,
        locks_setLock_other _ _ _ _ hq2, hq1, hq2]

/-- A `scoped_lock` block on two free mutexes, with statements that neither
touch the mutexes nor wait. -/
theorem scoped_lock_block_releases (t : Tid) (a b : MutexRef) (hab : a ≠ b)
    (body : List (State → State × Exit))
    (s : State) (hb : s.blocked = none) (ha : (s.locks a).free = true)
    (hfb : (s.locks b).free = true)
    (hq : ∀ f ∈ body, ∀ u, (f u).1.locks = u.locks ∧ (f u).1.blocked = u.blocked) :
    block waiting (scoped_lock_block t a b body) [] s =
      (unlock t b (unlock t a (statements waiting body (std_lock t a b s)).1),
        (statements waiting body (std_lock t a b s)).2) ∧
    (std_lock t a b s).trace = s.trace ++ [Event.lock a, Event.try_lock b true] ∧
    (∀ k, (statements waiting (body.take k) (std_lock t a b s)).1.locks a =
        { exclusive := [t], shared := [] } ∧
      (statements waiting (body.take k) (std_lock t a b s)).1.locks b =
        { exclusive := [t], shared := [] }) ∧
    (unlock t b (unlock t a (statements waiting body (std_lock t a b s)).1)).trace =
      (statements waiting body (std_lock t a b s)).1.trace ++ [Event.unlock a, Event.unlock b] ∧
    (unlock t b (unlock t a (statements waiting body (std_lock t a b s)).1)).locks = s.locks := by
  have hlk := std_lock_free t a b hab s hb ha hfb
  have hl : (std_lock t a b s).blocked = none := by simp [hlk, hb]
  have hba : b ≠ a := fun h => hab h.symm
  refine ⟨?_, ?_, ?_, ?_, ?_⟩
  · exact block_object waiting (std_lock t a b) (fun u => unlock t b (unlock t a u)) body
      (fun f hf2 u => by simp [waiting, (hq f hf2 u).2]) s (by simp [waiting, hl])
  · simp [hlk, State.emit, State.setLock]
  · intro k
    rw [(dl_statements_keep (body.take k)
      (fun f hf2 u => hq f (List.mem_of_mem_take hf2) u) (std_lock t a b s)).1]
    simp [hlk, State.emit, State.setLock, hab]
  · simp [unlock, State.emit, State.setLock]
  · exact both_released t a b hab s _ hb ha hfb (dl_statements_keep body hq (std_lock t a b s)).1

/-- `funcA` is the block of its items. -/
theorem funcA_is_block (t : Tid) (s : State) (hb : s.blocked = none) :
    funcA t s = (block waiting (funcA_block t) [] s).1 := by
  have hc : (cout "Thread A trying to lock mutexes 1 and 2....." s).blocked = none := by
    simp [cout, hb]
  unfold funcA
  rw [run_step _ _ _ hb, run_cons, if_neg (by simp [hc])]
  simp only [funcA_block, returns, block, waiting, hc, Option.isSome_none,
    Bool.false_eq_true, if_false]
  generalize cout "Thread A trying to lock mutexes 1 and 2....." s = c at hc ⊢
  cases hl : (std_lock t MutexRef.mut1 MutexRef.mut2 c).blocked with
  | some m =>
    rw [run_blocked _ _ (by simp [hl])]
    simp [hl]
  | none =>
    simp [hl, run, cout, sleep_for, destroy]

end Deadlock

namespace LockGuard
open Sync

/-- The critical section that fails, under explicit `lock()` and `unlock()` by
thread 1 from program start: the exception leaves the block, `unlock()` has not
run, and thread 1 still holds the mutex. -/
theorem explicit_section_stays_locked :
    (block waiting (explicit_section 1 MutexRef.the_mutex failing_body) [] State.init).2 =
      Exit.thrown "failure" ∧
    (block waiting (explicit_section 1 MutexRef.the_mutex failing_body) [] State.init).1.trace =
      [Event.lock MutexRef.the_mutex, Event.cout "working"] ∧
    (block waiting (explicit_section 1 MutexRef.the_mutex failing_body) [] State.init).1.locks
      MutexRef.the_mutex = { exclusive := [1], shared := [] } := by
  refine ⟨by decide, by decide, by decide⟩

/-- C13. Scoped release on every exit path.  Thread `t` enters a block that
starts with a lock object on a free mutex: `std::lock_guard` (as in `Task1` and
in `write`), `std::unique_lock`, or `std::scoped_lock` on two mutexes (as in
`funcA`).  The statements of the block are arbitrary, short of touching the
mutexes or waiting; any of them may throw, which skips the statements after it.
In every case the constructor has locked (a `lock` event, the mutex held by `t`
before and after every statement of the block), the destructor runs when the
block is left, by the closing brace or by the exception (an `unlock` event after
the events of the statements that ran), the lock state after the block is the one
from before it, and the exit of the block is the exit of its statements, so an
exception stays in flight.  A `unique_lock` that has been unlocked by hand is
not unlocked again.  `Task1` is such a block, with the events listed; `write`
and `funcA` run as the blocks of their items. -/
theorem scoped_release_on_every_exit (t : Tid) :
    (∀ (r : MutexRef) (body : List (State → State × Exit)) (s : State),
      s.blocked = none → (s.locks r).free = true →
      (∀ f ∈ body, ∀ u, (f u).1.locks = u.locks ∧ (f u).1.blocked = u.blocked) →
      block waiting (lock_guard_block t r body) [] s =
        (unlock t r (statements waiting body (lock t r s)).1,
          (statements waiting body (lock t r s)).2) ∧
      (lock t r s).trace = s.trace ++ [Event.lock r] ∧
      (∀ k, (statements waiting (body.take k) (lock t r s)).1.locks r =
        { exclusive := [t], shared := [] }) ∧
      (block waiting (lock_guard_block t r body) [] s).1.trace =
        (statements waiting body (lock t r s)).1.trace ++ [Event.unlock r] ∧
      (block waiting (lock_guard_block t r body) [] s).1.locks = s.locks) ∧
    (∀ (r : MutexRef) (body : List (Owned → Owned × Exit)) (l0 : UniqueLock) (s : State),
      s.blocked = none → (s.locks r).free = true →
      (∀ f ∈ body, ∀ u : Owned,
        (f u).1.2.blocked = u.2.blocked ∧
        (u.1.mutex = r ∧ u.2.locks = (if u.1.owns then (lock t r s).locks else s.locks) →
          (f u).1.1.mutex = r ∧
          (f u).1.2.locks = if (f u).1.1.owns then (lock t r s).locks else s.locks)) →
      (block (fun p => waiting p.2) (unique_lock_block t r body) [] (l0, s)).2 =
        (statements (fun p => waiting p.2) body (UniqueLock.construct t r s)).2 ∧
      (UniqueLock.construct t r s).2.trace = s.trace ++ [Event.lock r] ∧
      (UniqueLock.construct t r s).2.locks r = { exclusive := [t], shared := [] } ∧
      (block (fun p => waiting p.2) (unique_lock_block t r body) [] (l0, s)).1.2.trace =
        (statements (fun p => waiting p.2) body (UniqueLock.construct t r s)).1.2.trace ++
          (if (statements (fun p => waiting p.2) body (UniqueLock.construct t r s)).1.1.owns
            then [Event.unlock r] else []) ∧
      (block (fun p => waiting p.2) (unique_lock_block t r body) [] (l0, s)).1.2.locks =
        s.locks) ∧
    (∀ (r : ReaderWriter.MutexRef)
      (body : List (ReaderWriter.State → ReaderWriter.State × Exit)) (s : ReaderWriter.State),
      s.blocked = none → (s.locks r).free = true →
      (∀ f ∈ body, ∀ u, (f u).1.locks = u.locks ∧ (f u).1.blocked = u.blocked) →
      block ReaderWriter.waiting (ReaderWriter.lock_guard_block t r body) [] s =
        (ReaderWriter.unlock t r
            (statements ReaderWriter.waiting body (ReaderWriter.lock t r s)).1,
          (statements ReaderWriter.waiting body (ReaderWriter.lock t r s)).2) ∧
      (ReaderWriter.lock t r s).trace = s.trace ++ [ReaderWriter.Event.lock r] ∧
      (∀ k, (statements ReaderWriter.waiting (body.take k) (ReaderWriter.lock t r s)).1.locks r
        = { exclusive := [t], shared := [] }) ∧
      (block ReaderWriter.waiting (ReaderWriter.lock_guard_block t r body) [] s).1.trace =
        (statements ReaderWriter.waiting body (ReaderWriter.lock t r s)).1.trace ++
          [ReaderWriter.Event.unlock r] ∧
      (block ReaderWriter.waiting (ReaderWriter.lock_guard_block t r body) [] s).1.locks =
        s.locks) ∧
    (∀ (a b : Deadlock.MutexRef) (body : List (Deadlock.State → Deadlock.State × Exit))
      (s : Deadlock.State),
      a ≠ b → s.blocked = none → (s.locks a).free = true → (s.locks b).free = true →
      (∀ f ∈ body, ∀ u, (f u).1.locks = u.locks ∧ (f u).1.blocked = u.blocked) →
      block Deadlock.waiting (Deadlock.scoped_lock_block t a b body) [] s =
        (Deadlock.unlock t b (Deadlock.unlock t a
            (statements Deadlock.waiting body (Deadlock.std_lock t a b s)).1),
          (statements Deadlock.waiting body (Deadlock.std_lock t a b s)).2) ∧
      (Deadlock.std_lock t a b s).trace =
        s.trace ++ [Deadlock.Event.lock a, Deadlock.Event.try_lock b true] ∧
      (∀ k,
        (statements Deadlock.waiting (body.take k) (Deadlock.std_lock t a b s)).1.locks a =
          { exclusive := [t], shared := [] } ∧
        (statements Deadlock.waiting (body.take k) (Deadlock.std_lock t a b s)).1.locks b =
          { exclusive := [t], shared := [] }) ∧
      (block Deadlock.waiting (Deadlock.scoped_lock_block t a b body) [] s).1.trace =
        (statements Deadlock.waiting body (Deadlock.std_lock t a b s)).1.trace ++
          [Deadlock.Event.unlock a, Deadlock.Event.unlock b] ∧
      (block Deadlock.waiting (Deadlock.scoped_lock_block t a b body) [] s).1.locks =
        s.locks) ∧
    (∀ s : State, s.blocked = none → (s.locks MutexRef.the_mutex).free = true →
      (Task1 t s).2 = Exit.normal ∧
      (Task1 t s).1.trace = s.trace ++
        [ Event.cout "Task1 trying to lock the mutex",
          Event.lock MutexRef.the_mutex,
          Event.cout "Task1 locks the mutex",
          Event.sleep_for 5000,
          Event.cout "Task1 unlocking the mutex",
          Event.unlock MutexRef.the_mutex ] ∧
      (Task1 t s).1.locks = s.locks) ∧
    (∀ s : ReaderWriter.State, s.blocked = none →
      ReaderWriter.write t s =
        (block ReaderWriter.waiting (ReaderWriter.write_block t) [] s).1) ∧
    (∀ s : Deadlock.State, s.blocked = none →
      Deadlock.funcA t s = (block Deadlock.waiting (Deadlock.funcA_block t) [] s).1) := by
  refine ⟨?_, ?_, ?_, ?_, ?_, ?_, ?_⟩
  · intro r body s hb hf hq
    obtain ⟨h1, h2, h3, h4, h5⟩ := lock_guard_block_releases t r body s hb hf hq
    exact ⟨h1, h2, h3, by rw [h1]; exact h4, by rw [h1]; exact h5⟩
  · intro r body l0 s hb hf hq
    obtain ⟨h1, h2, h3, h4, h5⟩ := unique_lock_block_releases t r body l0 s hb hf hq
    exact ⟨by rw [h1], h2, h3, by rw [h1]; exact h4, by rw [h1]; exact h5⟩
  · intro r body s hb hf hq
    obtain ⟨h1, h2, h3, h4, h5⟩ := ReaderWriter.rw_lock_guard_block_releases t r body s hb hf hq
    exact ⟨h1, h2, h3, by rw [h1]; exact h4, by rw [h1]; exact h5⟩
  · intro a b body s hab hb ha hfb hq
    obtain ⟨h1, h2, h3, h4, h5⟩ :=
      Deadlock.scoped_lock_block_releases t a b hab body s hb ha hfb hq
    exact ⟨h1, h2, h3, by rw [h1]; exact h4, by rw [h1]; exact h5⟩
  · intro s hb hf
    exact Task1_free t s hb hf
  · intro s hb
    exact ReaderWriter.write_is_block t s hb
  · intro s hb
    exact Deadlock.funcA_is_block t s hb

/-- Witness for C13, by thread 1 from program start.  A `lock_guard` block on
`the_mutex` whose second statement throws: the exception leaves the block, the
third statement has not run, the destructor has unlocked, and the lock state is
the one from before.  A `unique_lock` block whose statements unlock by hand and
then fail on a second `unlock()`: one `unlock` event, none by the destructor,
and the lock state is the one from before.  A `scoped_lock` block on `mut1` and
`mut2` whose second statement throws: the destructor has unlocked `mut1`, then
`mut2`, and the lock state is the one from before. -/
theorem scoped_release_on_every_exit_witness :
    ((block waiting (lock_guard_block 1 MutexRef.the_mutex failing_body) [] State.init).2 =
        Exit.thrown "failure" ∧
      (block waiting (lock_guard_block 1 MutexRef.the_mutex failing_body) [] State.init).1.trace =
        [Event.lock MutexRef.the_mutex, Event.cout "working",
          Event.unlock MutexRef.the_mutex] ∧
      (block waiting (lock_guard_block 1 MutexRef.the_mutex failing_body) [] State.init).1.locks =
        State.init.locks) ∧
    ((block (fun p => waiting p.2) (unique_lock_block 1 MutexRef.the_mutex (unlocking_body 1)) []
        ({ mutex := MutexRef.the_mutex, owns := false }, State.init)).2 =
        Exit.thrown "operation not permitted" ∧
      (block (fun p => waiting p.2) (unique_lock_block 1 MutexRef.the_mutex (unlocking_body 1)) []
        ({ mutex := MutexRef.the_mutex, owns := false }, State.init)).1.2.trace =
        [Event.lock MutexRef.the_mutex, Event.cout "working",
          Event.unlock MutexRef.the_mutex] ∧
      (block (fun p => waiting p.2) (unique_lock_block 1 MutexRef.the_mutex (unlocking_body 1)) []
        ({ mutex := MutexRef.the_mutex, owns := false }, State.init)).1.2.locks =
        State.init.locks) ∧
    ((block Deadlock.waiting
        (Deadlock.scoped_lock_block 1 Deadlock.MutexRef.mut1 Deadlock.MutexRef.mut2
          Deadlock.failing_body) [] Deadlock.State.init).2 = Exit.thrown "failure" ∧
      (block Deadlock.waiting
        (Deadlock.scoped_lock_block 1 Deadlock.MutexRef.mut1 Deadlock.MutexRef.mut2
          Deadlock.failing_body) [] Deadlock.State.init).1.trace =
        [Deadlock.Event.lock Deadlock.MutexRef.mut1,
          Deadlock.Event.try_lock Deadlock.MutexRef.mut2 true,
          Deadlock.Event.cout "working",
          Deadlock.Event.unlock Deadlock.MutexRef.mut1,
          Deadlock.Event.unlock Deadlock.MutexRef.mut2] ∧
      (block Deadlock.waiting
        (Deadlock.scoped_lock_block 1 Deadlock.MutexRef.mut1 Deadlock.MutexRef.mut2
          Deadlock.failing_body) [] Deadlock.State.init).1.locks =
        Deadlock.State.init.locks) :=
  ⟨⟨by decide, by decide,
      ((scoped_release_on_every_exit 1).1 MutexRef.the_mutex failing_body State.init rfl rfl
        (by
          intro f hf u
          simp only [failing_body, List.mem_cons, List.mem_singleton, List.not_mem_nil,
            or_false] at hf
          rcases hf with rfl | rfl | rfl <;> exact ⟨rfl, rfl⟩)).2.2.2.2⟩,
    ⟨by decide, by decide,
      ((scoped_release_on_every_exit 1).2.1 MutexRef.the_mutex (unlocking_body 1)
        { mutex := MutexRef.the_mutex, owns := false } State.init rfl rfl
        (unlocking_body_keeps 1 MutexRef.the_mutex State.init rfl)).2.2.2.2⟩,
    ⟨by decide, by decide,
      ((scoped_release_on_every_exit 1).2.2.2.1 Deadlock.MutexRef.mut1 Deadlock.MutexRef.mut2
        Deadlock.failing_body Deadlock.State.init (by decide) rfl rfl rfl
        (by
          intro f hf u
          simp only [Deadlock.failing_body, List.mem_cons, List.mem_singleton,
            List.not_mem_nil, or_false] at hf
          rcases hf with rfl | rfl | rfl <;> exact ⟨rfl, rfl⟩)).2.2.2.2⟩⟩

end LockGuard
